import Mathlib

/-!
RGK kd-tree and path-tracer core: a shallow embedding.

Lean model of the kd-tree builder, the kd-tree compression, the scene loading,
the Fresnel term and the path tracer of the RGK renderer (`src/scene.hpp`,
`src/scene.cpp`, `src/path_tracer.cpp`), together with the properties proved
about them.

Conventions of the embedding

* `unsigned int` / `uint32_t` values are natural numbers, every arithmetic
  operation that can leave the 32-bit range is reduced `% 2 ^ 32`;
  `int` values are integers, wrapped to the two's-complement range.
* `float` values are elements of a type parameter `F`.  Code that only moves
  floats around (the compression) is generic in `F`; code that computes with
  them (the builder, `Fresnel`) asks for a linearly ordered field, so that it
  runs on `ℚ` and is reasoned about over `ℝ` (exact arithmetic, no rounding,
  no NaN).
* In the compression, memory that C++ leaves uninitialised is `none`, and a
  read or write outside an array makes the operation return `none`.
* Signed overflow is undefined in C++; `GetTotals` is modelled with the
  wrap-around of the generated code, and the theorems that rely on its sums
  assume that they stay within the range of `int`.
* The builder and `Commit` are modelled where none of their `unsigned int`
  counters wraps around (fewer than 2^31 triangles) and where the indices
  `2*t + 1` and `best_offset + 1` that `Subdivide` computes in `int` stay in
  range (triangle indices below 2^30, no winning candidate at event offset
  2^31 - 1); beyond that they return `none`.
* A radiance channel is a number, an infinity or NaN.  Inside `TracePath` the
  arithmetic on numbers is exact; the sum and the quotient of `RenderPixel` are
  rounded by a parameter `round`, the rounding of the machine to `float`, of
  which `roundFloat32` is the IEEE 754 binary32 instance on `ℚ`.
-/

namespace RGK

/-! ## Machine integers -/

/-- Conversion of an integer value to `unsigned int` (reduction modulo 2^32). -/
def toU32 (x : Int) : Nat := (x % 4294967296).toNat

/-- Conversion of an integer value to `int` (two's-complement wrap-around). -/
def toI32 (x : Int) : Int := (x + 2147483648) % 4294967296 - 2147483648

/-- Conversion of an integer value to `short` (two's-complement wrap-around). -/
def toShort (x : Int) : Int := (x + 32768) % 65536 - 32768

/-! ## CompressedKdNode (scene.hpp, lines 136-177) -/

/-- The first union of `CompressedKdNode`: `float split_plane` for internal
nodes, `uint32_t triangles_start` for leaf nodes.  The constructor records
which member was stored last. -/
inductive SplitOrStart (F : Type) where
  | split_plane (x : F)
  | triangles_start (n : Nat)
  deriving DecidableEq, Repr

/-- The packed node: `first` is the union `split_plane / triangles_start`,
`second` is the 32-bit word shared by `other_child`, `triangles_num` and `kind`. -/
structure CompressedKdNode (F : Type) where
  first : SplitOrStart F
  second : Nat
  deriving DecidableEq, Repr

namespace CompressedKdNode

variable {F : Type}

/-- `IsLeaf()`: `(kind & 0x03) == 0x03`. -/
def IsLeaf (n : CompressedKdNode F) : Bool := (n.second &&& 3) == 3

/-- `GetSplitAxis()`: `kind & 0x03`. -/
def GetSplitAxis (n : CompressedKdNode F) : Nat := n.second &&& 3

/-- `GetSplitPlane()`: reads the `float` member of the first union. -/
def GetSplitPlane (n : CompressedKdNode F) : Option F :=
  match n.first with
  | .split_plane x => some x
  | .triangles_start _ => none

/-- `GetTrianglesN()`: `triangles_num >> 2`. -/
def GetTrianglesN (n : CompressedKdNode F) : Nat := n.second >>> 2

/-- `GetFirstTrianglePos()`: reads the `uint32_t` member of the first union. -/
def GetFirstTrianglePos (n : CompressedKdNode F) : Option Nat :=
  match n.first with
  | .split_plane _ => none
  | .triangles_start s => some s

/-- `GetOtherChildIndex()`: `other_child >> 2`. -/
def GetOtherChildIndex (n : CompressedKdNode F) : Nat := n.second >>> 2

/-- Constructor for internal nodes, `CompressedKdNode(short axis, float split)`:
`kind = axis; split_plane = split;`.  `axis` is the value of the `short`. -/
def Internal (axis : Int) (split : F) : CompressedKdNode F :=
  { first := .split_plane split, second := toU32 axis }

/-- Constructor for leaf nodes, `CompressedKdNode(unsigned int num, unsigned int start)`:
`triangles_num = (num << 2) | 0x03; triangles_start = start;`. -/
def Leaf (num start : Nat) : CompressedKdNode F :=
  { first := .triangles_start start, second := ((num <<< 2) % 4294967296) ||| 3 }

/-- `SetOtherChild(pos)`: `other_child = (other_child & 0x03) | (pos << 2)`. -/
def SetOtherChild (n : CompressedKdNode F) (pos : Nat) : CompressedKdNode F :=
  { n with second := (n.second &&& 3) ||| ((pos <<< 2) % 4294967296) }

end CompressedKdNode

/-! ## UncompressedKdNode (scene.hpp, lines 109-134) -/

/-- The data members every `UncompressedKdNode` carries, whatever its `type`. -/
structure KdNodeFields (F : Type) where
  depth : Nat
  xBB : F × F
  yBB : F × F
  zBB : F × F
  triangle_indices : List Nat
  dups : Int
  deriving DecidableEq, Repr

/-- The builder's node.  `type == LEAF` and `type == INTERNAL` are the two
constructors; an internal node owns its children `ch0`, `ch1` and carries the
members `split_axis`, `split_pos` that only a split assigns and the members
`prob0`, `prob1`, which the sweep assigns and `GetCost` reads on internal nodes
only. -/
inductive UncompressedKdNode (F : Type) where
  | LEAF (d : KdNodeFields F)
  | INTERNAL (d : KdNodeFields F) (split_axis : Int) (split_pos : F) (prob0 prob1 : F)
      (ch0 ch1 : UncompressedKdNode F)
  deriving DecidableEq, Repr

namespace UncompressedKdNode

variable {F : Type}

/-- The common data members of a node. -/
def fields : UncompressedKdNode F → KdNodeFields F
  | LEAF d => d
  | INTERNAL d _ _ _ _ _ _ => d

/-- `GetTotals()` (scene.cpp, lines 504-516): total triangles, leaf nodes,
total nodes, total dups, all computed in `int`. -/
def GetTotals : UncompressedKdNode F → Int × Int × Int × Int
  | LEAF d => (toI32 d.triangle_indices.length, 1, 1, d.dups)
  | INTERNAL d _ _ _ _ ch0 ch1 =>
    let p0 := ch0.GetTotals
    let p1 := ch1.GetTotals
    let total_triangles := toI32 (p0.1 + p1.1)
    let total_leafs := toI32 (p0.2.1 + p1.2.1)
    let total_nodes := toI32 (p0.2.2.1 + p1.2.2.1 + 1)
    let total_dups := toI32 (p0.2.2.2 + p1.2.2.2 + d.dups)
    (total_triangles, total_leafs, total_nodes, total_dups)

/-- Number of nodes of the tree, as a mathematical natural number. -/
def nodeCount : UncompressedKdNode F → Nat
  | LEAF _ => 1
  | INTERNAL _ _ _ _ _ ch0 ch1 => ch0.nodeCount + ch1.nodeCount + 1

/-- Number of triangle indices held by the leaves of the tree, as a
mathematical natural number. -/
def triangleCount : UncompressedKdNode F → Nat
  | LEAF d => d.triangle_indices.length
  | INTERNAL _ _ _ _ _ ch0 ch1 => ch0.triangleCount + ch1.triangleCount

/-- The subtrees of the tree in pre-order (the node itself, then the left
subtree, then the right subtree). -/
def preorder : UncompressedKdNode F → List (UncompressedKdNode F)
  | LEAF d => [LEAF d]
  | INTERNAL d a s p0 p1 ch0 ch1 => INTERNAL d a s p0 p1 ch0 ch1 :: (ch0.preorder ++ ch1.preorder)

/-- Every split axis of the tree is 0, 1 or 2. -/
def axesValid : UncompressedKdNode F → Prop
  | LEAF _ => True
  | INTERNAL _ a _ _ _ ch0 ch1 => (0 ≤ a ∧ a ≤ 2) ∧ ch0.axesValid ∧ ch1.axesValid

/-- Every leaf of the tree holds fewer than `bound` triangle indices. -/
def leavesBelow (bound : Nat) : UncompressedKdNode F → Prop
  | LEAF d => d.triangle_indices.length < bound
  | INTERNAL _ _ _ _ _ ch0 ch1 => ch0.leavesBelow bound ∧ ch1.leavesBelow bound

end UncompressedKdNode

/-! ## Compression (scene.cpp, lines 526-577) -/

/-- The part of the `Scene` that `CompressRec` works on, with its two
reference parameters.  `node_writes` and `triangle_writes` are bookkeeping of
the model: the indices of the slots stored to by
`compressed_array[array_pos] = ...` and `compressed_triangles[triangle_pos++] = t`,
in order (the later `SetOtherChild` patch of a stored node is not a store of
the slot). -/
structure CompressState (F : Type) where
  compressed_array : List (Option (CompressedKdNode F))
  compressed_triangles : List (Option Nat)
  array_pos : Nat
  triangle_pos : Nat
  node_writes : List Nat
  triangle_writes : List Nat
  deriving Repr

variable {F : Type}

/-- The statement `compressed_array[array_pos] = v`. -/
def storeNode (s : CompressState F) (v : CompressedKdNode F) : Option (CompressState F) :=
  if s.array_pos < s.compressed_array.length then
    some { s with
      compressed_array := s.compressed_array.set s.array_pos (some v)
      node_writes := s.node_writes ++ [s.array_pos] }
  else none

/-- The loop `for(unsigned int t : node->triangle_indices)
compressed_triangles[triangle_pos++] = t;`. -/
def fillTriangles : List Nat → CompressState F → Option (CompressState F)
  | [], s => some s
  | t :: ts, s =>
    if s.triangle_pos < s.compressed_triangles.length then
      fillTriangles ts { s with
        compressed_triangles := s.compressed_triangles.set s.triangle_pos (some t)
        triangle_pos := (s.triangle_pos + 1) % 4294967296
        triangle_writes := s.triangle_writes ++ [s.triangle_pos] }
    else none

/-- The statement `compressed_array[my_pos].SetOtherChild(array_pos)`. -/
def patchOtherChild (s : CompressState F) (my_pos : Nat) : Option (CompressState F) :=
  match s.compressed_array[my_pos]? with
  | some (some n) =>
    some { s with compressed_array := s.compressed_array.set my_pos (some (n.SetOtherChild s.array_pos)) }
  | _ => none

/-- `Scene::CompressRec(node, array_pos, triangle_pos)`. -/
def CompressRec : UncompressedKdNode F → CompressState F → Option (CompressState F)
  | .LEAF d, s => do
    let s1 ← storeNode s
      (CompressedKdNode.Leaf (d.triangle_indices.length % 4294967296) s.triangle_pos)
    fillTriangles d.triangle_indices { s1 with array_pos := (s1.array_pos + 1) % 4294967296 }
  | .INTERNAL _ split_axis split_pos _ _ ch0 ch1, s => do
    let my_pos := s.array_pos
    let s1 ← storeNode s (CompressedKdNode.Internal (toShort split_axis) split_pos)
    let s2 ← CompressRec ch0 { s1 with array_pos := (s1.array_pos + 1) % 4294967296 }
    let s3 ← patchOtherChild s2 my_pos
    CompressRec ch1 s3

/-- Which of the three exits of `Scene::Compress` was taken after `CompressRec`. -/
inductive CompressOutcome where
  | failed_array_pos
  | failed_triangle_pos
  | successful
  deriving DecidableEq, Repr

/-- The state in which `Compress` starts `CompressRec`: two freshly allocated
arrays of the sizes reported by `GetTotals`, both positions 0. -/
def compressInit (uncompressed_root : UncompressedKdNode F) : CompressState F :=
  let totals := uncompressed_root.GetTotals
  let compressed_array_size := toU32 totals.2.2.1
  let compressed_triangles_size := toU32 totals.1
  { compressed_array := List.replicate compressed_array_size none
    compressed_triangles := List.replicate compressed_triangles_size none
    array_pos := 0
    triangle_pos := 0
    node_writes := []
    triangle_writes := [] }

/-- `Scene::Compress()` for a scene whose `uncompressed_root` is not null.
The result is the state left by `CompressRec` (the sizes of the two arrays are
`compressed_array_size` and `compressed_triangles_size`) and the exit taken. -/
def Compress (uncompressed_root : UncompressedKdNode F) :
    Option (CompressState F × CompressOutcome) := do
  let s ← CompressRec uncompressed_root (compressInit uncompressed_root)
  if s.array_pos ≠ s.compressed_array.length then
    pure (s, CompressOutcome.failed_array_pos)
  else if s.triangle_pos ≠ s.compressed_triangles.length then
    pure (s, CompressOutcome.failed_triangle_pos)
  else
    pure (s, CompressOutcome.successful)

/-! ### Reading a tree back from the compressed arrays -/

/-- What the compressed arrays describe: the shape of a kd-tree, a split axis
and a split position at each internal node, a list of triangle indices at each
leaf. -/
inductive KdShape (F : Type) where
  | leaf (triangles : List Nat)
  | node (axis : Int) (split : F) (left right : KdShape F)
  deriving DecidableEq, Repr

/-- The shape, splits and leaf contents of an uncompressed tree. -/
def UncompressedKdNode.shape : UncompressedKdNode F → KdShape F
  | .LEAF d => .leaf d.triangle_indices
  | .INTERNAL _ a s _ _ ch0 ch1 => .node a s ch0.shape ch1.shape

/-- The run `compressed_triangles[start .. start+count)`. -/
def readRun (compressed_triangles : List (Option Nat)) : Nat → Nat → Option (List Nat)
  | _, 0 => some []
  | start, count + 1 => do
    let t ← (compressed_triangles[start]?).join
    let rest ← readRun compressed_triangles (start + 1) count
    pure (t :: rest)

/-- Decoding of the compressed arrays from node index `i`: a leaf yields its
run of `compressed_triangles`, an internal node has its left child at `i + 1`
and its right child at `GetOtherChildIndex()`.  `fuel` bounds the depth of the
recursion. -/
def decode (compressed_array : List (Option (CompressedKdNode F)))
    (compressed_triangles : List (Option Nat)) : Nat → Nat → Option (KdShape F)
  | 0, _ => none
  | fuel + 1, i => do
    let n ← (compressed_array[i]?).join
    if n.IsLeaf then do
      let start ← n.GetFirstTrianglePos
      let run ← readRun compressed_triangles start n.GetTrianglesN
      pure (.leaf run)
    else do
      let split ← n.GetSplitPlane
      let left ← decode compressed_array compressed_triangles fuel (i + 1)
      let right ← decode compressed_array compressed_triangles fuel n.GetOtherChildIndex
      pure (.node (n.GetSplitAxis : Int) split left right)

/-- The compressed arrays hold the tree `t` with its root at node index `p`
and its first leaf run starting at triangle index `q`: the layout that
`CompressRec` produces, stated slot by slot. -/
def Stored (arr : List (Option (CompressedKdNode F))) (tris : List (Option Nat)) :
    UncompressedKdNode F → Nat → Nat → Prop
  | .LEAF d, p, q =>
    arr[p]? = some (some (CompressedKdNode.Leaf (d.triangle_indices.length % 4294967296) q)) ∧
    ∀ j, j < d.triangle_indices.length → tris[q + j]? = some (d.triangle_indices[j]?)
  | .INTERNAL _ a s _ _ ch0 ch1, p, q =>
    arr[p]? = some (some ((CompressedKdNode.Internal (toShort a) s).SetOtherChild
      (p + 1 + ch0.nodeCount))) ∧
    Stored arr tris ch0 (p + 1) q ∧
    Stored arr tris ch1 (p + 1 + ch0.nodeCount) (q + ch0.triangleCount)

/-! ### Example trees -/

/-- A leaf at depth 0 with a unit box that holds the given triangle indices. -/
def leafOf (tris : List Nat) : UncompressedKdNode ℚ :=
  .LEAF { depth := 0, xBB := (0, 1), yBB := (0, 1), zBB := (0, 1), triangle_indices := tris, dups := 0 }

/-- An internal node splitting the unit box on the given axis at 1/2. -/
def splitOf (axis : Int) (ch0 ch1 : UncompressedKdNode ℚ) : UncompressedKdNode ℚ :=
  .INTERNAL { depth := 0, xBB := (0, 1), yBB := (0, 1), zBB := (0, 1), triangle_indices := [], dups := 0 }
    axis (1 / 2) 1 1 ch0 ch1

/-- A small tree: three leaves under two splits. -/
def smallTree : UncompressedKdNode ℚ :=
  splitOf 0 (leafOf [4, 7]) (splitOf 2 (leafOf [7]) (leafOf [1, 2, 3]))

/-- A single leaf holding 2^32 triangle indices. -/
def hugeLeaf : UncompressedKdNode ℚ :=
  leafOf (List.replicate 4294967296 0)

/-- Nine nodes: four splits over five leaves that all hold the list `l`. -/
def fiveLeaves (l : List Nat) : UncompressedKdNode ℚ :=
  splitOf 0 (leafOf l) (splitOf 1 (leafOf l) (splitOf 2 (leafOf l)
    (splitOf 0 (leafOf l) (leafOf l))))

/-- Nine nodes, five leaves of 2^30 - 1 triangle indices each. -/
def fiveWideLeaves : UncompressedKdNode ℚ :=
  fiveLeaves (List.replicate 1073741823 0)

/-- A left-leaning comb: `n` internal nodes, each with an empty leaf as right
child, over an empty leaf. -/
def comb : Nat → UncompressedKdNode ℚ
  | 0 => leafOf []
  | n + 1 => splitOf 0 (comb n) (leafOf [])

/-- A comb of 2^30 + 1 nodes: its root has a left subtree of 2^30 - 1 nodes. -/
def deepComb : UncompressedKdNode ℚ :=
  splitOf 0 (comb 536870911) (leafOf [])

/-! ## Vectors and Fresnel (path_tracer.cpp, lines 36-52) -/

/-- The type `glm::vec3`. -/
structure Vec3 (F : Type) where
  x : F
  y : F
  z : F
  deriving DecidableEq, Repr

/-- Component access `v[axis]` of a `glm::vec3`. -/
def Vec3.get {F : Type} (v : Vec3 F) (axis : Nat) : F :=
  match axis with
  | 0 => v.x
  | 1 => v.y
  | _ => v.z

section Numeric

variable {F : Type} [LinearOrderedField F]

/-- The product `glm::dot`. -/
def dot (a b : Vec3 F) : F := a.x * b.x + a.y * b.y + a.z * b.z

/-- The pair `(etai, etat)` of `Fresnel` after the conditional swap. -/
def Fresnel.etas (I N : Vec3 F) (ior : F) : F × F :=
  let cosi := dot I N
  let etai : F := 1
  let etat := ior
  if cosi > 0 then (etat, etai) else (etai, etat)

/-- The local `sint` of `Fresnel`:
`etai / etat * sqrt(max(0, 1 - cosi * cosi))`. -/
def Fresnel.sint (sqrt : F → F) (I N : Vec3 F) (ior : F) : F :=
  let cosi := dot I N
  let etai := (Fresnel.etas I N ior).1
  let etat := (Fresnel.etas I N ior).2
  etai / etat * sqrt (max 0 (1 - cosi * cosi))

/-- The function `Fresnel(I, N, ior)`; `sqrt` is the square root in use. -/
def Fresnel (sqrt : F → F) (I N : Vec3 F) (ior : F) : F :=
  let cosi := dot I N
  let etai := (Fresnel.etas I N ior).1
  let etat := (Fresnel.etas I N ior).2
  let sint := Fresnel.sint sqrt I N ior
  if sint ≥ 1 then
    1
  else
    let cost := sqrt (max 0 (1 - sint * sint))
    let cosi := |cosi|
    let Rs := ((etat * cosi) - (etai * cost)) / ((etat * cosi) + (etai * cost))
    let Rp := ((etai * cosi) - (etat * cost)) / ((etai * cosi) + (etat * cost))
    (Rs * Rs + Rp * Rp) / 2

/-! ## Kd-tree construction (scene.cpp, lines 351-494) -/

/-- The constant `TRAV_COST`. -/
def TRAV_COST : F := 2

/-- The constant `ISECT_COST`. -/
def ISECT_COST : F := 80

/-- The constant `EMPTY_BONUS`. -/
def EMPTY_BONUS : F := 1 / 2

end Numeric

/-- The enum `BBEvent::type`, with `BEGIN < END`. -/
inductive BBEventType where
  | BEGIN
  | END
  deriving DecidableEq, Repr

/-- The local struct `BBEvent` of `Subdivide`. -/
structure BBEvent (F : Type) where
  pos : F
  triangleID : Nat
  type : BBEventType
  deriving DecidableEq, Repr

/-- The per-axis extent tables of the parent scene: entry `2t` is the minimum
and entry `2t + 1` the maximum of triangle `t` on the axis. -/
structure SceneEvents (F : Type) where
  xevents : List F
  yevents : List F
  zevents : List F
  deriving Repr

/-- The locals `best_offset`, `best_cost`, `best_pos` and the members `prob0`,
`prob1` as assigned together whenever a candidate improves on the best cost. -/
structure SplitCandidate (F : Type) where
  best_offset : Nat
  best_cost : F
  best_pos : F
  prob0 : F
  prob1 : F
  deriving DecidableEq, Repr

/-- The loop state of the cost sweep.  `best = none` stands for
`best_offset == -1`, `best_cost == +infinity`. -/
structure SweepState (F : Type) where
  n_before : Int
  n_after : Int
  best : Option (SplitCandidate F)
  deriving Repr

section Builder

variable {F : Type} [LinearOrderedField F]

/-- The table `*evch[axis]`. -/
def SceneEvents.evch (sc : SceneEvents F) (axis : Nat) : List F :=
  match axis with
  | 0 => sc.xevents
  | 1 => sc.yevents
  | _ => sc.zevents

/-- The comparator passed to `std::sort`:
`if(a.pos == b.pos) return a.type < b.type; return a.pos < b.pos;`. -/
def compareEvents (a b : BBEvent F) : Bool :=
  if a.pos = b.pos then
    decide (a.type = BBEventType.BEGIN ∧ b.type = BBEventType.END)
  else
    decide (a.pos < b.pos)

/-- What `std::sort` guarantees of its result: a rearrangement of the input in
which no later element compares below an earlier one. -/
def IsEventSort (sort : List (BBEvent F) → List (BBEvent F)) : Prop :=
  ∀ l, (sort l).Perm l ∧ (sort l).Pairwise (fun a b => compareEvents b a = false)

/-- Insertion of one event into a sorted list. -/
def insertEvent (e : BBEvent F) : List (BBEvent F) → List (BBEvent F)
  | [] => [e]
  | x :: xs => if compareEvents e x then e :: x :: xs else x :: insertEvent e xs

/-- One admissible implementation of the sort: insertion sort with the
comparator of `Subdivide`. -/
def sortEvents : List (BBEvent F) → List (BBEvent F)
  | [] => []
  | e :: es => insertEvent e (sortEvents es)

/-- The events of a node on one axis, before sorting: for the `i`-th triangle
`t` of the node, `events[2i] = (all_events[2t], t, BEGIN)` and
`events[2i+1] = (all_events[2t+1], t, END)`.  An index outside the table reads
0; the tables built by `Commit` cover every index a node can hold. -/
def makeEvents (all_events : List F) (triangle_indices : List Nat) : List (BBEvent F) :=
  triangle_indices.flatMap fun t =>
    [{ pos := all_events.getD (2 * t) 0, triangleID := t, type := BBEventType.BEGIN },
     { pos := all_events.getD (2 * t + 1) 0, triangleID := t, type := BBEventType.END }]

/-- The array `BBsize`. -/
def BBsize (d : KdNodeFields F) (i : Nat) : F :=
  match i with
  | 0 => d.xBB.2 - d.xBB.1
  | 1 => d.yBB.2 - d.yBB.1
  | _ => d.zBB.2 - d.zBB.1

/-- The pair `*axbds[axis]`. -/
def axis_bounds (d : KdNodeFields F) (axis : Nat) : F × F :=
  match axis with
  | 0 => d.xBB
  | 1 => d.yBB
  | _ => d.zBB

/-- The index `std::max_element(sizes, sizes+3) - sizes`: the first largest of
three values. -/
def maxAxis (s0 s1 s2 : F) : Nat :=
  if s0 < s1 then (if s1 < s2 then 2 else 1) else (if s0 < s2 then 2 else 0)

/-- The SAH cost of the candidate at `pos`, with the two probabilities, given
the counts at the time of scoring.  The result is `none` when the total surface
area is 0: `invTotalSA` is then infinite and, for a box of non-negative
extents, the cost is `+infinity` or NaN, so that `cost < best_cost` is false. -/
def candidateCost (d : KdNodeFields F) (axis : Nat) (pos : F) (n_before n_after : Int) :
    Option (F × F × F) :=
  let bounds := axis_bounds d axis
  let axis2 := (axis + 1) % 3
  let axis3 := (axis + 2) % 3
  let totalSA := 2 * (BBsize d 0 * BBsize d 1 + BBsize d 0 * BBsize d 2 + BBsize d 1 * BBsize d 2)
  if totalSA = 0 then none
  else
    let invTotalSA := 1 / totalSA
    let below_surface_area := 2 * (BBsize d axis2 * BBsize d axis3 +
      (pos - bounds.1) * BBsize d axis2 + (pos - bounds.1) * BBsize d axis3)
    let above_surface_area := 2 * (BBsize d axis2 * BBsize d axis3 +
      (bounds.2 - pos) * BBsize d axis2 + (bounds.2 - pos) * BBsize d axis3)
    let p_before := below_surface_area * invTotalSA
    let p_after := above_surface_area * invTotalSA
    let bonus : F := if n_before = 0 ∨ n_after = 0 then EMPTY_BONUS else 0
    let cost := TRAV_COST + ISECT_COST * (1 - bonus) * (p_before * n_before + p_after * n_after)
    some (cost, p_before, p_after)

/-- One iteration of the sweep loop, for the event `e` at index `i`. -/
def sweepStep (d : KdNodeFields F) (axis : Nat) (st : SweepState F) (i : Nat)
    (e : BBEvent F) : SweepState F :=
  let n_after := if e.type = BBEventType.END then st.n_after - 1 else st.n_after
  let pos := e.pos
  let bounds := axis_bounds d axis
  let best :=
    if pos > bounds.1 ∧ pos < bounds.2 then
      match candidateCost d axis pos st.n_before n_after with
      | none => st.best
      | some (cost, p_before, p_after) =>
        match st.best with
        | none =>
          some { best_offset := i, best_cost := cost, best_pos := pos,
                 prob0 := p_before, prob1 := p_after }
        | some b =>
          if cost < b.best_cost then
            some { best_offset := i, best_cost := cost, best_pos := pos,
                   prob0 := p_before, prob1 := p_after }
          else some b
    else st.best
  let n_before := if e.type = BBEventType.BEGIN then st.n_before + 1 else st.n_before
  { n_before := n_before, n_after := n_after, best := best }

/-- The sweep loop `for(unsigned int i = 0; i < 2*n; i++)` from index `i` on. -/
def sweep (d : KdNodeFields F) (axis : Nat) : Nat → List (BBEvent F) → SweepState F →
    SweepState F
  | _, [], st => st
  | i, e :: es, st => sweep d axis (i + 1) es (sweepStep d axis st i e)

/-- The sorted events of the node on `axis`. -/
def sortedEvents (sort : List (BBEvent F) → List (BBEvent F)) (parent_scene : SceneEvents F)
    (d : KdNodeFields F) (axis : Nat) : List (BBEvent F) :=
  sort (makeEvents (parent_scene.evch axis) d.triangle_indices)

/-- One pass of `Subdivide` from the label `retry` to the split test: the
winning candidate on `axis`, or `none` when the test
`best_offset == -1 || best_cost > nosplit_cost` rejects the axis. -/
def trySplit (sort : List (BBEvent F) → List (BBEvent F)) (parent_scene : SceneEvents F)
    (d : KdNodeFields F) (axis : Nat) : Option (SplitCandidate F) :=
  let n := d.triangle_indices.length
  let events := sortedEvents sort parent_scene d axis
  let nosplit_cost : F := ISECT_COST * n
  let st := sweep d axis 0 events { n_before := 0, n_after := n, best := none }
  match st.best with
  | none => none
  | some b => if b.best_cost > nosplit_cost then none else some b

/-- The retry loop: `remaining` is `2 - retries`.  The result is the axis on
which the node is split, with the winning candidate. -/
def splitSearch (sort : List (BBEvent F) → List (BBEvent F)) (parent_scene : SceneEvents F)
    (d : KdNodeFields F) : Nat → Nat → Option (Nat × SplitCandidate F)
  | 0, axis =>
    match trySplit sort parent_scene d axis with
    | some b => some (axis, b)
    | none => none
  | k + 1, axis =>
    match trySplit sort parent_scene d axis with
    | some b => some (axis, b)
    | none => splitSearch sort parent_scene d k ((axis + 1) % 3)

/-- The triangle list of `ch0`: the `BEGIN` events before `best_offset`. -/
def leftTriangles (events : List (BBEvent F)) (best_offset : Nat) : List Nat :=
  ((events.take best_offset).filter fun e => e.type = BBEventType.BEGIN).map BBEvent.triangleID

/-- The triangle list of `ch1`: the `END` events after `best_offset`. -/
def rightTriangles (events : List (BBEvent F)) (best_offset : Nat) : List Nat :=
  ((events.drop (best_offset + 1)).filter fun e => e.type = BBEventType.END).map
    BBEvent.triangleID

/-- The fresh node `ch0` before its own `Subdivide`. -/
def child0 (d : KdNodeFields F) (axis : Nat) (best_pos : F) (tris : List Nat) : KdNodeFields F :=
  { depth := d.depth + 1
    xBB := if axis = 0 then (d.xBB.1, best_pos) else d.xBB
    yBB := if axis = 1 then (d.yBB.1, best_pos) else d.yBB
    zBB := if axis = 2 then (d.zBB.1, best_pos) else d.zBB
    triangle_indices := tris
    dups := 0 }

/-- The fresh node `ch1` before its own `Subdivide`. -/
def child1 (d : KdNodeFields F) (axis : Nat) (best_pos : F) (tris : List Nat) : KdNodeFields F :=
  { depth := d.depth + 1
    xBB := if axis = 0 then (best_pos, d.xBB.2) else d.xBB
    yBB := if axis = 1 then (best_pos, d.yBB.2) else d.yBB
    zBB := if axis = 2 then (best_pos, d.zBB.2) else d.zBB
    triangle_indices := tris
    dups := 0 }

/-- `UncompressedKdNode::Subdivide(max_depth)` on a node that is still a leaf
with data members `d`.  `budget` counts the levels left, `max_depth - depth`;
with no level left the node stays a leaf, which is the return of the depth test.
The model covers nodes of fewer than 2^31 triangle indices, where no
`unsigned int` of the function wraps around; on a larger node it returns `none`.
It also returns `none` when the node is processed and holds a triangle index
`t >= 2^30`: the index `2*t` of lines 382-383 is computed in `int` and
overflows; and when the winning candidate is the event at offset `2^31 - 1`:
the sum `best_offset + 1` of line 473 is computed in `int` and overflows. -/
def SubdivideAux (sort : List (BBEvent F) → List (BBEvent F)) (parent_scene : SceneEvents F)
    (max_depth : Nat) : Nat → KdNodeFields F → Option (UncompressedKdNode F)
  | 0, d => some (.LEAF d)
  | budget + 1, d =>
    if d.depth ≥ max_depth then some (.LEAF d)
    else
      let n := d.triangle_indices.length
      if 2147483648 ≤ n then none
      else if n < 2 then some (.LEAF d)
      else if ∃ t ∈ d.triangle_indices, 1073741824 ≤ t then none
      else
        let axis := maxAxis (BBsize d 0) (BBsize d 1) (BBsize d 2)
        match splitSearch sort parent_scene d 2 axis with
        | none => some (.LEAF d)
        | some (axis, b) =>
          if b.best_offset = 2147483647 then none
          else
            let events := sortedEvents sort parent_scene d axis
            let c0 := child0 d axis b.best_pos (leftTriangles events b.best_offset)
            let c1 := child1 d axis b.best_pos (rightTriangles events b.best_offset)
            match SubdivideAux sort parent_scene max_depth budget c0,
                  SubdivideAux sort parent_scene max_depth budget c1 with
            | some ch0, some ch1 => some (.INTERNAL d axis b.best_pos b.prob0 b.prob1 ch0 ch1)
            | _, _ => none

/-- `Subdivide(max_depth)` on a fresh node. -/
def Subdivide (sort : List (BBEvent F) → List (BBEvent F)) (parent_scene : SceneEvents F)
    (max_depth : Nat) (d : KdNodeFields F) : Option (UncompressedKdNode F) :=
  SubdivideAux sort parent_scene max_depth (max_depth - d.depth) d

/-! ## Scene commit (scene.cpp, lines 270-335) -/

/-- A triangle as `Commit` sees it: the three vertex positions returned by
`GetVertexA()`, `GetVertexB()`, `GetVertexC()`. -/
structure Triangle (F : Type) where
  A : Vec3 F
  B : Vec3 F
  C : Vec3 F
  deriving DecidableEq, Repr

/-- The lambda `bound_fill_func(axis, buf)`: `buf[2i]` and `buf[2i+1]` are the
minimum and the maximum of the three vertices of triangle `i` on `axis`. -/
def bound_fill_func (triangles : List (Triangle F)) (axis : Nat) : List F :=
  triangles.flatMap fun t =>
    [min (min (t.A.get axis) (t.B.get axis)) (t.C.get axis),
     max (max (t.A.get axis) (t.B.get axis)) (t.C.get axis)]

/-- The values `(*p.first, *p.second)` of `std::minmax_element`; `none` on an
empty range, where the iterators cannot be dereferenced. -/
def minmax_element : List F → Option (F × F)
  | [] => none
  | e :: es => some (es.foldl min e, es.foldl max e)

/-- The members of `Scene` that `Commit` computes for the builder, and the
trees it builds: `uncompressed_root` as it is when `Subdivide` returns (`Commit`
frees it after the compression), `compressed` as left by `Compress`. -/
structure Scene (F : Type) where
  events : SceneEvents F
  xBB : F × F
  yBB : F × F
  zBB : F × F
  epsilon : F
  max_depth : Nat
  uncompressed_root : UncompressedKdNode F
  compressed : CompressState F × CompressOutcome

/-- `Scene::Commit()` from the computation of the extent tables on, for a scene
of fewer than 2^31 triangles (`n_triangles` and the counters derived from it do
not wrap); on a larger scene the model returns `none`, as it does when
`Subdivide` or `Compress` gives no result.  `sqrt` is `glm::sqrt`, `sort` is
`std::sort`. -/
def Commit (sqrt : F → F) (sort : List (BBEvent F) → List (BBEvent F))
    (triangles : List (Triangle F)) : Option (Scene F) :=
  let n_triangles := triangles.length
  if 2147483648 ≤ n_triangles then none
  else do
    let xevents := bound_fill_func triangles 0
    let yevents := bound_fill_func triangles 1
    let zevents := bound_fill_func triangles 2
    let p ← minmax_element xevents
    let q ← minmax_element yevents
    let r ← minmax_element zevents
    let xsize := p.2 - p.1
    let ysize := q.2 - q.1
    let zsize := r.2 - r.1
    let diameter := sqrt (xsize * xsize + ysize * ysize + zsize * zsize)
    let epsilon := 1 / 100000 * diameter
    let xBB := (p.1 - epsilon, p.2 + epsilon)
    let yBB := (q.1 - epsilon, q.2 + epsilon)
    let zBB := (r.1 - epsilon, r.2 + epsilon)
    let root : KdNodeFields F :=
      { depth := 0, xBB := xBB, yBB := yBB, zBB := zBB,
        triangle_indices := List.range n_triangles, dups := 0 }
    let l := Nat.log2 n_triangles + 8
    let events : SceneEvents F := { xevents := xevents, yevents := yevents, zevents := zevents }
    let uncompressed_root ← Subdivide sort events l root
    let compressed ← Compress uncompressed_root
    pure { events := events, xBB := xBB, yBB := yBB, zBB := zBB, epsilon := epsilon,
           max_depth := l, uncompressed_root := uncompressed_root, compressed := compressed }

/-- The extent `[min, max]` of triangle `t` on `axis`, read from the tables. -/
def extent (sc : SceneEvents F) (axis t : Nat) : F × F :=
  ((sc.evch axis).getD (2 * t) 0, (sc.evch axis).getD (2 * t + 1) 0)

/-- Triangle `t` meets the box of `d` in the per-axis sense: on each axis its
extent `[min, max]` intersects the bounds `[lo, hi]` of the box. -/
def MeetsBox (sc : SceneEvents F) (d : KdNodeFields F) (t : Nat) : Prop :=
  ∀ axis, axis < 3 →
    (extent sc axis t).1 ≤ (axis_bounds d axis).2 ∧ (axis_bounds d axis).1 ≤ (extent sc axis t).2

/-- Every triangle listed in a node of the tree meets the box of that node. -/
def TrianglesMeetBoxes (sc : SceneEvents F) : UncompressedKdNode F → Prop
  | .LEAF d => ∀ t, t ∈ d.triangle_indices → MeetsBox sc d t
  | .INTERNAL d _ _ _ _ ch0 ch1 =>
    (∀ t, t ∈ d.triangle_indices → MeetsBox sc d t) ∧
    TrianglesMeetBoxes sc ch0 ∧ TrianglesMeetBoxes sc ch1

end Builder

/-! ### Example scenes -/

/-- A crude rational stand-in for the square root, used to run `Commit` on
rational scenes: non-negative, and 0 at 0. -/
def sqrtStandIn (x : ℚ) : ℚ := |x|

/-- Two triangles in the plane `z = 0`, side by side along the x axis. -/
def twoTriangles : List (Triangle ℚ) :=
  [{ A := ⟨0, 0, 0⟩, B := ⟨1, 0, 0⟩, C := ⟨0, 1, 0⟩ },
   { A := ⟨3, 0, 0⟩, B := ⟨4, 0, 0⟩, C := ⟨3, 1, 0⟩ }]

/-- Extent tables of two triangles: on x the extents are [0, 37] and [0, 39],
on y and z both are [0, 2]. -/
def tieScene : SceneEvents ℚ :=
  { xevents := [0, 37, 0, 39], yevents := [0, 2, 0, 2], zevents := [0, 2, 0, 2] }

/-- A node at depth 0 with the box [0, 39] x [0, 2] x [0, 2] holding the two
triangles of `tieScene`. -/
def tieNode : KdNodeFields ℚ :=
  { depth := 0, xBB := (0, 39), yBB := (0, 2), zBB := (0, 2), triangle_indices := [0, 1],
    dups := 0 }

/-- The tree that `Subdivide(1)` builds from `tieNode`: a split on x at 37. -/
def tieResult : UncompressedKdNode ℚ :=
  .INTERNAL tieNode 0 37 (19 / 20) (3 / 40)
    (.LEAF { depth := 1, xBB := (0, 37), yBB := (0, 2), zBB := (0, 2),
             triangle_indices := [1, 0], dups := 0 })
    (.LEAF { depth := 1, xBB := (37, 39), yBB := (0, 2), zBB := (0, 2),
             triangle_indices := [1], dups := 0 })

/-! ## Further definitions for the builder, the commit and Fresnel -/

section CommitParts

variable {F : Type} [LinearOrderedField F]

/-- The value that `Commit` assigns to `epsilon` (scene.cpp, lines 271-296):
`0.00001f * diameter`, where `diameter` is the length of the diagonal of the
bounding box of the extent tables.  `none` on a scene without triangles. -/
def commitEpsilon (sqrt : F → F) (triangles : List (Triangle F)) : Option F := do
  let p ← minmax_element (bound_fill_func triangles 0)
  let q ← minmax_element (bound_fill_func triangles 1)
  let r ← minmax_element (bound_fill_func triangles 2)
  let xsize := p.2 - p.1
  let ysize := q.2 - q.1
  let zsize := r.2 - r.1
  let diameter := sqrt (xsize * xsize + ysize * ysize + zsize * zsize)
  pure (1 / 100000 * diameter)

/-- The vector `k * v`. -/
def Vec3.scale (k : F) (v : Vec3 F) : Vec3 F :=
  { x := k * v.x, y := k * v.y, z := k * v.z }

/-- The scene with every vertex position multiplied by `k`. -/
def scaleTriangles (k : F) (triangles : List (Triangle F)) : List (Triangle F) :=
  triangles.map fun t => { A := t.A.scale k, B := t.B.scale k, C := t.C.scale k }

/-- The reference definition of the Fresnel term, following the words of
section 4.6 of the specification: `cosi = clamp(dot(I, N), -1, 1)` first, then
the swap, `sint`, the total internal reflection test and the mean of `Rs^2`
and `Rp^2`. -/
def FresnelReference (sqrt : F → F) (I N : Vec3 F) (ior : F) : F :=
  let cosi := min (max (dot I N) (-1)) 1
  let etai : F := if cosi > 0 then ior else 1
  let etat : F := if cosi > 0 then 1 else ior
  let sint := etai / etat * sqrt (max 0 (1 - cosi * cosi))
  if sint ≥ 1 then
    1
  else
    let cost := sqrt (max 0 (1 - sint * sint))
    let cosi := |cosi|
    let Rs := (etat * cosi - etai * cost) / (etat * cosi + etai * cost)
    let Rp := (etai * cosi - etat * cost) / (etai * cosi + etat * cost)
    (Rs * Rs + Rp * Rp) / 2

/-- The number of `BEGIN` events at indices `< k`: the value of `n_before`
when the candidate at index `k` is scored. -/
def beginsBefore (events : List (BBEvent F)) (k : Nat) : Nat :=
  ((events.take k).filter fun e => e.type = BBEventType.BEGIN).length

/-- The number of `END` events at indices `<= k`: what has been subtracted from
`n_after` when the candidate at index `k` is scored. -/
def endsUpTo (events : List (BBEvent F)) (k : Nat) : Nat :=
  ((events.take (k + 1)).filter fun e => e.type = BBEventType.END).length

/-- The member `depth` of every node is its distance from a root of depth `k`,
and no node is deeper than `limit`. -/
def DepthBounded (limit : Nat) : Nat → UncompressedKdNode F → Prop
  | k, .LEAF d => d.depth = k ∧ k ≤ limit
  | k, .INTERNAL d _ _ _ _ ch0 ch1 =>
    d.depth = k ∧ k ≤ limit ∧ DepthBounded limit (k + 1) ch0 ∧ DepthBounded limit (k + 1) ch1

/-- The extent tables are well formed on `axis` for the triangles of a list:
the entry `2t` (minimum) does not exceed the entry `2t + 1` (maximum). -/
def ExtentsOrdered (sc : SceneEvents F) (axis : Nat) (triangle_indices : List Nat) : Prop :=
  ∀ t, t ∈ triangle_indices → (extent sc axis t).1 ≤ (extent sc axis t).2

/-- The root node that `Commit` hands to `Subdivide`, with the extent tables
(scene.cpp, lines 271-312). -/
def commitRoot (sqrt : F → F) (triangles : List (Triangle F)) :
    Option (SceneEvents F × KdNodeFields F) := do
  let xevents := bound_fill_func triangles 0
  let yevents := bound_fill_func triangles 1
  let zevents := bound_fill_func triangles 2
  let p ← minmax_element xevents
  let q ← minmax_element yevents
  let r ← minmax_element zevents
  let epsilon ← commitEpsilon sqrt triangles
  pure ({ xevents := xevents, yevents := yevents, zevents := zevents },
        { depth := 0, xBB := (p.1 - epsilon, p.2 + epsilon),
          yBB := (q.1 - epsilon, q.2 + epsilon), zBB := (r.1 - epsilon, r.2 + epsilon),
          triangle_indices := List.range triangles.length, dups := 0 })

/-- At every split node of the tree, each triangle index of the node is in the
list of at least one of the two children. -/
def PartitionCovers : UncompressedKdNode F → Prop
  | .LEAF _ => True
  | .INTERNAL d _ _ _ _ ch0 ch1 =>
    (∀ t, t ∈ d.triangle_indices →
      t ∈ ch0.fields.triangle_indices ∨ t ∈ ch1.fields.triangle_indices) ∧
    PartitionCovers ch0 ∧ PartitionCovers ch1

end CommitParts

/-! ## The path tracer (path_tracer.cpp, lines 11-34 and 54-352) -/

/-- A value of a `float` holding radiance: a number, one of the two infinities
or NaN.  Arithmetic on numbers is exact; the special values follow the IEEE
rules, with every zero taken as positive. -/
inductive Fl (F : Type) where
  | nan : Fl F
  | ninf : Fl F
  | fin (x : F) : Fl F
  | pinf : Fl F
  deriving DecidableEq, Repr

/-- Modelled from the spec: the class `Color`, whose declaration is not in the
given sources, as an RGB triple. -/
structure Color (F : Type) where
  r : F
  g : F
  b : F
  deriving DecidableEq, Repr

/-- Modelled from the spec: the class `Radiance`, whose declaration is not in
the given sources, as the RGB triple of the glossary: three `float` channels, on
which every operator acts channel by channel. -/
structure Radiance (F : Type) where
  r : Fl F
  g : Fl F
  b : Fl F
  deriving DecidableEq, Repr

/-- Modelled from the spec: the class `Ray`, whose declaration is not in the
given sources, with the origin and the direction that section 4.4 and
`TracePath` read. -/
structure Ray (F : Type) where
  origin : Vec3 F
  direction : Vec3 F
  deriving DecidableEq, Repr

/-- Modelled from the spec: the class `Texture`, whose declaration is not in
the given sources, by the three lookups that `TracePath` calls on the texture
handles of section 3. -/
structure Texture (F : Type) where
  GetPixelInterpolated : F × F → Color F
  GetSlopeRight : F × F → F
  GetSlopeBottom : F × F → F

/-- Modelled from the spec: the struct `Material`, whose declaration is not in
the given sources, with the members of section 3 that `TracePath` reads.  A
texture pointer is `none` when it is null; `brdf` is the function the material
is evaluated with. -/
structure Material (F : Type) where
  translucency : F
  reflective : Bool
  reflection_strength : F
  refraction_index : F
  exponent : F
  diffuse : Color F
  specular : Color F
  ambient_texture : Option (Texture F)
  diffuse_texture : Option (Texture F)
  specular_texture : Option (Texture F)
  bump_texture : Option (Texture F)
  brdf : Vec3 F → Color F → Color F → Vec3 F → Vec3 F → F → F → F → Radiance F

/-- An `Intersection` whose `triangle` is not null, by what `TracePath` reads
from it: the ray parameter `t`, the results of `Interpolate` on the normals, the
texture coordinates and the tangents of the triangle, and its material. -/
structure Intersection (F : Type) where
  t : F
  normal : Vec3 F
  texCoords : F × F
  tangent : Vec3 F
  material : Material F

/-- Modelled from the spec: the struct `Light`, whose declaration is not in the
given sources, with the members of section 3. -/
structure Light (F : Type) where
  pos : Vec3 F
  color : Color F
  intensity : F
  size : F

/-- The enum `PathPoint::Type`. -/
inductive PathPointType where
  | SCATTERED
  | REFLECTED
  | ENTERED
  | LEFT
  deriving DecidableEq, Repr

/-- The local struct `PathPoint` of `TracePath`, without the member `to_prev`,
which the backward pass returns in a list of its own.  `i` is `none` when
`i.triangle` is null.  The members that the code leaves unset at an infinity
point (`type`, `pos`, `lightN`, `faceN`, `Vi`, `texUV`) are never read there. -/
structure PathPoint (F : Type) where
  type : PathPointType
  infinity : Bool
  i : Option (Intersection F)
  pos : Vec3 F
  lightN : Vec3 F
  faceN : Vec3 F
  Vr : Vec3 F
  Vi : Vec3 F
  texUV : F × F

/-- The class `Random`, whose declaration is not in the given sources, taken as
a parameter: each call returns a value and the next state of the generator. -/
structure Random (R F : Type) where
  Get01 : R → F × R
  GetHSCosDir : R → Vec3 F → Vec3 F × R
  GetInt : R → Int → Int → Int × R
  GetSphere : R → F → Vec3 F × R

/-- The members of `PathTracer` and the functions it calls that are declared
outside the given sources.  `FindIntersectKdOtherThan` returns `none` for an
intersection with a null `triangle`; `refract` is `glm::refract`, `none` for a
vector of NaN; `camera_ray i` is the subpixel ray of sample `i`. -/
structure PathTracer (R F : Type) where
  FindIntersectKdOtherThan : Ray F → Option (Intersection F)
  Visibility : Vec3 F → Vec3 F → Bool
  epsilon : F
  lights : List (Light F)
  sky_radiance : Radiance F
  russian : F
  depth : Nat
  clamp : F
  bumpmap_scale : F
  multisample : Nat
  rnd : Random R F
  sqrt : F → F
  refract : Vec3 F → Vec3 F → F → Option (Vec3 F)
  pi : F
  camera_ray : Nat → R → Ray F × R

/-- The ways in which a run of the model ends without a value: the rejection
loop of a scattered direction or the main loop exceeds the given number of
rounds, or the code reads outside a vector or through a null pointer. -/
inductive TraceError where
  | rejectionFuel
  | loopFuel
  | outOfBounds
  deriving DecidableEq, Repr

/-- The locals of the forward loop of `TracePath`, with the ray counter and the
state of the random generator. -/
structure TraceState (R F : Type) where
  path : List (PathPoint F)
  current_ray : Ray F
  n : Nat
  n2 : Nat
  skip_russian : Bool
  raycount : Nat
  rnd : R

section PathTracing

variable {F : Type} [LinearOrderedField F]

/-- Addition of `float` values. -/
def Fl.add : Fl F → Fl F → Fl F
  | .nan, _ => .nan
  | _, .nan => .nan
  | .fin a, .fin b => .fin (a + b)
  | .pinf, .ninf => .nan
  | .ninf, .pinf => .nan
  | .pinf, _ => .pinf
  | _, .pinf => .pinf
  | .ninf, _ => .ninf
  | _, .ninf => .ninf

/-- The product of an infinity, positive when `pos` holds, with a number. -/
def Fl.infTimes (pos : Bool) (a : F) : Fl F :=
  if a = 0 then .nan
  else if 0 < a then (if pos then .pinf else .ninf)
  else (if pos then .ninf else .pinf)

/-- Multiplication of `float` values. -/
def Fl.mul : Fl F → Fl F → Fl F
  | .nan, _ => .nan
  | _, .nan => .nan
  | .fin a, .fin b => .fin (a * b)
  | .fin a, .pinf => Fl.infTimes true a
  | .fin a, .ninf => Fl.infTimes false a
  | .pinf, .fin b => Fl.infTimes true b
  | .ninf, .fin b => Fl.infTimes false b
  | .pinf, .pinf => .pinf
  | .ninf, .ninf => .pinf
  | .pinf, .ninf => .ninf
  | .ninf, .pinf => .ninf

/-- Division of `float` values. -/
def Fl.div : Fl F → Fl F → Fl F
  | .nan, _ => .nan
  | _, .nan => .nan
  | .fin a, .fin b =>
    if b = 0 then (if a = 0 then .nan else if 0 < a then .pinf else .ninf) else .fin (a / b)
  | .fin _, .pinf => .fin 0
  | .fin _, .ninf => .fin 0
  | .pinf, .fin b => if 0 ≤ b then .pinf else .ninf
  | .ninf, .fin b => if 0 ≤ b then .ninf else .pinf
  | .pinf, .pinf => .nan
  | .pinf, .ninf => .nan
  | .ninf, .pinf => .nan
  | .ninf, .ninf => .nan

/-- The comparison `a > b` of `float` values: false when either is NaN. -/
def Fl.gt : Fl F → Fl F → Bool
  | .fin a, .fin b => decide (a > b)
  | .pinf, .fin _ => true
  | .pinf, .ninf => true
  | .fin _, .ninf => true
  | _, _ => false

/-- The test `glm::isnan`. -/
def Fl.isnan : Fl F → Bool
  | .nan => true
  | _ => false

/-- The default `Radiance`: all channels 0. -/
def Radiance.zero : Radiance F := { r := .fin 0, g := .fin 0, b := .fin 0 }

/-- The conversion `Radiance(color)`. -/
def Radiance.ofColor (c : Color F) : Radiance F := { r := .fin c.r, g := .fin c.g, b := .fin c.b }

/-- The sum of two radiances (`+=`). -/
def Radiance.add (a b : Radiance F) : Radiance F :=
  { r := a.r.add b.r, g := a.g.add b.g, b := a.b.add b.b }

/-- The product of two radiances. -/
def Radiance.mul (a b : Radiance F) : Radiance F :=
  { r := a.r.mul b.r, g := a.g.mul b.g, b := a.b.mul b.b }

/-- The product of a radiance and a `float`. -/
def Radiance.scale (a : Radiance F) (k : Fl F) : Radiance F :=
  { r := a.r.mul k, g := a.g.mul k, b := a.b.mul k }

/-- The quotient of a radiance by a `float`. -/
def Radiance.divide (a : Radiance F) (k : Fl F) : Radiance F :=
  { r := a.r.div k, g := a.g.div k, b := a.b.div k }

/-- The result of a `float` operation whose exact value is `x`: a number is
rounded by `round`, the rounding of the machine to a `float` (to an infinity on
overflow); an infinity or NaN is kept. -/
def Fl.rounded (round : F → Fl F) : Fl F → Fl F
  | .fin x => round x
  | x => x

/-- The sum of two radiances in `float` arithmetic: each channel is the rounded
sum. -/
def Radiance.addRounded (round : F → Fl F) (a b : Radiance F) : Radiance F :=
  { r := (a.r.add b.r).rounded round, g := (a.g.add b.g).rounded round,
    b := (a.b.add b.b).rounded round }

/-- The quotient of a radiance by a `float` in `float` arithmetic: each channel
is the rounded quotient. -/
def Radiance.divideRounded (round : F → Fl F) (a : Radiance F) (k : Fl F) : Radiance F :=
  { r := (a.r.div k).rounded round, g := (a.g.div k).rounded round,
    b := (a.b.div k).rounded round }

/-- The sum of two vectors. -/
def Vec3.add (a b : Vec3 F) : Vec3 F := { x := a.x + b.x, y := a.y + b.y, z := a.z + b.z }

/-- The difference of two vectors. -/
def Vec3.sub (a b : Vec3 F) : Vec3 F := { x := a.x - b.x, y := a.y - b.y, z := a.z - b.z }

/-- The opposite vector. -/
def Vec3.neg (a : Vec3 F) : Vec3 F := { x := -a.x, y := -a.y, z := -a.z }

/-- The function `glm::cross`. -/
def cross (a b : Vec3 F) : Vec3 F :=
  { x := a.y * b.z - b.y * a.z, y := a.z * b.x - b.z * a.x, z := a.x * b.y - b.x * a.y }

/-- The function `glm::length`. -/
def length (sqrt : F → F) (v : Vec3 F) : F := sqrt (dot v v)

/-- The function `glm::normalize`: `v * inversesqrt(dot(v, v))`. -/
def normalize (sqrt : F → F) (v : Vec3 F) : Vec3 F := v.scale (1 / sqrt (dot v v))

/-- The mirror direction `2.0f * glm::dot(p.Vr, p.lightN) * p.lightN - p.Vr`. -/
def mirrorDir (Vr lightN : Vec3 F) : Vec3 F := (lightN.scale (2 * dot Vr lightN)).sub Vr

/-- One channel through lines 337-344: the clamp from above, then the
replacement of NaN and of negative values by 0. -/
def clampChannel (clamp : F) (x : Fl F) : Fl F :=
  let x := if x.gt (.fin clamp) then .fin clamp else x
  if x.isnan || (Fl.fin 0).gt x then .fin 0 else x

/-- The three channels through lines 337-344. -/
def clampRadiance (clamp : F) (total : Radiance F) : Radiance F :=
  { r := clampChannel clamp total.r, g := clampChannel clamp total.g,
    b := clampChannel clamp total.b }

end PathTracing

section ForwardPass

variable {R F : Type} [LinearOrderedField F]

/-- The loop `while(glm::angle(dir, p.lightN) > glm::pi<float>()/2.0f)
dir = rnd.GetHSCosDir(p.faceN);` of the SCATTERED case, run for at most `tries`
rounds.  The angle of two vectors exceeds a right angle when their dot product
is negative. -/
def rejectionLoop (pt : PathTracer R F) (faceN lightN : Vec3 F) :
    Nat → Vec3 F → R → Except TraceError (Vec3 F × R)
  | 0, dir, rnd => if dot dir lightN < 0 then .error .rejectionFuel else .ok (dir, rnd)
  | tries + 1, dir, rnd =>
    if dot dir lightN < 0 then
      let a := pt.rnd.GetHSCosDir rnd faceN
      rejectionLoop pt faceN lightN tries a.1 a.2
    else .ok (dir, rnd)

/-- The normal `p.lightN` (lines 133-145): the face normal, tilted when the
material has a bump texture. -/
def lightNormal (pt : PathTracer R F) (i : Intersection F) (faceN : Vec3 F) (texUV : F × F) :
    Vec3 F :=
  match i.material.bump_texture with
  | some tex =>
    let right := tex.GetSlopeRight texUV
    let bottom := tex.GetSlopeBottom texUV
    let tangent := i.tangent
    let bitangent := normalize pt.sqrt (cross faceN tangent)
    normalize pt.sqrt
      (faceN.add (((tangent.scale right).add (bitangent.scale bottom)).scale pt.bumpmap_scale))
  | none => faceN

/-- The classification of a point (lines 148-188): the type of the point, the
counter `n`, the flag `skip_russian` and the state of the generator after it. -/
def classify (pt : PathTracer R F) (mat : Material F) (fromInside : Bool) (Vr lightN : Vec3 F)
    (n : Nat) (skip_russian : Bool) (rnd : R) : PathPointType × Nat × Bool × R :=
  if mat.translucency > 1 / 1000 then
    if fromInside then (.LEFT, n - 1, true, rnd)
    else
      let a := pt.rnd.Get01 rnd
      if a.1 < mat.translucency then
        let q := Fresnel pt.sqrt Vr lightN (1 / mat.refraction_index)
        let b := pt.rnd.Get01 a.2
        if b.1 < q then (.REFLECTED, n - 1, true, b.2) else (.ENTERED, n - 1, true, b.2)
      else (.SCATTERED, n, skip_russian, a.2)
  else
    if mat.reflective then
      let a := pt.rnd.Get01 rnd
      if a.1 < mat.reflection_strength then (.REFLECTED, n - 1, true, a.2)
      else (.SCATTERED, n, skip_russian, a.2)
    else (.SCATTERED, n, skip_russian, rnd)

/-- The `switch(p.type)` of lines 192-229: the final type of the point, the
direction `dir` and the state of the generator. -/
def nextDirection (pt : PathTracer R F) (tries : Nat) (type : PathPointType) (mat : Material F)
    (Vr lightN faceN : Vec3 F) (rnd : R) : Except TraceError (PathPointType × Vec3 F × R) :=
  match type with
  | .SCATTERED =>
    let a := pt.rnd.GetHSCosDir rnd faceN
    match rejectionLoop pt faceN lightN tries a.1 a.2 with
    | .error e => .error e
    | .ok b => .ok (.SCATTERED, b.1, b.2)
  | .REFLECTED => .ok (.REFLECTED, mirrorDir Vr lightN, rnd)
  | .ENTERED =>
    match pt.refract Vr lightN (1 / mat.refraction_index) with
    | none => .ok (.REFLECTED, mirrorDir Vr lightN, rnd)
    | some dir =>
      if length pt.sqrt dir < 1 / 1000 then .ok (.REFLECTED, mirrorDir Vr lightN, rnd)
      else .ok (.ENTERED, dir, rnd)
  | .LEFT =>
    match pt.refract Vr lightN mat.refraction_index with
    | none => .ok (.LEFT, Vr.neg, rnd)
    | some dir =>
      if length pt.sqrt dir < 1 / 1000 then .ok (.REFLECTED, Vr.neg, rnd)
      else .ok (.LEFT, Vr.neg, rnd)

/-- The `else` branch of lines 107-243: the path point of a hit, the next ray,
and the counters after the classification.  The point `current_ray[i.t]` is
`origin + t * direction`; `texUV`, which the code leaves unset when the material
has no texture, is then read by no lookup. -/
def hitPoint (pt : PathTracer R F) (tries : Nat) (current_ray : Ray F) (i : Intersection F)
    (n : Nat) (skip_russian : Bool) (rnd : R) :
    Except TraceError (PathPoint F × Ray F × Nat × Bool × R) :=
  let pos := current_ray.origin.add (current_ray.direction.scale i.t)
  let faceN := i.normal
  let Vr := current_ray.direction.neg
  let fromInside := decide (dot faceN Vr < 0)
  let mat := i.material
  let texUV : F × F :=
    if mat.ambient_texture.isSome || mat.diffuse_texture.isSome || mat.specular_texture.isSome
        || mat.bump_texture.isSome then i.texCoords
    else (0, 0)
  let lightN := lightNormal pt i faceN texUV
  let c := classify pt mat fromInside Vr lightN n skip_russian rnd
  match nextDirection pt tries c.1 mat Vr lightN faceN c.2.2.2 with
  | .error e => .error e
  | .ok d =>
    let p : PathPoint F :=
      { type := d.1, infinity := false, i := some i, pos := pos, lightN := lightN,
        faceN := faceN, Vr := Vr, Vi := d.2.1, texUV := texUV }
    let side : F := if d.1 = PathPointType.ENTERED then -1 else 1
    let next : Ray F :=
      { origin := pos.add (faceN.scale (pt.epsilon * 10 * side)),
        direction := normalize pt.sqrt d.2.1 }
    .ok (p, next, c.2.1, c.2.2.1, d.2.2)

/-- The path point pushed when the query finds no triangle (lines 102-106). -/
def infinityPoint (current_ray : Ray F) : PathPoint F :=
  { type := .SCATTERED, infinity := true, i := none, pos := ⟨0, 0, 0⟩, lightN := ⟨0, 0, 0⟩,
    faceN := ⟨0, 0, 0⟩, Vr := current_ray.direction.neg, Vi := ⟨0, 0, 0⟩, texUV := (0, 0) }

/-- Lines 98-243 of one iteration, after the termination tests have let it
pass: the ray is counted, the query made and a point pushed.  The flag of the
result is `true` when the loop goes on, `false` after the `break`. -/
def tracePoint (pt : PathTracer R F) (tries : Nat) (s : TraceState R F) :
    Except TraceError (Bool × TraceState R F) :=
  let raycount := (s.raycount + 1) % 4294967296
  match pt.FindIntersectKdOtherThan s.current_ray with
  | none =>
    .ok (false, { s with raycount := raycount, path := s.path ++ [infinityPoint s.current_ray] })
  | some i =>
    match hitPoint pt tries s.current_ray i s.n s.skip_russian s.rnd with
    | .error e => .error e
    | .ok h =>
      .ok (true, { path := s.path ++ [h.1], current_ray := h.2.1, n := h.2.2.1, n2 := s.n2,
                   skip_russian := h.2.2.2.1, raycount := raycount, rnd := h.2.2.2.2 })

/-- One iteration of the loop `while(true)` of lines 84-244.  The counters `n`
and `n2` stay below 2^32 (they never exceed 20), so they do not wrap. -/
def forwardStep (pt : PathTracer R F) (tries : Nat) (s : TraceState R F) :
    Except TraceError (Bool × TraceState R F) :=
  let s1 := { s with n := s.n + 1, n2 := s.n2 + 1 }
  if s1.n2 ≥ 20 then .ok (false, s1)
  else if pt.russian ≥ 0 then
    if s1.n > 1 ∧ s1.skip_russian = false then
      let a := pt.rnd.Get01 s1.rnd
      if a.1 > pt.russian then .ok (false, { s1 with rnd := a.2 })
      else tracePoint pt tries { s1 with rnd := a.2, skip_russian := false }
    else tracePoint pt tries { s1 with skip_russian := false }
  else
    if s1.n > pt.depth then .ok (false, s1)
    else tracePoint pt tries s1

/-- The loop `while(true)` of lines 84-244, run for at most `fuel` iterations. -/
def forwardLoop (pt : PathTracer R F) (tries : Nat) :
    Nat → TraceState R F → Except TraceError (TraceState R F)
  | 0, _ => .error .loopFuel
  | fuel + 1, s =>
    match forwardStep pt tries s with
    | .error e => .error e
    | .ok (true, s1) => forwardLoop pt tries fuel s1
    | .ok (false, s1) => .ok s1

/-- The locals of `TracePath` before the loop (lines 75-83). -/
def initialState (r : Ray F) (raycount : Nat) (rnd : R) : TraceState R F :=
  { path := [], current_ray := r, n := 0, n2 := 0, skip_russian := false, raycount := raycount,
    rnd := rnd }

end ForwardPass

section BackwardPass

variable {R F : Type} [LinearOrderedField F]

/-- The direct lighting of a SCATTERED point (lines 268-296): `total` after
the contribution of one random light, and the state of the generator.  An index
outside `lights` is an error. -/
def directLight (pt : PathTracer R F) (pp : PathPoint F) (mat : Material F)
    (diffuse specular : Color F) (total : Radiance F) (rnd : R) :
    Except TraceError (Radiance F × R) :=
  let a := pt.rnd.GetInt rnd 0 ((pt.lights.length : Int) - 1)
  let light_n := a.1
  if light_n < 0 then .error .outOfBounds
  else
    match pt.lights[light_n.toNat]? with
    | none => .error .outOfBounds
    | some l =>
      let b := pt.rnd.GetSphere a.2 l.size
      let lightpos := l.pos.add b.1
      if pt.Visibility lightpos pp.pos then
        let Vi := normalize pt.sqrt (lightpos.sub pp.pos)
        let f := mat.brdf pp.lightN diffuse specular Vi pp.Vr mat.exponent 1 mat.refraction_index
        let cosAngle := min (max (dot pp.lightN Vi) (-1)) 1
        let G := (Fl.fin (max 0 cosAngle)).div
          (Fl.fin (dot (lightpos.sub pp.pos) (lightpos.sub pp.pos)))
        let inc_l := (Radiance.ofColor l.color).scale (Fl.fin l.intensity)
        let out := (inc_l.mul f).scale G
        .ok (total.add out, b.2)
      else .ok (total, b.2)

/-- The sum `total` of a surface point before the clamp (lines 262-333).
`next` is `path[n+1].to_prev`, `none` when `n + 1` is outside the path; reading
it then is an error. -/
def pointTotal (pt : PathTracer R F) (pp : PathPoint F) (mat : Material F) (last : Bool)
    (next : Option (Radiance F)) (rnd : R) : Except TraceError (Radiance F × R) :=
  let diffuse :=
    match mat.diffuse_texture with
    | some tex => tex.GetPixelInterpolated pp.texUV
    | none => mat.diffuse
  let specular :=
    match mat.specular_texture with
    | some tex => tex.GetPixelInterpolated pp.texUV
    | none => mat.specular
  let total : Radiance F := Radiance.zero
  match pp.type with
  | .SCATTERED =>
    match directLight pt pp mat diffuse specular total rnd with
    | .error e => .error e
    | .ok a =>
      if last then .ok a
      else
        match next with
        | none => .error .outOfBounds
        | some to_prev =>
          let incoming := if pt.russian > 0 then to_prev.divide (Fl.fin pt.russian) else to_prev
          let f := mat.brdf pp.lightN diffuse specular pp.Vi pp.Vr mat.exponent 1
            mat.refraction_index
          let inc := (incoming.mul f).scale (Fl.fin pt.pi)
          .ok (a.1.add inc, a.2)
  | .REFLECTED =>
    match next with
    | none => .error .outOfBounds
    | some incoming => .ok (total.add incoming, rnd)
  | .ENTERED =>
    match next with
    | none => .error .outOfBounds
    | some incoming => .ok (total.add (incoming.mul (Radiance.ofColor diffuse)), rnd)
  | .LEFT =>
    match next with
    | none => .error .outOfBounds
    | some incoming => .ok (total.add incoming, rnd)

/-- The body of the backward loop for the point `pp` (lines 250-348): the value
assigned to `pp.to_prev`. -/
def pointRadiance (pt : PathTracer R F) (pp : PathPoint F) (last : Bool)
    (next : Option (Radiance F)) (rnd : R) : Except TraceError (Radiance F × R) :=
  if pp.infinity then .ok (pt.sky_radiance, rnd)
  else
    match pp.i with
    | none => .error .outOfBounds
    | some i =>
      match pointTotal pt pp i.material last next rnd with
      | .error e => .error e
      | .ok a => .ok (clampRadiance pt.clamp a.1, a.2)

/-- The loop `for(int n = path.size()-1; n >= 0; n--)` of lines 247-349 on the
points from index `n` on, given as a list: the values of `to_prev` of these
points, and the state of the generator.  The points are processed from the last
one back. -/
def backwardPass (pt : PathTracer R F) :
    List (PathPoint F) → R → Except TraceError (List (Radiance F) × R)
  | [], rnd => .ok ([], rnd)
  | pp :: rest, rnd =>
    match backwardPass pt rest rnd with
    | .error e => .error e
    | .ok a =>
      match pointRadiance pt pp rest.isEmpty a.1.head? a.2 with
      | .error e => .error e
      | .ok b => .ok (b.1 :: a.1, b.2)

/-- `PathTracer::TracePath(r, raycount, debug)`: the radiance returned, the
ray counter and the state of the generator.  `fuel` bounds the iterations of
the forward loop, `tries` the rounds of each rejection loop; the final read of
`path[0]` is an error on an empty path. -/
def TracePath (pt : PathTracer R F) (fuel tries : Nat) (r : Ray F) (raycount : Nat) (rnd : R) :
    Except TraceError (Radiance F × Nat × R) :=
  match forwardLoop pt tries fuel (initialState r raycount rnd) with
  | .error e => .error e
  | .ok s =>
    match backwardPass pt s.path s.rnd with
    | .error e => .error e
    | .ok a =>
      match a.1.head? with
      | none => .error .outOfBounds
      | some to_prev => .ok (to_prev, s.raycount, a.2)

/-- The loop of lines 21-29 of `RenderPixel` from sample `i` on, for `k` more
samples.  The sum `total += TracePath(...)` is a `float` addition in each
channel: its exact value is rounded by `round`. -/
def renderLoop (pt : PathTracer R F) (round : F → Fl F) (fuel tries : Nat) :
    Nat → Nat → Radiance F → Nat → R → Except TraceError (Radiance F × Nat × R)
  | 0, _, total, raycount, rnd => .ok (total, raycount, rnd)
  | k + 1, i, total, raycount, rnd =>
    let a := pt.camera_ray i rnd
    match TracePath pt fuel tries a.1 raycount a.2 with
    | .error e => .error e
    | .ok b =>
      renderLoop pt round fuel tries k (i + 1) (total.addRounded round b.1) b.2.1 b.2.2

/-- `PathTracer::RenderPixel(x, y, raycount, debug)` for the pixel whose
subpixel rays are `camera_ray`: the sum of `multisample` paths divided by
`multisample`, in `float` arithmetic with the rounding `round`: the sample count
is converted to `float`, and the quotient `total / multisample` is rounded in
each channel. -/
def RenderPixel (pt : PathTracer R F) (round : F → Fl F) (fuel tries : Nat) (raycount : Nat)
    (rnd : R) : Except TraceError (Radiance F × Nat × R) :=
  match renderLoop pt round fuel tries pt.multisample 0 Radiance.zero raycount rnd with
  | .error e => .error e
  | .ok a =>
    .ok (a.1.divideRounded round (Fl.rounded round (.fin (pt.multisample : F))), a.2.1, a.2.2)

end BackwardPass

section Bounds

variable {F : Type} [LinearOrderedField F]

/-- A channel is a number in `[0, clamp]`: finite, non-negative, at most `clamp`. -/
def ChannelWithin (clamp : F) : Fl F → Prop
  | .fin y => 0 ≤ y ∧ y ≤ clamp
  | _ => False

/-- Each channel of a radiance is a number in `[0, clamp]`. -/
def Radiance.Within (clamp : F) (x : Radiance F) : Prop :=
  ChannelWithin clamp x.r ∧ ChannelWithin clamp x.g ∧ ChannelWithin clamp x.b

/-- A channel is a non-negative number or `+infinity`: not NaN, not negative. -/
def ChannelNonneg : Fl F → Prop
  | .fin y => 0 ≤ y
  | .pinf => True
  | _ => False

/-- Each channel of a radiance is a non-negative number or `+infinity`. -/
def Radiance.Nonneg (x : Radiance F) : Prop :=
  ChannelNonneg x.r ∧ ChannelNonneg x.g ∧ ChannelNonneg x.b

end Bounds

/-! ### Example scenes for the path tracer -/

/-- A generator that returns the same values at every call: 1/2 for `Get01`,
the normal itself for `GetHSCosDir`, the lower bound for `GetInt`. -/
def constRandom : Random Unit ℚ :=
  { Get01 := fun _ => (1 / 2, ())
    GetHSCosDir := fun _ faceN => (faceN, ())
    GetInt := fun _ lo _ => (lo, ())
    GetSphere := fun _ _ => (⟨0, 0, 0⟩, ()) }

/-- A perfect mirror: not translucent, reflective with `reflection_strength = 1`. -/
def mirrorMaterial : Material ℚ :=
  { translucency := 0, reflective := true, reflection_strength := 1, refraction_index := 1,
    exponent := 1, diffuse := ⟨1, 1, 1⟩, specular := ⟨1, 1, 1⟩, ambient_texture := none,
    diffuse_texture := none, specular_texture := none, bump_texture := none,
    brdf := fun _ _ _ _ _ _ _ _ => Radiance.zero }

/-- A hit on a mirror with normal `(0, 0, 1)`, at ray parameter 1. -/
def mirrorHit : Intersection ℚ :=
  { t := 1, normal := ⟨0, 0, 1⟩, texCoords := (0, 0), tangent := ⟨1, 0, 0⟩,
    material := mirrorMaterial }

/-- The ray from `(0, 0, 1)` straight down. -/
def downRay : Ray ℚ := { origin := ⟨0, 0, 1⟩, direction := ⟨0, 0, -1⟩ }

/-- A scene without triangles. -/
def emptyScene : Ray ℚ → Option (Intersection ℚ) := fun _ => none

/-- A mirror floor under an open sky: a ray going down hits the mirror, any
other ray hits nothing. -/
def mirrorFloor : Ray ℚ → Option (Intersection ℚ) :=
  fun r => if r.direction.z < 0 then some mirrorHit else none

/-- Two facing mirrors: every ray hits a mirror. -/
def mirrorHall : Ray ℚ → Option (Intersection ℚ) := fun _ => some mirrorHit

/-- A path tracer in fixed-depth mode (`russian = -1`) on the scene `find`,
with a grey sky of radiance `sky` in each channel, no lights and one sample. -/
def exampleTracer (find : Ray ℚ → Option (Intersection ℚ)) (sky clamp : ℚ) (depth : Nat) :
    PathTracer Unit ℚ :=
  { FindIntersectKdOtherThan := find, Visibility := fun _ _ => true, epsilon := 1 / 100000,
    lights := [], sky_radiance := ⟨.fin sky, .fin sky, .fin sky⟩, russian := -1, depth := depth,
    clamp := clamp, bumpmap_scale := 10, multisample := 1, rnd := constRandom,
    sqrt := sqrtStandIn, refract := fun _ _ _ => none, pi := 22 / 7,
    camera_ray := fun _ rnd => (downRay, rnd) }

/-- The result of a run, or `none` when it ends in an error. -/
def resultOf {α : Type} : Except TraceError α → Option α
  | .ok a => some a
  | .error _ => none

/-! ## Further predicates on the built tree and the committed scene -/

section TreePredicates

variable {F : Type} [LinearOrderedField F]

/-- At every internal node the split position lies strictly inside the bounds
of the node on the split axis, the box of `ch0` is the box of the node with that
axis cut to `[lo, split_pos]`, the box of `ch1` is cut to `[split_pos, hi]`, and
both keep the bounds of the node on the other two axes. -/
def SplitsInside : UncompressedKdNode F → Prop
  | .LEAF _ => True
  | .INTERNAL d a s _ _ ch0 ch1 =>
    (∃ ax : Nat, ax < 3 ∧ a = (ax : Int) ∧
      (axis_bounds d ax).1 < s ∧ s < (axis_bounds d ax).2 ∧
      ∀ axis, axis < 3 →
        axis_bounds ch0.fields axis =
          (if axis = ax then ((axis_bounds d axis).1, s) else axis_bounds d axis) ∧
        axis_bounds ch1.fields axis =
          (if axis = ax then (s, (axis_bounds d axis).2) else axis_bounds d axis)) ∧
    SplitsInside ch0 ∧ SplitsInside ch1

/-- The coordinates on `axis` of all triangle vertices of the scene. -/
def vertexCoords (triangles : List (Triangle F)) (axis : Nat) : List F :=
  triangles.flatMap fun t => [t.A.get axis, t.B.get axis, t.C.get axis]

/-- The scene bounds on `axis`: `xBB`, `yBB` or `zBB`. -/
def Scene.bounds (scene : Scene F) (axis : Nat) : F × F :=
  match axis with
  | 0 => scene.xBB
  | 1 => scene.yBB
  | _ => scene.zBB

/-- The axis that `Subdivide` tries first:
`std::max_element(sizes, sizes+3) - sizes`, the first largest extent of the box. -/
def firstAxis (d : KdNodeFields F) : Nat := maxAxis (BBsize d 0) (BBsize d 1) (BBsize d 2)

end TreePredicates

/-! ## Further definitions for the path tracer -/

/-- The number of points of a path that count against `depth`: the infinity
point and the points of type SCATTERED, that is every point that is not
exempted as REFLECTED, ENTERED or LEFT. -/
def countedPoints {F : Type} (path : List (PathPoint F)) : Nat :=
  (path.filter fun p => p.infinity || decide (p.type = PathPointType.SCATTERED)).length

/-- The path that the forward loop of `TracePath` builds, with the values of
`to_prev` that the backward pass assigns to its points, index by index. -/
def tracedPath {R F : Type} [LinearOrderedField F] (pt : PathTracer R F) (fuel tries : Nat)
    (r : Ray F) (raycount : Nat) (rnd : R) :
    Except TraceError (List (PathPoint F) × List (Radiance F)) :=
  match forwardLoop pt tries fuel (initialState r raycount rnd) with
  | .error e => .error e
  | .ok s =>
    match backwardPass pt s.path s.rnd with
    | .error e => .error e
    | .ok a => .ok (s.path, a.1)

/-! ### A glass slab seen from inside -/

/-- The function `glm::refract(I, N, eta)` as GLSL defines it, on rational
vectors: with `k = 1 - eta^2 * (1 - dot(N, I)^2)`, the zero vector when `k < 0`
(total internal reflection), otherwise `eta * I - (eta * dot(N, I) + sqrt(k)) * N`. -/
def glslRefract (I N : Vec3 ℚ) (eta : ℚ) : Option (Vec3 ℚ) :=
  let k := 1 - eta * eta * (1 - dot N I * dot N I)
  if k < 0 then some ⟨0, 0, 0⟩
  else some ((I.scale eta).sub (N.scale (eta * dot N I + sqrtStandIn k)))

/-- Glass: fully translucent, not reflective, refraction index 3/2. -/
def glassMaterial : Material ℚ :=
  { translucency := 1, reflective := false, reflection_strength := 0, refraction_index := 3 / 2,
    exponent := 1, diffuse := ⟨1, 1, 1⟩, specular := ⟨1, 1, 1⟩, ambient_texture := none,
    diffuse_texture := none, specular_texture := none, bump_texture := none,
    brdf := fun _ _ _ _ _ _ _ _ => Radiance.zero }

/-- A hit on the upper face of the slab, with outward normal `(0, 0, 1)`, at
ray parameter 1. -/
def glassHit : Intersection ℚ :=
  { t := 1, normal := ⟨0, 0, 1⟩, texCoords := (0, 0), tangent := ⟨1, 0, 0⟩,
    material := glassMaterial }

/-- The upper face `z = 1` of a glass slab, seen from inside: a ray that
starts below the face and goes up hits it, any other ray hits nothing. -/
def glassSlab : Ray ℚ → Option (Intersection ℚ) :=
  fun r => if r.origin.z < 1 ∧ r.direction.z > 0 then some glassHit else none

/-- A path tracer in fixed-depth mode on the glass slab, with the refraction
of GLSL, a sky of radiance 1 and clamp 10. -/
def glassTracer (depth : Nat) : PathTracer Unit ℚ :=
  { exampleTracer glassSlab 1 10 depth with refract := glslRefract }

/-- The ray from inside the slab straight up to the point `(0, 0, 1)` of the
upper face. -/
def upRay : Ray ℚ := { origin := ⟨0, 0, 0⟩, direction := ⟨0, 0, 1⟩ }

/-- A ray from inside the slab that reaches the point `(0, 0, 1)` of the upper
face at a flat angle, beyond the critical angle of the glass: its direction
is the unit vector `(-4/5, 0, 3/5)`. -/
def flatRay : Ray ℚ := { origin := ⟨4 / 5, 0, 2 / 5⟩, direction := ⟨-4 / 5, 0, 3 / 5⟩ }

/-! ### A tracer in roulette mode -/

/-- A path tracer in roulette mode on the mirror floor: continuation
probability `russian = 3/4`, `depth = 0` (not used in this mode), a sky of
radiance 1 and clamp 10. -/
def rouletteTracer : PathTracer Unit ℚ :=
  { exampleTracer mirrorFloor 1 10 0 with russian := 3 / 4 }

/-! ### Two facing mirrors -/

/-- A hit on the mirror ceiling, whose normal `(0, 0, -1)` points down, at ray
parameter `t`. -/
def ceilingHit (t : ℚ) : Intersection ℚ :=
  { t := t, normal := ⟨0, 0, -1⟩, texCoords := (0, 0), tangent := ⟨1, 0, 0⟩,
    material := mirrorMaterial }

/-- Two facing perfect mirrors, the floor `z = 0` and the ceiling `z = 2`: a
ray that starts above the floor and goes down hits the floor, a ray that starts
below the ceiling and goes up hits the ceiling, each at the ray parameter where
it meets the plane; any other ray hits nothing. -/
def facingMirrors : Ray ℚ → Option (Intersection ℚ) := fun r =>
  if r.direction.z < 0 ∧ 0 < r.origin.z then
    some { mirrorHit with t := (0 - r.origin.z) / r.direction.z }
  else if r.direction.z > 0 ∧ r.origin.z < 2 then
    some (ceilingHit ((2 - r.origin.z) / r.direction.z))
  else none

/-- The error of a run, or `none` when it returns a value. -/
def errorOf {α : Type} : Except TraceError α → Option TraceError
  | .ok _ => none
  | .error e => some e

/-! ## Texture cache (scene.cpp, lines 83-121 and 202-223) -/

/-- The functions that `GetTexture` calls and that are declared outside the
given sources: `Utils::GetFileExtension`, which returns a pair whose second
component is the extension of the name, and the two decoders of `Texture`, which
return a new texture object, `none` for a null pointer when the file does not
load. -/
structure TextureLoader (T : Type) where
  GetFileExtension : String → String × String
  CreateNewFromPNG : String → Option T
  CreateNewFromJPEG : String → Option T

/-- `Scene::GetTexture(name)` on the cache `textures`, the `std::unordered_map`
as the list of its entries, the newest first: the pointer returned, `none` for
`nullptr`, and the cache after the call.  `textures.find(name)` is the lookup in
the list, `textures[name] = t` on a name that is not in the cache adds an entry. -/
def GetTexture {T : Type} (ld : TextureLoader T) (texture_directory : String)
    (textures : List (String × T)) (name : String) : Option T × List (String × T) :=
  if name = "" then (none, textures)
  else
    match textures.lookup name with
    | none =>
      let p := ld.GetFileExtension name
      let t : Option T :=
        if p.2 = "PNG" ∨ p.2 = "png" then ld.CreateNewFromPNG (texture_directory ++ name)
        else if p.2 = "JPG" ∨ p.2 = "jpg" ∨ p.2 = "JPEG" ∨ p.2 = "jpeg" then
          ld.CreateNewFromJPEG (texture_directory ++ name)
        else none
      match t with
      | none => (none, textures)
      | some tex => (some tex, (name, tex) :: textures)
    | some _ => (none, textures)

/-- The texture kinds that `LoadMaterial` asks an `aiMaterial` for. -/
inductive TextureType where
  | DIFFUSE
  | SPECULAR
  | AMBIENT
  | HEIGHT
  deriving DecidableEq, Repr

/-- What `LoadMaterial` reads of an `aiMaterial` for its textures:
`GetTextureCount(type)`, an `unsigned int`, and the path that
`GetTexture(type, 0, &as)` stores in `as`. -/
structure MaterialSource where
  GetTextureCount : TextureType → Nat
  GetTexture : TextureType → String

/-- The four texture pointers of a `Material`, `none` for a null pointer. -/
structure MaterialTextures (T : Type) where
  diffuse_texture : Option T
  specular_texture : Option T
  ambient_texture : Option T
  bump_texture : Option T
  deriving DecidableEq, Repr

/-- One of the four blocks of lines 86-121 of `LoadMaterial`: with
`int n = mat->GetTextureCount(type)`, if `n > 0` and the path is not empty the
pointer of the material becomes the result of `GetTexture`, otherwise it keeps
its value `old`.  The result is that pointer and the cache. -/
def loadTextureSlot {T : Type} (ld : TextureLoader T) (texture_directory : String)
    (mat : MaterialSource) (type : TextureType) (old : Option T)
    (textures : List (String × T)) : Option T × List (String × T) :=
  let n := toI32 (mat.GetTextureCount type)
  if n > 0 then
    let s := mat.GetTexture type
    if s ≠ "" then GetTexture ld texture_directory textures s
    else (old, textures)
  else (old, textures)

/-- The texture lookups of `Scene::LoadMaterial` (lines 83-121): the texture
pointers of the new material `m`, which are null in a new `Material` (its
declaration is not in the given sources), and the cache after the four
lookups. -/
def LoadMaterial {T : Type} (ld : TextureLoader T) (texture_directory : String)
    (mat : MaterialSource) (textures : List (String × T)) :
    MaterialTextures T × List (String × T) :=
  let d := loadTextureSlot ld texture_directory mat .DIFFUSE none textures
  let s := loadTextureSlot ld texture_directory mat .SPECULAR none d.2
  let a := loadTextureSlot ld texture_directory mat .AMBIENT none s.2
  let h := loadTextureSlot ld texture_directory mat .HEIGHT none a.2
  ({ diffuse_texture := d.1, specular_texture := s.1, ambient_texture := a.1,
     bump_texture := h.1 }, h.2)

/-! ### A texture used by two materials -/

/-- A loader for the example: the file `wood.png` has the extension `png`
and loads as the texture object 7; no other file loads. -/
def woodLoader : TextureLoader Nat :=
  { GetFileExtension := fun name => if name = "wood.png" then ("wood", "png") else (name, "")
    CreateNewFromPNG := fun path => if path = "textures/wood.png" then some 7 else none
    CreateNewFromJPEG := fun _ => none }

/-- A material whose only texture is the diffuse texture `wood.png`. -/
def woodMaterial : MaterialSource :=
  { GetTextureCount := fun type => if type = .DIFFUSE then 1 else 0
    GetTexture := fun type => if type = .DIFFUSE then "wood.png" else "" }

/-! ## Mesh loading and the buffer copy of `Commit` (scene.cpp, lines 152-200 and 228-268) -/

/-- An `aiFace`: its vertex indices `mIndices`; `mNumIndices` is their number. -/
structure Face where
  mIndices : List Nat
  deriving DecidableEq, Repr

/-- What `LoadMesh` reads of an `aiMesh`.  An array that the mesh does not
have, a null pointer, is `none`; `mTextureCoords0` is `mTextureCoords[0]`. -/
structure Mesh (F : Type) where
  mNumVertices : Nat
  mVertices : Option (List (Vec3 F))
  mNormals : Option (List (Vec3 F))
  mTangents : Option (List (Vec3 F))
  mTextureCoords0 : Option (List (Vec3 F))
  mFaces : List Face
  mMaterialIndex : Nat

/-- A triangle as `LoadMesh` constructs it, `Triangle(this, va, vb, vc, mat)`:
three indices into the vertex arrays of the scene and a material index. -/
structure TriangleIndices where
  va : Nat
  vb : Nat
  vc : Nat
  mat : Nat
  deriving DecidableEq, Repr

/-- The load buffers of `Scene` that `LoadMesh` appends to. -/
structure LoadBuffers (F : Type) where
  vertices_buffer : List (Vec3 F)
  triangles_buffer : List TriangleIndices
  normals_buffer : List (Vec3 F)
  tangents_buffer : List (Vec3 F)
  texcoords_buffer : List (Vec3 F)
  deriving DecidableEq, Repr

/-- The elements `a[0], ..., a[n-1]` that a loop `for(v = 0; v < n; v++)` reads
from the array `a`, in order; `none` when the loop reads through a null pointer
or outside the array. -/
def readFirst {α : Type} (a : Option (List α)) (n : Nat) : Option (List α) :=
  if n = 0 then some []
  else
    match a with
    | none => none
    | some xs => if n ≤ xs.length then some (xs.take n) else none

/-- The body of the loop over the faces (lines 180-192): a face with three
indices gives a triangle whose indices are shifted by `vertex_index_offset`, in
`unsigned int` arithmetic; any other face is skipped. -/
def faceTriangle (vertex_index_offset mat : Nat) (face : Face) : Option TriangleIndices :=
  match face.mIndices with
  | [a, b, c] =>
    some { va := (a + vertex_index_offset) % 4294967296,
           vb := (b + vertex_index_offset) % 4294967296,
           vc := (c + vertex_index_offset) % 4294967296, mat := mat }
  | _ => none

/-- `Scene::LoadMesh(mesh, current_transform)`: the load buffers after the
call; `transform` is `vertex *= current_transform`.  One vertex and one normal
are appended for each vertex of the mesh; tangents and texture coordinates are
appended if the mesh has them. -/
def LoadMesh {F : Type} (transform : Vec3 F → Vec3 F) (b : LoadBuffers F) (mesh : Mesh F) :
    Option (LoadBuffers F) :=
  let vertex_index_offset := b.vertices_buffer.length % 4294967296
  let mat := mesh.mMaterialIndex
  match readFirst mesh.mVertices mesh.mNumVertices with
  | none => none
  | some vs =>
    match readFirst mesh.mNormals mesh.mNumVertices with
    | none => none
    | some ns =>
      match (match mesh.mTangents with
             | none => some []
             | some t => readFirst (some t) mesh.mNumVertices) with
      | none => none
      | some ts =>
        match (match mesh.mTextureCoords0 with
               | none => some []
               | some t => readFirst (some t) mesh.mNumVertices) with
        | none => none
        | some uvs =>
          some { vertices_buffer := b.vertices_buffer ++ vs.map transform
                 triangles_buffer :=
                   b.triangles_buffer ++ mesh.mFaces.filterMap (faceTriangle vertex_index_offset mat)
                 normals_buffer := b.normals_buffer ++ ns
                 tangents_buffer := b.tangents_buffer ++ ts
                 texcoords_buffer := b.texcoords_buffer ++ uvs }

/-- The calls of `LoadMesh` that `LoadNode` makes for a sequence of meshes. -/
def LoadMeshes {F : Type} (transform : Vec3 F → Vec3 F) :
    LoadBuffers F → List (Mesh F) → Option (LoadBuffers F)
  | b, [] => some b
  | b, mesh :: rest =>
    match LoadMesh transform b mesh with
    | none => none
    | some b1 => LoadMeshes transform b1 rest

/-- The arrays of `Scene` that `Commit` fills from the load buffers, with their
sizes. -/
structure SceneArrays (F : Type) where
  vertices : List (Vec3 F)
  n_vertices : Nat
  triangles : List TriangleIndices
  n_triangles : Nat
  normals : List (Vec3 F)
  n_normals : Nat
  tangents : List (Vec3 F)
  n_tangents : Nat
  texcoords : List (F × F)
  n_texcoords : Nat
  deriving DecidableEq, Repr

/-- The buffer copy of `Scene::Commit` (lines 228-257): each size is the size
of the buffer as an `unsigned int`, and each array is given by the elements that
its copy loop writes, those of the buffer in order; a texture coordinate keeps
`x` and `y`.  The plane that `CalculatePlane` adds to a triangle is not part of
`TriangleIndices`. -/
def CommitArrays {F : Type} (b : LoadBuffers F) : SceneArrays F :=
  let n_vertices := b.vertices_buffer.length % 4294967296
  let n_triangles := b.triangles_buffer.length % 4294967296
  let n_normals := b.normals_buffer.length % 4294967296
  let n_texcoords := b.texcoords_buffer.length % 4294967296
  let n_tangents := b.tangents_buffer.length % 4294967296
  { vertices := b.vertices_buffer.take n_vertices
    n_vertices := n_vertices
    triangles := b.triangles_buffer.take n_triangles
    n_triangles := n_triangles
    normals := b.normals_buffer.take n_normals
    n_normals := n_normals
    tangents := b.tangents_buffer.take n_tangents
    n_tangents := n_tangents
    texcoords := (b.texcoords_buffer.take n_texcoords).map fun uv => (uv.x, uv.y)
    n_texcoords := n_texcoords }

/-- The empty load buffers of a new `Scene`. -/
def emptyBuffers {F : Type} : LoadBuffers F :=
  { vertices_buffer := [], triangles_buffer := [], normals_buffer := [], tangents_buffer := [],
    texcoords_buffer := [] }

/-- The texture coordinates that the meshes give to the vertices of the scene,
vertex by vertex in the order of loading: `none` for a vertex of a mesh without
texture coordinates. -/
def vertexTexcoords {F : Type} (meshes : List (Mesh F)) : List (Option (F × F)) :=
  meshes.flatMap fun mesh =>
    match mesh.mTextureCoords0 with
    | none => List.replicate mesh.mNumVertices none
    | some uvs => (uvs.take mesh.mNumVertices).map fun uv => some (uv.x, uv.y)

/-- The tangents that the meshes give to the vertices of the scene, vertex by
vertex in the order of loading: `none` for a vertex of a mesh without tangents. -/
def vertexTangents {F : Type} (meshes : List (Mesh F)) : List (Option (Vec3 F)) :=
  meshes.flatMap fun mesh =>
    match mesh.mTangents with
    | none => List.replicate mesh.mNumVertices none
    | some ts => (ts.take mesh.mNumVertices).map some

/-! ### Two meshes, one of them textured -/

/-- A triangle in the plane `z = 0` without tangents and without texture
coordinates, with material 0. -/
def plainMesh : Mesh ℚ :=
  { mNumVertices := 3
    mVertices := some [⟨0, 0, 0⟩, ⟨1, 0, 0⟩, ⟨0, 1, 0⟩]
    mNormals := some [⟨0, 0, 1⟩, ⟨0, 0, 1⟩, ⟨0, 0, 1⟩]
    mTangents := none
    mTextureCoords0 := none
    mFaces := [⟨[0, 1, 2]⟩]
    mMaterialIndex := 0 }

/-- A triangle in the plane `z = 1` with tangents and texture coordinates, with
material 1. -/
def texturedMesh : Mesh ℚ :=
  { mNumVertices := 3
    mVertices := some [⟨0, 0, 1⟩, ⟨1, 0, 1⟩, ⟨0, 1, 1⟩]
    mNormals := some [⟨0, 0, 1⟩, ⟨0, 0, 1⟩, ⟨0, 0, 1⟩]
    mTangents := some [⟨1, 0, 0⟩, ⟨1, 0, 0⟩, ⟨1, 0, 0⟩]
    mTextureCoords0 := some [⟨1 / 4, 1 / 4, 0⟩, ⟨3 / 4, 1 / 4, 0⟩, ⟨1 / 4, 3 / 4, 0⟩]
    mFaces := [⟨[0, 1, 2]⟩]
    mMaterialIndex := 1 }

/-! ### Inputs beyond the range of the index arithmetic -/

/-- One triangle in the plane `z = 0`. -/
def unitTriangle : Triangle ℚ := { A := ⟨0, 0, 0⟩, B := ⟨1, 0, 0⟩, C := ⟨0, 1, 0⟩ }

/-- A scene of 2^30 + 1 triangles, copies of `unitTriangle`: its last triangle
has the index 2^30. -/
def manyTriangles : List (Triangle ℚ) := List.replicate 1073741825 unitTriangle

/-- The extent tables of `manyTriangles`, as `Commit` fills them. -/
def manyExtents : SceneEvents ℚ :=
  { xevents := bound_fill_func manyTriangles 0
    yevents := bound_fill_func manyTriangles 1
    zevents := bound_fill_func manyTriangles 2 }

/-- A node of `manyTriangles` at depth 0 that holds the first and the last
triangle of the scene, the indices 0 and 2^30. -/
def overflowNode : KdNodeFields ℚ :=
  { depth := 0, xBB := (-1, 2), yBB := (-1, 2), zBB := (-1, 2),
    triangle_indices := [0, 1073741824], dups := 0 }

/-- A node at depth 0 that holds 2^31 triangle indices. -/
def crowdedNode : KdNodeFields ℚ :=
  { depth := 0, xBB := (-1, 2), yBB := (-1, 2), zBB := (-1, 2),
    triangle_indices := List.replicate 2147483648 0, dups := 0 }

/-! ### Rounding to `float` -/

/-- The power `2^e` for an integer exponent. -/
def pow2 (e : Int) : ℚ :=
  if 0 ≤ e then ((2 ^ e.toNat : Nat) : ℚ) else 1 / ((2 ^ (-e).toNat : Nat) : ℚ)

/-- The exponent of a positive rational `a` in the format `float` (IEEE 754
binary32): the largest `e` among `-126 + k, ..., -126` with `2^e <= a`, and
`-126`, the exponent of the subnormal numbers, when there is none. -/
def floatExponent (a : ℚ) : Nat → Int
  | 0 => -126
  | k + 1 => if pow2 ((k : Int) + 1 - 126) ≤ a then (k : Int) + 1 - 126 else floatExponent a k

/-- The integer nearest to a rational, the even one of the two when it lies
halfway between them. -/
def roundHalfEven (m : ℚ) : Int :=
  let f := ⌊m⌋
  let r := m - (f : ℚ)
  if r < 1 / 2 then f
  else if 1 / 2 < r then f + 1
  else if f % 2 = 0 then f else f + 1

/-- Rounding of a rational to `float` (IEEE 754 binary32, round to nearest,
ties to even): with `e` the exponent of `|x|`, the result is the multiple of
`2^(e-23)` nearest to `x`, and an infinity when that multiple reaches `2^128`. -/
def roundFloat32 (x : ℚ) : Fl ℚ :=
  if x = 0 then .fin 0
  else
    let a := |x|
    let q := pow2 (floatExponent a 253 - 23)
    let r := (roundHalfEven (a / q) : ℚ) * q
    if pow2 128 ≤ r then (if 0 < x then .pinf else .ninf)
    else .fin (if 0 < x then r else -r)

/-- A path tracer on the mirror floor under a sky of radiance 2, with three
samples per pixel and clamp 1.7f, the `float` nearest to 1.7. -/
def roundingTracer : PathTracer Unit ℚ :=
  { exampleTracer mirrorFloor 2 (14260634 / 8388608) 1 with multisample := 3 }

/-- The largest finite `float`, `(2^24 - 1) * 2^104`. -/
def floatMax : ℚ := 340282346638528859811704183484516925440

/-- A path tracer on the mirror floor with two samples per pixel, whose sky
radiance and clamp are both the largest finite `float`. -/
def overflowTracer : PathTracer Unit ℚ :=
  { exampleTracer mirrorFloor floatMax floatMax 1 with multisample := 2 }


/-! # Theorems -/

/-! ## Bit-level facts -/

theorem or_three_eq_add (k : Nat) : (k <<< 2) ||| 3 = 4 * k + 3 := by
  rw [Nat.shiftLeft_eq, Nat.mul_comm]
  exact (Nat.mul_add_lt_is_or (i := 2) (by decide) k).symm

theorem and_three_eq_mod (k : Nat) : k &&& 3 = k % 4 :=
  Nat.and_pow_two_sub_one_eq_mod k 2

theorem tag_or_shift (a k : Nat) (ha : a < 4) : a ||| (k <<< 2) = 4 * k + a := by
  rw [Nat.shiftLeft_eq, Nat.mul_comm, Nat.lor_comm]
  exact (Nat.mul_add_lt_is_or (i := 2) ha k).symm

/-! ## The compression writes the pre-order layout -/

theorem fillTriangles_spec (l : List Nat) (s : CompressState F)
    (hfit : s.triangle_pos + l.length ≤ s.compressed_triangles.length)
    (hlen : s.compressed_triangles.length < 4294967296) :
    ∃ s1, fillTriangles l s = some s1 ∧
      s1.triangle_pos = s.triangle_pos + l.length ∧
      s1.array_pos = s.array_pos ∧
      s1.compressed_array = s.compressed_array ∧
      s1.node_writes = s.node_writes ∧
      s1.compressed_triangles.length = s.compressed_triangles.length ∧
      (∀ i, i < s.triangle_pos ∨ s.triangle_pos + l.length ≤ i →
        s1.compressed_triangles[i]? = s.compressed_triangles[i]?) ∧
      (∀ j, j < l.length → s1.compressed_triangles[s.triangle_pos + j]? = some (l[j]?)) ∧
      s1.triangle_writes = s.triangle_writes ++ List.range' s.triangle_pos l.length := by
  induction l generalizing s with
  | nil =>
    refine ⟨s, rfl, by simp, rfl, rfl, rfl, rfl, fun _ _ => rfl, ?_, by simp⟩
    intro j hj
    simp at hj
  | cons t ts ih =>
    simp only [List.length_cons] at hfit ⊢
    have hlt : s.triangle_pos < s.compressed_triangles.length := by omega
    have hmod : (s.triangle_pos + 1) % 4294967296 = s.triangle_pos + 1 :=
      Nat.mod_eq_of_lt (by omega)
    obtain ⟨s1, h1, hpos, hap, harr, hnw, hl, hframe, hrun, htw⟩ :=
      ih { s with
        compressed_triangles := s.compressed_triangles.set s.triangle_pos (some t)
        triangle_pos := (s.triangle_pos + 1) % 4294967296
        triangle_writes := s.triangle_writes ++ [s.triangle_pos] }
        (by simp only [List.length_set, hmod]; omega)
        (by simp only [List.length_set]; exact hlen)
    simp only [List.length_set, hmod] at hpos hl hframe hrun htw
    refine ⟨s1, ?_, by omega, hap, harr, hnw, hl, ?_, ?_, ?_⟩
    · simp only [fillTriangles, hlt, if_true]
      exact h1
    · intro i hi
      rw [hframe i (by omega)]
      exact List.getElem?_set_ne (by omega)
    · intro j hj
      cases j with
      | zero =>
        rw [Nat.add_zero, hframe _ (by omega)]
        simp [List.getElem?_set_self hlt]
      | succ j =>
        have := hrun j (by omega)
        rw [show s.triangle_pos + (j + 1) = s.triangle_pos + 1 + j by omega, this]
        simp
    · rw [htw, List.append_assoc]
      rfl

theorem nodeCount_pos (t : UncompressedKdNode F) : 0 < t.nodeCount := by
  cases t <;> simp [UncompressedKdNode.nodeCount]

theorem Stored_congr (t : UncompressedKdNode F)
    (arr arr1 : List (Option (CompressedKdNode F))) (tris tris1 : List (Option Nat)) (p q : Nat)
    (harr : ∀ i, p ≤ i → i < p + t.nodeCount → arr1[i]? = arr[i]?)
    (htris : ∀ i, q ≤ i → i < q + t.triangleCount → tris1[i]? = tris[i]?)
    (h : Stored arr tris t p q) : Stored arr1 tris1 t p q := by
  induction t generalizing p q with
  | LEAF d =>
    simp only [Stored, UncompressedKdNode.nodeCount, UncompressedKdNode.triangleCount] at *
    refine ⟨by rw [harr p (by omega) (by omega)]; exact h.1, fun j hj => ?_⟩
    rw [htris (q + j) (by omega) (by omega)]
    exact h.2 j hj
  | INTERNAL d a sp p0 p1 ch0 ch1 ih0 ih1 =>
    simp only [Stored, UncompressedKdNode.nodeCount, UncompressedKdNode.triangleCount] at *
    refine ⟨by rw [harr p (by omega) (by omega)]; exact h.1, ?_, ?_⟩
    · exact ih0 (p + 1) q (fun i h1 h2 => harr i (by omega) (by omega))
        (fun i h1 h2 => htris i (by omega) (by omega)) h.2.1
    · exact ih1 _ _ (fun i h1 h2 => harr i (by omega) (by omega))
        (fun i h1 h2 => htris i (by omega) (by omega)) h.2.2

theorem CompressRec_spec (t : UncompressedKdNode F) (s : CompressState F)
    (hfitN : s.array_pos + t.nodeCount ≤ s.compressed_array.length)
    (hfitT : s.triangle_pos + t.triangleCount ≤ s.compressed_triangles.length)
    (hlenN : s.compressed_array.length < 4294967296)
    (hlenT : s.compressed_triangles.length < 4294967296) :
    ∃ s1, CompressRec t s = some s1 ∧
      s1.array_pos = s.array_pos + t.nodeCount ∧
      s1.triangle_pos = s.triangle_pos + t.triangleCount ∧
      s1.compressed_array.length = s.compressed_array.length ∧
      s1.compressed_triangles.length = s.compressed_triangles.length ∧
      (∀ i, i < s.array_pos ∨ s.array_pos + t.nodeCount ≤ i →
        s1.compressed_array[i]? = s.compressed_array[i]?) ∧
      (∀ i, i < s.triangle_pos ∨ s.triangle_pos + t.triangleCount ≤ i →
        s1.compressed_triangles[i]? = s.compressed_triangles[i]?) ∧
      Stored s1.compressed_array s1.compressed_triangles t s.array_pos s.triangle_pos ∧
      s1.node_writes = s.node_writes ++ List.range' s.array_pos t.nodeCount ∧
      s1.triangle_writes = s.triangle_writes ++ List.range' s.triangle_pos t.triangleCount := by
  induction t generalizing s with
  | LEAF d =>
    simp only [UncompressedKdNode.nodeCount, UncompressedKdNode.triangleCount] at hfitN hfitT ⊢
    have hlt : s.array_pos < s.compressed_array.length := by omega
    have hmod : (s.array_pos + 1) % 4294967296 = s.array_pos + 1 := Nat.mod_eq_of_lt (by omega)
    obtain ⟨s1, h1, hpos, hap, harr, hnw, hl, hframe, hrun, htw⟩ :=
      fillTriangles_spec d.triangle_indices
        { s with
          compressed_array := s.compressed_array.set s.array_pos
            (some (CompressedKdNode.Leaf (d.triangle_indices.length % 4294967296) s.triangle_pos))
          node_writes := s.node_writes ++ [s.array_pos]
          array_pos := (s.array_pos + 1) % 4294967296 }
        hfitT hlenT
    simp only [hmod] at hpos hap harr hnw hl hframe hrun htw
    refine ⟨s1, ?_, hap, hpos, by rw [harr]; simp, hl, ?_, hframe, ?_, ?_, ?_⟩
    · simp only [CompressRec, storeNode, hlt, if_true, Option.bind_eq_bind, Option.some_bind]
      exact h1
    · intro i hi
      rw [harr]
      exact List.getElem?_set_ne (by omega)
    · simp only [Stored]
      refine ⟨?_, hrun⟩
      rw [harr, List.getElem?_set_self hlt]
    · rw [hnw]; rfl
    · exact htw
  | INTERNAL d a sp p0 p1 ch0 ch1 ih0 ih1 =>
    simp only [UncompressedKdNode.nodeCount, UncompressedKdNode.triangleCount] at hfitN hfitT ⊢
    have hlt : s.array_pos < s.compressed_array.length := by omega
    have hmod : (s.array_pos + 1) % 4294967296 = s.array_pos + 1 := Nat.mod_eq_of_lt (by omega)
    obtain ⟨s2, h2, hap2, htp2, hln2, hlt2, hfrN2, hfrT2, hst2, hnw2, htw2⟩ :=
      ih0
        { s with
          compressed_array := s.compressed_array.set s.array_pos
            (some (CompressedKdNode.Internal (toShort a) sp))
          node_writes := s.node_writes ++ [s.array_pos]
          array_pos := (s.array_pos + 1) % 4294967296 }
        (by simp only [List.length_set, hmod]; omega) (by simpa using by omega)
        (by simpa using hlenN) (by simpa using hlenT)
    simp only [hmod, List.length_set] at hap2 htp2 hln2 hlt2 hfrN2 hfrT2 hst2 hnw2 htw2
    have hmy : s2.compressed_array[s.array_pos]? =
        some (some (CompressedKdNode.Internal (toShort a) sp)) := by
      rw [hfrN2 _ (by omega), List.getElem?_set_self hlt]
    obtain ⟨s4, h4, hap4, htp4, hln4, hlt4, hfrN4, hfrT4, hst4, hnw4, htw4⟩ :=
      ih1
        { s2 with
          compressed_array := s2.compressed_array.set s.array_pos
            (some ((CompressedKdNode.Internal (toShort a) sp).SetOtherChild s2.array_pos)) }
        (by simp only [List.length_set]; omega) (by simpa using by omega)
        (by simpa using by omega) (by simpa using by omega)
    simp only [List.length_set] at hap4 htp4 hln4 hlt4 hfrN4 hfrT4 hst4 hnw4 htw4
    have hlt2p : s.array_pos < s2.compressed_array.length := by omega
    refine ⟨s4, ?_, by omega, by omega, by omega, by omega, ?_, ?_, ?_, ?_, ?_⟩
    · simp only [CompressRec, storeNode, hlt, if_true, Option.bind_eq_bind, Option.some_bind, h2,
        patchOtherChild, hmy]
      exact h4
    · intro i hi
      rw [hfrN4 i (by omega), List.getElem?_set_ne (by omega), hfrN2 i (by omega)]
      exact List.getElem?_set_ne (by omega)
    · intro i hi
      rw [hfrT4 i (by omega), hfrT2 i (by omega)]
    · simp only [Stored]
      refine ⟨?_, ?_, ?_⟩
      · rw [hfrN4 _ (by omega), List.getElem?_set_self hlt2p, hap2]
      · refine Stored_congr ch0 _ _ _ _ _ _ ?_ ?_ hst2
        · intro i h1 h2
          rw [hfrN4 i (by omega)]
          exact List.getElem?_set_ne (by omega)
        · intro i h1 h2
          exact hfrT4 i (by omega)
      · rw [hap2, htp2] at hst4
        exact hst4
    · rw [hnw4, hnw2, hap2, List.append_assoc, List.append_assoc]
      congr 1
      rw [List.range'_append_1, List.range'_succ, Nat.add_comm ch1.nodeCount]
      rfl
    · rw [htw4, htw2, htp2, List.append_assoc]
      congr 1
      rw [List.range'_append_1, Nat.add_comm]

/-! ## GetTotals against the true counts -/

theorem toI32_emod (x : Int) : toI32 x % 4294967296 = x % 4294967296 := by
  unfold toI32
  omega

theorem toI32_range (x : Int) : -2147483648 ≤ toI32 x ∧ toI32 x < 2147483648 := by
  unfold toI32
  omega

theorem GetTotals_emod (t : UncompressedKdNode F) :
    t.GetTotals.1 % 4294967296 = (t.triangleCount : Int) % 4294967296 ∧
    t.GetTotals.2.2.1 % 4294967296 = (t.nodeCount : Int) % 4294967296 := by
  induction t with
  | LEAF d =>
    simp only [UncompressedKdNode.GetTotals, UncompressedKdNode.triangleCount,
      UncompressedKdNode.nodeCount, toI32_emod]
    exact ⟨trivial, rfl⟩
  | INTERNAL d a sp p0 p1 ch0 ch1 ih0 ih1 =>
    simp only [UncompressedKdNode.GetTotals, UncompressedKdNode.triangleCount,
      UncompressedKdNode.nodeCount, toI32_emod]
    push_cast
    omega

theorem GetTotals_range (t : UncompressedKdNode F) :
    (-2147483648 ≤ t.GetTotals.1 ∧ t.GetTotals.1 < 2147483648) ∧
    (-2147483648 ≤ t.GetTotals.2.2.1 ∧ t.GetTotals.2.2.1 < 2147483648) := by
  cases t with
  | LEAF d =>
    simp only [UncompressedKdNode.GetTotals]
    exact ⟨toI32_range _, by omega⟩
  | INTERNAL d a sp p0 p1 ch0 ch1 =>
    simp only [UncompressedKdNode.GetTotals]
    exact ⟨toI32_range _, toI32_range _⟩

theorem toU32_nodes (t : UncompressedKdNode F) (h : t.nodeCount < 4294967296) :
    toU32 t.GetTotals.2.2.1 = t.nodeCount := by
  have := (GetTotals_emod t).2
  unfold toU32
  omega

theorem toU32_triangles (t : UncompressedKdNode F) (h : t.triangleCount < 4294967296) :
    toU32 t.GetTotals.1 = t.triangleCount := by
  have := (GetTotals_emod t).1
  unfold toU32
  omega

theorem toU32_lt (x : Int) : toU32 x < 4294967296 := by
  unfold toU32
  omega

/-- When the node total and the triangle total fit in 32 bits, `Compress`
runs to its successful exit and leaves the pre-order layout of the tree. -/
theorem Compress_ok (t : UncompressedKdNode F)
    (hN : t.nodeCount < 4294967296) (hT : t.triangleCount < 4294967296) :
    ∃ s, CompressRec t (compressInit t) = some s ∧
      Compress t = some (s, CompressOutcome.successful) ∧
      s.array_pos = t.nodeCount ∧ s.triangle_pos = t.triangleCount ∧
      s.compressed_array.length = t.nodeCount ∧
      s.compressed_triangles.length = t.triangleCount ∧
      Stored s.compressed_array s.compressed_triangles t 0 0 ∧
      s.node_writes = List.range t.nodeCount ∧
      s.triangle_writes = List.range t.triangleCount := by
  have hlN : (compressInit t).compressed_array.length = t.nodeCount := by
    simp [compressInit, toU32_nodes t hN]
  have hlT : (compressInit t).compressed_triangles.length = t.triangleCount := by
    simp [compressInit, toU32_triangles t hT]
  obtain ⟨s, hs, hap, htp, hln, hlt, -, -, hst, hnw, htw⟩ :=
    CompressRec_spec t (compressInit t)
      (by rw [hlN]; simp [compressInit]) (by rw [hlT]; simp [compressInit])
      (by rw [hlN]; exact hN) (by rw [hlT]; exact hT)
  have hap0 : (compressInit t).array_pos = 0 := rfl
  have htp0 : (compressInit t).triangle_pos = 0 := rfl
  have hnw0 : (compressInit t).node_writes = [] := rfl
  have htw0 : (compressInit t).triangle_writes = [] := rfl
  rw [hap0, Nat.zero_add] at hap
  rw [htp0, Nat.zero_add] at htp
  rw [hap0, htp0] at hst
  rw [hnw0, hap0, List.nil_append, ← List.range_eq_range'] at hnw
  rw [htw0, htp0, List.nil_append, ← List.range_eq_range'] at htw
  refine ⟨s, hs, ?_, hap, htp, by omega, by omega, hst, hnw, htw⟩
  have h1 : s.array_pos = s.compressed_array.length := by omega
  have h2 : s.triangle_pos = s.compressed_triangles.length := by omega
  simp [Compress, hs, h1, h2]

theorem fillTriangles_overflow (l : List Nat) (s : CompressState F)
    (hpos : s.triangle_pos ≤ s.compressed_triangles.length)
    (hlen : s.compressed_triangles.length < 4294967296)
    (hbig : s.compressed_triangles.length < s.triangle_pos + l.length) :
    fillTriangles l s = none := by
  induction l generalizing s with
  | nil => simp at hbig; omega
  | cons t ts ih =>
    simp only [List.length_cons] at hbig
    by_cases hlt : s.triangle_pos < s.compressed_triangles.length
    · have hmod : (s.triangle_pos + 1) % 4294967296 = s.triangle_pos + 1 :=
        Nat.mod_eq_of_lt (by omega)
      simp only [fillTriangles, hlt, if_true]
      apply ih
      · simp only [List.length_set, hmod]; omega
      · simp only [List.length_set]; exact hlen
      · simp only [List.length_set, hmod]; omega
    · simp only [fillTriangles, hlt, if_false]

/-! ## Node encoding -/

theorem shl_two_mod (p : Nat) :
    (p <<< 2) % 4294967296 = 4 * (p % 1073741824) := by
  rw [Nat.shiftLeft_eq]
  omega

theorem leaf_word (num : Nat) :
    ((num <<< 2) % 4294967296) ||| 3 = 4 * (num % 1073741824) + 3 := by
  rw [shl_two_mod, ← or_three_eq_add, Nat.shiftLeft_eq]
  congr 1
  omega

theorem patched_word (a p : Nat) :
    (a &&& 3) ||| ((p <<< 2) % 4294967296) = 4 * (p % 1073741824) + a % 4 := by
  rw [shl_two_mod, and_three_eq_mod, ← tag_or_shift _ _ (Nat.mod_lt a (by decide)),
    Nat.shiftLeft_eq]
  congr 1
  omega

theorem shr_two (k : Nat) : k >>> 2 = k / 4 :=
  Nat.shiftRight_eq_div_pow k 2

/-- C3. Leaf encoding round trip: for every count `num < 2^30` and every
32-bit start index, the node built by the leaf constructor is a leaf, gives
back `num` as its triangle count and `start` as its first triangle position,
and its second word is `(num << 2) | 3`. -/
theorem C3_leaf_encoding_roundtrip (num start : Nat)
    (hnum : num < 2 ^ 30) (_hstart : start < 2 ^ 32) :
    (CompressedKdNode.Leaf num start : CompressedKdNode F).IsLeaf = true ∧
    (CompressedKdNode.Leaf num start : CompressedKdNode F).GetTrianglesN = num ∧
    (CompressedKdNode.Leaf num start : CompressedKdNode F).GetFirstTrianglePos = some start ∧
    (CompressedKdNode.Leaf num start : CompressedKdNode F).second = (num <<< 2) ||| 3 := by
  have hw := leaf_word num
  have hm : num % 1073741824 = num := Nat.mod_eq_of_lt (by norm_num at hnum; exact hnum)
  rw [hm] at hw
  refine ⟨?_, ?_, rfl, ?_⟩
  · show ((((num <<< 2) % 4294967296) ||| 3) &&& 3 == 3) = true
    rw [hw, and_three_eq_mod, beq_iff_eq]
    omega
  · show (((num <<< 2) % 4294967296) ||| 3) >>> 2 = num
    rw [hw, shr_two]
    omega
  · show ((num <<< 2) % 4294967296) ||| 3 = (num <<< 2) ||| 3
    rw [hw, or_three_eq_add]

/-- Witness for C3: 5 triangles starting at index 7. -/
theorem C3_leaf_encoding_roundtrip_witness :
    (5 < 2 ^ 30 ∧ 7 < 2 ^ 32) ∧
    ((CompressedKdNode.Leaf 5 7 : CompressedKdNode ℚ).IsLeaf = true ∧
     (CompressedKdNode.Leaf 5 7 : CompressedKdNode ℚ).GetTrianglesN = 5 ∧
     (CompressedKdNode.Leaf 5 7 : CompressedKdNode ℚ).GetFirstTrianglePos = some 7 ∧
     (CompressedKdNode.Leaf 5 7 : CompressedKdNode ℚ).second = (5 <<< 2) ||| 3) :=
  ⟨⟨by decide, by decide⟩, C3_leaf_encoding_roundtrip 5 7 (by decide) (by decide)⟩

/-- C4. Internal node encoding round trip: for every axis in {0,1,2}, every
split value and every child index `pos < 2^30`, the node built by the internal
constructor followed by `SetOtherChild(pos)` is not a leaf and gives back the
axis, the split plane and `pos`; and `SetOtherChild`, on any node and for any
argument, changes neither the 2-bit tag nor the first word. -/
theorem C4_internal_encoding_roundtrip (axis : Int) (split : F) (pos : Nat)
    (haxis : 0 ≤ axis ∧ axis ≤ 2) (hpos : pos < 2 ^ 30) :
    ((CompressedKdNode.Internal axis split).SetOtherChild pos).IsLeaf = false ∧
    ((((CompressedKdNode.Internal axis split).SetOtherChild pos).GetSplitAxis : Nat) : Int) = axis ∧
    ((CompressedKdNode.Internal axis split).SetOtherChild pos).GetSplitPlane = some split ∧
    ((CompressedKdNode.Internal axis split).SetOtherChild pos).GetOtherChildIndex = pos ∧
    (∀ (n : CompressedKdNode F) (q : Nat),
      (n.SetOtherChild q).second &&& 3 = n.second &&& 3 ∧
      (n.SetOtherChild q).GetSplitAxis = n.GetSplitAxis ∧
      (n.SetOtherChild q).IsLeaf = n.IsLeaf ∧
      (n.SetOtherChild q).first = n.first ∧
      (n.SetOtherChild q).GetSplitPlane = n.GetSplitPlane) := by
  have hm : pos % 1073741824 = pos := Nat.mod_eq_of_lt (by norm_num at hpos; exact hpos)
  have hw := patched_word (toU32 axis) pos
  rw [hm] at hw
  have ha : toU32 axis % 4 = axis.toNat := by
    unfold toU32
    omega
  have hkeep : ∀ (n : CompressedKdNode F) (q : Nat),
      (n.SetOtherChild q).second &&& 3 = n.second &&& 3 := by
    intro n q
    show ((n.second &&& 3) ||| ((q <<< 2) % 4294967296)) &&& 3 = n.second &&& 3
    rw [patched_word, and_three_eq_mod, and_three_eq_mod]
    omega
  refine ⟨?_, ?_, rfl, ?_, ?_⟩
  · show ((((toU32 axis) &&& 3) ||| ((pos <<< 2) % 4294967296)) &&& 3 == 3) = false
    rw [hw, and_three_eq_mod, beq_eq_false_iff_ne]
    omega
  · show (((((toU32 axis) &&& 3) ||| ((pos <<< 2) % 4294967296)) &&& 3 : Nat) : Int) = axis
    rw [hw, and_three_eq_mod]
    omega
  · show (((toU32 axis) &&& 3) ||| ((pos <<< 2) % 4294967296)) >>> 2 = pos
    rw [hw, shr_two]
    omega
  · intro n q
    refine ⟨hkeep n q, hkeep n q, ?_, rfl, rfl⟩
    simp only [CompressedKdNode.IsLeaf, hkeep n q]

/-- Witness for C4: axis 1, split plane 1/2, right child at index 9. -/
theorem C4_internal_encoding_roundtrip_witness :
    ((0 : Int) ≤ 1 ∧ (1 : Int) ≤ 2) ∧ 9 < 2 ^ 30 ∧
    ((CompressedKdNode.Internal 1 (1 / 2 : ℚ)).SetOtherChild 9).GetOtherChildIndex = 9 :=
  ⟨by decide, by decide,
    (C4_internal_encoding_roundtrip 1 (1 / 2 : ℚ) 9 (by decide) (by decide)).2.2.2.1⟩

theorem CompressRec_leaf_overflow (d : KdNodeFields F) (s : CompressState F)
    (hpos : s.triangle_pos ≤ s.compressed_triangles.length)
    (hlen : s.compressed_triangles.length < 4294967296)
    (hbig : s.compressed_triangles.length < s.triangle_pos + d.triangle_indices.length) :
    CompressRec (.LEAF d) s = none := by
  simp only [CompressRec, storeNode, Option.bind_eq_bind]
  split
  · rw [Option.some_bind]
    exact fillTriangles_overflow _ _ hpos hlen hbig
  · rfl

/-! ## Totals and write log of the compression (C2) -/

/-- C2 (amended). For every uncompressed tree whose node total and triangle
total fit in `int`, `CompressRec` started at positions (0, 0) on the arrays
allocated by `Compress` finishes with `array_pos` equal to the node total and
`triangle_pos` equal to the triangle total reported by `GetTotals`, every slot
of `compressed_array` and of `compressed_triangles` has been stored to exactly
once and nothing else has, and `Compress` takes its successful exit. -/
theorem C2_compress_totals (t : UncompressedKdNode F)
    (hN : t.nodeCount < 2 ^ 31) (hT : t.triangleCount < 2 ^ 31) :
    ∃ s, CompressRec t (compressInit t) = some s ∧
      (s.array_pos : Int) = t.GetTotals.2.2.1 ∧
      (s.triangle_pos : Int) = t.GetTotals.1 ∧
      s.array_pos = t.nodeCount ∧ s.triangle_pos = t.triangleCount ∧
      (∀ i, i < s.compressed_array.length → s.node_writes.count i = 1) ∧
      (∀ i, i ∈ s.node_writes → i < s.compressed_array.length) ∧
      (∀ i, i < s.compressed_triangles.length → s.triangle_writes.count i = 1) ∧
      (∀ i, i ∈ s.triangle_writes → i < s.compressed_triangles.length) ∧
      Compress t = some (s, CompressOutcome.successful) := by
  norm_num at hN hT
  obtain ⟨s, hrec, hc, hap, htp, hln, hlt, -, hnw, htw⟩ :=
    Compress_ok t (by omega) (by omega)
  have hmod := GetTotals_emod t
  have hrange := GetTotals_range t
  refine ⟨s, hrec, by omega, by omega, hap, htp, ?_, ?_, ?_, ?_, hc⟩
  · intro i hi
    rw [hnw]
    exact List.count_eq_one_of_mem (List.nodup_range _) (List.mem_range.2 (by omega))
  · intro i hi
    rw [hnw] at hi
    have := List.mem_range.1 hi
    omega
  · intro i hi
    rw [htw]
    exact List.count_eq_one_of_mem (List.nodup_range _) (List.mem_range.2 (by omega))
  · intro i hi
    rw [htw] at hi
    have := List.mem_range.1 hi
    omega

/-- Witness for C2: the small tree of five nodes and six triangle indices. -/
theorem C2_compress_totals_witness :
    smallTree.nodeCount < 2 ^ 31 ∧ smallTree.triangleCount < 2 ^ 31 ∧
    ∃ s, CompressRec smallTree (compressInit smallTree) = some s ∧
      s.array_pos = smallTree.nodeCount ∧ s.triangle_pos = smallTree.triangleCount ∧
      Compress smallTree = some (s, CompressOutcome.successful) := by
  have h1 : smallTree.nodeCount < 2 ^ 31 := by decide
  have h2 : smallTree.triangleCount < 2 ^ 31 := by decide
  obtain ⟨s, hs, -, -, h3, h4, -, -, -, -, h5⟩ := C2_compress_totals smallTree h1 h2
  exact ⟨h1, h2, s, hs, h3, h4, h5⟩

theorem leafOf_overflow (l : List Nat) (hl : l.length = 4294967296) :
    (leafOf l).triangleCount = 4294967296 ∧ (leafOf l).GetTotals.1 = 0 ∧
    CompressRec (leafOf l) (compressInit (leafOf l)) = none := by
  have h0 : (leafOf l).GetTotals.1 = 0 := by
    simp only [leafOf, UncompressedKdNode.GetTotals, hl]
    decide
  have hinit : (compressInit (leafOf l)).compressed_triangles = [] := by
    simp only [compressInit, h0]
    rfl
  refine ⟨hl, h0, ?_⟩
  apply CompressRec_leaf_overflow
  · rw [hinit]; exact Nat.zero_le _
  · rw [hinit]; decide
  · rw [hinit]
    show 0 < 0 + l.length
    rw [hl]
    decide

/-- C2 fails as stated: for a leaf of 2^32 triangle indices `GetTotals` reports
0 triangles, `Compress` allocates an empty `compressed_triangles`, and the
first store of `CompressRec` falls outside it. -/
theorem C2_counterexample :
    hugeLeaf.triangleCount = 4294967296 ∧ hugeLeaf.GetTotals.1 = 0 ∧
    CompressRec hugeLeaf (compressInit hugeLeaf) = none :=
  leafOf_overflow (List.replicate 4294967296 0) (List.length_replicate 4294967296 0)

/-! ## Reading the tree back (C1) -/

theorem Leaf_IsLeaf (num start : Nat) :
    (CompressedKdNode.Leaf num start : CompressedKdNode F).IsLeaf = true := by
  show ((((num <<< 2) % 4294967296) ||| 3) &&& 3 == 3) = true
  rw [leaf_word, and_three_eq_mod, beq_iff_eq]
  omega

theorem Leaf_GetTrianglesN (num start : Nat) :
    (CompressedKdNode.Leaf num start : CompressedKdNode F).GetTrianglesN = num % 1073741824 := by
  show (((num <<< 2) % 4294967296) ||| 3) >>> 2 = num % 1073741824
  rw [leaf_word, shr_two]
  omega

theorem patched_IsLeaf (axis : Int) (split : F) (pos : Nat) (h : toU32 axis % 4 ≠ 3) :
    ((CompressedKdNode.Internal axis split).SetOtherChild pos).IsLeaf = false := by
  show ((((toU32 axis) &&& 3) ||| ((pos <<< 2) % 4294967296)) &&& 3 == 3) = false
  rw [patched_word, and_three_eq_mod, beq_eq_false_iff_ne]
  omega

theorem patched_GetSplitAxis (axis : Int) (split : F) (pos : Nat) :
    ((CompressedKdNode.Internal axis split).SetOtherChild pos).GetSplitAxis = toU32 axis % 4 := by
  show (((toU32 axis) &&& 3) ||| ((pos <<< 2) % 4294967296)) &&& 3 = toU32 axis % 4
  rw [patched_word, and_three_eq_mod]
  omega

theorem patched_GetOtherChildIndex (axis : Int) (split : F) (pos : Nat) :
    ((CompressedKdNode.Internal axis split).SetOtherChild pos).GetOtherChildIndex =
      pos % 1073741824 := by
  show (((toU32 axis) &&& 3) ||| ((pos <<< 2) % 4294967296)) >>> 2 = pos % 1073741824
  rw [patched_word, shr_two]
  omega

theorem Leaf_GetFirstTrianglePos (num start : Nat) :
    (CompressedKdNode.Leaf num start : CompressedKdNode F).GetFirstTrianglePos = some start :=
  rfl

theorem patched_GetSplitPlane (axis : Int) (split : F) (pos : Nat) :
    ((CompressedKdNode.Internal axis split).SetOtherChild pos).GetSplitPlane = some split :=
  rfl

theorem readRun_of_stored (tris : List (Option Nat)) (l : List Nat) (q : Nat)
    (h : ∀ j, j < l.length → tris[q + j]? = some (l[j]?)) :
    readRun tris q l.length = some l := by
  induction l generalizing q with
  | nil => rfl
  | cons x xs ih =>
    have h0 := h 0 (by simp)
    have hrest := ih (q + 1) (fun j hj => by
      have := h (j + 1) (by simpa using hj)
      rw [show q + 1 + j = q + (j + 1) by omega, this]
      simp)
    simp only [Nat.add_zero, List.getElem?_cons_zero] at h0
    simp only [List.length_cons, readRun, h0, Option.join, id_eq, hrest, Option.bind_eq_bind,
      Option.some_bind, Option.pure_def]

theorem decode_of_Stored (t : UncompressedKdNode F)
    (arr : List (Option (CompressedKdNode F))) (tris : List (Option Nat)) (p q : Nat)
    (hst : Stored arr tris t p q) (hax : t.axesValid) (hleaf : t.leavesBelow 1073741824)
    (hN : p + t.nodeCount ≤ 1073741824) :
    ∀ fuel, t.nodeCount ≤ fuel → decode arr tris fuel p = some t.shape := by
  induction t generalizing p q with
  | LEAF d =>
    intro fuel hfuel
    simp only [UncompressedKdNode.nodeCount] at hfuel
    obtain ⟨fuel, rfl⟩ : ∃ k, fuel = k + 1 := ⟨fuel - 1, by omega⟩
    simp only [Stored] at hst
    simp only [UncompressedKdNode.leavesBelow] at hleaf
    have hm : d.triangle_indices.length % 4294967296 = d.triangle_indices.length :=
      Nat.mod_eq_of_lt (by omega)
    rw [hm] at hst
    have hn : (CompressedKdNode.Leaf d.triangle_indices.length q :
        CompressedKdNode F).GetTrianglesN = d.triangle_indices.length := by
      rw [Leaf_GetTrianglesN]
      exact Nat.mod_eq_of_lt hleaf
    simp only [decode, hst.1, Option.join, id_eq, Option.bind_eq_bind, Option.some_bind,
      Leaf_IsLeaf, if_true, hn, Leaf_GetFirstTrianglePos,
      readRun_of_stored tris d.triangle_indices q hst.2, Option.pure_def,
      UncompressedKdNode.shape]
  | INTERNAL d a sp p0 p1 ch0 ch1 ih0 ih1 =>
    intro fuel hfuel
    simp only [UncompressedKdNode.nodeCount] at hfuel hN
    obtain ⟨fuel, rfl⟩ : ∃ k, fuel = k + 1 := ⟨fuel - 1, by omega⟩
    simp only [Stored] at hst
    simp only [UncompressedKdNode.axesValid] at hax
    simp only [UncompressedKdNode.leavesBelow] at hleaf
    have h1 := nodeCount_pos ch1
    have hu : toU32 (toShort a) % 4 = a.toNat := by
      unfold toU32 toShort
      omega
    have hleft := ih0 (p + 1) q hst.2.1 hax.2.1 hleaf.1 (by omega) fuel (by omega)
    have hright := ih1 _ _ hst.2.2 hax.2.2 hleaf.2 (by omega) fuel (by omega)
    have hidx : (p + 1 + ch0.nodeCount) % 1073741824 = p + 1 + ch0.nodeCount :=
      Nat.mod_eq_of_lt (by omega)
    have hnl : ((CompressedKdNode.Internal (toShort a) sp).SetOtherChild
        (p + 1 + ch0.nodeCount)).IsLeaf = false :=
      patched_IsLeaf _ _ _ (by omega)
    have hcast : ((a.toNat : Nat) : Int) = a := by omega
    simp only [decode, hst.1, Option.join, id_eq, Option.bind_eq_bind, Option.some_bind, hnl,
      Bool.false_eq_true, if_false, patched_GetSplitAxis, patched_GetOtherChildIndex,
      patched_GetSplitPlane, hidx, hleft, hright, hu, hcast, Option.pure_def,
      UncompressedKdNode.shape]

theorem CompressRec_left_leaf_overflow (d dl : KdNodeFields F) (a : Int) (sp p0 p1 : F)
    (ch1 : UncompressedKdNode F) (s : CompressState F)
    (hpos : s.triangle_pos ≤ s.compressed_triangles.length)
    (hlen : s.compressed_triangles.length < 4294967296)
    (hbig : s.compressed_triangles.length < s.triangle_pos + dl.triangle_indices.length) :
    CompressRec (.INTERNAL d a sp p0 p1 (.LEAF dl) ch1) s = none := by
  rw [CompressRec]
  simp only [storeNode, Option.bind_eq_bind]
  split
  · rw [Option.some_bind, CompressRec_leaf_overflow]
    · rfl
    · exact hpos
    · exact hlen
    · exact hbig
  · rfl

/-- C1 (amended). Compression round trip: for every uncompressed kd-tree with
split axes in {0,1,2}, fewer than 2^30 nodes, fewer than 2^30 triangles in
every leaf and fewer than 2^31 triangle indices in total, `Compress` succeeds
and decoding its arrays from node index 0 reconstructs exactly the original
tree: same shape, same split axis and split position at every internal node,
same triangle list in the same order at every leaf. -/
theorem C1_compress_roundtrip (t : UncompressedKdNode F)
    (hax : t.axesValid) (hN : t.nodeCount < 2 ^ 30) (hleaf : t.leavesBelow (2 ^ 30))
    (hT : t.triangleCount < 2 ^ 31) :
    ∃ s, Compress t = some (s, CompressOutcome.successful) ∧
      ∀ fuel, t.nodeCount ≤ fuel →
        decode s.compressed_array s.compressed_triangles fuel 0 = some t.shape := by
  norm_num at hN hT hleaf
  obtain ⟨s, -, hc, -, -, -, -, hst, -, -⟩ := Compress_ok t (by omega) (by omega)
  exact ⟨s, hc, decode_of_Stored t _ _ 0 0 hst hax hleaf (by omega)⟩

theorem smallTree_axesValid : smallTree.axesValid := by
  simp [smallTree, splitOf, leafOf, UncompressedKdNode.axesValid]

theorem smallTree_leavesBelow : smallTree.leavesBelow (2 ^ 30) := by
  simp [smallTree, splitOf, leafOf, UncompressedKdNode.leavesBelow]

/-- Witness for C1: the small tree of five nodes. -/
theorem C1_compress_roundtrip_witness :
    smallTree.axesValid ∧ smallTree.nodeCount < 2 ^ 30 ∧ smallTree.leavesBelow (2 ^ 30) ∧
    smallTree.triangleCount < 2 ^ 31 ∧
    ∃ s, Compress smallTree = some (s, CompressOutcome.successful) ∧
      decode s.compressed_array s.compressed_triangles 5 0 = some smallTree.shape := by
  obtain ⟨s, h1, h2⟩ := C1_compress_roundtrip smallTree smallTree_axesValid (by decide)
    smallTree_leavesBelow (by decide)
  exact ⟨smallTree_axesValid, by decide, smallTree_leavesBelow, by decide, s, h1,
    h2 5 (by decide)⟩

theorem fiveLeaves_init (l : List Nat) (hl : l.length = 1073741823) :
    (compressInit (fiveLeaves l)).compressed_triangles.length = 1073741819 ∧
    (compressInit (fiveLeaves l)).triangle_pos = 0 := by
  refine ⟨?_, rfl⟩
  have h : (fiveLeaves l).GetTotals.1 = 1073741819 := by
    simp only [fiveLeaves, splitOf, leafOf, UncompressedKdNode.GetTotals, hl]
    decide
  simp only [compressInit, h, List.length_replicate]
  decide

theorem fiveLeaves_overflow (l : List Nat) (hl : l.length = 1073741823) :
    (fiveLeaves l).axesValid ∧ (fiveLeaves l).nodeCount < 2 ^ 30 ∧
    (fiveLeaves l).leavesBelow (2 ^ 30) ∧
    (fiveLeaves l).triangleCount = 5368709115 ∧
    Compress (fiveLeaves l) = none := by
  refine ⟨?_, ?_, ?_, ?_, ?_⟩
  · simp [fiveLeaves, splitOf, UncompressedKdNode.axesValid, leafOf]
  · simp only [fiveLeaves, splitOf, UncompressedKdNode.nodeCount, leafOf]
    decide
  · simp only [fiveLeaves, splitOf, UncompressedKdNode.leavesBelow, leafOf, hl]
    decide
  · simp only [fiveLeaves, splitOf, UncompressedKdNode.triangleCount, leafOf, hl]
  · have hinit := fiveLeaves_init l hl
    have hrec : CompressRec (fiveLeaves l) (compressInit (fiveLeaves l)) = none := by
      apply CompressRec_left_leaf_overflow
      · rw [hinit.2]; exact Nat.zero_le _
      · rw [hinit.1]; decide
      · rw [hinit.1, hinit.2]
        show 1073741819 < 0 + l.length
        rw [hl]
        decide
    simp only [Compress, hrec, Option.bind_eq_bind, Option.none_bind]

/-- C1 fails as stated: a tree of nine nodes with valid axes whose five leaves
hold 2^30 - 1 triangle indices each has 5 * 2^30 - 5 indices in total;
`GetTotals` reports 2^30 - 5, `Compress` allocates that many slots, and the
run of the first leaf does not fit, so no arrays are produced. -/
theorem C1_counterexample :
    fiveWideLeaves.axesValid ∧ fiveWideLeaves.nodeCount < 2 ^ 30 ∧
    fiveWideLeaves.leavesBelow (2 ^ 30) ∧
    fiveWideLeaves.triangleCount = 5368709115 ∧
    Compress fiveWideLeaves = none :=
  fiveLeaves_overflow (List.replicate 1073741823 0) (List.length_replicate 1073741823 0)

/-! ## Pre-order layout (C5) -/

theorem preorder_length (t : UncompressedKdNode F) : t.preorder.length = t.nodeCount := by
  induction t with
  | LEAF d => rfl
  | INTERNAL d a sp p0 p1 ch0 ch1 ih0 ih1 =>
    simp only [UncompressedKdNode.preorder, UncompressedKdNode.nodeCount, List.length_cons,
      List.length_append, ih0, ih1]

theorem preorder_head (t : UncompressedKdNode F) : t.preorder[0]? = some t := by
  cases t <;> simp [UncompressedKdNode.preorder]

theorem preorder_children (t : UncompressedKdNode F) (i : Nat) (d : KdNodeFields F) (a : Int)
    (sp p0 p1 : F) (l r : UncompressedKdNode F)
    (h : t.preorder[i]? = some (.INTERNAL d a sp p0 p1 l r)) :
    t.preorder[i + 1]? = some l ∧ t.preorder[i + 1 + l.nodeCount]? = some r ∧
      i + 1 + l.nodeCount + r.nodeCount ≤ t.nodeCount := by
  induction t generalizing i with
  | LEAF d0 =>
    cases i with
    | zero => simp [UncompressedKdNode.preorder] at h
    | succ i => simp [UncompressedKdNode.preorder] at h
  | INTERNAL d0 a0 s0 q0 q1 ch0 ch1 ih0 ih1 =>
    have hl0 := preorder_length ch0
    have hl1 := preorder_length ch1
    have hp0 := nodeCount_pos ch0
    have hp1 := nodeCount_pos ch1
    have hpl := nodeCount_pos l
    have hpr := nodeCount_pos r
    simp only [UncompressedKdNode.preorder, UncompressedKdNode.nodeCount] at h ⊢
    cases i with
    | zero =>
      simp only [List.getElem?_cons_zero, Option.some.injEq,
        UncompressedKdNode.INTERNAL.injEq] at h
      obtain ⟨-, -, -, -, -, rfl, rfl⟩ := h
      refine ⟨?_, ?_, by omega⟩
      · rw [List.getElem?_cons_succ, List.getElem?_append_left (by omega)]
        exact preorder_head _
      · rw [show 0 + 1 + ch0.nodeCount = ch0.nodeCount + 1 by omega, List.getElem?_cons_succ,
          List.getElem?_append_right (by omega), hl0, Nat.sub_self]
        exact preorder_head _
    | succ j =>
      rw [List.getElem?_cons_succ] at h
      by_cases hj : j < ch0.preorder.length
      · rw [List.getElem?_append_left hj] at h
        obtain ⟨h1, h2, h3⟩ := ih0 j h
        refine ⟨?_, ?_, by omega⟩
        · rw [List.getElem?_cons_succ, List.getElem?_append_left (by omega)]
          exact h1
        · rw [show j + 1 + 1 + l.nodeCount = (j + 1 + l.nodeCount) + 1 by omega,
            List.getElem?_cons_succ, List.getElem?_append_left (by omega)]
          exact h2
      · rw [List.getElem?_append_right (by omega)] at h
        obtain ⟨h1, h2, h3⟩ := ih1 _ h
        refine ⟨?_, ?_, by omega⟩
        · rw [List.getElem?_cons_succ, List.getElem?_append_right (by omega),
            show j + 1 - ch0.preorder.length = j - ch0.preorder.length + 1 by omega]
          exact h1
        · rw [show j + 1 + 1 + l.nodeCount = (j + 1 + l.nodeCount) + 1 by omega,
            List.getElem?_cons_succ, List.getElem?_append_right (by omega),
            show j + 1 + l.nodeCount - ch0.preorder.length =
              j - ch0.preorder.length + 1 + l.nodeCount by omega]
          exact h2

theorem Stored_preorder (t : UncompressedKdNode F)
    (arr : List (Option (CompressedKdNode F))) (tris : List (Option Nat)) (p q : Nat)
    (hst : Stored arr tris t p q) (i : Nat) (nd : UncompressedKdNode F)
    (h : t.preorder[i]? = some nd) : ∃ q1, Stored arr tris nd (p + i) q1 := by
  induction t generalizing p q i with
  | LEAF d0 =>
    cases i with
    | zero =>
      simp only [UncompressedKdNode.preorder, List.getElem?_cons_zero, Option.some.injEq] at h
      subst h
      exact ⟨q, hst⟩
    | succ i => simp [UncompressedKdNode.preorder] at h
  | INTERNAL d0 a0 s0 q0 q1 ch0 ch1 ih0 ih1 =>
    have hl0 := preorder_length ch0
    cases i with
    | zero =>
      simp only [UncompressedKdNode.preorder, List.getElem?_cons_zero, Option.some.injEq] at h
      subst h
      exact ⟨q, hst⟩
    | succ j =>
      simp only [UncompressedKdNode.preorder, List.getElem?_cons_succ] at h
      simp only [Stored] at hst
      by_cases hj : j < ch0.preorder.length
      · rw [List.getElem?_append_left hj] at h
        obtain ⟨q1, h1⟩ := ih0 _ _ hst.2.1 j h
        exact ⟨q1, by rw [show p + (j + 1) = p + 1 + j by omega]; exact h1⟩
      · rw [List.getElem?_append_right (by omega)] at h
        obtain ⟨q1, h1⟩ := ih1 _ _ hst.2.2 _ h
        refine ⟨q1, ?_⟩
        rw [show p + (j + 1) = p + 1 + ch0.nodeCount + (j - ch0.preorder.length) by omega]
        exact h1

/-- C5 (amended). Pre-order layout: for every uncompressed tree with fewer
than 2^30 nodes and fewer than 2^31 triangle indices in total, `Compress`
succeeds and its node array holds the nodes in pre-order of the tree: slot `i`
holds the node built from the `i`-th node of the pre-order, and every internal
node stored at index `i` has its left child stored at index `i + 1` and a stored
other-child index equal to `i + 1 +` (number of nodes of its left subtree),
which is the index where its right child is stored. -/
theorem C5_preorder_layout (t : UncompressedKdNode F)
    (hN : t.nodeCount < 2 ^ 30) (hT : t.triangleCount < 2 ^ 31) :
    ∃ s, Compress t = some (s, CompressOutcome.successful) ∧
      s.compressed_array.length = t.preorder.length ∧
      (∀ (i : Nat) (d : KdNodeFields F), t.preorder[i]? = some (UncompressedKdNode.LEAF d) →
        ∃ start, s.compressed_array[i]? =
          some (some (CompressedKdNode.Leaf (d.triangle_indices.length % 4294967296) start))) ∧
      (∀ (i : Nat) (d : KdNodeFields F) (a : Int) (sp p0 p1 : F) (l r : UncompressedKdNode F),
        t.preorder[i]? = some (UncompressedKdNode.INTERNAL d a sp p0 p1 l r) →
        ∃ n, s.compressed_array[i]? = some (some n) ∧
          n = (CompressedKdNode.Internal (toShort a) sp).SetOtherChild (i + 1 + l.nodeCount) ∧
          n.GetOtherChildIndex = i + 1 + l.nodeCount ∧
          t.preorder[i + 1]? = some l ∧
          t.preorder[n.GetOtherChildIndex]? = some r) := by
  norm_num at hN hT
  obtain ⟨s, -, hc, -, -, hlen, -, hst, -, -⟩ := Compress_ok t (by omega) (by omega)
  refine ⟨s, hc, by rw [hlen, preorder_length], ?_, ?_⟩
  · intro i d h
    obtain ⟨q1, h1⟩ := Stored_preorder t _ _ 0 0 hst i _ h
    simp only [Stored, Nat.zero_add] at h1
    exact ⟨q1, h1.1⟩
  · intro i d a sp p0 p1 l r h
    obtain ⟨q1, h1⟩ := Stored_preorder t _ _ 0 0 hst i _ h
    obtain ⟨h2, h3, h4⟩ := preorder_children t i d a sp p0 p1 l r h
    have hpr := nodeCount_pos r
    simp only [Stored, Nat.zero_add] at h1
    have hidx : ((CompressedKdNode.Internal (toShort a) sp).SetOtherChild
        (i + 1 + l.nodeCount)).GetOtherChildIndex = i + 1 + l.nodeCount := by
      rw [patched_GetOtherChildIndex]
      exact Nat.mod_eq_of_lt (by omega)
    refine ⟨_, h1.1, rfl, hidx, h2, ?_⟩
    rw [hidx]
    exact h3

/-- Witness for C5: the small tree of five nodes. -/
theorem C5_preorder_layout_witness :
    smallTree.nodeCount < 2 ^ 30 ∧ smallTree.triangleCount < 2 ^ 31 ∧
    ∃ s, Compress smallTree = some (s, CompressOutcome.successful) ∧
      s.compressed_array.length = smallTree.preorder.length := by
  have h1 : smallTree.nodeCount < 2 ^ 30 := by decide
  have h2 : smallTree.triangleCount < 2 ^ 31 := by decide
  obtain ⟨s, h3, h4, -⟩ := C5_preorder_layout smallTree h1 h2
  exact ⟨h1, h2, s, h3, h4⟩

theorem comb_counts (n : Nat) :
    (comb n).nodeCount = 2 * n + 1 ∧ (comb n).triangleCount = 0 := by
  induction n with
  | zero => exact ⟨rfl, rfl⟩
  | succ n ih =>
    obtain ⟨h1, h2⟩ := ih
    refine ⟨?_, ?_⟩
    · show (comb n).nodeCount + 1 + 1 = 2 * (n + 1) + 1
      omega
    · show (comb n).triangleCount + 0 = 0
      omega

theorem comb_root_index (m : Nat) (hm : 2 * m + 1 = 1073741823) :
    (comb m).nodeCount = 1073741823 ∧
    ∃ s n, Compress (splitOf 0 (comb m) (leafOf [])) = some (s, CompressOutcome.successful) ∧
      s.compressed_array[0]? = some (some n) ∧ n.GetOtherChildIndex = 0 := by
  obtain ⟨hc1, hc2⟩ := comb_counts m
  have hN : (splitOf 0 (comb m) (leafOf [])).nodeCount = 1073741825 := by
    simp only [splitOf, leafOf, UncompressedKdNode.nodeCount, hc1]
    omega
  have hT : (splitOf 0 (comb m) (leafOf [])).triangleCount = 0 := by
    simp only [splitOf, leafOf, UncompressedKdNode.triangleCount, hc2, List.length_nil]
  obtain ⟨s, -, hc, -, -, -, -, hst, -, -⟩ :=
    Compress_ok (splitOf 0 (comb m) (leafOf [])) (by omega) (by omega)
  simp only [splitOf, Stored] at hst
  refine ⟨by omega, s, _, hc, hst.1, ?_⟩
  rw [patched_GetOtherChildIndex, hc1]
  omega

/-- C5 fails as stated: in a comb of 2^30 + 1 nodes the left subtree of the
root has 2^30 - 1 nodes, so the right child of the root is stored at index
2^30, but the other-child index stored in slot 0 reads back as 0 (`pos << 2`
does not fit in 32 bits). -/
theorem C5_counterexample :
    (comb 536870911).nodeCount = 1073741823 ∧
    ∃ s n, Compress deepComb = some (s, CompressOutcome.successful) ∧
      s.compressed_array[0]? = some (some n) ∧ n.GetOtherChildIndex = 0 :=
  comb_root_index 536870911 (by decide)

/-! ## Fresnel (C9, C10) -/

section FresnelProofs

variable {K : Type} [LinearOrderedField K]

theorem ratio_sq_le_one (a b : K) (ha : 0 ≤ a) (hb : 0 < b) :
    (a - b) / (a + b) * ((a - b) / (a + b)) ≤ 1 ∧
    ((a - b) / (a + b) * ((a - b) / (a + b)) = 1 ↔ a = 0) := by
  have hs : 0 < a + b := by linarith
  have hss : 0 < (a + b) * (a + b) := mul_pos hs hs
  rw [div_mul_div_comm]
  constructor
  · rw [div_le_one hss]
    nlinarith [mul_nonneg ha hb.le]
  · rw [div_eq_one_iff_eq hss.ne']
    constructor
    · intro h
      have h4 : a * b = 0 := by linarith
      rcases mul_eq_zero.1 h4 with h0 | h0
      · exact h0
      · exact absurd h0 hb.ne'
    · intro h
      rw [h]
      ring

theorem Fresnel_etas_pos (I N : Vec3 K) (ior : K) (hior : 0 < ior) :
    0 < (Fresnel.etas I N ior).1 ∧ 0 < (Fresnel.etas I N ior).2 := by
  unfold Fresnel.etas
  by_cases hc : dot I N > 0
  · simp only [hc, if_true]
    exact ⟨hior, one_pos⟩
  · simp only [hc, if_false]
    exact ⟨one_pos, hior⟩

theorem Fresnel_sint_nonneg (sqrt : K → K) (hs0 : ∀ x, 0 ≤ sqrt x) (I N : Vec3 K) (ior : K)
    (hior : 0 < ior) : 0 ≤ Fresnel.sint sqrt I N ior := by
  obtain ⟨h1, h2⟩ := Fresnel_etas_pos I N ior hior
  unfold Fresnel.sint
  exact mul_nonneg (div_pos h1 h2).le (hs0 _)

/-- Below total internal reflection `Fresnel` is the mean of two squared ratios
`(a - b) / (a + b)` with `a ≥ 0` and `b > 0`: no denominator vanishes. -/
theorem Fresnel_partial (sqrt : K → K) (hs0 : ∀ x, 0 ≤ sqrt x) (hs1 : ∀ x, 0 < x → 0 < sqrt x)
    (I N : Vec3 K) (ior : K) (hior : 0 < ior) (h : ¬ Fresnel.sint sqrt I N ior ≥ 1) :
    ∃ a b c d : K, 0 ≤ a ∧ 0 < b ∧ 0 ≤ c ∧ 0 < d ∧ (a = 0 ↔ dot I N = 0) ∧
      (c = 0 ↔ dot I N = 0) ∧
      Fresnel sqrt I N ior =
        ((a - b) / (a + b) * ((a - b) / (a + b)) + (c - d) / (c + d) * ((c - d) / (c + d))) / 2 := by
  obtain ⟨h1, h2⟩ := Fresnel_etas_pos I N ior hior
  have hsn := Fresnel_sint_nonneg sqrt hs0 I N ior hior
  have hlt : Fresnel.sint sqrt I N ior < 1 := not_le.1 h
  have hsq : 0 < 1 - Fresnel.sint sqrt I N ior * Fresnel.sint sqrt I N ior := by nlinarith
  have hcost : 0 < sqrt (max 0 (1 - Fresnel.sint sqrt I N ior * Fresnel.sint sqrt I N ior)) :=
    hs1 _ (lt_max_of_lt_right hsq)
  refine ⟨(Fresnel.etas I N ior).2 * |dot I N|,
    (Fresnel.etas I N ior).1 * sqrt (max 0 (1 - Fresnel.sint sqrt I N ior *
      Fresnel.sint sqrt I N ior)),
    (Fresnel.etas I N ior).1 * |dot I N|,
    (Fresnel.etas I N ior).2 * sqrt (max 0 (1 - Fresnel.sint sqrt I N ior *
      Fresnel.sint sqrt I N ior)),
    mul_nonneg h2.le (abs_nonneg _), mul_pos h1 hcost, mul_nonneg h1.le (abs_nonneg _),
    mul_pos h2 hcost, ?_, ?_, ?_⟩
  · rw [mul_eq_zero, abs_eq_zero]
    exact ⟨fun hh => hh.resolve_left h2.ne', fun hh => Or.inr hh⟩
  · rw [mul_eq_zero, abs_eq_zero]
    exact ⟨fun hh => hh.resolve_left h1.ne', fun hh => Or.inr hh⟩
  · simp only [Fresnel, h, if_false]

theorem Fresnel_bounds_general (sqrt : K → K) (hs0 : ∀ x, 0 ≤ sqrt x)
    (hs1 : ∀ x, 0 < x → 0 < sqrt x) (I N : Vec3 K) (ior : K) (hior : 0 < ior) :
    0 ≤ Fresnel sqrt I N ior ∧ Fresnel sqrt I N ior ≤ 1 := by
  by_cases h : Fresnel.sint sqrt I N ior ≥ 1
  · simp only [Fresnel, h, if_true]
    exact ⟨zero_le_one, le_refl _⟩
  · obtain ⟨a, b, c, d, ha, hb, hc, hd, -, -, hF⟩ :=
      Fresnel_partial sqrt hs0 hs1 I N ior hior h
    have h1 := (ratio_sq_le_one a b ha hb).1
    have h2 := (ratio_sq_le_one c d hc hd).1
    have h3 := mul_self_nonneg ((a - b) / (a + b))
    have h4 := mul_self_nonneg ((c - d) / (c + d))
    rw [hF]
    constructor
    · linarith
    · linarith

end FresnelProofs

/-- C9. Fresnel bounds: for all vectors `I`, `N` and every refractive ratio
`ior > 0`, with arithmetic over the reals, `Fresnel(I, N, ior)` lies in [0, 1]. -/
theorem C9_Fresnel_bounds (I N : Vec3 ℝ) (ior : ℝ) (hior : 0 < ior) :
    0 ≤ Fresnel Real.sqrt I N ior ∧ Fresnel Real.sqrt I N ior ≤ 1 :=
  Fresnel_bounds_general Real.sqrt Real.sqrt_nonneg (fun _ hx => Real.sqrt_pos.2 hx) I N ior hior

/-- Witness for C9: normal incidence on glass, `ior = 3/2`. -/
theorem C9_Fresnel_bounds_witness :
    (0 : ℝ) < 3 / 2 ∧
    0 ≤ Fresnel Real.sqrt ⟨0, 0, -1⟩ ⟨0, 0, 1⟩ (3 / 2) ∧
    Fresnel Real.sqrt ⟨0, 0, -1⟩ ⟨0, 0, 1⟩ (3 / 2) ≤ 1 :=
  ⟨by norm_num, C9_Fresnel_bounds ⟨0, 0, -1⟩ ⟨0, 0, 1⟩ (3 / 2) (by norm_num)⟩

section BuilderProofs

variable {K : Type} [LinearOrderedField K]

theorem compareEvents_false_pos_le (a b : BBEvent K) (h : compareEvents b a = false) :
    a.pos ≤ b.pos := by
  unfold compareEvents at h
  by_cases hp : b.pos = a.pos
  · exact hp.ge
  · simp only [hp, if_false, decide_eq_false_iff_not, not_lt] at h
    exact h

theorem sorted_pos_le (l : List (BBEvent K))
    (hp : l.Pairwise (fun a b => compareEvents b a = false)) (i j : Nat) (hij : i < j)
    (ei ej : BBEvent K) (hi : l[i]? = some ei) (hj : l[j]? = some ej) : ei.pos ≤ ej.pos := by
  obtain ⟨hi1, rfl⟩ := List.getElem?_eq_some_iff.1 hi
  obtain ⟨hj1, rfl⟩ := List.getElem?_eq_some_iff.1 hj
  exact compareEvents_false_pos_le _ _ (List.pairwise_iff_getElem.1 hp i j hi1 hj1 hij)

theorem mem_makeEvents (ae : List K) (tris : List Nat) (e : BBEvent K) :
    e ∈ makeEvents ae tris ↔ ∃ t, t ∈ tris ∧
      (e = { pos := ae.getD (2 * t) 0, triangleID := t, type := BBEventType.BEGIN } ∨
       e = { pos := ae.getD (2 * t + 1) 0, triangleID := t, type := BBEventType.END }) := by
  simp [makeEvents]

theorem mem_sortedEvents (sort : List (BBEvent K) → List (BBEvent K)) (hsort : IsEventSort sort)
    (sc : SceneEvents K) (d : KdNodeFields K) (axis : Nat) (e : BBEvent K) :
    e ∈ sortedEvents sort sc d axis ↔ ∃ t, t ∈ d.triangle_indices ∧
      (e = { pos := (extent sc axis t).1, triangleID := t, type := BBEventType.BEGIN } ∨
       e = { pos := (extent sc axis t).2, triangleID := t, type := BBEventType.END }) := by
  unfold sortedEvents
  rw [(hsort _).1.mem_iff, mem_makeEvents]
  rfl

theorem sweepStep_best (d : KdNodeFields K) (axis : Nat) (st : SweepState K) (i : Nat)
    (e : BBEvent K) (b : SplitCandidate K) (h : (sweepStep d axis st i e).best = some b) :
    st.best = some b ∨
      (b.best_offset = i ∧ b.best_pos = e.pos ∧
        (axis_bounds d axis).1 < e.pos ∧ e.pos < (axis_bounds d axis).2) := by
  unfold sweepStep at h
  simp only at h
  split at h
  · rename_i hin
    split at h
    · exact Or.inl h
    · split at h
      · simp only [Option.some.injEq] at h
        subst h
        exact Or.inr ⟨rfl, rfl, hin.1, hin.2⟩
      · split at h
        · simp only [Option.some.injEq] at h
          subst h
          exact Or.inr ⟨rfl, rfl, hin.1, hin.2⟩
        · rename_i hb _
          exact Or.inl (hb.trans h)
  · exact Or.inl h

theorem sweep_best (d : KdNodeFields K) (axis : Nat) (all : List (BBEvent K)) :
    ∀ (es : List (BBEvent K)) (i : Nat) (st : SweepState K),
      (∀ j e, es[j]? = some e → all[i + j]? = some e) →
      (∀ b, st.best = some b → ∃ e, all[b.best_offset]? = some e ∧ e.pos = b.best_pos ∧
        (axis_bounds d axis).1 < e.pos ∧ e.pos < (axis_bounds d axis).2) →
      ∀ b, (sweep d axis i es st).best = some b →
        ∃ e, all[b.best_offset]? = some e ∧ e.pos = b.best_pos ∧
          (axis_bounds d axis).1 < e.pos ∧ e.pos < (axis_bounds d axis).2 := by
  intro es
  induction es with
  | nil =>
    intro i st _ hst b hb
    exact hst b hb
  | cons e es ih =>
    intro i st hall hst b hb
    simp only [sweep] at hb
    refine ih (i + 1) (sweepStep d axis st i e) ?_ ?_ b hb
    · intro j e1 hj
      have := hall (j + 1) e1 (by simpa using hj)
      rw [show i + 1 + j = i + (j + 1) by omega]
      exact this
    · intro b1 hb1
      rcases sweepStep_best d axis st i e b1 hb1 with h1 | ⟨h1, h2, h3, h4⟩
      · exact hst b1 h1
      · refine ⟨e, ?_, h2.symm, h3, h4⟩
        rw [h1]
        exact hall 0 e (by simp)

theorem trySplit_some (sort : List (BBEvent K) → List (BBEvent K)) (sc : SceneEvents K)
    (d : KdNodeFields K) (axis : Nat) (b : SplitCandidate K)
    (h : trySplit sort sc d axis = some b) :
    (∃ e, (sortedEvents sort sc d axis)[b.best_offset]? = some e ∧ e.pos = b.best_pos ∧
      (axis_bounds d axis).1 < e.pos ∧ e.pos < (axis_bounds d axis).2) ∧
    b.best_cost ≤ ISECT_COST * (d.triangle_indices.length : K) := by
  unfold trySplit at h
  simp only at h
  split at h
  · exact absurd h (by simp)
  · rename_i b1 hb1
    split at h
    · exact absurd h (by simp)
    · rename_i hc
      simp only [Option.some.injEq] at h
      subst h
      refine ⟨?_, not_lt.1 hc⟩
      exact sweep_best d axis _ _ 0 _ (fun j e hj => by simpa using hj)
        (fun b2 hb2 => absurd hb2 (by simp)) b1 hb1

theorem splitSearch_some (sort : List (BBEvent K) → List (BBEvent K)) (sc : SceneEvents K)
    (d : KdNodeFields K) :
    ∀ (k axis ax : Nat) (b : SplitCandidate K), axis < 3 →
      splitSearch sort sc d k axis = some (ax, b) → ax < 3 ∧ trySplit sort sc d ax = some b := by
  intro k
  induction k with
  | zero =>
    intro axis ax b hax h
    unfold splitSearch at h
    split at h
    · rename_i b1 hb1
      simp only [Option.some.injEq, Prod.mk.injEq] at h
      obtain ⟨rfl, rfl⟩ := h
      exact ⟨hax, hb1⟩
    · exact absurd h (by simp)
  | succ k ih =>
    intro axis ax b hax h
    unfold splitSearch at h
    split at h
    · rename_i b1 hb1
      simp only [Option.some.injEq, Prod.mk.injEq] at h
      obtain ⟨rfl, rfl⟩ := h
      exact ⟨hax, hb1⟩
    · exact ih ((axis + 1) % 3) ax b (Nat.mod_lt _ (by decide)) h

theorem maxAxis_lt (a b c : K) : maxAxis a b c < 3 := by
  unfold maxAxis
  split <;> split <;> decide

theorem SubdivideAux_fields (sort : List (BBEvent K) → List (BBEvent K)) (sc : SceneEvents K)
    (md budget : Nat) (d : KdNodeFields K) (t : UncompressedKdNode K)
    (h : SubdivideAux sort sc md budget d = some t) : t.fields = d := by
  cases budget with
  | zero =>
    simp only [SubdivideAux, Option.some.injEq] at h
    subst h
    rfl
  | succ k =>
    simp only [SubdivideAux] at h
    split at h
    · simp only [Option.some.injEq] at h; subst h; rfl
    · split at h
      · exact absurd h (by simp)
      · split at h
        · simp only [Option.some.injEq] at h; subst h; rfl
        · split at h
          · exact absurd h (by simp)
          · split at h
            · simp only [Option.some.injEq] at h; subst h; rfl
            · split at h
              · exact absurd h (by simp)
              · split at h
                · simp only [Option.some.injEq] at h; subst h; rfl
                · exact absurd h (by simp)

theorem SubdivideAux_internal (sort : List (BBEvent K) → List (BBEvent K)) (sc : SceneEvents K)
    (md budget : Nat) (d d1 : KdNodeFields K) (a : Int) (sp p0 p1 : K)
    (ch0 ch1 : UncompressedKdNode K)
    (h : SubdivideAux sort sc md budget d = some (.INTERNAL d1 a sp p0 p1 ch0 ch1)) :
    ∃ (ax : Nat) (b : SplitCandidate K) (k : Nat),
      budget = k + 1 ∧ d1 = d ∧ a = (ax : Int) ∧ ax < 3 ∧ d.depth < md ∧
      2 ≤ d.triangle_indices.length ∧
      trySplit sort sc d ax = some b ∧ sp = b.best_pos ∧ p0 = b.prob0 ∧ p1 = b.prob1 ∧
      SubdivideAux sort sc md k (child0 d ax b.best_pos
        (leftTriangles (sortedEvents sort sc d ax) b.best_offset)) = some ch0 ∧
      SubdivideAux sort sc md k (child1 d ax b.best_pos
        (rightTriangles (sortedEvents sort sc d ax) b.best_offset)) = some ch1 := by
  cases budget with
  | zero => simp [SubdivideAux] at h
  | succ k =>
    simp only [SubdivideAux] at h
    split at h
    · simp at h
    · rename_i hdepth
      split at h
      · exact absurd h (by simp)
      · split at h
        · simp at h
        · rename_i hn
          split at h
          · exact absurd h (by simp)
          · split at h
            · simp at h
            · rename_i ax b hsearch
              obtain ⟨hax, htry⟩ :=
                splitSearch_some sort sc d 2 _ ax b (maxAxis_lt _ _ _) hsearch
              split at h
              · exact absurd h (by simp)
              · split at h
                · rename_i c0 c1 h0 h1
                  simp only [Option.some.injEq, UncompressedKdNode.INTERNAL.injEq] at h
                  obtain ⟨rfl, rfl, rfl, rfl, rfl, rfl, rfl⟩ := h
                  exact ⟨ax, b, k, rfl, rfl, rfl, hax, by omega, by omega, htry, rfl, rfl, rfl,
                    h0, h1⟩
                · exact absurd h (by simp)

omit [LinearOrderedField K] in
theorem mem_leftTriangles (events : List (BBEvent K)) (off i : Nat) (e : BBEvent K)
    (hi : i < off) (he : events[i]? = some e) (hty : e.type = BBEventType.BEGIN) :
    e.triangleID ∈ leftTriangles events off := by
  unfold leftTriangles
  refine List.mem_map.2 ⟨e, List.mem_filter.2 ⟨?_, by simpa using hty⟩, rfl⟩
  exact List.mem_iff_getElem?.2 ⟨i, by rw [List.getElem?_take_of_lt hi]; exact he⟩

omit [LinearOrderedField K] in
theorem mem_rightTriangles (events : List (BBEvent K)) (off i : Nat) (e : BBEvent K)
    (hi : off < i) (he : events[i]? = some e) (hty : e.type = BBEventType.END) :
    e.triangleID ∈ rightTriangles events off := by
  unfold rightTriangles
  refine List.mem_map.2 ⟨e, List.mem_filter.2 ⟨?_, by simpa using hty⟩, rfl⟩
  refine List.mem_iff_getElem?.2 ⟨i - (off + 1), ?_⟩
  rw [List.getElem?_drop, show off + 1 + (i - (off + 1)) = i by omega]
  exact he

omit [LinearOrderedField K] in
theorem leftTriangles_sound (events : List (BBEvent K)) (off t : Nat)
    (h : t ∈ leftTriangles events off) :
    ∃ i e, i < off ∧ events[i]? = some e ∧ e.type = BBEventType.BEGIN ∧ e.triangleID = t := by
  unfold leftTriangles at h
  obtain ⟨e, he, rfl⟩ := List.mem_map.1 h
  obtain ⟨htake, hty⟩ := List.mem_filter.1 he
  obtain ⟨i, hi⟩ := List.mem_iff_getElem?.1 htake
  have hlt : i < off := by
    have := (List.getElem?_eq_some_iff.1 hi).1
    simp only [List.length_take] at this
    omega
  rw [List.getElem?_take_of_lt hlt] at hi
  exact ⟨i, e, hlt, hi, by simpa using hty, rfl⟩

omit [LinearOrderedField K] in
theorem rightTriangles_sound (events : List (BBEvent K)) (off t : Nat)
    (h : t ∈ rightTriangles events off) :
    ∃ i e, off < i ∧ events[i]? = some e ∧ e.type = BBEventType.END ∧ e.triangleID = t := by
  unfold rightTriangles at h
  obtain ⟨e, he, rfl⟩ := List.mem_map.1 h
  obtain ⟨hdrop, hty⟩ := List.mem_filter.1 he
  obtain ⟨i, hi⟩ := List.mem_iff_getElem?.1 hdrop
  rw [List.getElem?_drop] at hi
  exact ⟨off + 1 + i, e, by omega, hi, by simpa using hty, rfl⟩

/-- The partition of a split node: a triangle whose extent on the split axis
begins strictly below the split position is given to `ch0`, one whose extent
ends strictly above it is given to `ch1`. -/
theorem partition_of_split (sort : List (BBEvent K) → List (BBEvent K))
    (hsort : IsEventSort sort) (sc : SceneEvents K) (d : KdNodeFields K) (ax : Nat)
    (b : SplitCandidate K) (htry : trySplit sort sc d ax = some b) (t : Nat)
    (ht : t ∈ d.triangle_indices) :
    ((extent sc ax t).1 < b.best_pos →
      t ∈ leftTriangles (sortedEvents sort sc d ax) b.best_offset) ∧
    (b.best_pos < (extent sc ax t).2 →
      t ∈ rightTriangles (sortedEvents sort sc d ax) b.best_offset) := by
  obtain ⟨⟨e0, he0, hpos0, -, -⟩, -⟩ := trySplit_some sort sc d ax b htry
  have hpw := (hsort (makeEvents (sc.evch ax) d.triangle_indices)).2
  constructor
  · intro hlt
    have hmem : ({ pos := (extent sc ax t).1, triangleID := t, type := BBEventType.BEGIN } :
        BBEvent K) ∈ sortedEvents sort sc d ax :=
      (mem_sortedEvents sort hsort sc d ax _).2 ⟨t, ht, Or.inl rfl⟩
    obtain ⟨i, hi⟩ := List.mem_iff_getElem?.1 hmem
    have hio : i < b.best_offset := by
      by_contra hcon
      rcases Nat.lt_or_ge b.best_offset i with h1 | h1
      · have := sorted_pos_le _ hpw _ _ h1 _ _ he0 hi
        simp only at this
        rw [hpos0] at this
        exact absurd hlt (not_lt.2 this)
      · have hieq : i = b.best_offset := by omega
        rw [hieq, he0] at hi
        simp only [Option.some.injEq] at hi
        rw [hi] at hpos0
        simp only at hpos0
        rw [hpos0] at hlt
        exact lt_irrefl _ hlt
    exact mem_leftTriangles _ _ i _ hio hi rfl
  · intro hlt
    have hmem : ({ pos := (extent sc ax t).2, triangleID := t, type := BBEventType.END } :
        BBEvent K) ∈ sortedEvents sort sc d ax :=
      (mem_sortedEvents sort hsort sc d ax _).2 ⟨t, ht, Or.inr rfl⟩
    obtain ⟨i, hi⟩ := List.mem_iff_getElem?.1 hmem
    have hio : b.best_offset < i := by
      by_contra hcon
      rcases Nat.lt_or_ge i b.best_offset with h1 | h1
      · have := sorted_pos_le _ hpw _ _ h1 _ _ hi he0
        simp only at this
        rw [hpos0] at this
        exact absurd hlt (not_lt.2 this)
      · have hieq : i = b.best_offset := by omega
        rw [hieq, he0] at hi
        simp only [Option.some.injEq] at hi
        rw [hi] at hpos0
        simp only at hpos0
        rw [hpos0] at hlt
        exact lt_irrefl _ hlt
    exact mem_rightTriangles _ _ i _ hio hi rfl

end BuilderProofs

/-- C6. For every node that `Subdivide` splits on an axis at position
`split_pos`, every triangle of the node whose extent on that axis straddles
the plane (`min < split_pos < max`) is placed in the triangle list of both
children, whatever admissible result the event sort returns. -/
theorem C6_straddling_in_both_children {K : Type} [LinearOrderedField K]
    (sort : List (BBEvent K) → List (BBEvent K)) (hsort : IsEventSort sort)
    (parent_scene : SceneEvents K) (max_depth : Nat) (d d1 : KdNodeFields K)
    (split_axis : Int) (split_pos prob0 prob1 : K) (ch0 ch1 : UncompressedKdNode K)
    (hsplit : Subdivide sort parent_scene max_depth d =
      some (.INTERNAL d1 split_axis split_pos prob0 prob1 ch0 ch1))
    (t : Nat) (ht : t ∈ d.triangle_indices)
    (hmin : (extent parent_scene split_axis.toNat t).1 < split_pos)
    (hmax : split_pos < (extent parent_scene split_axis.toNat t).2) :
    t ∈ ch0.fields.triangle_indices ∧ t ∈ ch1.fields.triangle_indices := by
  obtain ⟨ax, b, k, -, -, rfl, -, -, -, htry, rfl, -, -, h0, h1⟩ :=
    SubdivideAux_internal sort parent_scene max_depth _ d d1 split_axis split_pos prob0 prob1
      ch0 ch1 hsplit
  rw [Int.toNat_ofNat] at hmin hmax
  obtain ⟨hl, hr⟩ := partition_of_split sort hsort parent_scene d ax b htry t ht
  rw [SubdivideAux_fields sort parent_scene max_depth k _ ch0 h0,
    SubdivideAux_fields sort parent_scene max_depth k _ ch1 h1]
  exact ⟨hl hmin, hr hmax⟩

/-! ## The insertion sort is an admissible event sort -/

theorem compareEvents_iff {K : Type} [LinearOrderedField K] (a b : BBEvent K) :
    compareEvents a b = true ↔
      (a.pos < b.pos ∨
        (a.pos = b.pos ∧ a.type = BBEventType.BEGIN ∧ b.type = BBEventType.END)) := by
  unfold compareEvents
  by_cases hp : a.pos = b.pos
  · simp [hp]
  · simp [hp]

theorem compareEvents_asymm {K : Type} [LinearOrderedField K] (a b : BBEvent K)
    (h : compareEvents a b = true) : compareEvents b a = false := by
  rw [← Bool.not_eq_true, compareEvents_iff]
  rw [compareEvents_iff] at h
  rintro (h1 | ⟨h1, h2, h3⟩)
  · rcases h with h | ⟨h, -, -⟩
    · exact lt_asymm h h1
    · rw [h] at h1
      exact lt_irrefl _ h1
  · rcases h with h | ⟨-, -, h⟩
    · rw [h1] at h
      exact lt_irrefl _ h
    · rw [h] at h2
      exact absurd h2 (by decide)

theorem compareEvents_trans {K : Type} [LinearOrderedField K] (a b c : BBEvent K)
    (hab : compareEvents a b = true) (hbc : compareEvents b c = true) :
    compareEvents a c = true := by
  rw [compareEvents_iff] at hab hbc ⊢
  rcases hab with h1 | ⟨h1, h2, h3⟩
  · rcases hbc with h4 | ⟨h4, -, -⟩
    · exact Or.inl (lt_trans h1 h4)
    · exact Or.inl (h4 ▸ h1)
  · rcases hbc with h4 | ⟨-, h5, -⟩
    · exact Or.inl (h1 ▸ h4)
    · rw [h5] at h3
      exact absurd h3 (by decide)

theorem insertEvent_perm {K : Type} [LinearOrderedField K] (e : BBEvent K)
    (l : List (BBEvent K)) : (insertEvent e l).Perm (e :: l) := by
  induction l with
  | nil => exact List.Perm.refl _
  | cons x xs ih =>
    unfold insertEvent
    split
    · exact List.Perm.refl _
    · exact (List.Perm.cons x ih).trans (List.Perm.swap e x xs)

theorem insertEvent_pairwise {K : Type} [LinearOrderedField K] (e : BBEvent K)
    (l : List (BBEvent K)) (h : l.Pairwise (fun a b => compareEvents b a = false)) :
    (insertEvent e l).Pairwise (fun a b => compareEvents b a = false) := by
  induction l with
  | nil => exact List.pairwise_singleton _ _
  | cons x xs ih =>
    obtain ⟨hx, hxs⟩ := List.pairwise_cons.1 h
    unfold insertEvent
    split
    · rename_i hex
      refine List.pairwise_cons.2 ⟨?_, h⟩
      intro y hy
      rcases List.mem_cons.1 hy with rfl | hy
      · exact compareEvents_asymm _ _ hex
      · rw [← Bool.not_eq_true]
        intro hye
        have := compareEvents_trans _ _ _ hye hex
        rw [hx y hy] at this
        exact absurd this (by decide)
    · rename_i hex
      refine List.pairwise_cons.2 ⟨?_, ih hxs⟩
      intro y hy
      rcases List.mem_cons.1 ((insertEvent_perm e xs).mem_iff.1 hy) with rfl | hy
      · simpa using hex
      · exact hx y hy

theorem sortEvents_isEventSort {K : Type} [LinearOrderedField K] :
    IsEventSort (sortEvents : List (BBEvent K) → List (BBEvent K)) := by
  intro l
  induction l with
  | nil => exact ⟨List.Perm.refl _, List.Pairwise.nil⟩
  | cons e es ih =>
    exact ⟨(insertEvent_perm e _).trans (List.Perm.cons e ih.1), insertEvent_pairwise e _ ih.2⟩

theorem tieNode_subdivide : Subdivide sortEvents tieScene 1 tieNode = some tieResult := by
  decide!

/-- Witness for C6: in `tieNode`, split on x at 37, triangle 1 has the extent
[0, 39] on x and is listed in both children. -/
theorem C6_straddling_in_both_children_witness :
    Subdivide sortEvents tieScene 1 tieNode = some tieResult ∧
    1 ∈ tieNode.triangle_indices ∧
    (extent tieScene 0 1).1 < 37 ∧ (37 : ℚ) < (extent tieScene 0 1).2 ∧
    1 ∈ ([1, 0] : List Nat) ∧ 1 ∈ ([1] : List Nat) :=
  ⟨tieNode_subdivide, by decide, by decide!, by decide!,
    C6_straddling_in_both_children sortEvents sortEvents_isEventSort tieScene 1 tieNode tieNode
      0 37 (19 / 20) (3 / 40) _ _ tieNode_subdivide 1 (by decide) (by decide!) (by decide!)⟩

/-! ## SAH progress (C8) -/

/-- C8 (amended). SAH progress: for every node that `Subdivide` splits, the
cost of the winning candidate does not exceed the no-split cost,
`best_cost <= nosplit_cost = ISECT_COST * |T|`. -/
theorem C8_split_cost_le_nosplit {K : Type} [LinearOrderedField K]
    (sort : List (BBEvent K) → List (BBEvent K))
    (parent_scene : SceneEvents K) (max_depth : Nat) (d d1 : KdNodeFields K)
    (split_axis : Int) (split_pos prob0 prob1 : K) (ch0 ch1 : UncompressedKdNode K)
    (hsplit : Subdivide sort parent_scene max_depth d =
      some (.INTERNAL d1 split_axis split_pos prob0 prob1 ch0 ch1)) :
    ∃ b, trySplit sort parent_scene d split_axis.toNat = some b ∧ b.best_pos = split_pos ∧
      b.best_cost ≤ ISECT_COST * (d.triangle_indices.length : K) := by
  obtain ⟨ax, b, k, -, -, rfl, -, -, -, htry, rfl, -, -, -, -⟩ :=
    SubdivideAux_internal sort parent_scene max_depth _ d d1 split_axis split_pos prob0 prob1
      ch0 ch1 hsplit
  rw [Int.toNat_ofNat]
  exact ⟨b, htry, rfl, (trySplit_some sort parent_scene d ax b htry).2⟩

/-- Witness for C8: `tieNode` is split on x at 37 by a candidate of cost 160. -/
theorem C8_split_cost_le_nosplit_witness :
    Subdivide sortEvents tieScene 1 tieNode = some tieResult ∧
    ∃ b, trySplit sortEvents tieScene tieNode 0 = some b ∧ b.best_pos = 37 ∧
      b.best_cost ≤ ISECT_COST * (tieNode.triangle_indices.length : ℚ) :=
  ⟨tieNode_subdivide,
    C8_split_cost_le_nosplit sortEvents tieScene 1 tieNode tieNode 0 37 (19 / 20) (3 / 40) _ _
      tieNode_subdivide⟩

/-- C8 fails as stated: `tieNode` holds two triangles, so its no-split cost is
160; the only candidate inside its box is the end of triangle 0 at x = 37, of
cost 2 + 80 * (2 * 19/20 + 3/40) = 160; the test `best_cost > nosplit_cost` is
false and the node is split with `best_cost = nosplit_cost`. -/
theorem C8_counterexample :
    Subdivide sortEvents tieScene 1 tieNode = some tieResult ∧
    trySplit sortEvents tieScene tieNode 0 =
      some { best_offset := 2, best_cost := 160, best_pos := 37, prob0 := 19 / 20,
             prob1 := 3 / 40 } ∧
    (ISECT_COST : ℚ) * (tieNode.triangle_indices.length : ℚ) = 160 ∧
    ¬ ((160 : ℚ) < ISECT_COST * (tieNode.triangle_indices.length : ℚ)) :=
  ⟨tieNode_subdivide, by decide!, by decide!, by decide!⟩

/-! ## The tree invariant (C7) -/

section InvariantProofs

variable {K : Type} [LinearOrderedField K]

theorem foldl_min_le (es : List K) (e : K) :
    es.foldl min e ≤ e ∧ ∀ x, x ∈ es → es.foldl min e ≤ x := by
  induction es generalizing e with
  | nil => exact ⟨le_refl _, fun x hx => absurd hx (List.not_mem_nil x)⟩
  | cons y ys ih =>
    obtain ⟨h1, h2⟩ := ih (min e y)
    simp only [List.foldl_cons]
    refine ⟨h1.trans (min_le_left _ _), fun x hx => ?_⟩
    rcases List.mem_cons.1 hx with rfl | hx
    · exact h1.trans (min_le_right _ _)
    · exact h2 x hx

theorem le_foldl_max (es : List K) (e : K) :
    e ≤ es.foldl max e ∧ ∀ x, x ∈ es → x ≤ es.foldl max e := by
  induction es generalizing e with
  | nil => exact ⟨le_refl _, fun x hx => absurd hx (List.not_mem_nil x)⟩
  | cons y ys ih =>
    obtain ⟨h1, h2⟩ := ih (max e y)
    simp only [List.foldl_cons]
    refine ⟨(le_max_left _ _).trans h1, fun x hx => ?_⟩
    rcases List.mem_cons.1 hx with rfl | hx
    · exact (le_max_right _ _).trans h1
    · exact h2 x hx

theorem minmax_element_bounds (l : List K) (p : K × K) (h : minmax_element l = some p) :
    ∀ x, x ∈ l → p.1 ≤ x ∧ x ≤ p.2 := by
  cases l with
  | nil => simp [minmax_element] at h
  | cons e es =>
    simp only [minmax_element, Option.some.injEq] at h
    subst h
    intro x hx
    rcases List.mem_cons.1 hx with rfl | hx
    · exact ⟨(foldl_min_le es x).1, (le_foldl_max es x).1⟩
    · exact ⟨(foldl_min_le es e).2 x hx, (le_foldl_max es e).2 x hx⟩

theorem bound_fill_getElem (triangles : List (Triangle K)) (axis : Nat) :
    ∀ (t : Nat) (tri : Triangle K), triangles[t]? = some tri →
      (bound_fill_func triangles axis)[2 * t]? =
        some (min (min (tri.A.get axis) (tri.B.get axis)) (tri.C.get axis)) ∧
      (bound_fill_func triangles axis)[2 * t + 1]? =
        some (max (max (tri.A.get axis) (tri.B.get axis)) (tri.C.get axis)) := by
  induction triangles with
  | nil => intro t tri h; simp at h
  | cons x xs ih =>
    intro t tri h
    cases t with
    | zero =>
      simp only [List.getElem?_cons_zero, Option.some.injEq] at h
      subst h
      simp [bound_fill_func]
    | succ t =>
      simp only [List.getElem?_cons_succ] at h
      obtain ⟨h1, h2⟩ := ih t tri h
      simp only [bound_fill_func, List.flatMap_cons] at h1 h2 ⊢
      constructor
      · rw [show 2 * (t + 1) = 2 * t + 1 + 1 by omega]
        simpa using h1
      · rw [show 2 * (t + 1) + 1 = 2 * t + 1 + 1 + 1 by omega]
        simpa using h2

omit [LinearOrderedField K] in
theorem axis_bounds_child0 (d : KdNodeFields K) (ax : Nat) (pos : K) (tris : List Nat)
    (axis : Nat) (hax : ax < 3) (haxis : axis < 3) :
    axis_bounds (child0 d ax pos tris) axis =
      if axis = ax then ((axis_bounds d axis).1, pos) else axis_bounds d axis := by
  interval_cases ax <;> interval_cases axis <;> simp [axis_bounds, child0]

omit [LinearOrderedField K] in
theorem axis_bounds_child1 (d : KdNodeFields K) (ax : Nat) (pos : K) (tris : List Nat)
    (axis : Nat) (hax : ax < 3) (haxis : axis < 3) :
    axis_bounds (child1 d ax pos tris) axis =
      if axis = ax then (pos, (axis_bounds d axis).2) else axis_bounds d axis := by
  interval_cases ax <;> interval_cases axis <;> simp [axis_bounds, child1]

theorem children_meet (sort : List (BBEvent K) → List (BBEvent K)) (hsort : IsEventSort sort)
    (sc : SceneEvents K) (d : KdNodeFields K) (ax : Nat) (hax : ax < 3) (b : SplitCandidate K)
    (htry : trySplit sort sc d ax = some b)
    (hd : ∀ t, t ∈ d.triangle_indices → MeetsBox sc d t) :
    (∀ t, t ∈ leftTriangles (sortedEvents sort sc d ax) b.best_offset →
      MeetsBox sc (child0 d ax b.best_pos
        (leftTriangles (sortedEvents sort sc d ax) b.best_offset)) t) ∧
    (∀ t, t ∈ rightTriangles (sortedEvents sort sc d ax) b.best_offset →
      MeetsBox sc (child1 d ax b.best_pos
        (rightTriangles (sortedEvents sort sc d ax) b.best_offset)) t) := by
  obtain ⟨⟨e0, he0, hpos0, -, -⟩, -⟩ := trySplit_some sort sc d ax b htry
  have hpw := (hsort (makeEvents (sc.evch ax) d.triangle_indices)).2
  constructor
  · intro t ht
    obtain ⟨i, e, hi, he, hty, rfl⟩ := leftTriangles_sound _ _ _ ht
    have hmem := (mem_sortedEvents sort hsort sc d ax e).1 (List.mem_iff_getElem?.2 ⟨i, he⟩)
    obtain ⟨t1, ht1, hcase⟩ := hmem
    have hle := sorted_pos_le _ hpw _ _ hi _ _ he he0
    rw [hpos0] at hle
    rcases hcase with rfl | rfl
    · intro axis haxis
      rw [axis_bounds_child0 d ax _ _ axis hax haxis]
      by_cases hx : axis = ax
      · subst hx
        simp only [if_true]
        exact ⟨hle, (hd t1 ht1 axis haxis).2⟩
      · simp only [hx, if_false]
        exact hd t1 ht1 axis haxis
    · simp at hty
  · intro t ht
    obtain ⟨i, e, hi, he, hty, rfl⟩ := rightTriangles_sound _ _ _ ht
    have hmem := (mem_sortedEvents sort hsort sc d ax e).1 (List.mem_iff_getElem?.2 ⟨i, he⟩)
    obtain ⟨t1, ht1, hcase⟩ := hmem
    have hle := sorted_pos_le _ hpw _ _ hi _ _ he0 he
    rw [hpos0] at hle
    rcases hcase with rfl | rfl
    · simp at hty
    · intro axis haxis
      rw [axis_bounds_child1 d ax _ _ axis hax haxis]
      by_cases hx : axis = ax
      · subst hx
        simp only [if_true]
        exact ⟨(hd t1 ht1 axis haxis).1, hle⟩
      · simp only [hx, if_false]
        exact hd t1 ht1 axis haxis

theorem SubdivideAux_meets (sort : List (BBEvent K) → List (BBEvent K))
    (hsort : IsEventSort sort) (sc : SceneEvents K) (md : Nat) (t : UncompressedKdNode K) :
    ∀ (budget : Nat) (d : KdNodeFields K), SubdivideAux sort sc md budget d = some t →
      (∀ x, x ∈ d.triangle_indices → MeetsBox sc d x) → TrianglesMeetBoxes sc t := by
  induction t with
  | LEAF d0 =>
    intro budget d h hd
    have := SubdivideAux_fields sort sc md budget d _ h
    simp only [UncompressedKdNode.fields] at this
    subst this
    exact hd
  | INTERNAL d0 a sp p0 p1 ch0 ch1 ih0 ih1 =>
    intro budget d h hd
    obtain ⟨ax, b, k, -, rfl, -, hax, -, -, htry, -, -, -, h0, h1⟩ :=
      SubdivideAux_internal sort sc md budget d d0 a sp p0 p1 ch0 ch1 h
    obtain ⟨hl, hr⟩ := children_meet sort hsort sc d0 ax hax b htry hd
    exact ⟨hd, ih0 k _ h0 hl, ih1 k _ h1 hr⟩

end InvariantProofs

theorem root_meets_axis {K : Type} [LinearOrderedField K] (triangles : List (Triangle K))
    (axis : Nat) (p : K × K) (hp : minmax_element (bound_fill_func triangles axis) = some p)
    (eps : K) (heps : 0 ≤ eps) (t : Nat) (ht : t < triangles.length) :
    (bound_fill_func triangles axis).getD (2 * t) 0 ≤ p.2 + eps ∧
    p.1 - eps ≤ (bound_fill_func triangles axis).getD (2 * t + 1) 0 := by
  obtain ⟨tri, htri⟩ : ∃ tri, triangles[t]? = some tri :=
    ⟨triangles[t], List.getElem?_eq_getElem ht⟩
  obtain ⟨h1, h2⟩ := bound_fill_getElem triangles axis t tri htri
  have hb1 := minmax_element_bounds _ p hp _ (List.mem_iff_getElem?.2 ⟨_, h1⟩)
  have hb2 := minmax_element_bounds _ p hp _ (List.mem_iff_getElem?.2 ⟨_, h2⟩)
  simp only [List.getD_eq_getElem?_getD, h1, h2, Option.getD_some]
  constructor
  · linarith [hb1.2]
  · linarith [hb2.1]

/-- C7. Tree invariant: in the tree built by `Commit` - its root holds all
triangles, with the enlarged scene bounds - every triangle listed in a node
meets that node's box in the per-axis sense: on each of the three axes the
extent `[min, max]` of the triangle (the minimum and maximum of its three
vertices) intersects the bounds `[lo, hi]` of the node; in particular this
holds for every leaf.  The square root is any function that is non-negative
on non-negative arguments, the sort any admissible result of `std::sort`. -/
theorem C7_triangles_meet_node_boxes {K : Type} [LinearOrderedField K]
    (sqrt : K → K) (hsqrt : ∀ x, 0 ≤ x → 0 ≤ sqrt x)
    (sort : List (BBEvent K) → List (BBEvent K)) (hsort : IsEventSort sort)
    (triangles : List (Triangle K)) (scene : Scene K)
    (hcommit : Commit sqrt sort triangles = some scene) :
    scene.uncompressed_root.fields.triangle_indices = List.range triangles.length ∧
    scene.uncompressed_root.fields.xBB = scene.xBB ∧
    scene.uncompressed_root.fields.yBB = scene.yBB ∧
    scene.uncompressed_root.fields.zBB = scene.zBB ∧
    (∀ (t : Nat) (tri : Triangle K) (axis : Nat), axis < 3 → triangles[t]? = some tri →
      extent scene.events axis t =
        (min (min (tri.A.get axis) (tri.B.get axis)) (tri.C.get axis),
         max (max (tri.A.get axis) (tri.B.get axis)) (tri.C.get axis))) ∧
    TrianglesMeetBoxes scene.events scene.uncompressed_root := by
  unfold Commit at hcommit
  simp only at hcommit
  split at hcommit
  · exact absurd hcommit (by simp)
  · simp only [Option.bind_eq_bind, Option.bind_eq_some, Option.pure_def, Option.some.injEq]
      at hcommit
    obtain ⟨p, hp, q, hq, r, hr, root, hroot, c, hc, rfl⟩ := hcommit
    have hfields := SubdivideAux_fields sort _ _ _ _ _ hroot
    have heps : (0 : K) ≤ 1 / 100000 * sqrt ((p.2 - p.1) * (p.2 - p.1) +
        (q.2 - q.1) * (q.2 - q.1) + (r.2 - r.1) * (r.2 - r.1)) :=
      mul_nonneg (by norm_num) (hsqrt _ (add_nonneg (add_nonneg (mul_self_nonneg _)
        (mul_self_nonneg _)) (mul_self_nonneg _)))
    refine ⟨by rw [hfields], by rw [hfields], by rw [hfields], by rw [hfields], ?_, ?_⟩
    · intro t tri axis haxis ht
      obtain ⟨h1, h2⟩ := bound_fill_getElem triangles axis t tri ht
      interval_cases axis <;>
        simp only [extent, SceneEvents.evch, List.getD_eq_getElem?_getD, h1, h2, Option.getD_some]
    · refine SubdivideAux_meets sort hsort _ _ _ _ _ hroot ?_
      intro t ht axis haxis
      have htlt : t < triangles.length := List.mem_range.1 ht
      interval_cases axis
      · exact root_meets_axis triangles 0 p hp _ heps t htlt
      · exact root_meets_axis triangles 1 q hq _ heps t htlt
      · exact root_meets_axis triangles 2 r hr _ heps t htlt

theorem sqrtStandIn_nonneg (x : ℚ) (_hx : 0 ≤ x) : 0 ≤ sqrtStandIn x := abs_nonneg x

theorem twoTriangles_commit : (Commit sqrtStandIn sortEvents twoTriangles).isSome = true := by
  decide!

/-- Witness for C7: the scene of two triangles side by side. -/
theorem C7_triangles_meet_node_boxes_witness :
    (∀ x, 0 ≤ x → 0 ≤ sqrtStandIn x) ∧
    IsEventSort (sortEvents : List (BBEvent ℚ) → List (BBEvent ℚ)) ∧
    ∃ scene, Commit sqrtStandIn sortEvents twoTriangles = some scene ∧
      TrianglesMeetBoxes scene.events scene.uncompressed_root := by
  obtain ⟨scene, hscene⟩ := Option.isSome_iff_exists.1 twoTriangles_commit
  exact ⟨sqrtStandIn_nonneg, sortEvents_isEventSort, scene, hscene,
    (C7_triangles_meet_node_boxes sqrtStandIn sqrtStandIn_nonneg sortEvents
      sortEvents_isEventSort twoTriangles scene hscene).2.2.2.2.2⟩

/-! ## Epsilon scaling (C13) -/

section ScalingProofs

variable {K : Type} [LinearOrderedField K]

theorem Commit_parts (sqrt : K → K) (sort : List (BBEvent K) → List (BBEvent K))
    (triangles : List (Triangle K)) (scene : Scene K)
    (h : Commit sqrt sort triangles = some scene) :
    triangles.length < 2147483648 ∧
    commitEpsilon sqrt triangles = some scene.epsilon ∧
    scene.max_depth = Nat.log2 triangles.length + 8 ∧
    ∃ root, commitRoot sqrt triangles = some (scene.events, root) ∧
      Subdivide sort scene.events scene.max_depth root = some scene.uncompressed_root := by
  unfold Commit at h
  simp only at h
  split at h
  · exact absurd h (by simp)
  · rename_i hlen
    simp only [Option.bind_eq_bind, Option.bind_eq_some, Option.pure_def, Option.some.injEq] at h
    obtain ⟨p, hp, q, hq, r, hr, root, hroot, c, hc, rfl⟩ := h
    refine ⟨by omega, ?_, rfl, _, ?_, hroot⟩
    · simp only [commitEpsilon, hp, hq, hr, Option.bind_eq_bind, Option.some_bind, Option.pure_def]
    · simp only [commitRoot, commitEpsilon, hp, hq, hr, Option.bind_eq_bind, Option.some_bind,
        Option.pure_def]

theorem foldl_min_map_mul (k : K) (hk : 0 ≤ k) (es : List K) (e : K) :
    (es.map (k * ·)).foldl min (k * e) = k * es.foldl min e := by
  induction es generalizing e with
  | nil => rfl
  | cons x xs ih =>
    simp only [List.map_cons, List.foldl_cons]
    rw [← mul_min_of_nonneg _ _ hk]
    exact ih (min e x)

theorem foldl_max_map_mul (k : K) (hk : 0 ≤ k) (es : List K) (e : K) :
    (es.map (k * ·)).foldl max (k * e) = k * es.foldl max e := by
  induction es generalizing e with
  | nil => rfl
  | cons x xs ih =>
    simp only [List.map_cons, List.foldl_cons]
    rw [← mul_max_of_nonneg _ _ hk]
    exact ih (max e x)

theorem minmax_element_map_mul (k : K) (hk : 0 ≤ k) (l : List K) :
    minmax_element (l.map (k * ·)) = (minmax_element l).map fun p => (k * p.1, k * p.2) := by
  cases l with
  | nil => rfl
  | cons e es =>
    simp only [List.map_cons, minmax_element, Option.map_some', foldl_min_map_mul k hk,
      foldl_max_map_mul k hk]

theorem bound_fill_scale (k : K) (hk : 0 ≤ k) (triangles : List (Triangle K)) (axis : Nat) :
    bound_fill_func (scaleTriangles k triangles) axis =
      (bound_fill_func triangles axis).map (k * ·) := by
  have hget : ∀ v : Vec3 K, (v.scale k).get axis = k * v.get axis := by
    intro v
    unfold Vec3.get Vec3.scale
    split <;> rfl
  induction triangles with
  | nil => rfl
  | cons t ts ih =>
    simp only [scaleTriangles, bound_fill_func, List.map_cons, List.flatMap_cons,
      List.map_append, List.cons_append, List.nil_append] at ih ⊢
    rw [ih, hget, hget, hget, mul_min_of_nonneg _ _ hk, mul_min_of_nonneg _ _ hk,
      mul_max_of_nonneg _ _ hk, mul_max_of_nonneg _ _ hk]

end ScalingProofs

theorem bound_fill_minmax_isSome {K : Type} [LinearOrderedField K]
    (triangles : List (Triangle K)) (h : 1 ≤ triangles.length) (axis : Nat) :
    ∃ p, minmax_element (bound_fill_func triangles axis) = some p := by
  cases triangles with
  | nil => simp at h
  | cons t ts => exact ⟨_, rfl⟩

/-- C13. Epsilon scaling: for every scene with at least one triangle and every
scale factor `k > 0`, with arithmetic over the reals, the epsilon that `Commit`
computes for the scene with all vertex positions multiplied by `k` is `k` times
the epsilon of the original scene, where epsilon is
`1e-5 * sqrt(xsize^2 + ysize^2 + zsize^2)` of the bounding box of the triangles. -/
theorem C13_epsilon_scaling (triangles : List (Triangle ℝ)) (k : ℝ)
    (hn : 1 ≤ triangles.length) (hk : 0 < k) :
    (∃ e, commitEpsilon Real.sqrt triangles = some e ∧
      commitEpsilon Real.sqrt (scaleTriangles k triangles) = some (k * e)) ∧
    (∀ (sort : List (BBEvent ℝ) → List (BBEvent ℝ)) (scene scaled : Scene ℝ),
      Commit Real.sqrt sort triangles = some scene →
      Commit Real.sqrt sort (scaleTriangles k triangles) = some scaled →
      scaled.epsilon = k * scene.epsilon) := by
  obtain ⟨p, hp⟩ := bound_fill_minmax_isSome triangles hn 0
  obtain ⟨q, hq⟩ := bound_fill_minmax_isSome triangles hn 1
  obtain ⟨r, hr⟩ := bound_fill_minmax_isSome triangles hn 2
  have hmain : commitEpsilon Real.sqrt triangles =
        some (1 / 100000 * Real.sqrt ((p.2 - p.1) * (p.2 - p.1) + (q.2 - q.1) * (q.2 - q.1) +
          (r.2 - r.1) * (r.2 - r.1))) ∧
      commitEpsilon Real.sqrt (scaleTriangles k triangles) =
        some (k * (1 / 100000 * Real.sqrt ((p.2 - p.1) * (p.2 - p.1) +
          (q.2 - q.1) * (q.2 - q.1) + (r.2 - r.1) * (r.2 - r.1)))) := by
    constructor
    · simp only [commitEpsilon, hp, hq, hr, Option.bind_eq_bind, Option.some_bind,
        Option.pure_def]
    · simp only [commitEpsilon, bound_fill_scale k hk.le, minmax_element_map_mul k hk.le, hp, hq,
        hr, Option.map_some', Option.bind_eq_bind, Option.some_bind, Option.pure_def,
        Option.some.injEq]
      have hsq : (k * p.2 - k * p.1) * (k * p.2 - k * p.1) +
          (k * q.2 - k * q.1) * (k * q.2 - k * q.1) +
          (k * r.2 - k * r.1) * (k * r.2 - k * r.1) =
          k * k * ((p.2 - p.1) * (p.2 - p.1) + (q.2 - q.1) * (q.2 - q.1) +
            (r.2 - r.1) * (r.2 - r.1)) := by ring
      rw [hsq, Real.sqrt_mul (mul_self_nonneg k), Real.sqrt_mul_self hk.le]
      ring
  refine ⟨⟨_, hmain.1, hmain.2⟩, ?_⟩
  intro sort scene scaled h1 h2
  have e1 := (Commit_parts Real.sqrt sort _ _ h1).2.1
  have e2 := (Commit_parts Real.sqrt sort _ _ h2).2.1
  rw [hmain.1] at e1
  rw [hmain.2] at e2
  simp only [Option.some.injEq] at e1 e2
  rw [← e1, ← e2]

/-- Witness for C13: one triangle, scaled by 2. -/
theorem C13_epsilon_scaling_witness :
    1 ≤ ([{ A := ⟨0, 0, 0⟩, B := ⟨1, 0, 0⟩, C := ⟨0, 1, 0⟩ }] : List (Triangle ℝ)).length ∧
    (0 : ℝ) < 2 ∧
    ∃ e, commitEpsilon Real.sqrt [{ A := ⟨0, 0, 0⟩, B := ⟨1, 0, 0⟩, C := ⟨0, 1, 0⟩ }] = some e ∧
      commitEpsilon Real.sqrt
        (scaleTriangles 2 [{ A := ⟨0, 0, 0⟩, B := ⟨1, 0, 0⟩, C := ⟨0, 1, 0⟩ }]) = some (2 * e) :=
  ⟨by simp, by norm_num,
    (C13_epsilon_scaling [{ A := ⟨0, 0, 0⟩, B := ⟨1, 0, 0⟩, C := ⟨0, 1, 0⟩ }] 2 (by simp)
      (by norm_num)).1⟩

/-! ## Fresnel against the reference definition (C18) -/

theorem Fresnel_eq_reference {K : Type} [LinearOrderedField K] (sqrt : K → K)
    (I N : Vec3 K) (ior : K) (hlo : -1 ≤ dot I N) (hhi : dot I N ≤ 1) :
    Fresnel sqrt I N ior = FresnelReference sqrt I N ior := by
  have hclamp : min (max (dot I N) (-1)) 1 = dot I N := by
    rw [max_eq_left hlo, min_eq_left hhi]
  unfold Fresnel FresnelReference Fresnel.sint Fresnel.etas
  simp only [hclamp]
  by_cases hc : dot I N > 0
  · simp only [hc, if_true]
  · simp only [hc, if_false]

theorem dot_unit_bounds {K : Type} [LinearOrderedField K] (I N : Vec3 K)
    (hI : dot I I = 1) (hN : dot N N = 1) : -1 ≤ dot I N ∧ dot I N ≤ 1 := by
  unfold dot at *
  constructor
  · nlinarith [sq_nonneg (I.x + N.x), sq_nonneg (I.y + N.y), sq_nonneg (I.z + N.z)]
  · nlinarith [sq_nonneg (I.x - N.x), sq_nonneg (I.y - N.y), sq_nonneg (I.z - N.z)]

/-- C18 (amended). For all vectors `I`, `N` with `-1 <= dot(I, N) <= 1` (as for
all unit vectors) and every `ior > 0`, over the reals, `Fresnel(I, N, ior)`
equals the reference definition of section 4.6, in which `cosi` is first
clamped to [-1, 1]. -/
theorem C18_Fresnel_matches_reference (I N : Vec3 ℝ) (ior : ℝ) (_hior : 0 < ior)
    (hlo : -1 ≤ dot I N) (hhi : dot I N ≤ 1) :
    Fresnel Real.sqrt I N ior = FresnelReference Real.sqrt I N ior :=
  Fresnel_eq_reference Real.sqrt I N ior hlo hhi

/-- Witness for C18: normal incidence on glass, `ior = 3/2`. -/
theorem C18_Fresnel_matches_reference_witness :
    (0 : ℝ) < 3 / 2 ∧ -1 ≤ dot (⟨0, 0, -1⟩ : Vec3 ℝ) ⟨0, 0, 1⟩ ∧
    dot (⟨0, 0, -1⟩ : Vec3 ℝ) ⟨0, 0, 1⟩ ≤ 1 ∧
    Fresnel Real.sqrt ⟨0, 0, -1⟩ ⟨0, 0, 1⟩ (3 / 2) =
      FresnelReference Real.sqrt ⟨0, 0, -1⟩ ⟨0, 0, 1⟩ (3 / 2) :=
  ⟨by norm_num, by norm_num [dot], by norm_num [dot],
    C18_Fresnel_matches_reference ⟨0, 0, -1⟩ ⟨0, 0, 1⟩ (3 / 2) (by norm_num)
      (by norm_num [dot]) (by norm_num [dot])⟩

/-- C18 fails as stated: for `I = (2,0,0)`, `N = (1,0,0)`, `ior = 2` the code
works with `cosi = 2` and returns 9/50, the reference definition clamps `cosi`
to 1 and gives 1/9. -/
theorem C18_counterexample :
    (0 : ℝ) < 2 ∧
    Fresnel Real.sqrt ⟨2, 0, 0⟩ ⟨1, 0, 0⟩ 2 = 9 / 50 ∧
    FresnelReference Real.sqrt ⟨2, 0, 0⟩ ⟨1, 0, 0⟩ 2 = 1 / 9 ∧
    Fresnel Real.sqrt ⟨2, 0, 0⟩ ⟨1, 0, 0⟩ 2 ≠ FresnelReference Real.sqrt ⟨2, 0, 0⟩ ⟨1, 0, 0⟩ 2 := by
  have h1 : Fresnel Real.sqrt ⟨2, 0, 0⟩ ⟨1, 0, 0⟩ 2 = 9 / 50 := by
    norm_num [Fresnel, Fresnel.sint, Fresnel.etas, dot]
  have h2 : FresnelReference Real.sqrt ⟨2, 0, 0⟩ ⟨1, 0, 0⟩ 2 = 1 / 9 := by
    norm_num [FresnelReference, dot]
  refine ⟨by norm_num, h1, h2, ?_⟩
  rw [h1, h2]
  norm_num

/-! ## Coverage of the partition (C19) -/

section CoverageProofs

variable {K : Type} [LinearOrderedField K]

/-- In a sorted event list the `BEGIN` event of a triangle whose extent is
ordered does not come after its `END` event. -/
theorem begin_before_end (l : List (BBEvent K))
    (hp : l.Pairwise (fun a b => compareEvents b a = false)) (i j : Nat) (eb ee : BBEvent K)
    (hi : l[i]? = some eb) (hj : l[j]? = some ee) (hb : eb.type = BBEventType.BEGIN)
    (he : ee.type = BBEventType.END) (hle : eb.pos ≤ ee.pos) : i < j := by
  by_contra hcon
  have hne : i ≠ j := by
    rintro rfl
    rw [hi] at hj
    simp only [Option.some.injEq] at hj
    rw [hj, he] at hb
    exact absurd hb (by decide)
  have hji : j < i := by omega
  obtain ⟨hi1, rfl⟩ := List.getElem?_eq_some_iff.1 hi
  obtain ⟨hj1, rfl⟩ := List.getElem?_eq_some_iff.1 hj
  have hc := List.pairwise_iff_getElem.1 hp j i hj1 hi1 hji
  unfold compareEvents at hc
  by_cases hpos : l[i].pos = l[j].pos
  · simp [hpos, hb, he] at hc
  · simp only [hpos, if_false, decide_eq_false_iff_not, not_lt] at hc
    exact hpos (le_antisymm hle hc)

theorem split_covers (sort : List (BBEvent K) → List (BBEvent K)) (hsort : IsEventSort sort)
    (sc : SceneEvents K) (d : KdNodeFields K) (ax : Nat) (off : Nat)
    (hext : ExtentsOrdered sc ax d.triangle_indices) (t : Nat) (ht : t ∈ d.triangle_indices) :
    t ∈ leftTriangles (sortedEvents sort sc d ax) off ∨
      t ∈ rightTriangles (sortedEvents sort sc d ax) off := by
  have hpw := (hsort (makeEvents (sc.evch ax) d.triangle_indices)).2
  have hmb : ({ pos := (extent sc ax t).1, triangleID := t, type := BBEventType.BEGIN } :
      BBEvent K) ∈ sortedEvents sort sc d ax :=
    (mem_sortedEvents sort hsort sc d ax _).2 ⟨t, ht, Or.inl rfl⟩
  have hme : ({ pos := (extent sc ax t).2, triangleID := t, type := BBEventType.END } :
      BBEvent K) ∈ sortedEvents sort sc d ax :=
    (mem_sortedEvents sort hsort sc d ax _).2 ⟨t, ht, Or.inr rfl⟩
  obtain ⟨i, hi⟩ := List.mem_iff_getElem?.1 hmb
  obtain ⟨j, hj⟩ := List.mem_iff_getElem?.1 hme
  have hij : i < j := begin_before_end _ hpw i j _ _ hi hj rfl rfl (hext t ht)
  rcases Nat.lt_or_ge i off with h1 | h1
  · exact Or.inl (mem_leftTriangles _ _ i _ h1 hi rfl)
  · exact Or.inr (mem_rightTriangles _ _ j _ (by omega) hj rfl)

theorem SubdivideAux_covers (sort : List (BBEvent K) → List (BBEvent K))
    (hsort : IsEventSort sort) (sc : SceneEvents K)
    (hext : ∀ ax t, (extent sc ax t).1 ≤ (extent sc ax t).2) (md : Nat)
    (t : UncompressedKdNode K) :
    ∀ (budget : Nat) (d : KdNodeFields K), SubdivideAux sort sc md budget d = some t →
      PartitionCovers t := by
  induction t with
  | LEAF d0 =>
    intro budget d _
    exact True.intro
  | INTERNAL d0 a sp p0 p1 ch0 ch1 ih0 ih1 =>
    intro budget d h
    obtain ⟨ax, b, k, -, rfl, -, -, -, -, -, -, -, -, h0, h1⟩ :=
      SubdivideAux_internal sort sc md budget d d0 a sp p0 p1 ch0 ch1 h
    refine ⟨?_, ih0 k _ h0, ih1 k _ h1⟩
    intro x hx
    rw [SubdivideAux_fields sort sc md k _ ch0 h0, SubdivideAux_fields sort sc md k _ ch1 h1]
    exact split_covers sort hsort sc d0 ax b.best_offset (fun y _ => hext ax y) x hx

theorem bound_fill_length (triangles : List (Triangle K)) (axis : Nat) :
    (bound_fill_func triangles axis).length = 2 * triangles.length := by
  unfold bound_fill_func
  induction triangles with
  | nil => rfl
  | cons x xs ih =>
    simp only [List.flatMap_cons, List.length_append, List.length_cons, List.length_nil, ih]
    omega

theorem bound_fill_ordered (triangles : List (Triangle K)) (axis t : Nat) :
    (bound_fill_func triangles axis).getD (2 * t) 0 ≤
      (bound_fill_func triangles axis).getD (2 * t + 1) 0 := by
  rcases Nat.lt_or_ge t triangles.length with ht | ht
  · obtain ⟨h1, h2⟩ := bound_fill_getElem triangles axis t triangles[t]
      (List.getElem?_eq_getElem ht)
    simp only [List.getD_eq_getElem?_getD, h1, h2, Option.getD_some]
    exact (min_le_left _ _).trans ((min_le_left _ _).trans
      ((le_max_left _ _).trans (le_max_left _ _)))
  · have hlen := bound_fill_length triangles axis
    rw [List.getD_eq_getElem?_getD, List.getD_eq_getElem?_getD,
      List.getElem?_eq_none (by omega), List.getElem?_eq_none (by omega)]

theorem commitRoot_extents (sqrt : K → K) (triangles : List (Triangle K))
    (sc : SceneEvents K) (root : KdNodeFields K)
    (h : commitRoot sqrt triangles = some (sc, root)) :
    ∀ ax t, (extent sc ax t).1 ≤ (extent sc ax t).2 := by
  simp only [commitRoot, Option.bind_eq_bind, Option.bind_eq_some, Option.pure_def,
    Option.some.injEq, Prod.mk.injEq] at h
  obtain ⟨p, -, q, -, r, -, e, -, rfl, -⟩ := h
  intro ax t
  unfold extent SceneEvents.evch
  split
  · exact bound_fill_ordered triangles 0 t
  · exact bound_fill_ordered triangles 1 t
  · exact bound_fill_ordered triangles 2 t

end CoverageProofs

/-- C19. Coverage of the partition: for every node that `Subdivide` splits,
every triangle index of the node's list is in the list of at least one of the
two children, for any result of the event sort that respects the comparator.
The extent tables hold, for every triangle of the node, a minimum that does not
exceed the maximum; the tables that `Commit` builds do so, hence every split
node of the tree built by `Commit` is covered. -/
theorem C19_partition_covers {K : Type} [LinearOrderedField K]
    (sort : List (BBEvent K) → List (BBEvent K)) (hsort : IsEventSort sort) :
    (∀ (parent_scene : SceneEvents K) (max_depth : Nat) (d d1 : KdNodeFields K)
      (split_axis : Int) (split_pos prob0 prob1 : K) (ch0 ch1 : UncompressedKdNode K),
      Subdivide sort parent_scene max_depth d =
        some (.INTERNAL d1 split_axis split_pos prob0 prob1 ch0 ch1) →
      ExtentsOrdered parent_scene split_axis.toNat d.triangle_indices →
      ∀ t, t ∈ d.triangle_indices →
        t ∈ ch0.fields.triangle_indices ∨ t ∈ ch1.fields.triangle_indices) ∧
    (∀ (sqrt : K → K) (triangles : List (Triangle K)) (scene : Scene K),
      Commit sqrt sort triangles = some scene → PartitionCovers scene.uncompressed_root) := by
  constructor
  · intro parent_scene max_depth d d1 split_axis split_pos prob0 prob1 ch0 ch1 hsplit hext t ht
    obtain ⟨ax, b, k, -, -, rfl, -, -, -, -, -, -, -, h0, h1⟩ :=
      SubdivideAux_internal sort parent_scene max_depth _ d d1 split_axis split_pos prob0 prob1
        ch0 ch1 hsplit
    rw [Int.toNat_ofNat] at hext
    rw [SubdivideAux_fields sort parent_scene max_depth k _ ch0 h0,
      SubdivideAux_fields sort parent_scene max_depth k _ ch1 h1]
    exact split_covers sort hsort parent_scene d ax b.best_offset hext t ht
  · intro sqrt triangles scene hc
    obtain ⟨-, -, -, root, hroot, hsub⟩ := Commit_parts sqrt sort triangles scene hc
    exact SubdivideAux_covers sort hsort scene.events
      (commitRoot_extents sqrt triangles _ _ hroot) _ _ _ _ hsub

/-- Witness for C19: the node of `tieScene` with two triangles, split on x. -/
theorem C19_partition_covers_witness :
    IsEventSort (sortEvents : List (BBEvent ℚ) → List (BBEvent ℚ)) ∧
    Subdivide sortEvents tieScene 1 tieNode = some tieResult ∧
    ExtentsOrdered tieScene 0 tieNode.triangle_indices ∧
    ∀ t, t ∈ tieNode.triangle_indices → t ∈ [1, 0] ∨ t ∈ [1] := by
  have hext : ExtentsOrdered tieScene 0 tieNode.triangle_indices := by
    intro t ht
    simp only [tieNode, List.mem_cons, List.mem_singleton, List.not_mem_nil, or_false] at ht
    rcases ht with rfl | rfl <;> decide!
  exact ⟨sortEvents_isEventSort, tieNode_subdivide, hext,
    (C19_partition_covers sortEvents sortEvents_isEventSort).1 tieScene 1 tieNode _ _ _ _ _ _ _
      tieNode_subdivide hext⟩

/-! ## The counts of the sweep and the sizes of the children (C20) -/

section CountProofs

variable {K : Type} [LinearOrderedField K]

omit [LinearOrderedField K] in
theorem take_succ_filter_length (all : List (BBEvent K)) (i : Nat) (e : BBEvent K)
    (he : all[i]? = some e) (p : BBEvent K → Bool) :
    ((all.take (i + 1)).filter p).length =
      ((all.take i).filter p).length + (if p e then 1 else 0) := by
  rw [List.take_succ, he]
  simp only [Option.toList_some, List.filter_append, List.length_append]
  by_cases hp : p e <;> simp [List.filter_cons, hp]

theorem sweepStep_scored (d : KdNodeFields K) (axis : Nat) (st : SweepState K) (i : Nat)
    (e : BBEvent K) (b : SplitCandidate K) (h : (sweepStep d axis st i e).best = some b) :
    st.best = some b ∨
      (b.best_offset = i ∧ b.best_pos = e.pos ∧
        candidateCost d axis e.pos st.n_before
          (if e.type = BBEventType.END then st.n_after - 1 else st.n_after) =
          some (b.best_cost, b.prob0, b.prob1)) := by
  unfold sweepStep at h
  simp only at h
  split at h
  · split at h
    · exact Or.inl h
    · rename_i cost p_before p_after hcost
      split at h
      · simp only [Option.some.injEq] at h
        subst h
        exact Or.inr ⟨rfl, rfl, hcost⟩
      · split at h
        · simp only [Option.some.injEq] at h
          subst h
          exact Or.inr ⟨rfl, rfl, hcost⟩
        · rename_i hb _
          exact Or.inl (hb.trans h)
  · exact Or.inl h

theorem sweep_scored (d : KdNodeFields K) (axis : Nat) (all : List (BBEvent K)) (n : Nat) :
    ∀ (es : List (BBEvent K)) (i : Nat) (st : SweepState K),
      (∀ j e, es[j]? = some e → all[i + j]? = some e) →
      st.n_before = (beginsBefore all i : Int) →
      st.n_after = (n : Int) -
        (((all.take i).filter fun e => e.type = BBEventType.END).length : Int) →
      (∀ b, st.best = some b →
        candidateCost d axis b.best_pos (beginsBefore all b.best_offset)
          ((n : Int) - (endsUpTo all b.best_offset : Int)) =
          some (b.best_cost, b.prob0, b.prob1)) →
      ∀ b, (sweep d axis i es st).best = some b →
        candidateCost d axis b.best_pos (beginsBefore all b.best_offset)
          ((n : Int) - (endsUpTo all b.best_offset : Int)) =
          some (b.best_cost, b.prob0, b.prob1) := by
  intro es
  induction es with
  | nil =>
    intro i st _ _ _ hst b hb
    exact hst b hb
  | cons e es ih =>
    intro i st hall hnb hna hst b hb
    simp only [sweep] at hb
    have hei : all[i]? = some e := hall 0 e (by simp)
    have hB := take_succ_filter_length all i e hei (fun e => e.type = BBEventType.BEGIN)
    have hE := take_succ_filter_length all i e hei (fun e => e.type = BBEventType.END)
    refine ih (i + 1) (sweepStep d axis st i e) ?_ ?_ ?_ ?_ b hb
    · intro j e1 hj
      have := hall (j + 1) e1 (by simpa using hj)
      rw [show i + 1 + j = i + (j + 1) by omega]
      exact this
    · show (if e.type = BBEventType.BEGIN then st.n_before + 1 else st.n_before) = _
      unfold beginsBefore at hnb ⊢
      rw [hB, hnb]
      by_cases hty : e.type = BBEventType.BEGIN <;> simp [hty]
    · show (if e.type = BBEventType.END then st.n_after - 1 else st.n_after) = _
      rw [hE, hna]
      by_cases hty : e.type = BBEventType.END <;> simp [hty]
      omega
    · intro b1 hb1
      rcases sweepStep_scored d axis st i e b1 hb1 with h1 | ⟨h1, h2, h3⟩
      · exact hst b1 h1
      · rw [h1, h2]
        unfold endsUpTo
        rw [hE, ← hnb]
        have : (if e.type = BBEventType.END then st.n_after - 1 else st.n_after) =
            (n : Int) - ((((all.take i).filter fun e => e.type = BBEventType.END).length +
              (if (decide (e.type = BBEventType.END)) = true then 1 else 0) : Nat) : Int) := by
          rw [hna]
          by_cases hty : e.type = BBEventType.END <;> simp [hty]
          omega
        rw [← this]
        exact h3

end CountProofs

section ChildSizeProofs

variable {K : Type} [LinearOrderedField K]

theorem makeEvents_count (ae : List K) (tris : List Nat) :
    ((makeEvents ae tris).filter fun e => e.type = BBEventType.BEGIN).length = tris.length ∧
    ((makeEvents ae tris).filter fun e => e.type = BBEventType.END).length = tris.length := by
  unfold makeEvents
  induction tris with
  | nil => exact ⟨rfl, rfl⟩
  | cons t ts ih =>
    simp only [List.flatMap_cons, List.filter_append, List.length_append, ih.1, ih.2,
      List.length_cons]
    constructor <;> simp [List.filter_cons] <;> omega

theorem sortedEvents_count (sort : List (BBEvent K) → List (BBEvent K))
    (hsort : IsEventSort sort) (sc : SceneEvents K) (d : KdNodeFields K) (axis : Nat) :
    ((sortedEvents sort sc d axis).filter fun e => e.type = BBEventType.BEGIN).length =
      d.triangle_indices.length ∧
    ((sortedEvents sort sc d axis).filter fun e => e.type = BBEventType.END).length =
      d.triangle_indices.length := by
  unfold sortedEvents
  have hperm := (hsort (makeEvents (sc.evch axis) d.triangle_indices)).1
  have hc := makeEvents_count (sc.evch axis) d.triangle_indices
  exact ⟨((hperm.filter _).length_eq).trans hc.1, ((hperm.filter _).length_eq).trans hc.2⟩

omit [LinearOrderedField K] in
theorem leftTriangles_length (events : List (BBEvent K)) (k : Nat) :
    (leftTriangles events k).length = beginsBefore events k := by
  simp only [leftTriangles, beginsBefore, List.length_map]

omit [LinearOrderedField K] in
theorem rightTriangles_length (events : List (BBEvent K)) (k : Nat) :
    (rightTriangles events k).length + endsUpTo events k =
      (events.filter fun e => e.type = BBEventType.END).length := by
  simp only [rightTriangles, endsUpTo, List.length_map]
  conv_rhs => rw [← List.take_append_drop (k + 1) events]
  rw [List.filter_append, List.length_append]
  omega

theorem trySplit_scored (sort : List (BBEvent K) → List (BBEvent K)) (sc : SceneEvents K)
    (d : KdNodeFields K) (axis : Nat) (b : SplitCandidate K)
    (h : trySplit sort sc d axis = some b) :
    candidateCost d axis b.best_pos (beginsBefore (sortedEvents sort sc d axis) b.best_offset)
      ((d.triangle_indices.length : Int) -
        (endsUpTo (sortedEvents sort sc d axis) b.best_offset : Int)) =
      some (b.best_cost, b.prob0, b.prob1) := by
  unfold trySplit at h
  simp only at h
  split at h
  · exact absurd h (by simp)
  · rename_i b1 hb1
    split at h
    · exact absurd h (by simp)
    · simp only [Option.some.injEq] at h
      subst h
      exact sweep_scored d axis _ d.triangle_indices.length _ 0 _
        (fun j e hj => by simpa using hj) (by simp [beginsBefore]) (by simp)
        (fun b2 hb2 => absurd hb2 (by simp)) b1 hb1

end ChildSizeProofs

/-- C20. When `Subdivide` splits a node at the winning event index `k`
(`best_offset`), the left child receives exactly `n_before` triangles and the
right child exactly `n_after` triangles, where `n_before` is the number of
`BEGIN` events at indices `< k` and `n_after` is `|T|` minus the number of `END`
events at indices `<= k`; and the cost and probabilities of the winning
candidate are those computed by the sweep from these two counts. -/
theorem C20_child_sizes {K : Type} [LinearOrderedField K]
    (sort : List (BBEvent K) → List (BBEvent K)) (hsort : IsEventSort sort)
    (parent_scene : SceneEvents K) (max_depth : Nat) (d d1 : KdNodeFields K)
    (split_axis : Int) (split_pos prob0 prob1 : K) (ch0 ch1 : UncompressedKdNode K)
    (hsplit : Subdivide sort parent_scene max_depth d =
      some (.INTERNAL d1 split_axis split_pos prob0 prob1 ch0 ch1)) :
    ∃ b : SplitCandidate K,
      trySplit sort parent_scene d split_axis.toNat = some b ∧
      split_pos = b.best_pos ∧ prob0 = b.prob0 ∧ prob1 = b.prob1 ∧
      ch0.fields.triangle_indices =
        leftTriangles (sortedEvents sort parent_scene d split_axis.toNat) b.best_offset ∧
      ch1.fields.triangle_indices =
        rightTriangles (sortedEvents sort parent_scene d split_axis.toNat) b.best_offset ∧
      ch0.fields.triangle_indices.length =
        beginsBefore (sortedEvents sort parent_scene d split_axis.toNat) b.best_offset ∧
      (ch1.fields.triangle_indices.length : Int) = (d.triangle_indices.length : Int) -
        (endsUpTo (sortedEvents sort parent_scene d split_axis.toNat) b.best_offset : Int) ∧
      candidateCost d split_axis.toNat b.best_pos
        (beginsBefore (sortedEvents sort parent_scene d split_axis.toNat) b.best_offset)
        ((d.triangle_indices.length : Int) -
          (endsUpTo (sortedEvents sort parent_scene d split_axis.toNat) b.best_offset : Int)) =
        some (b.best_cost, b.prob0, b.prob1) := by
  obtain ⟨ax, b, k, -, -, rfl, -, -, -, htry, rfl, rfl, rfl, h0, h1⟩ :=
    SubdivideAux_internal sort parent_scene max_depth _ d d1 split_axis split_pos prob0 prob1
      ch0 ch1 hsplit
  rw [Int.toNat_ofNat]
  have hf0 := SubdivideAux_fields sort parent_scene max_depth k _ ch0 h0
  have hf1 := SubdivideAux_fields sort parent_scene max_depth k _ ch1 h1
  have hr := rightTriangles_length (sortedEvents sort parent_scene d ax) b.best_offset
  rw [(sortedEvents_count sort hsort parent_scene d ax).2] at hr
  refine ⟨b, htry, rfl, rfl, rfl, by rw [hf0]; rfl, by rw [hf1]; rfl, ?_, ?_,
    trySplit_scored sort parent_scene d ax b htry⟩
  · rw [hf0]
    exact leftTriangles_length _ _
  · rw [hf1]
    show ((rightTriangles (sortedEvents sort parent_scene d ax) b.best_offset).length : Int) = _
    omega

/-- Witness for C20: the node of `tieScene`, split on x at the event of index 2;
the left child holds 2 triangles (two `BEGIN` events before index 2), the right
child 1 (of 2 triangles, one `END` event up to index 2). -/
theorem C20_child_sizes_witness :
    IsEventSort (sortEvents : List (BBEvent ℚ) → List (BBEvent ℚ)) ∧
    Subdivide sortEvents tieScene 1 tieNode = some tieResult ∧
    ∃ b : SplitCandidate ℚ,
      trySplit sortEvents tieScene tieNode 0 = some b ∧
      (37 : ℚ) = b.best_pos ∧ (19 / 20 : ℚ) = b.prob0 ∧ (3 / 40 : ℚ) = b.prob1 ∧
      [1, 0] = leftTriangles (sortedEvents sortEvents tieScene tieNode 0) b.best_offset ∧
      [1] = rightTriangles (sortedEvents sortEvents tieScene tieNode 0) b.best_offset ∧
      2 = beginsBefore (sortedEvents sortEvents tieScene tieNode 0) b.best_offset ∧
      ((1 : Nat) : Int) = ((2 : Nat) : Int) -
        (endsUpTo (sortedEvents sortEvents tieScene tieNode 0) b.best_offset : Int) ∧
      candidateCost tieNode 0 b.best_pos
        (beginsBefore (sortedEvents sortEvents tieScene tieNode 0) b.best_offset)
        (((2 : Nat) : Int) -
          (endsUpTo (sortedEvents sortEvents tieScene tieNode 0) b.best_offset : Int)) =
        some (b.best_cost, b.prob0, b.prob1) :=
  ⟨sortEvents_isEventSort, tieNode_subdivide,
    C20_child_sizes sortEvents sortEvents_isEventSort tieScene 1 tieNode _ _ _ _ _ _ _
      tieNode_subdivide⟩

/-! ## Depth limit and termination of the build (C17) -/

section DepthProofs

variable {K : Type} [LinearOrderedField K]

theorem SubdivideAux_depthBounded (sort : List (BBEvent K) → List (BBEvent K))
    (sc : SceneEvents K) (md : Nat) (t : UncompressedKdNode K) :
    ∀ (budget : Nat) (d : KdNodeFields K), SubdivideAux sort sc md budget d = some t →
      d.depth ≤ md → DepthBounded md d.depth t := by
  induction t with
  | LEAF d0 =>
    intro budget d h hd
    have := SubdivideAux_fields sort sc md budget d _ h
    simp only [UncompressedKdNode.fields] at this
    subst this
    exact ⟨rfl, hd⟩
  | INTERNAL d0 a sp p0 p1 ch0 ch1 ih0 ih1 =>
    intro budget d h hd
    obtain ⟨ax, b, k, -, rfl, -, -, hlt, -, -, -, -, -, h0, h1⟩ :=
      SubdivideAux_internal sort sc md budget d d0 a sp p0 p1 ch0 ch1 h
    exact ⟨rfl, hd, ih0 k _ h0 hlt, ih1 k _ h1 hlt⟩

theorem children_length_le (sort : List (BBEvent K) → List (BBEvent K))
    (hsort : IsEventSort sort) (sc : SceneEvents K) (d : KdNodeFields K) (ax off : Nat) :
    (leftTriangles (sortedEvents sort sc d ax) off).length ≤ d.triangle_indices.length ∧
    (rightTriangles (sortedEvents sort sc d ax) off).length ≤ d.triangle_indices.length := by
  have hc := sortedEvents_count sort hsort sc d ax
  constructor
  · rw [leftTriangles_length, ← hc.1]
    exact ((List.take_sublist off _).filter _).length_le
  · have := rightTriangles_length (sortedEvents sort sc d ax) off
    rw [hc.2] at this
    omega

/-- The triangle indices of the two children are indices of the node. -/
theorem children_indices_mem (sort : List (BBEvent K) → List (BBEvent K))
    (hsort : IsEventSort sort) (sc : SceneEvents K) (d : KdNodeFields K) (ax off t : Nat) :
    (t ∈ leftTriangles (sortedEvents sort sc d ax) off → t ∈ d.triangle_indices) ∧
    (t ∈ rightTriangles (sortedEvents sort sc d ax) off → t ∈ d.triangle_indices) := by
  have key : ∀ (i : Nat) (e : BBEvent K), (sortedEvents sort sc d ax)[i]? = some e →
      e.triangleID ∈ d.triangle_indices := by
    intro i e hi
    have hmem : e ∈ sortedEvents sort sc d ax := List.mem_iff_getElem?.2 ⟨i, hi⟩
    obtain ⟨t1, ht1, he | he⟩ := (mem_sortedEvents sort hsort sc d ax e).1 hmem
    · rw [he]
      exact ht1
    · rw [he]
      exact ht1
  constructor
  · intro h
    obtain ⟨i, e, -, hi, -, rfl⟩ := leftTriangles_sound _ _ _ h
    exact key i e hi
  · intro h
    obtain ⟨i, e, -, hi, -, rfl⟩ := rightTriangles_sound _ _ _ h
    exact key i e hi

theorem makeEvents_length (ae : List K) (tris : List Nat) :
    (makeEvents ae tris).length = 2 * tris.length := by
  unfold makeEvents
  induction tris with
  | nil => rfl
  | cons t ts ih =>
    simp only [List.flatMap_cons, List.length_append, ih, List.length_cons, List.length_nil]
    omega

/-- The offset of a winning candidate is an index of the event list, which has
two events for each triangle of the node. -/
theorem trySplit_offset_lt (sort : List (BBEvent K) → List (BBEvent K))
    (hsort : IsEventSort sort) (sc : SceneEvents K) (d : KdNodeFields K) (axis : Nat)
    (b : SplitCandidate K) (h : trySplit sort sc d axis = some b) :
    b.best_offset < 2 * d.triangle_indices.length := by
  obtain ⟨⟨e, he, -⟩, -⟩ := trySplit_some sort sc d axis b h
  have h1 := (List.getElem?_eq_some_iff.1 he).1
  have h2 : (sortedEvents sort sc d axis).length = 2 * d.triangle_indices.length := by
    unfold sortedEvents
    rw [(hsort _).1.length_eq, makeEvents_length]
  omega

theorem SubdivideAux_total (sort : List (BBEvent K) → List (BBEvent K))
    (hsort : IsEventSort sort) (sc : SceneEvents K) (md : Nat) :
    ∀ (budget : Nat) (d : KdNodeFields K), d.triangle_indices.length < 1073741824 →
      (∀ t, t ∈ d.triangle_indices → t < 1073741824) →
      ∃ t, SubdivideAux sort sc md budget d = some t := by
  intro budget
  induction budget with
  | zero => intro d _ _; exact ⟨_, rfl⟩
  | succ n ih =>
    intro d hd hidx
    simp only [SubdivideAux]
    split
    · exact ⟨_, rfl⟩
    · split
      · omega
      · split
        · exact ⟨_, rfl⟩
        · split
          · rename_i hex
            obtain ⟨t, ht, hbig⟩ := hex
            exact absurd (hidx t ht) (by omega)
          · split
            · exact ⟨_, rfl⟩
            · rename_i ax b hsearch
              have hoff := trySplit_offset_lt sort hsort sc d ax b
                (splitSearch_some sort sc d 2 _ ax b (maxAxis_lt _ _ _) hsearch).2
              rw [if_neg (by omega)]
              have hlen := children_length_le sort hsort sc d ax b.best_offset
              obtain ⟨t0, h0⟩ := ih (child0 d ax b.best_pos
                (leftTriangles (sortedEvents sort sc d ax) b.best_offset))
                (by show (leftTriangles _ _).length < _; omega)
                (fun t ht => hidx t
                  ((children_indices_mem sort hsort sc d ax b.best_offset t).1 ht))
              obtain ⟨t1, h1⟩ := ih (child1 d ax b.best_pos
                (rightTriangles (sortedEvents sort sc d ax) b.best_offset))
                (by show (rightTriangles _ _).length < _; omega)
                (fun t ht => hidx t
                  ((children_indices_mem sort hsort sc d ax b.best_offset t).2 ht))
              rw [h0, h1]
              exact ⟨_, rfl⟩

theorem SubdivideAux_budget (sort : List (BBEvent K) → List (BBEvent K))
    (sc : SceneEvents K) (md : Nat) :
    ∀ (budget : Nat) (d : KdNodeFields K), md - d.depth ≤ budget →
      SubdivideAux sort sc md budget d = SubdivideAux sort sc md (md - d.depth) d := by
  intro budget
  induction budget with
  | zero =>
    intro d h
    rw [Nat.le_zero.1 h]
  | succ n ih =>
    intro d h
    by_cases hd : d.depth ≥ md
    · have h0 : md - d.depth = 0 := by omega
      rw [h0]
      simp only [SubdivideAux, hd, if_true]
    · obtain ⟨k, hk⟩ : ∃ k, md - d.depth = k + 1 := ⟨md - d.depth - 1, by omega⟩
      rw [hk]
      simp only [SubdivideAux, hd, if_false]
      by_cases h1 : 2147483648 ≤ d.triangle_indices.length
      · simp only [h1, if_true]
      · simp only [h1, if_false]
        by_cases h2 : d.triangle_indices.length < 2
        · simp only [h2, if_true]
        · simp only [h2, if_false]
          by_cases h3 : ∃ t ∈ d.triangle_indices, 1073741824 ≤ t
          · rw [if_pos h3, if_pos h3]
          · rw [if_neg h3, if_neg h3]
            cases hs : splitSearch sort sc d 2
                (maxAxis (BBsize d 0) (BBsize d 1) (BBsize d 2)) with
            | none => rfl
            | some r =>
              obtain ⟨ax, b⟩ := r
              simp only
              by_cases h4 : b.best_offset = 2147483647
              · rw [if_pos h4, if_pos h4]
              · rw [if_neg h4, if_neg h4]
                have e0 : ∀ tris, SubdivideAux sort sc md n (child0 d ax b.best_pos tris) =
                    SubdivideAux sort sc md k (child0 d ax b.best_pos tris) := by
                  intro tris
                  have hk0 : md - (child0 d ax b.best_pos tris).depth = k := by
                    show md - (d.depth + 1) = k
                    omega
                  rw [ih _ (by rw [hk0]; omega), hk0]
                have e1 : ∀ tris, SubdivideAux sort sc md n (child1 d ax b.best_pos tris) =
                    SubdivideAux sort sc md k (child1 d ax b.best_pos tris) := by
                  intro tris
                  have hk1 : md - (child1 d ax b.best_pos tris).depth = k := by
                    show md - (d.depth + 1) = k
                    omega
                  rw [ih _ (by rw [hk1]; omega), hk1]
                rw [e0, e1]

theorem commitRoot_some (sqrt : K → K) (triangles : List (Triangle K))
    (h : 1 ≤ triangles.length) : ∃ x, commitRoot sqrt triangles = some x := by
  obtain ⟨p, hp⟩ := bound_fill_minmax_isSome triangles h 0
  obtain ⟨q, hq⟩ := bound_fill_minmax_isSome triangles h 1
  obtain ⟨r, hr⟩ := bound_fill_minmax_isSome triangles h 2
  simp only [commitRoot, commitEpsilon, hp, hq, hr, Option.bind_eq_bind, Option.some_bind,
    Option.pure_def, Option.some.injEq, exists_eq']

theorem commitRoot_fields (sqrt : K → K) (triangles : List (Triangle K))
    (sc : SceneEvents K) (root : KdNodeFields K)
    (h : commitRoot sqrt triangles = some (sc, root)) :
    root.depth = 0 ∧ root.triangle_indices = List.range triangles.length := by
  simp only [commitRoot, Option.bind_eq_bind, Option.bind_eq_some, Option.pure_def,
    Option.some.injEq, Prod.mk.injEq] at h
  obtain ⟨p, -, q, -, r, -, e, -, -, rfl⟩ := h
  exact ⟨rfl, rfl⟩

end DepthProofs

/-- C17, as amended. For every scene with `1 <= N_t < 2^30` triangles (the
range in which the indices `2*t + 1` and `best_offset + 1` that `Subdivide`
computes in `int` do not overflow), the depth limit that `Commit` passes to `Subdivide` is
`floor(log2(N_t)) + 8`: the number `l` with `2^(l-8) <= N_t < 2^(l-7)`.  The
recursive build returns a tree - the recursion needs no more than `l` nested
calls, and every larger bound on the nesting gives the same tree - and every
node of the tree has its depth, counted from the root, at most `l`. -/
theorem C17_depth_limit {K : Type} [LinearOrderedField K]
    (sqrt : K → K) (sort : List (BBEvent K) → List (BBEvent K)) (hsort : IsEventSort sort)
    (triangles : List (Triangle K)) (hn : 1 ≤ triangles.length)
    (hlt : triangles.length < 1073741824) :
    2 ^ Nat.log2 triangles.length ≤ triangles.length ∧
    triangles.length < 2 ^ (Nat.log2 triangles.length + 1) ∧
    ∃ (events : SceneEvents K) (root : KdNodeFields K) (tree : UncompressedKdNode K),
      commitRoot sqrt triangles = some (events, root) ∧
      Subdivide sort events (Nat.log2 triangles.length + 8) root = some tree ∧
      (∀ budget, Nat.log2 triangles.length + 8 ≤ budget →
        SubdivideAux sort events (Nat.log2 triangles.length + 8) budget root = some tree) ∧
      DepthBounded (Nat.log2 triangles.length + 8) 0 tree ∧
      (∀ scene, Commit sqrt sort triangles = some scene →
        scene.max_depth = Nat.log2 triangles.length + 8 ∧ scene.events = events ∧
        scene.uncompressed_root = tree) := by
  refine ⟨Nat.log2_self_le (by omega), Nat.lt_log2_self, ?_⟩
  obtain ⟨⟨events, root⟩, hroot⟩ := commitRoot_some sqrt triangles hn
  obtain ⟨hdepth, htris⟩ := commitRoot_fields sqrt triangles events root hroot
  obtain ⟨tree, htree⟩ := SubdivideAux_total sort hsort events
    (Nat.log2 triangles.length + 8) (Nat.log2 triangles.length + 8 - root.depth) root
    (by rw [htris, List.length_range]; omega)
    (fun t ht => by
      rw [htris] at ht
      have := List.mem_range.1 ht
      omega)
  refine ⟨events, root, tree, hroot, htree, ?_, ?_, ?_⟩
  · intro budget hb
    rw [SubdivideAux_budget sort events _ budget root (by omega)]
    exact htree
  · have := SubdivideAux_depthBounded sort events _ tree _ root htree (by omega)
    rw [hdepth] at this
    exact this
  · intro scene hc
    obtain ⟨-, -, hmd, root1, hroot1, hsub⟩ := Commit_parts sqrt sort triangles scene hc
    rw [hroot] at hroot1
    simp only [Option.some.injEq, Prod.mk.injEq] at hroot1
    obtain ⟨rfl, rfl⟩ := hroot1
    rw [hmd] at hsub
    unfold Subdivide at hsub
    rw [htree] at hsub
    simp only [Option.some.injEq] at hsub
    exact ⟨hmd, rfl, hsub.symm⟩

/-- Witness for C17: the scene of two triangles, with depth limit 9. -/
theorem C17_depth_limit_witness :
    IsEventSort (sortEvents : List (BBEvent ℚ) → List (BBEvent ℚ)) ∧
    1 ≤ twoTriangles.length ∧ twoTriangles.length < 1073741824 ∧
    ∃ (events : SceneEvents ℚ) (root : KdNodeFields ℚ) (tree : UncompressedKdNode ℚ),
      commitRoot sqrtStandIn twoTriangles = some (events, root) ∧
      Subdivide sortEvents events (Nat.log2 twoTriangles.length + 8) root = some tree ∧
      (∀ budget, Nat.log2 twoTriangles.length + 8 ≤ budget →
        SubdivideAux sortEvents events (Nat.log2 twoTriangles.length + 8) budget root =
          some tree) ∧
      DepthBounded (Nat.log2 twoTriangles.length + 8) 0 tree ∧
      (∀ scene, Commit sqrtStandIn sortEvents twoTriangles = some scene →
        scene.max_depth = Nat.log2 twoTriangles.length + 8 ∧ scene.events = events ∧
        scene.uncompressed_root = tree) :=
  ⟨sortEvents_isEventSort, by decide, by decide,
    (C17_depth_limit sqrtStandIn sortEvents sortEvents_isEventSort twoTriangles (by decide)
      (by decide)).2.2⟩

/-! ## The forward loop of `TracePath` -/

section ForwardProofs

variable {R K : Type} [LinearOrderedField K]

theorem classify_n_le (pt : PathTracer R K) (mat : Material K) (fromInside : Bool)
    (Vr lightN : Vec3 K) (n : Nat) (skip : Bool) (rnd : R) :
    (classify pt mat fromInside Vr lightN n skip rnd).2.1 ≤ n := by
  unfold classify
  split
  · split
    · exact Nat.sub_le n 1
    · simp only
      split
      · split <;> exact Nat.sub_le n 1
      · exact le_refl n
  · split
    · simp only
      split
      · exact Nat.sub_le n 1
      · exact le_refl n
    · exact le_refl n

theorem hitPoint_spec (pt : PathTracer R K) (tries : Nat) (ray : Ray K) (i : Intersection K)
    (n : Nat) (skip : Bool) (rnd : R) (h : PathPoint K × Ray K × Nat × Bool × R)
    (hh : hitPoint pt tries ray i n skip rnd = .ok h) :
    h.1.infinity = false ∧ h.1.i = some i ∧ h.2.2.1 ≤ n := by
  unfold hitPoint at hh
  simp only at hh
  split at hh
  · exact absurd hh (by simp)
  · simp only [Except.ok.injEq] at hh
    subst hh
    exact ⟨rfl, rfl, classify_n_le _ _ _ _ _ _ _ _⟩

theorem tracePoint_spec (pt : PathTracer R K) (tries : Nat) (s s1 : TraceState R K) (b : Bool)
    (h : tracePoint pt tries s = .ok (b, s1)) :
    s1.n2 = s.n2 ∧ s1.n ≤ s.n ∧ s1.raycount = (s.raycount + 1) % 4294967296 ∧
    ∃ p, s1.path = s.path ++ [p] ∧
      (b = false → p = infinityPoint s.current_ray ∧
        pt.FindIntersectKdOtherThan s.current_ray = none) ∧
      (b = true → p.infinity = false ∧
        ∃ i, pt.FindIntersectKdOtherThan s.current_ray = some i ∧ p.i = some i) := by
  unfold tracePoint at h
  simp only at h
  split at h
  · rename_i hnone
    simp only [Except.ok.injEq, Prod.mk.injEq] at h
    obtain ⟨rfl, rfl⟩ := h
    exact ⟨rfl, le_refl _, rfl, _, rfl, fun _ => ⟨rfl, hnone⟩, fun hb => absurd hb (by simp)⟩
  · rename_i i hsome
    split at h
    · exact absurd h (by simp)
    · rename_i hp hhit
      simp only [Except.ok.injEq, Prod.mk.injEq] at h
      obtain ⟨rfl, rfl⟩ := h
      obtain ⟨h1, h2, h3⟩ := hitPoint_spec pt tries _ i _ _ _ hp hhit
      exact ⟨rfl, h3, rfl, _, rfl, fun hb => absurd hb (by simp), fun _ => ⟨h1, i, hsome, h2⟩⟩

/-- What one iteration of the forward loop does to the counters and the path:
`n2` grows by one; either nothing is pushed and the loop ends, or one ray is
counted and one point pushed, and then the new `n2` is below 20. -/
theorem forwardStep_spec (pt : PathTracer R K) (tries : Nat) (s s1 : TraceState R K) (b : Bool)
    (h : forwardStep pt tries s = .ok (b, s1)) :
    s1.n2 = s.n2 + 1 ∧ s1.n ≤ s.n + 1 ∧
    ((b = false ∧ s1.path = s.path ∧ s1.raycount = s.raycount) ∨
     (s.n2 + 1 < 20 ∧ s1.raycount = (s.raycount + 1) % 4294967296 ∧
      ∃ p, s1.path = s.path ++ [p])) := by
  unfold forwardStep at h
  simp only at h
  split at h
  · simp only [Except.ok.injEq, Prod.mk.injEq] at h
    obtain ⟨rfl, rfl⟩ := h
    exact ⟨rfl, le_refl _, Or.inl ⟨rfl, rfl, rfl⟩⟩
  · rename_i hcap
    have hcap1 : s.n2 + 1 < 20 := by omega
    split at h
    · split at h
      · split at h
        · simp only [Except.ok.injEq, Prod.mk.injEq] at h
          obtain ⟨rfl, rfl⟩ := h
          exact ⟨rfl, le_refl _, Or.inl ⟨rfl, rfl, rfl⟩⟩
        · obtain ⟨h1, h2, h3, p, h4, -, -⟩ := tracePoint_spec pt tries _ _ _ h
          exact ⟨h1, h2, Or.inr ⟨hcap1, h3, p, h4⟩⟩
      · obtain ⟨h1, h2, h3, p, h4, -, -⟩ := tracePoint_spec pt tries _ _ _ h
        exact ⟨h1, h2, Or.inr ⟨hcap1, h3, p, h4⟩⟩
    · split at h
      · simp only [Except.ok.injEq, Prod.mk.injEq] at h
        obtain ⟨rfl, rfl⟩ := h
        exact ⟨rfl, le_refl _, Or.inl ⟨rfl, rfl, rfl⟩⟩
      · obtain ⟨h1, h2, h3, p, h4, -, -⟩ := tracePoint_spec pt tries _ _ _ h
        exact ⟨h1, h2, Or.inr ⟨hcap1, h3, p, h4⟩⟩

theorem forwardStep_continue (pt : PathTracer R K) (tries : Nat) (s s1 : TraceState R K)
    (h : forwardStep pt tries s = .ok (true, s1)) : s1.n2 < 20 := by
  obtain ⟨h1, -, h3 | ⟨h3, -, -⟩⟩ := forwardStep_spec pt tries s s1 true h
  · exact absurd h3.1 (by simp)
  · omega

/-- The invariants of the forward loop: iterations, path length, ray count.
The ray counter is incremented, as an `unsigned int`, once for each point that
is pushed. -/
theorem forwardLoop_spec (pt : PathTracer R K) (tries : Nat) :
    ∀ (fuel : Nat) (s s1 : TraceState R K), forwardLoop pt tries fuel s = .ok s1 →
      s.n2 < 20 → s.n ≤ s.n2 → s.path.length ≤ s.n2 →
      s1.n2 ≤ 20 ∧ s1.n ≤ s1.n2 ∧ s1.path.length < 20 ∧ s1.path.length ≤ s1.n2 ∧
      (∃ l, s1.path = s.path ++ l ∧
        s1.raycount = Nat.iterate (fun c => (c + 1) % 4294967296) l.length s.raycount) := by
  intro fuel
  induction fuel with
  | zero => intro s s1 h; simp [forwardLoop] at h
  | succ k ih =>
    intro s s1 h hn2 hn hlen
    simp only [forwardLoop] at h
    split at h
    · exact absurd h (by simp)
    · rename_i s2 hstep
      have hc := forwardStep_continue pt tries s s2 hstep
      obtain ⟨h1, h2, h3 | ⟨h3, h4, p, h5⟩⟩ := forwardStep_spec pt tries s s2 true hstep
      · exact absurd h3.1 (by simp)
      · obtain ⟨g1, g2, g3, g4, l, g5, g6⟩ := ih s2 s1 h hc (by omega)
          (by rw [h5, List.length_append, List.length_singleton]; omega)
        refine ⟨g1, g2, g3, g4, p :: l, ?_, ?_⟩
        · rw [g5, h5, List.append_assoc, List.singleton_append]
        · rw [g6, h4, List.length_cons, Function.iterate_succ_apply]
    · rename_i s2 hstep
      simp only [Except.ok.injEq] at h
      subst h
      obtain ⟨h1, h2, ⟨-, h3, h4⟩ | ⟨h3, h4, p, h5⟩⟩ := forwardStep_spec pt tries s s2 false hstep
      · exact ⟨by omega, by omega, by rw [h3]; omega, by rw [h3]; omega, [], by simp [h3],
          by rw [h4]; rfl⟩
      · refine ⟨by omega, by omega, ?_, ?_, [p], h5, by rw [h4]; rfl⟩
        · rw [h5, List.length_append, List.length_singleton]; omega
        · rw [h5, List.length_append, List.length_singleton]; omega

theorem rejectionLoop_error (pt : PathTracer R K) (faceN lightN : Vec3 K) :
    ∀ (tries : Nat) (dir : Vec3 K) (rnd : R) (e : TraceError),
      rejectionLoop pt faceN lightN tries dir rnd = .error e → e = .rejectionFuel := by
  intro tries
  induction tries with
  | zero =>
    intro dir rnd e h
    simp only [rejectionLoop] at h
    split at h
    · simp only [Except.error.injEq] at h
      exact h.symm
    · exact absurd h (by simp)
  | succ k ih =>
    intro dir rnd e h
    simp only [rejectionLoop] at h
    split at h
    · exact ih _ _ e h
    · exact absurd h (by simp)

theorem nextDirection_error (pt : PathTracer R K) (tries : Nat) (type : PathPointType)
    (mat : Material K) (Vr lightN faceN : Vec3 K) (rnd : R) (e : TraceError)
    (h : nextDirection pt tries type mat Vr lightN faceN rnd = .error e) :
    e = .rejectionFuel := by
  unfold nextDirection at h
  split at h
  · simp only at h
    split at h
    · rename_i e1 he1
      simp only [Except.error.injEq] at h
      subst h
      exact rejectionLoop_error pt faceN lightN tries _ _ e1 he1
    · exact absurd h (by simp)
  · exact absurd h (by simp)
  · split at h
    · exact absurd h (by simp)
    · split at h <;> exact absurd h (by simp)
  · split at h
    · exact absurd h (by simp)
    · split at h <;> exact absurd h (by simp)

theorem tracePoint_error (pt : PathTracer R K) (tries : Nat) (s : TraceState R K)
    (e : TraceError) (h : tracePoint pt tries s = .error e) : e = .rejectionFuel := by
  unfold tracePoint at h
  simp only at h
  split at h
  · exact absurd h (by simp)
  · split at h
    · rename_i e1 he1
      simp only [Except.error.injEq] at h
      subst h
      unfold hitPoint at he1
      simp only at he1
      split at he1
      · rename_i e2 he2
        simp only [Except.error.injEq] at he1
        subst he1
        exact nextDirection_error pt tries _ _ _ _ _ _ e2 he2
      · exact absurd he1 (by simp)
    · exact absurd h (by simp)

theorem forwardStep_error (pt : PathTracer R K) (tries : Nat) (s : TraceState R K)
    (e : TraceError) (h : forwardStep pt tries s = .error e) : e = .rejectionFuel := by
  unfold forwardStep at h
  simp only at h
  split at h
  · exact absurd h (by simp)
  · split at h
    · split at h
      · split at h
        · exact absurd h (by simp)
        · exact tracePoint_error pt tries _ e h
      · exact tracePoint_error pt tries _ e h
    · split at h
      · exact absurd h (by simp)
      · exact tracePoint_error pt tries _ e h

/-- With room for the 20 iterations that the hard cap allows, the loop does
not stop for lack of fuel, and more fuel does not change its result. -/
theorem forwardLoop_fuel (pt : PathTracer R K) (tries : Nat) :
    ∀ (fuel : Nat) (s : TraceState R K), 1 ≤ fuel → 20 ≤ s.n2 + fuel →
      forwardLoop pt tries fuel s ≠ .error .loopFuel ∧
      ∀ fuel1, fuel ≤ fuel1 → forwardLoop pt tries fuel1 s = forwardLoop pt tries fuel s := by
  intro fuel
  induction fuel with
  | zero => intro s h; omega
  | succ k ih =>
    intro s _ hk
    have hstep : ∀ s2, forwardStep pt tries s = .ok (true, s2) → 1 ≤ k ∧ 20 ≤ s2.n2 + k := by
      intro s2 h2
      have hc := forwardStep_continue pt tries s s2 h2
      have := (forwardStep_spec pt tries s s2 true h2).1
      omega
    constructor
    · simp only [forwardLoop]
      split
      · rename_i e he
        intro hcon
        simp only [Except.error.injEq] at hcon
        subst hcon
        exact absurd (forwardStep_error pt tries s _ he) (by decide)
      · rename_i s2 h2
        exact (ih s2 (hstep s2 h2).1 (hstep s2 h2).2).1
      · simp
    · intro fuel1 hf
      obtain ⟨k1, rfl⟩ : ∃ k1, fuel1 = k1 + 1 := ⟨fuel1 - 1, by omega⟩
      simp only [forwardLoop]
      split
      · rfl
      · rename_i s2 h2
        exact (ih s2 (hstep s2 h2).1 (hstep s2 h2).2).2 k1 (by omega)
      · rfl

end ForwardProofs


/-- C16. Hard cap: for every ray, scene, random stream and either termination
policy (any values of `russian` and `depth`), the forward loop of `TracePath`
executes at most 20 iterations - with room for 20 iterations it never stops for
lack of fuel, more room does not change its result, and the iteration counter
`n2` ends at most at 20; at most 19 intersection queries are issued (the ray
counter is incremented once for each path point, as an `unsigned int`) and the
path holds at most 19 points. -/
theorem C16_hard_cap {R K : Type} [LinearOrderedField K] (pt : PathTracer R K)
    (tries fuel : Nat) (r : Ray K) (raycount : Nat) (rnd : R) (hfuel : 20 ≤ fuel) :
    forwardLoop pt tries fuel (initialState r raycount rnd) ≠ .error .loopFuel ∧
    forwardLoop pt tries fuel (initialState r raycount rnd) =
      forwardLoop pt tries 20 (initialState r raycount rnd) ∧
    ∀ s, forwardLoop pt tries fuel (initialState r raycount rnd) = .ok s →
      s.n2 ≤ 20 ∧ s.n ≤ s.n2 ∧ s.path.length ≤ 19 ∧
      s.raycount = Nat.iterate (fun c => (c + 1) % 4294967296) s.path.length raycount := by
  have h20 := forwardLoop_fuel pt tries 20 (initialState r raycount rnd) (by decide)
    (by show 20 ≤ 0 + 20; decide)
  refine ⟨?_, h20.2 fuel hfuel, ?_⟩
  · rw [h20.2 fuel hfuel]
    exact h20.1
  · intro s hs
    obtain ⟨h1, h2, h3, -, l, h5, h6⟩ := forwardLoop_spec pt tries fuel _ s hs
      (by show 0 < 20; decide) (le_refl _) (le_refl _)
    have hl : s.path = l := by rw [h5]; rfl
    refine ⟨h1, h2, by omega, ?_⟩
    rw [hl, h6]
    rfl

theorem mirrorHall_run :
    ((resultOf (forwardLoop (exampleTracer mirrorHall 1 10 1) 0 20
      (initialState downRay 0 ()))).map fun s => (s.n2, s.path.length, s.raycount)) =
      some (20, 19, 19) := by
  decide!

/-- Witness for C16: between two facing mirrors the loop runs into the cap, in
the 20th iteration, with 19 points on the path and 19 rays counted. -/
theorem C16_hard_cap_witness :
    20 ≤ 20 ∧
    forwardLoop (exampleTracer mirrorHall 1 10 1) 0 20 (initialState downRay 0 ()) ≠
      .error .loopFuel ∧
    ∃ s, forwardLoop (exampleTracer mirrorHall 1 10 1) 0 20 (initialState downRay 0 ()) = .ok s ∧
      s.n2 = 20 ∧ s.path.length = 19 ∧ s.raycount = 19 ∧
      (s.n2 ≤ 20 ∧ s.n ≤ s.n2 ∧ s.path.length ≤ 19 ∧
        s.raycount = Nat.iterate (fun c => (c + 1) % 4294967296) s.path.length 0) := by
  have hC := C16_hard_cap (exampleTracer mirrorHall 1 10 1) 0 20 downRay 0 () (le_refl 20)
  have hrun := mirrorHall_run
  cases hs : forwardLoop (exampleTracer mirrorHall 1 10 1) 0 20 (initialState downRay 0 ()) with
  | error e =>
    rw [hs] at hrun
    simp [resultOf] at hrun
  | ok s =>
    rw [hs] at hrun
    simp only [resultOf, Option.map_some', Option.some.injEq, Prod.mk.injEq] at hrun
    refine ⟨le_refl 20, by simp, s, rfl, hrun.1, hrun.2.1, hrun.2.2, ?_⟩
    exact hC.2.2 s hs

/-! ## A ray that hits nothing (C14) -/

/-- C14. If the first intersection query of `TracePath` returns no triangle,
then (for `depth >= 1` in fixed-depth mode, or any `russian >= 0`) the path
consists of a single INFINITY point and `TracePath` returns exactly
`sky_radiance`, having counted exactly one ray; the random generator is not
used. -/
theorem C14_no_hit_returns_sky {R K : Type} [LinearOrderedField K] (pt : PathTracer R K)
    (fuel tries : Nat) (r : Ray K) (raycount : Nat) (rnd : R) (hfuel : 1 ≤ fuel)
    (hmiss : pt.FindIntersectKdOtherThan r = none)
    (hmode : 0 ≤ pt.russian ∨ 1 ≤ pt.depth) :
    (∃ s, forwardLoop pt tries fuel (initialState r raycount rnd) = .ok s ∧
      s.path = [infinityPoint r] ∧ s.n2 = 1) ∧
    TracePath pt fuel tries r raycount rnd =
      .ok (pt.sky_radiance, (raycount + 1) % 4294967296, rnd) := by
  obtain ⟨k, rfl⟩ : ∃ k, fuel = k + 1 := ⟨fuel - 1, by omega⟩
  have hstep : forwardStep pt tries (initialState r raycount rnd) =
      .ok (false, { path := [infinityPoint r], current_ray := r, n := 1, n2 := 1,
                    skip_russian := false, raycount := (raycount + 1) % 4294967296,
                    rnd := rnd }) := by
    by_cases hr : pt.russian ≥ 0
    · simp [forwardStep, initialState, tracePoint, hmiss, hr]
    · have hd : ¬ (1 > pt.depth) := by
        rcases hmode with h | h
        · exact absurd h hr
        · omega
      simp [forwardStep, initialState, tracePoint, hmiss, hr, hd]
  have hloop : forwardLoop pt tries (k + 1) (initialState r raycount rnd) =
      .ok { path := [infinityPoint r], current_ray := r, n := 1, n2 := 1,
            skip_russian := false, raycount := (raycount + 1) % 4294967296, rnd := rnd } := by
    simp only [forwardLoop, hstep]
  refine ⟨⟨_, hloop, rfl, rfl⟩, ?_⟩
  simp [TracePath, hloop, backwardPass, pointRadiance, infinityPoint]

/-- Witness for C14: the scene without triangles, in fixed-depth mode with
depth 1. -/
theorem C14_no_hit_returns_sky_witness :
    1 ≤ 20 ∧ (exampleTracer emptyScene 2 1 1).FindIntersectKdOtherThan downRay = none ∧
    (0 ≤ (exampleTracer emptyScene 2 1 1).russian ∨ 1 ≤ (exampleTracer emptyScene 2 1 1).depth) ∧
    TracePath (exampleTracer emptyScene 2 1 1) 20 0 downRay 0 () =
      .ok ((exampleTracer emptyScene 2 1 1).sky_radiance, (0 + 1) % 4294967296, ()) :=
  ⟨by decide, rfl, Or.inr (le_refl 1),
    (C14_no_hit_returns_sky (exampleTracer emptyScene 2 1 1) 20 0 downRay 0 () (by decide) rfl
      (Or.inr (le_refl 1))).2⟩

/-! ## The first point of the path and the backward pass -/

section BackwardProofs

variable {R K : Type} [LinearOrderedField K]

/-- The point that an iteration pushes: the infinity point, after which the
loop ends, or the point of the hit that the query returned. -/
theorem forwardStep_point (pt : PathTracer R K) (tries : Nat) (s s1 : TraceState R K) (b : Bool)
    (h : forwardStep pt tries s = .ok (b, s1)) :
    (b = false ∧ s1.path = s.path) ∨
    ∃ p, s1.path = s.path ++ [p] ∧
      (b = false → p = infinityPoint s.current_ray ∧
        pt.FindIntersectKdOtherThan s.current_ray = none) ∧
      (b = true → p.infinity = false ∧
        ∃ i, pt.FindIntersectKdOtherThan s.current_ray = some i ∧ p.i = some i) := by
  unfold forwardStep at h
  simp only at h
  split at h
  · simp only [Except.ok.injEq, Prod.mk.injEq] at h
    obtain ⟨rfl, rfl⟩ := h
    exact Or.inl ⟨rfl, rfl⟩
  · split at h
    · split at h
      · split at h
        · simp only [Except.ok.injEq, Prod.mk.injEq] at h
          obtain ⟨rfl, rfl⟩ := h
          exact Or.inl ⟨rfl, rfl⟩
        · obtain ⟨-, -, -, p, h4, h5, h6⟩ := tracePoint_spec pt tries _ _ _ h
          exact Or.inr ⟨p, h4, h5, h6⟩
      · obtain ⟨-, -, -, p, h4, h5, h6⟩ := tracePoint_spec pt tries _ _ _ h
        exact Or.inr ⟨p, h4, h5, h6⟩
    · split at h
      · simp only [Except.ok.injEq, Prod.mk.injEq] at h
        obtain ⟨rfl, rfl⟩ := h
        exact Or.inl ⟨rfl, rfl⟩
      · obtain ⟨-, -, -, p, h4, h5, h6⟩ := tracePoint_spec pt tries _ _ _ h
        exact Or.inr ⟨p, h4, h5, h6⟩

theorem forwardLoop_append (pt : PathTracer R K) (tries : Nat) :
    ∀ (fuel : Nat) (s s1 : TraceState R K), forwardLoop pt tries fuel s = .ok s1 →
      ∃ l, s1.path = s.path ++ l := by
  intro fuel
  induction fuel with
  | zero => intro s s1 h; simp [forwardLoop] at h
  | succ k ih =>
    intro s s1 h
    simp only [forwardLoop] at h
    split at h
    · exact absurd h (by simp)
    · rename_i s2 hstep
      obtain ⟨l, hl⟩ := ih s2 s1 h
      rcases forwardStep_point pt tries s s2 true hstep with h1 | ⟨p, h1, -, -⟩
      · exact absurd h1.1 (by simp)
      · exact ⟨p :: l, by rw [hl, h1, List.append_assoc, List.singleton_append]⟩
    · rename_i s2 hstep
      simp only [Except.ok.injEq] at h
      subst h
      rcases forwardStep_point pt tries s s2 false hstep with h1 | ⟨p, h1, -, -⟩
      · exact ⟨[], by simp [h1.2]⟩
      · exact ⟨[p], h1⟩

/-- The path that the forward loop builds from the start: empty, or the single
infinity point when the first query finds nothing, or a path that begins with
the point of the first hit. -/
theorem forwardLoop_first (pt : PathTracer R K) (tries fuel : Nat) (r : Ray K) (raycount : Nat)
    (rnd : R) (s1 : TraceState R K)
    (h : forwardLoop pt tries fuel (initialState r raycount rnd) = .ok s1) :
    s1.path = [] ∨
    (s1.path = [infinityPoint r] ∧ pt.FindIntersectKdOtherThan r = none) ∨
    ∃ p rest i, s1.path = p :: rest ∧ p.infinity = false ∧
      pt.FindIntersectKdOtherThan r = some i ∧ p.i = some i := by
  cases fuel with
  | zero => simp [forwardLoop] at h
  | succ k =>
    simp only [forwardLoop] at h
    split at h
    · exact absurd h (by simp)
    · rename_i s2 hstep
      obtain ⟨l, hl⟩ := forwardLoop_append pt tries k s2 s1 h
      rcases forwardStep_point pt tries _ s2 true hstep with h1 | ⟨p, h1, -, h3⟩
      · exact absurd h1.1 (by simp)
      · obtain ⟨hinf, i, hi, hpi⟩ := h3 rfl
        refine Or.inr (Or.inr ⟨p, l, i, ?_, hinf, hi, hpi⟩)
        rw [hl, h1]
        rfl
    · rename_i s2 hstep
      simp only [Except.ok.injEq] at h
      subst h
      rcases forwardStep_point pt tries _ s2 false hstep with h1 | ⟨p, h1, h2, -⟩
      · exact Or.inl h1.2
      · obtain ⟨hp, hnone⟩ := h2 rfl
        refine Or.inr (Or.inl ⟨?_, hnone⟩)
        rw [h1, hp]
        rfl

theorem TracePath_ok (pt : PathTracer R K) (fuel tries : Nat) (r : Ray K) (raycount : Nat)
    (rnd : R) (res : Radiance K × Nat × R)
    (h : TracePath pt fuel tries r raycount rnd = .ok res) :
    ∃ s a, forwardLoop pt tries fuel (initialState r raycount rnd) = .ok s ∧
      backwardPass pt s.path s.rnd = .ok a ∧ a.1.head? = some res.1 ∧
      res.2.1 = s.raycount ∧ res.2.2 = a.2 := by
  unfold TracePath at h
  split at h
  · exact absurd h (by simp)
  · rename_i s hs
    split at h
    · exact absurd h (by simp)
    · rename_i a ha
      split at h
      · exact absurd h (by simp)
      · rename_i x hx
        simp only [Except.ok.injEq] at h
        subst h
        exact ⟨s, a, hs, ha, hx, rfl, rfl⟩

theorem backwardPass_cons (pt : PathTracer R K) (pp : PathPoint K) (rest : List (PathPoint K))
    (rnd : R) (a : List (Radiance K) × R) (h : backwardPass pt (pp :: rest) rnd = .ok a) :
    ∃ a0 b, backwardPass pt rest rnd = .ok a0 ∧
      pointRadiance pt pp rest.isEmpty a0.1.head? a0.2 = .ok b ∧ a = (b.1 :: a0.1, b.2) := by
  simp only [backwardPass] at h
  split at h
  · exact absurd h (by simp)
  · rename_i a0 ha0
    split at h
    · exact absurd h (by simp)
    · rename_i b hb
      simp only [Except.ok.injEq] at h
      exact ⟨a0, b, ha0, hb, h.symm⟩

theorem backwardPass_length (pt : PathTracer R K) :
    ∀ (path : List (PathPoint K)) (rnd : R) (a : List (Radiance K) × R),
      backwardPass pt path rnd = .ok a → a.1.length = path.length := by
  intro path
  induction path with
  | nil =>
    intro rnd a h
    simp only [backwardPass, Except.ok.injEq] at h
    subst h
    rfl
  | cons pp rest ih =>
    intro rnd a h
    obtain ⟨a0, b, h0, -, rfl⟩ := backwardPass_cons pt pp rest rnd a h
    simp only [List.length_cons, ih rnd a0 h0]

theorem clampChannel_within (clamp : K) (hclamp : 0 ≤ clamp) (x : Fl K) :
    ChannelWithin clamp (clampChannel clamp x) := by
  cases x with
  | nan => simp [clampChannel, Fl.gt, Fl.isnan, ChannelWithin, hclamp]
  | ninf => simp [clampChannel, Fl.gt, Fl.isnan, ChannelWithin, hclamp]
  | pinf => simp [clampChannel, Fl.gt, Fl.isnan, ChannelWithin, hclamp, not_lt.2 hclamp]
  | fin a =>
    unfold clampChannel
    simp only [Fl.gt]
    by_cases h1 : a > clamp
    · simp [h1, Fl.gt, Fl.isnan, ChannelWithin, hclamp, not_lt.2 hclamp]
    · by_cases h2 : 0 > a
      · simp [h1, h2, Fl.gt, Fl.isnan, ChannelWithin, hclamp]
      · simp only [gt_iff_lt, not_lt] at h1 h2
        simp [not_lt.2 h1, not_lt.2 h2, Fl.gt, Fl.isnan, ChannelWithin, h1, h2]

theorem clampRadiance_within (clamp : K) (hclamp : 0 ≤ clamp) (x : Radiance K) :
    (clampRadiance clamp x).Within clamp :=
  ⟨clampChannel_within clamp hclamp x.r, clampChannel_within clamp hclamp x.g,
    clampChannel_within clamp hclamp x.b⟩

/-- The value of `to_prev` at a surface point is the clamped sum. -/
theorem pointRadiance_hit (pt : PathTracer R K) (pp : PathPoint K) (last : Bool)
    (next : Option (Radiance K)) (rnd : R) (b : Radiance K × R) (hinf : pp.infinity = false)
    (h : pointRadiance pt pp last next rnd = .ok b) :
    ∃ i a, pp.i = some i ∧ pointTotal pt pp i.material last next rnd = .ok a ∧
      b = (clampRadiance pt.clamp a.1, a.2) := by
  unfold pointRadiance at h
  simp only [hinf, Bool.false_eq_true, if_false] at h
  split at h
  · exact absurd h (by simp)
  · rename_i i hi
    split at h
    · exact absurd h (by simp)
    · rename_i a ha
      simp only [Except.ok.injEq] at h
      exact ⟨i, a, hi, ha, h.symm⟩

end BackwardProofs

/-! ## Energy bounds (C11) -/

section EnergyProofs

variable {R K : Type} [LinearOrderedField K]

theorem TracePath_first_point (pt : PathTracer R K) (fuel tries : Nat) (r : Ray K)
    (raycount : Nat) (rnd : R) (res : Radiance K × Nat × R)
    (h : TracePath pt fuel tries r raycount rnd = .ok res) :
    (pt.FindIntersectKdOtherThan r = none ∧ res.1 = pt.sky_radiance) ∨
    (pt.FindIntersectKdOtherThan r ≠ none ∧ ∃ total, res.1 = clampRadiance pt.clamp total) := by
  obtain ⟨s, a, hs, ha, hx, -, -⟩ := TracePath_ok pt fuel tries r raycount rnd res h
  rcases forwardLoop_first pt tries fuel r raycount rnd s hs with h1 | ⟨h1, h2⟩ |
    ⟨p, rest, i, h1, h2, h3, h4⟩
  · rw [h1] at ha
    simp only [backwardPass, Except.ok.injEq] at ha
    subst ha
    simp at hx
  · rw [h1] at ha
    simp only [backwardPass, pointRadiance, infinityPoint, if_true, Except.ok.injEq] at ha
    subst ha
    simp only [List.head?_cons, Option.some.injEq] at hx
    exact Or.inl ⟨h2, hx.symm⟩
  · rw [h1] at ha
    obtain ⟨a0, b, -, hb, rfl⟩ := backwardPass_cons pt p rest s.rnd a ha
    obtain ⟨i1, t, -, -, rfl⟩ := pointRadiance_hit pt p _ _ _ b h2 hb
    simp only [List.head?_cons, Option.some.injEq] at hx
    exact Or.inr ⟨by rw [h3]; simp, t.1, hx.symm⟩

theorem ChannelWithin_fin (c : K) (x : Fl K) (h : ChannelWithin c x) :
    ∃ y, x = .fin y ∧ 0 ≤ y ∧ y ≤ c := by
  cases x with
  | fin y => exact ⟨y, rfl, h.1, h.2⟩
  | nan => exact absurd h (by simp [ChannelWithin])
  | ninf => exact absurd h (by simp [ChannelWithin])
  | pinf => exact absurd h (by simp [ChannelWithin])

theorem ChannelWithin_add (c1 c2 : K) (x y : Fl K) (hx : ChannelWithin c1 x)
    (hy : ChannelWithin c2 y) : ChannelWithin (c1 + c2) (x.add y) := by
  obtain ⟨a, rfl, ha0, ha1⟩ := ChannelWithin_fin c1 x hx
  obtain ⟨b, rfl, hb0, hb1⟩ := ChannelWithin_fin c2 y hy
  exact ⟨add_nonneg ha0 hb0, add_le_add ha1 hb1⟩

theorem ChannelWithin_div (c : K) (m : Nat) (hm : 1 ≤ m) (x : Fl K)
    (hx : ChannelWithin ((m : K) * c) x) : ChannelWithin c (x.div (.fin (m : K))) := by
  obtain ⟨a, rfl, ha0, ha1⟩ := ChannelWithin_fin _ x hx
  have hpos : (0 : K) < (m : K) := by exact_mod_cast hm
  simp only [Fl.div, hpos.ne', if_false]
  exact ⟨div_nonneg ha0 hpos.le, by rw [div_le_iff₀ hpos]; linarith⟩

omit [LinearOrderedField K] in
theorem rounded_exact (x : Fl K) : x.rounded Fl.fin = x := by
  cases x <;> rfl

theorem addRounded_exact (a b : Radiance K) : a.addRounded Fl.fin b = a.add b := by
  simp only [Radiance.addRounded, Radiance.add, rounded_exact]

/-- With a rounding that changes nothing, that is in exact arithmetic, the sum
of `k` samples whose first query returns a triangle grows by at most `clamp` for
each sample. -/
theorem renderLoop_within (pt : PathTracer R K) (fuel tries : Nat) (hclamp : 0 ≤ pt.clamp)
    (hhit : ∀ i rnd, pt.FindIntersectKdOtherThan (pt.camera_ray i rnd).1 ≠ none) :
    ∀ (k i : Nat) (total : Radiance K) (raycount : Nat) (rnd : R) (c : K)
      (res : Radiance K × Nat × R), total.Within c →
      renderLoop pt Fl.fin fuel tries k i total raycount rnd = .ok res →
      res.1.Within (c + (k : K) * pt.clamp) := by
  intro k
  induction k with
  | zero =>
    intro i total raycount rnd c res htot h
    simp only [renderLoop, Except.ok.injEq] at h
    subst h
    simpa using htot
  | succ k ih =>
    intro i total raycount rnd c res htot h
    simp only [renderLoop] at h
    split at h
    · exact absurd h (by simp)
    · rename_i b hb
      rw [addRounded_exact] at h
      have hb1 : b.1.Within pt.clamp := by
        rcases TracePath_first_point pt fuel tries _ raycount _ b hb with h1 | ⟨-, t, ht⟩
        · exact absurd h1.1 (hhit i rnd)
        · rw [ht]
          exact clampRadiance_within pt.clamp hclamp t
      have hsum : (total.add b.1).Within (c + pt.clamp) :=
        ⟨ChannelWithin_add _ _ _ _ htot.1 hb1.1, ChannelWithin_add _ _ _ _ htot.2.1 hb1.2.1,
          ChannelWithin_add _ _ _ _ htot.2.2 hb1.2.2⟩
      have := ih (i + 1) _ _ _ _ res hsum h
      have he : c + pt.clamp + (k : K) * pt.clamp = c + ((k + 1 : Nat) : K) * pt.clamp := by
        push_cast
        ring
      rw [he] at this
      exact this

theorem ChannelNonneg_of_within (c : K) (x : Fl K) (h : ChannelWithin c x) :
    ChannelNonneg x := by
  obtain ⟨y, rfl, hy, -⟩ := ChannelWithin_fin c x h
  exact hy

theorem ChannelNonneg_add (x y : Fl K) (hx : ChannelNonneg x) (hy : ChannelNonneg y) :
    ChannelNonneg (x.add y) := by
  cases x with
  | nan => exact absurd hx (by simp [ChannelNonneg])
  | ninf => exact absurd hx (by simp [ChannelNonneg])
  | fin a =>
    cases y with
    | nan => exact absurd hy (by simp [ChannelNonneg])
    | ninf => exact absurd hy (by simp [ChannelNonneg])
    | fin b => exact add_nonneg hx hy
    | pinf => trivial
  | pinf =>
    cases y with
    | nan => exact absurd hy (by simp [ChannelNonneg])
    | ninf => exact absurd hy (by simp [ChannelNonneg])
    | fin b => trivial
    | pinf => trivial

theorem ChannelNonneg_rounded (round : K → Fl K)
    (hround : ∀ x, 0 ≤ x → ChannelNonneg (round x)) (x : Fl K) (hx : ChannelNonneg x) :
    ChannelNonneg (x.rounded round) := by
  cases x with
  | nan => exact absurd hx (by simp [ChannelNonneg])
  | ninf => exact absurd hx (by simp [ChannelNonneg])
  | fin a => exact hround a hx
  | pinf => trivial

theorem ChannelNonneg_div (x : Fl K) (m : K) (hm : 0 < m) (hx : ChannelNonneg x) :
    ChannelNonneg (x.div (.fin m)) := by
  cases x with
  | nan => exact absurd hx (by simp [ChannelNonneg])
  | ninf => exact absurd hx (by simp [ChannelNonneg])
  | fin a =>
    simp only [Fl.div, hm.ne', if_false]
    exact div_nonneg hx hm.le
  | pinf =>
    simp only [Fl.div, hm.le, if_true]
    trivial

/-- In `float` arithmetic whose rounding takes non-negative numbers to
non-negative numbers or `+infinity`, the sum of samples whose first query
returns a triangle is non-negative or `+infinity` in each channel. -/
theorem renderLoop_nonneg (pt : PathTracer R K) (round : K → Fl K) (fuel tries : Nat)
    (hclamp : 0 ≤ pt.clamp) (hround : ∀ x, 0 ≤ x → ChannelNonneg (round x))
    (hhit : ∀ i rnd, pt.FindIntersectKdOtherThan (pt.camera_ray i rnd).1 ≠ none) :
    ∀ (k i : Nat) (total : Radiance K) (raycount : Nat) (rnd : R)
      (res : Radiance K × Nat × R), total.Nonneg →
      renderLoop pt round fuel tries k i total raycount rnd = .ok res → res.1.Nonneg := by
  intro k
  induction k with
  | zero =>
    intro i total raycount rnd res htot h
    simp only [renderLoop, Except.ok.injEq] at h
    subst h
    exact htot
  | succ k ih =>
    intro i total raycount rnd res htot h
    simp only [renderLoop] at h
    split at h
    · exact absurd h (by simp)
    · rename_i b hb
      have hb1 : b.1.Within pt.clamp := by
        rcases TracePath_first_point pt fuel tries _ raycount _ b hb with h1 | ⟨-, t, ht⟩
        · exact absurd h1.1 (hhit i rnd)
        · rw [ht]
          exact clampRadiance_within pt.clamp hclamp t
      have hsum : (total.addRounded round b.1).Nonneg :=
        ⟨ChannelNonneg_rounded round hround _
            (ChannelNonneg_add _ _ htot.1 (ChannelNonneg_of_within _ _ hb1.1)),
          ChannelNonneg_rounded round hround _
            (ChannelNonneg_add _ _ htot.2.1 (ChannelNonneg_of_within _ _ hb1.2.1)),
          ChannelNonneg_rounded round hround _
            (ChannelNonneg_add _ _ htot.2.2 (ChannelNonneg_of_within _ _ hb1.2.2))⟩
      exact ih (i + 1) _ _ _ res hsum h

end EnergyProofs

/-- C11 (amended). Energy bounds: for every ray, scene, sky radiance, random
stream and every clamp `>= 0`, whenever the first intersection query of
`TracePath` returns a triangle, each channel of the radiance returned by
`TracePath` is finite, non-negative and at most `clamp`; when it returns no
triangle, `TracePath` returns `sky_radiance` as it is.  The average returned by
`RenderPixel` is computed in `float` arithmetic: for every rounding that takes
non-negative numbers to non-negative numbers or `+infinity`, for at least one
sample per pixel, a sample count whose conversion to `float` is a positive
number, and subpixel rays whose first query returns a triangle, each channel of
the average is a non-negative number or `+infinity`; it is not NaN and not
negative. -/
theorem C11_energy_bounds {R K : Type} [LinearOrderedField K] (pt : PathTracer R K)
    (fuel tries : Nat) (hclamp : 0 ≤ pt.clamp) :
    (∀ (r : Ray K) (raycount : Nat) (rnd : R) (res : Radiance K × Nat × R),
      TracePath pt fuel tries r raycount rnd = .ok res →
      (pt.FindIntersectKdOtherThan r ≠ none → res.1.Within pt.clamp) ∧
      (pt.FindIntersectKdOtherThan r = none → res.1 = pt.sky_radiance)) ∧
    (∀ (round : K → Fl K), (∀ x, 0 ≤ x → ChannelNonneg (round x)) →
      1 ≤ pt.multisample → (∃ m, 0 < m ∧ round (pt.multisample : K) = .fin m) →
      (∀ i rnd, pt.FindIntersectKdOtherThan (pt.camera_ray i rnd).1 ≠ none) →
      ∀ (raycount : Nat) (rnd : R) (res : Radiance K × Nat × R),
        RenderPixel pt round fuel tries raycount rnd = .ok res → res.1.Nonneg) := by
  constructor
  · intro r raycount rnd res h
    rcases TracePath_first_point pt fuel tries r raycount rnd res h with ⟨h1, h2⟩ | ⟨h1, t, h2⟩
    · exact ⟨fun hne => absurd h1 hne, fun _ => h2⟩
    · refine ⟨fun _ => ?_, fun hnone => absurd hnone h1⟩
      rw [h2]
      exact clampRadiance_within pt.clamp hclamp t
  · intro round hround hm hms hhit raycount rnd res h
    unfold RenderPixel at h
    split at h
    · exact absurd h (by simp)
    · rename_i a ha
      simp only [Except.ok.injEq] at h
      subst h
      have hzero : (Radiance.zero : Radiance K).Nonneg := ⟨le_refl _, le_refl _, le_refl _⟩
      have hw := renderLoop_nonneg pt round fuel tries hclamp hround hhit pt.multisample 0 _
        raycount rnd a hzero ha
      obtain ⟨m, hpos, hmr⟩ := hms
      have hdiv : Fl.rounded round (.fin (pt.multisample : K)) = .fin m := hmr
      simp only [hdiv]
      exact ⟨ChannelNonneg_rounded round hround _ (ChannelNonneg_div _ _ hpos hw.1),
        ChannelNonneg_rounded round hround _ (ChannelNonneg_div _ _ hpos hw.2.1),
        ChannelNonneg_rounded round hround _ (ChannelNonneg_div _ _ hpos hw.2.2)⟩

theorem mirrorFloor_run :
    ((resultOf (TracePath (exampleTracer mirrorFloor 2 1 1) 20 0 downRay 0 ())).map
      fun a => (a.1, a.2.1)) = some (⟨.fin 1, .fin 1, .fin 1⟩, 2) := by
  decide!

theorem resultOf_some {α : Type} (x : Except TraceError α) (a : α)
    (h : resultOf x = some a) : x = .ok a := by
  cases x with
  | error e => simp [resultOf] at h
  | ok b =>
    simp only [resultOf, Option.some.injEq] at h
    rw [h]

theorem pow2_pos (e : Int) : 0 < pow2 e := by
  unfold pow2
  split <;> positivity

theorem roundHalfEven_nonneg (m : ℚ) (hm : 0 ≤ m) : 0 ≤ roundHalfEven m := by
  have hf : 0 ≤ ⌊m⌋ := Int.floor_nonneg.2 hm
  unfold roundHalfEven
  simp only
  split
  · exact hf
  · split
    · omega
    · split
      · exact hf
      · omega

/-- The rounding to `float` of a non-negative number is a non-negative number
or `+infinity`. -/
theorem roundFloat32_nonneg (x : ℚ) (hx : 0 ≤ x) : ChannelNonneg (roundFloat32 x) := by
  unfold roundFloat32
  by_cases h0 : x = 0
  · rw [if_pos h0]
    exact le_refl (0 : ℚ)
  · rw [if_neg h0]
    have hpos : 0 < x := lt_of_le_of_ne hx (Ne.symm h0)
    simp only [hpos, if_true]
    split
    · trivial
    · show (0 : ℚ) ≤ _
      apply mul_nonneg
      · exact_mod_cast roundHalfEven_nonneg _
          (div_nonneg (abs_nonneg x) (pow2_pos _).le)
      · exact (pow2_pos _).le

theorem roundingTracer_sample :
    resultOf (TracePath roundingTracer 20 0 downRay 0 ()) =
      some (⟨.fin (14260634 / 8388608), .fin (14260634 / 8388608), .fin (14260634 / 8388608)⟩,
        2, ()) := by
  decide!

theorem roundingTracer_pixel :
    resultOf (RenderPixel roundingTracer roundFloat32 20 0 0 ()) =
      some (⟨.fin (14260635 / 8388608), .fin (14260635 / 8388608), .fin (14260635 / 8388608)⟩,
        6, ()) := by
  decide!

theorem overflowTracer_pixel :
    resultOf (RenderPixel overflowTracer roundFloat32 20 0 0 ()) =
      some (⟨.pinf, .pinf, .pinf⟩, 4, ()) := by
  decide!

theorem mirrorFloor_camera_hit (sky clamp : ℚ) (depth n : Nat) (i : Nat) (rnd : Unit) :
    ({ exampleTracer mirrorFloor sky clamp depth with multisample := n } :
        PathTracer Unit ℚ).FindIntersectKdOtherThan
      (({ exampleTracer mirrorFloor sky clamp depth with multisample := n } :
        PathTracer Unit ℚ).camera_ray i rnd).1 ≠ none := by
  show (if (-1 : ℚ) < 0 then some mirrorHit else none) ≠ none
  rw [if_pos (by norm_num)]
  exact Option.some_ne_none _

/-- Witness for C11: a mirror floor under a sky of radiance 2, with clamp 1.7f
and three samples per pixel, in `float` arithmetic.  Each sample is the clamp in
each channel; the average returned by `RenderPixel` is non-negative. -/
theorem C11_energy_bounds_witness :
    (0 : ℚ) ≤ roundingTracer.clamp ∧
    roundingTracer.FindIntersectKdOtherThan downRay ≠ none ∧
    (∀ x : ℚ, 0 ≤ x → ChannelNonneg (roundFloat32 x)) ∧
    1 ≤ roundingTracer.multisample ∧
    (∃ m : ℚ, 0 < m ∧ roundFloat32 (roundingTracer.multisample : ℚ) = .fin m) ∧
    (∃ res, TracePath roundingTracer 20 0 downRay 0 () = .ok res ∧
      res.1 = ⟨.fin (14260634 / 8388608), .fin (14260634 / 8388608),
        .fin (14260634 / 8388608)⟩ ∧
      res.1.Within roundingTracer.clamp) ∧
    ∃ res, RenderPixel roundingTracer roundFloat32 20 0 0 () = .ok res ∧ res.1.Nonneg := by
  have hclamp : (0 : ℚ) ≤ roundingTracer.clamp := by decide!
  have hhit := mirrorFloor_camera_hit 2 (14260634 / 8388608) 1 3
  have hms : ∃ m : ℚ, 0 < m ∧ roundFloat32 (roundingTracer.multisample : ℚ) = .fin m :=
    ⟨3, by norm_num, by decide!⟩
  have hC := C11_energy_bounds roundingTracer 20 0 hclamp
  have hs := resultOf_some _ _ roundingTracer_sample
  have hp := resultOf_some _ _ roundingTracer_pixel
  exact ⟨hclamp, hhit 0 (), roundFloat32_nonneg, by decide, hms,
    ⟨_, hs, rfl, (hC.1 downRay 0 () _ hs).1 (hhit 0 ())⟩,
    ⟨_, hp, hC.2 roundFloat32 roundFloat32_nonneg (by decide) hms hhit 0 () _ hp⟩⟩

theorem TracePath_sky_run :
    TracePath (exampleTracer emptyScene 2 1 1) 20 0 downRay 0 () =
      .ok (⟨.fin 2, .fin 2, .fin 2⟩, 1, ()) := by
  simp [TracePath, forwardLoop, forwardStep, initialState, tracePoint, exampleTracer, emptyScene,
    backwardPass, pointRadiance, infinityPoint]

/-- C11 fails as stated.  In the scene without triangles, with sky radiance 2
and clamp 1, `TracePath` returns the sky radiance, 2 in each channel, which is
above the clamp.  On the mirror floor, where every sample is clamped, the
average of `RenderPixel` in `float` arithmetic is above the clamp or infinite:
with clamp 1.7f and three samples the sum `3 * 1.7f` and the quotient are
rounded up, and the average is the next `float` above the clamp; with the clamp
at the largest finite `float` and two samples the sum overflows, and the average
is `+infinity`. -/
theorem C11_counterexample :
    (0 : ℚ) ≤ (exampleTracer emptyScene 2 1 1).clamp ∧
    TracePath (exampleTracer emptyScene 2 1 1) 20 0 downRay 0 () =
      .ok (⟨.fin 2, .fin 2, .fin 2⟩, 1, ()) ∧
    ¬ (⟨.fin 2, .fin 2, .fin 2⟩ : Radiance ℚ).Within (exampleTracer emptyScene 2 1 1).clamp ∧
    (0 : ℚ) ≤ roundingTracer.clamp ∧
    RenderPixel roundingTracer roundFloat32 20 0 0 () =
      .ok (⟨.fin (14260635 / 8388608), .fin (14260635 / 8388608),
        .fin (14260635 / 8388608)⟩, 6, ()) ∧
    ¬ (⟨.fin (14260635 / 8388608), .fin (14260635 / 8388608), .fin (14260635 / 8388608)⟩ :
      Radiance ℚ).Within roundingTracer.clamp ∧
    (0 : ℚ) ≤ overflowTracer.clamp ∧
    RenderPixel overflowTracer roundFloat32 20 0 0 () = .ok (⟨.pinf, .pinf, .pinf⟩, 4, ()) ∧
    ¬ (⟨.pinf, .pinf, .pinf⟩ : Radiance ℚ).Within overflowTracer.clamp := by
  refine ⟨by decide!, TracePath_sky_run, ?_, by decide!,
    resultOf_some _ _ roundingTracer_pixel, ?_, by decide!,
    resultOf_some _ _ overflowTracer_pixel, ?_⟩
  · intro h
    have h1 : (2 : ℚ) ≤ 1 := h.1.2
    exact absurd h1 (by norm_num)
  · intro h
    have h1 : (14260635 / 8388608 : ℚ) ≤ 14260634 / 8388608 := h.1.2
    exact absurd h1 (by norm_num)
  · intro h
    exact h.1

/-! ## A mirror at depth 1 (C15) -/

section MirrorProofs

variable {R K : Type} [LinearOrderedField K]

theorem Radiance_zero_add (x : Radiance K) : (Radiance.zero : Radiance K).add x = x := by
  obtain ⟨r, g, b⟩ := x
  simp only [Radiance.add, Radiance.zero]
  congr 1
  · cases r <;> simp [Fl.add]
  · cases g <;> simp [Fl.add]
  · cases b <;> simp [Fl.add]

end MirrorProofs

section RetryProofs

variable {K : Type} [LinearOrderedField K]

theorem SubdivideAux_early (sort : List (BBEvent K) → List (BBEvent K)) (sc : SceneEvents K)
    (md : Nat) (d : KdNodeFields K)
    (h : d.depth ≥ md ∨ d.triangle_indices.length < 2) :
    ∀ budget, SubdivideAux sort sc md budget d = some (.LEAF d) := by
  intro budget
  cases budget with
  | zero => rfl
  | succ k =>
    simp only [SubdivideAux]
    by_cases hd : d.depth ≥ md
    · rw [if_pos hd]
    · have hn : d.triangle_indices.length < 2 := h.resolve_left hd
      rw [if_neg hd, if_neg (by omega), if_pos hn]

/-- The body of `Subdivide` past the two early returns, when the search over
the axes fails. -/
theorem SubdivideAux_step_none (sort : List (BBEvent K) → List (BBEvent K))
    (sc : SceneEvents K) (md k : Nat) (d : KdNodeFields K) (hd : d.depth < md)
    (hn : 2 ≤ d.triangle_indices.length) (hlt : d.triangle_indices.length < 2147483648)
    (hidx : ∀ t, t ∈ d.triangle_indices → t < 1073741824)
    (hs : splitSearch sort sc d 2 (maxAxis (BBsize d 0) (BBsize d 1) (BBsize d 2)) = none) :
    SubdivideAux sort sc md (k + 1) d = some (.LEAF d) := by
  have hno : ¬ ∃ t ∈ d.triangle_indices, 1073741824 ≤ t := by
    rintro ⟨t, ht, hbig⟩
    exact absurd (hidx t ht) (by omega)
  simp only [SubdivideAux]
  rw [if_neg (by omega), if_neg (by omega), if_neg (by omega), if_neg hno]
  simp only [hs]

/-- The body of `Subdivide` past the two early returns, when the search over
the axes returns an axis and a candidate. -/
theorem SubdivideAux_step_some (sort : List (BBEvent K) → List (BBEvent K))
    (sc : SceneEvents K) (md k : Nat) (d : KdNodeFields K) (hd : d.depth < md)
    (hn : 2 ≤ d.triangle_indices.length) (hlt : d.triangle_indices.length < 2147483648)
    (hidx : ∀ t, t ∈ d.triangle_indices → t < 1073741824)
    (ax : Nat) (b : SplitCandidate K) (ch0 ch1 : UncompressedKdNode K)
    (hs : splitSearch sort sc d 2 (maxAxis (BBsize d 0) (BBsize d 1) (BBsize d 2)) =
      some (ax, b))
    (hoff : b.best_offset ≠ 2147483647)
    (h0 : SubdivideAux sort sc md k (child0 d ax b.best_pos
      (leftTriangles (sortedEvents sort sc d ax) b.best_offset)) = some ch0)
    (h1 : SubdivideAux sort sc md k (child1 d ax b.best_pos
      (rightTriangles (sortedEvents sort sc d ax) b.best_offset)) = some ch1) :
    SubdivideAux sort sc md (k + 1) d =
      some (.INTERNAL d ax b.best_pos b.prob0 b.prob1 ch0 ch1) := by
  have hno : ¬ ∃ t ∈ d.triangle_indices, 1073741824 ≤ t := by
    rintro ⟨t, ht, hbig⟩
    exact absurd (hidx t ht) (by omega)
  simp only [SubdivideAux]
  rw [if_neg (by omega), if_neg (by omega), if_neg (by omega), if_neg hno]
  simp only [hs, if_neg hoff, h0, h1]

/-- Past the two early returns, a node of 2^31 or more triangle indices, or one
that holds a triangle index `t >= 2^30`, is outside the range in which the index
arithmetic of lines 378-383 is defined: the model gives no tree. -/
theorem Subdivide_overflow (sort : List (BBEvent K) → List (BBEvent K))
    (sc : SceneEvents K) (md : Nat) (d : KdNodeFields K) (hd : d.depth < md)
    (hn : 2 ≤ d.triangle_indices.length)
    (hbig : 2147483648 ≤ d.triangle_indices.length ∨
      ∃ t ∈ d.triangle_indices, 1073741824 ≤ t) :
    Subdivide sort sc md d = none := by
  obtain ⟨k, hk⟩ : ∃ k, md - d.depth = k + 1 := ⟨md - d.depth - 1, by omega⟩
  unfold Subdivide
  rw [hk]
  simp only [SubdivideAux]
  rw [if_neg (by omega)]
  by_cases h1 : 2147483648 ≤ d.triangle_indices.length
  · rw [if_pos h1]
  · rw [if_neg h1, if_neg (by omega), if_pos (hbig.resolve_left h1)]

/-- The retry loop tries `axis`, `(axis+1) mod 3`, `(axis+2) mod 3` in this
order and stops at the first axis that `trySplit` accepts. -/
theorem splitSearch_order (sort : List (BBEvent K) → List (BBEvent K)) (sc : SceneEvents K)
    (d : KdNodeFields K) (axis : Nat) :
    (∀ b, trySplit sort sc d axis = some b → splitSearch sort sc d 2 axis = some (axis, b)) ∧
    (trySplit sort sc d axis = none → ∀ b, trySplit sort sc d ((axis + 1) % 3) = some b →
      splitSearch sort sc d 2 axis = some ((axis + 1) % 3, b)) ∧
    (trySplit sort sc d axis = none → trySplit sort sc d ((axis + 1) % 3) = none →
      ∀ b, trySplit sort sc d (((axis + 1) % 3 + 1) % 3) = some b →
      splitSearch sort sc d 2 axis = some (((axis + 1) % 3 + 1) % 3, b)) ∧
    (trySplit sort sc d axis = none → trySplit sort sc d ((axis + 1) % 3) = none →
      trySplit sort sc d (((axis + 1) % 3 + 1) % 3) = none →
      splitSearch sort sc d 2 axis = none) := by
  refine ⟨?_, ?_, ?_, ?_⟩
  · intro b h
    simp only [splitSearch, h]
  · intro h0 b h
    simp only [splitSearch, h0, h]
  · intro h0 h1 b h
    simp only [splitSearch, h0, h1, h]
  · intro h0 h1 h2
    simp only [splitSearch, h0, h1, h2]

theorem firstAxis_spec (d : KdNodeFields K) :
    firstAxis d < 3 ∧
    ∀ j, j < 3 → BBsize d j ≤ BBsize d (firstAxis d) ∧
      (j < firstAxis d → BBsize d j < BBsize d (firstAxis d)) := by
  refine ⟨maxAxis_lt _ _ _, ?_⟩
  intro j hj
  unfold firstAxis maxAxis
  by_cases h01 : BBsize d 0 < BBsize d 1 <;> by_cases h12 : BBsize d 1 < BBsize d 2 <;>
    by_cases h02 : BBsize d 0 < BBsize d 2 <;>
    simp only [h01, h12, h02, if_true, if_false] <;> interval_cases j <;>
    constructor <;> first
      | (intro h; omega)
      | (intro _; linarith)
      | linarith

/-- Past the early returns, with an admissible sort, a node whose search finds
an axis becomes an internal node split on that axis. -/
theorem Subdivide_splits (sort : List (BBEvent K) → List (BBEvent K)) (hsort : IsEventSort sort)
    (sc : SceneEvents K) (md : Nat) (d : KdNodeFields K) (hd : d.depth < md)
    (hn : 2 ≤ d.triangle_indices.length) (hlt : d.triangle_indices.length < 1073741824)
    (hidx : ∀ t, t ∈ d.triangle_indices → t < 1073741824)
    (ax : Nat) (b : SplitCandidate K)
    (hs : splitSearch sort sc d 2 (firstAxis d) = some (ax, b)) :
    ∃ ch0 ch1, Subdivide sort sc md d =
      some (.INTERNAL d ax b.best_pos b.prob0 b.prob1 ch0 ch1) := by
  obtain ⟨k, hk⟩ : ∃ k, md - d.depth = k + 1 := ⟨md - d.depth - 1, by omega⟩
  have hoff := trySplit_offset_lt sort hsort sc d ax b
    (splitSearch_some sort sc d 2 _ ax b (maxAxis_lt _ _ _) hs).2
  have hlen := children_length_le sort hsort sc d ax b.best_offset
  obtain ⟨ch0, h0⟩ := SubdivideAux_total sort hsort sc md k (child0 d ax b.best_pos
    (leftTriangles (sortedEvents sort sc d ax) b.best_offset))
    (by show (leftTriangles _ _).length < _; omega)
    (fun t ht => hidx t ((children_indices_mem sort hsort sc d ax b.best_offset t).1 ht))
  obtain ⟨ch1, h1⟩ := SubdivideAux_total sort hsort sc md k (child1 d ax b.best_pos
    (rightTriangles (sortedEvents sort sc d ax) b.best_offset))
    (by show (rightTriangles _ _).length < _; omega)
    (fun t ht => hidx t ((children_indices_mem sort hsort sc d ax b.best_offset t).2 ht))
  refine ⟨ch0, ch1, ?_⟩
  unfold Subdivide
  rw [hk]
  exact SubdivideAux_step_some sort sc md k d hd hn (by omega) hidx ax b ch0 ch1 hs
    (by omega) h0 h1

end RetryProofs

/-- C21, as amended. Axis choice and retry, for a node of fewer than 2^30
triangle indices, each of them below 2^30 (the range in which the size `2*n`,
an `unsigned int`, and the indices `2*t + 1` and `best_offset + 1`, computed in
`int`, do not overflow): `Subdivide` first
tries the axis of largest box extent (the lowest-numbered one on ties) and then,
in order, `(axis+1) mod 3` and `(axis+2) mod 3`; the node is split on the first
axis in that order that `trySplit` accepts - a candidate exists and the best
cost does not exceed `ISECT_COST * |T|` - and it stays a leaf exactly when all
three axes fail.  The node is past the early returns (`depth < max_depth`, at
least 2 triangles), the sort is any admissible result of `std::sort`. -/
theorem C21_axis_choice_and_retry {K : Type} [LinearOrderedField K]
    (sort : List (BBEvent K) → List (BBEvent K)) (hsort : IsEventSort sort)
    (parent_scene : SceneEvents K) (max_depth : Nat) (d : KdNodeFields K)
    (hd : d.depth < max_depth) (hn : 2 ≤ d.triangle_indices.length)
    (hlt : d.triangle_indices.length < 1073741824)
    (hidx : ∀ t, t ∈ d.triangle_indices → t < 1073741824) :
    (firstAxis d < 3 ∧
      ∀ j, j < 3 → BBsize d j ≤ BBsize d (firstAxis d) ∧
        (j < firstAxis d → BBsize d j < BBsize d (firstAxis d))) ∧
    (∀ axis b, trySplit sort parent_scene d axis = some b ↔
      (sweep d axis 0 (sortedEvents sort parent_scene d axis)
        { n_before := 0, n_after := d.triangle_indices.length, best := none }).best = some b ∧
      b.best_cost ≤ ISECT_COST * (d.triangle_indices.length : K)) ∧
    (∀ b, trySplit sort parent_scene d (firstAxis d) = some b →
      ∃ ch0 ch1, Subdivide sort parent_scene max_depth d =
        some (.INTERNAL d (firstAxis d) b.best_pos b.prob0 b.prob1 ch0 ch1)) ∧
    (trySplit sort parent_scene d (firstAxis d) = none →
      ∀ b, trySplit sort parent_scene d ((firstAxis d + 1) % 3) = some b →
      ∃ ch0 ch1, Subdivide sort parent_scene max_depth d =
        some (.INTERNAL d (((firstAxis d + 1) % 3 : Nat) : Int) b.best_pos b.prob0 b.prob1
          ch0 ch1)) ∧
    (trySplit sort parent_scene d (firstAxis d) = none →
      trySplit sort parent_scene d ((firstAxis d + 1) % 3) = none →
      ∀ b, trySplit sort parent_scene d ((firstAxis d + 2) % 3) = some b →
      ∃ ch0 ch1, Subdivide sort parent_scene max_depth d =
        some (.INTERNAL d (((firstAxis d + 2) % 3 : Nat) : Int) b.best_pos b.prob0 b.prob1
          ch0 ch1)) ∧
    (Subdivide sort parent_scene max_depth d = some (.LEAF d) ↔
      trySplit sort parent_scene d (firstAxis d) = none ∧
      trySplit sort parent_scene d ((firstAxis d + 1) % 3) = none ∧
      trySplit sort parent_scene d ((firstAxis d + 2) % 3) = none) := by
  have h2 : ((firstAxis d + 1) % 3 + 1) % 3 = (firstAxis d + 2) % 3 := by omega
  obtain ⟨o1, o2, o3, o4⟩ := splitSearch_order sort parent_scene d (firstAxis d)
  rw [h2] at o3 o4
  have hsplit := Subdivide_splits sort hsort parent_scene max_depth d hd hn hlt hidx
  refine ⟨firstAxis_spec d, ?_, ?_, ?_, ?_, ?_⟩
  · intro axis b
    unfold trySplit
    simp only
    constructor
    · intro h
      split at h
      · exact absurd h (by simp)
      · rename_i b1 hb1
        split at h
        · exact absurd h (by simp)
        · rename_i hc
          simp only [Option.some.injEq] at h
          subst h
          exact ⟨hb1, not_lt.1 hc⟩
    · rintro ⟨h1, h3⟩
      simp only [h1]
      rw [if_neg (not_lt.2 h3)]
  · intro b hb
    exact hsplit _ b (o1 b hb)
  · intro h0 b hb
    exact hsplit _ b (o2 h0 b hb)
  · intro h0 h1 b hb
    exact hsplit _ b (o3 h0 h1 b hb)
  · constructor
    · intro hleaf
      cases e0 : trySplit sort parent_scene d (firstAxis d) with
      | some b =>
        obtain ⟨ch0, ch1, hc⟩ := hsplit _ b (o1 b e0)
        rw [hc] at hleaf
        exact absurd hleaf (by simp)
      | none =>
        cases e1 : trySplit sort parent_scene d ((firstAxis d + 1) % 3) with
        | some b =>
          obtain ⟨ch0, ch1, hc⟩ := hsplit _ b (o2 e0 b e1)
          rw [hc] at hleaf
          exact absurd hleaf (by simp)
        | none =>
          cases e2 : trySplit sort parent_scene d ((firstAxis d + 2) % 3) with
          | some b =>
            obtain ⟨ch0, ch1, hc⟩ := hsplit _ b (o3 e0 e1 b e2)
            rw [hc] at hleaf
            exact absurd hleaf (by simp)
          | none => exact ⟨rfl, rfl, rfl⟩
    · rintro ⟨e0, e1, e2⟩
      obtain ⟨k, hk⟩ : ∃ k, max_depth - d.depth = k + 1 := ⟨max_depth - d.depth - 1, by omega⟩
      unfold Subdivide
      rw [hk]
      exact SubdivideAux_step_none sort parent_scene max_depth k d hd hn (by omega) hidx
        (o4 e0 e1 e2)

theorem tieNode_firstAxis : firstAxis tieNode = 0 := by decide!

theorem tieNode_trySplit : (trySplit sortEvents tieScene tieNode 0).isSome = true := by decide!

/-- Witness for C21: the node of `tieScene`, whose largest extent is on x and
which is split on x at the first try. -/
theorem C21_axis_choice_and_retry_witness :
    IsEventSort (sortEvents : List (BBEvent ℚ) → List (BBEvent ℚ)) ∧
    tieNode.depth < 1 ∧ 2 ≤ tieNode.triangle_indices.length ∧
    tieNode.triangle_indices.length < 1073741824 ∧
    (∀ t, t ∈ tieNode.triangle_indices → t < 1073741824) ∧
    ∃ b ch0 ch1, trySplit sortEvents tieScene tieNode (firstAxis tieNode) = some b ∧
      Subdivide sortEvents tieScene 1 tieNode =
        some (.INTERNAL tieNode (firstAxis tieNode) b.best_pos b.prob0 b.prob1 ch0 ch1) := by
  have h1 : tieNode.depth < 1 := by decide
  have h2 : 2 ≤ tieNode.triangle_indices.length := by decide
  have h3 : tieNode.triangle_indices.length < 1073741824 := by decide
  have h4 : ∀ t, t ∈ tieNode.triangle_indices → t < 1073741824 := by
    intro t ht
    have h01 : t = 0 ∨ t = 1 := by simpa [tieNode] using ht
    omega
  obtain ⟨b, hb⟩ := Option.isSome_iff_exists.1 tieNode_trySplit
  rw [← tieNode_firstAxis] at hb
  obtain ⟨ch0, ch1, hc⟩ :=
    (C21_axis_choice_and_retry sortEvents sortEvents_isEventSort tieScene 1 tieNode h1 h2
      h3 h4).2.2.1 b hb
  exact ⟨sortEvents_isEventSort, h1, h2, h3, h4, b, ch0, ch1, hb, hc⟩

/-- C23. `Subdivide` leaves a node as a leaf with its triangle list and all its
other members unchanged, and creates no children, whenever the depth of the
node is `>= max_depth` or the node holds fewer than 2 triangles. -/
theorem C23_early_return {K : Type} [LinearOrderedField K]
    (sort : List (BBEvent K) → List (BBEvent K)) (parent_scene : SceneEvents K)
    (max_depth : Nat) (d : KdNodeFields K)
    (h : d.depth ≥ max_depth ∨ d.triangle_indices.length < 2) :
    Subdivide sort parent_scene max_depth d = some (.LEAF d) ∧
    ∀ t, Subdivide sort parent_scene max_depth d = some t →
      t.fields.triangle_indices = d.triangle_indices ∧ t.nodeCount = 1 :=
  ⟨SubdivideAux_early sort parent_scene max_depth d h _, fun t ht => by
    unfold Subdivide at ht
    rw [SubdivideAux_early sort parent_scene max_depth d h _] at ht
    simp only [Option.some.injEq] at ht
    subst ht
    exact ⟨rfl, rfl⟩⟩

/-- Witness for C23: the node of `tieScene` with depth limit 0. -/
theorem C23_early_return_witness :
    (tieNode.depth ≥ 0 ∨ tieNode.triangle_indices.length < 2) ∧
    Subdivide sortEvents tieScene 0 tieNode = some (.LEAF tieNode) :=
  ⟨Or.inl (Nat.zero_le _),
    (C23_early_return sortEvents tieScene 0 tieNode (Or.inl (Nat.zero_le _))).1⟩

/-! ## Split position and child boxes (C22) -/

theorem SubdivideAux_splitsInside {K : Type} [LinearOrderedField K]
    (sort : List (BBEvent K) → List (BBEvent K)) (sc : SceneEvents K) (md : Nat)
    (t : UncompressedKdNode K) :
    ∀ (budget : Nat) (d : KdNodeFields K), SubdivideAux sort sc md budget d = some t →
      SplitsInside t := by
  induction t with
  | LEAF d0 =>
    intro budget d _
    exact True.intro
  | INTERNAL d0 a sp p0 p1 ch0 ch1 ih0 ih1 =>
    intro budget d h
    obtain ⟨ax, b, k, -, rfl, rfl, hax, -, -, htry, rfl, -, -, h0, h1⟩ :=
      SubdivideAux_internal sort sc md budget d d0 a sp p0 p1 ch0 ch1 h
    obtain ⟨⟨e, -, hpos, hlo, hhi⟩, -⟩ := trySplit_some sort sc d0 ax b htry
    refine ⟨⟨ax, hax, rfl, by rw [← hpos]; exact hlo, by rw [← hpos]; exact hhi, ?_⟩,
      ih0 k _ h0, ih1 k _ h1⟩
    intro axis haxis
    rw [SubdivideAux_fields sort sc md k _ ch0 h0, SubdivideAux_fields sort sc md k _ ch1 h1]
    exact ⟨axis_bounds_child0 d0 ax _ _ axis hax haxis, axis_bounds_child1 d0 ax _ _ axis hax haxis⟩

/-- C22. For every internal node of the tree that `Subdivide` builds, the split
position lies strictly inside the bounds of the node on the split axis
(`lo < split_pos < hi`); the box of the left child is the box of the node with
that axis cut to `[lo, split_pos]`, the box of the right child is cut to
`[split_pos, hi]`, and both children keep the bounds of the node on the other
two axes.  In particular this holds for the tree built by `Commit`. -/
theorem C22_split_inside_bounds {K : Type} [LinearOrderedField K]
    (sort : List (BBEvent K) → List (BBEvent K)) (parent_scene : SceneEvents K)
    (max_depth : Nat) (d : KdNodeFields K) (t : UncompressedKdNode K)
    (h : Subdivide sort parent_scene max_depth d = some t) :
    SplitsInside t ∧
    ∀ (sqrt : K → K) (triangles : List (Triangle K)) (scene : Scene K),
      Commit sqrt sort triangles = some scene → SplitsInside scene.uncompressed_root := by
  refine ⟨SubdivideAux_splitsInside sort parent_scene max_depth t _ d h, ?_⟩
  intro sqrt triangles scene hc
  obtain ⟨-, -, -, root, -, hsub⟩ := Commit_parts sqrt sort triangles scene hc
  exact SubdivideAux_splitsInside sort scene.events scene.max_depth _ _ root hsub

/-- Witness for C22: the tree built from the node of `tieScene`, split on x at
37 inside the bounds (0, 39). -/
theorem C22_split_inside_bounds_witness :
    Subdivide sortEvents tieScene 1 tieNode = some tieResult ∧ SplitsInside tieResult :=
  ⟨tieNode_subdivide,
    (C22_split_inside_bounds sortEvents tieScene 1 tieNode tieResult tieNode_subdivide).1⟩

/-! ## Scene bounds (C24) -/

section BoundsProofs

variable {K : Type} [LinearOrderedField K]

theorem foldl_min_mem (es : List K) (e : K) : es.foldl min e ∈ e :: es := by
  induction es generalizing e with
  | nil => simp
  | cons y ys ih =>
    simp only [List.foldl_cons]
    rcases List.mem_cons.1 (ih (min e y)) with h | h
    · rw [h]
      rcases min_choice e y with h1 | h1 <;> rw [h1] <;> simp
    · exact List.mem_cons_of_mem _ (List.mem_cons_of_mem _ h)

theorem foldl_max_mem (es : List K) (e : K) : es.foldl max e ∈ e :: es := by
  induction es generalizing e with
  | nil => simp
  | cons y ys ih =>
    simp only [List.foldl_cons]
    rcases List.mem_cons.1 (ih (max e y)) with h | h
    · rw [h]
      rcases max_choice e y with h1 | h1 <;> rw [h1] <;> simp
    · exact List.mem_cons_of_mem _ (List.mem_cons_of_mem _ h)

theorem minmax_element_mem (l : List K) (p : K × K) (h : minmax_element l = some p) :
    p.1 ∈ l ∧ p.2 ∈ l := by
  cases l with
  | nil => simp [minmax_element] at h
  | cons e es =>
    simp only [minmax_element, Option.some.injEq] at h
    subst h
    exact ⟨foldl_min_mem es e, foldl_max_mem es e⟩

theorem mem_bound_fill (triangles : List (Triangle K)) (axis : Nat) (x : K) :
    x ∈ bound_fill_func triangles axis ↔ ∃ tri, tri ∈ triangles ∧
      (x = min (min (tri.A.get axis) (tri.B.get axis)) (tri.C.get axis) ∨
       x = max (max (tri.A.get axis) (tri.B.get axis)) (tri.C.get axis)) := by
  simp [bound_fill_func]

omit [LinearOrderedField K] in
theorem mem_vertexCoords (triangles : List (Triangle K)) (axis : Nat) (x : K) :
    x ∈ vertexCoords triangles axis ↔ ∃ tri, tri ∈ triangles ∧
      (x = tri.A.get axis ∨ x = tri.B.get axis ∨ x = tri.C.get axis) := by
  simp [vertexCoords]

theorem min3_mem (a b c : K) : min (min a b) c = a ∨ min (min a b) c = b ∨ min (min a b) c = c := by
  rcases min_choice (min a b) c with h | h
  · rw [h]
    rcases min_choice a b with h1 | h1
    · exact Or.inl h1
    · exact Or.inr (Or.inl h1)
  · exact Or.inr (Or.inr h)

theorem max3_mem (a b c : K) : max (max a b) c = a ∨ max (max a b) c = b ∨ max (max a b) c = c := by
  rcases max_choice (max a b) c with h | h
  · rw [h]
    rcases max_choice a b with h1 | h1
    · exact Or.inl h1
    · exact Or.inr (Or.inl h1)
  · exact Or.inr (Or.inr h)

/-- The pair returned by `std::minmax_element` on the extent table of an axis
is the minimum and the maximum of that coordinate over all triangle vertices. -/
theorem minmax_vertexCoords (triangles : List (Triangle K)) (axis : Nat) (p : K × K)
    (hp : minmax_element (bound_fill_func triangles axis) = some p) :
    p.1 ∈ vertexCoords triangles axis ∧ p.2 ∈ vertexCoords triangles axis ∧
    ∀ x, x ∈ vertexCoords triangles axis → p.1 ≤ x ∧ x ≤ p.2 := by
  obtain ⟨h1, h2⟩ := minmax_element_mem _ p hp
  have hb := minmax_element_bounds _ p hp
  refine ⟨?_, ?_, ?_⟩
  · obtain ⟨tri, htri, hx | hx⟩ := (mem_bound_fill triangles axis p.1).1 h1
    · refine (mem_vertexCoords triangles axis p.1).2 ⟨tri, htri, ?_⟩
      rw [hx]
      exact min3_mem _ _ _
    · refine (mem_vertexCoords triangles axis p.1).2 ⟨tri, htri, ?_⟩
      rw [hx]
      exact max3_mem _ _ _
  · obtain ⟨tri, htri, hx | hx⟩ := (mem_bound_fill triangles axis p.2).1 h2
    · refine (mem_vertexCoords triangles axis p.2).2 ⟨tri, htri, ?_⟩
      rw [hx]
      exact min3_mem _ _ _
    · refine (mem_vertexCoords triangles axis p.2).2 ⟨tri, htri, ?_⟩
      rw [hx]
      exact max3_mem _ _ _
  · intro x hx
    obtain ⟨tri, htri, hcase⟩ := (mem_vertexCoords triangles axis x).1 hx
    have hlo := (hb _ ((mem_bound_fill triangles axis _).2 ⟨tri, htri, Or.inl rfl⟩)).1
    have hhi := (hb _ ((mem_bound_fill triangles axis _).2 ⟨tri, htri, Or.inr rfl⟩)).2
    rcases hcase with rfl | rfl | rfl
    · exact ⟨hlo.trans ((min_le_left _ _).trans (min_le_left _ _)),
        ((le_max_left _ _).trans (le_max_left _ _)).trans hhi⟩
    · exact ⟨hlo.trans ((min_le_left _ _).trans (min_le_right _ _)),
        ((le_max_right _ _).trans (le_max_left _ _)).trans hhi⟩
    · exact ⟨hlo.trans (min_le_right _ _), (le_max_right _ _).trans hhi⟩

end BoundsProofs

/-- C24. After `Commit` on a scene with at least one triangle, the scene bounds
on each axis are `(m - epsilon, M + epsilon)`, where `m` and `M` are the minimum
and the maximum of that coordinate over all triangle vertices; the root node of
the kd-tree gets exactly these bounds, and every triangle vertex lies inside
them.  The square root is any function that is non-negative on non-negative
arguments. -/
theorem C24_scene_bounds {K : Type} [LinearOrderedField K]
    (sqrt : K → K) (hsqrt : ∀ x, 0 ≤ x → 0 ≤ sqrt x)
    (sort : List (BBEvent K) → List (BBEvent K))
    (triangles : List (Triangle K)) (scene : Scene K)
    (hcommit : Commit sqrt sort triangles = some scene) :
    1 ≤ triangles.length ∧ 0 ≤ scene.epsilon ∧
    ∀ axis, axis < 3 →
      ∃ m M, m ∈ vertexCoords triangles axis ∧ M ∈ vertexCoords triangles axis ∧
        (∀ x, x ∈ vertexCoords triangles axis → m ≤ x ∧ x ≤ M) ∧
        scene.bounds axis = (m - scene.epsilon, M + scene.epsilon) ∧
        axis_bounds scene.uncompressed_root.fields axis = scene.bounds axis ∧
        ∀ x, x ∈ vertexCoords triangles axis →
          (scene.bounds axis).1 ≤ x ∧ x ≤ (scene.bounds axis).2 := by
  unfold Commit at hcommit
  simp only at hcommit
  split at hcommit
  · exact absurd hcommit (by simp)
  · simp only [Option.bind_eq_bind, Option.bind_eq_some, Option.pure_def, Option.some.injEq]
      at hcommit
    obtain ⟨p, hp, q, hq, r, hr, root, hroot, c, hc, rfl⟩ := hcommit
    have hfields := SubdivideAux_fields sort _ _ _ _ _ hroot
    have heps : (0 : K) ≤ 1 / 100000 * sqrt ((p.2 - p.1) * (p.2 - p.1) +
        (q.2 - q.1) * (q.2 - q.1) + (r.2 - r.1) * (r.2 - r.1)) :=
      mul_nonneg (by norm_num) (hsqrt _ (add_nonneg (add_nonneg (mul_self_nonneg _)
        (mul_self_nonneg _)) (mul_self_nonneg _)))
    have hlen : 1 ≤ triangles.length := by
      cases triangles with
      | nil => simp [bound_fill_func, minmax_element] at hp
      | cons t ts => simp
    have key : ∀ (axis : Nat) (w : K × K) (e : K), 0 ≤ e →
        minmax_element (bound_fill_func triangles axis) = some w →
        ∃ m M, m ∈ vertexCoords triangles axis ∧ M ∈ vertexCoords triangles axis ∧
          (∀ x, x ∈ vertexCoords triangles axis → m ≤ x ∧ x ≤ M) ∧
          (w.1 - e, w.2 + e) = (m - e, M + e) ∧
          ∀ x, x ∈ vertexCoords triangles axis → w.1 - e ≤ x ∧ x ≤ w.2 + e := by
      intro axis w e he hw
      obtain ⟨h1, h2, h3⟩ := minmax_vertexCoords triangles axis w hw
      exact ⟨w.1, w.2, h1, h2, h3, rfl, fun x hx =>
        ⟨by linarith [(h3 x hx).1], by linarith [(h3 x hx).2]⟩⟩
    refine ⟨hlen, heps, ?_⟩
    intro axis haxis
    interval_cases axis
    · obtain ⟨m, M, h1, h2, h3, h4, h5⟩ := key 0 p _ heps hp
      exact ⟨m, M, h1, h2, h3, h4, by rw [hfields]; rfl, h5⟩
    · obtain ⟨m, M, h1, h2, h3, h4, h5⟩ := key 1 q _ heps hq
      exact ⟨m, M, h1, h2, h3, h4, by rw [hfields]; rfl, h5⟩
    · obtain ⟨m, M, h1, h2, h3, h4, h5⟩ := key 2 r _ heps hr
      exact ⟨m, M, h1, h2, h3, h4, by rw [hfields]; rfl, h5⟩

/-- Witness for C24: the scene of two triangles side by side. -/
theorem C24_scene_bounds_witness :
    (∀ x, 0 ≤ x → 0 ≤ sqrtStandIn x) ∧
    ∃ scene, Commit sqrtStandIn sortEvents twoTriangles = some scene ∧
      ∀ x, x ∈ vertexCoords twoTriangles 0 →
        (scene.bounds 0).1 ≤ x ∧ x ≤ (scene.bounds 0).2 := by
  obtain ⟨scene, hscene⟩ := Option.isSome_iff_exists.1 twoTriangles_commit
  obtain ⟨m, M, -, -, -, -, -, h⟩ :=
    (C24_scene_bounds sqrtStandIn sqrtStandIn_nonneg sortEvents twoTriangles scene hscene).2.2
      0 (by decide)
  exact ⟨sqrtStandIn_nonneg, scene, hscene, h⟩

/-! ## Classification of a path point (C26) -/

section ClassifyProofs

variable {R K : Type} [LinearOrderedField K]

/-- The counter and the flag after the classification: refunded and set
exactly when the point is not SCATTERED. -/
theorem classify_refund (pt : PathTracer R K) (mat : Material K) (fromInside : Bool)
    (Vr lightN : Vec3 K) (n : Nat) (skip : Bool) (rnd : R) :
    ((classify pt mat fromInside Vr lightN n skip rnd).1 = .SCATTERED ∧
      (classify pt mat fromInside Vr lightN n skip rnd).2.1 = n ∧
      (classify pt mat fromInside Vr lightN n skip rnd).2.2.1 = skip) ∨
    ((classify pt mat fromInside Vr lightN n skip rnd).1 ≠ .SCATTERED ∧
      (classify pt mat fromInside Vr lightN n skip rnd).2.1 = n - 1 ∧
      (classify pt mat fromInside Vr lightN n skip rnd).2.2.1 = true) := by
  unfold classify
  split
  · split
    · exact Or.inr ⟨by simp, rfl, rfl⟩
    · simp only
      split
      · split
        · exact Or.inr ⟨by simp, rfl, rfl⟩
        · exact Or.inr ⟨by simp, rfl, rfl⟩
      · exact Or.inl ⟨rfl, rfl, rfl⟩
  · split
    · simp only
      split
      · exact Or.inr ⟨by simp, rfl, rfl⟩
      · exact Or.inl ⟨rfl, rfl, rfl⟩
    · exact Or.inl ⟨rfl, rfl, rfl⟩

/-- The `switch` keeps a SCATTERED point SCATTERED and an exempted point
exempted: the only changes of type are the downgrades to REFLECTED. -/
theorem nextDirection_type (pt : PathTracer R K) (tries : Nat) (type : PathPointType)
    (mat : Material K) (Vr lightN faceN : Vec3 K) (rnd : R)
    (d : PathPointType × Vec3 K × R)
    (h : nextDirection pt tries type mat Vr lightN faceN rnd = .ok d) :
    d.1 = type ∨ (d.1 = .REFLECTED ∧ (type = .ENTERED ∨ type = .LEFT)) := by
  unfold nextDirection at h
  split at h
  · simp only at h
    split at h
    · exact absurd h (by simp)
    · simp only [Except.ok.injEq] at h
      subst h
      exact Or.inl rfl
  · simp only [Except.ok.injEq] at h
    subst h
    exact Or.inl rfl
  · split at h
    · simp only [Except.ok.injEq] at h
      subst h
      exact Or.inr ⟨rfl, Or.inl rfl⟩
    · split at h
      · simp only [Except.ok.injEq] at h
        subst h
        exact Or.inr ⟨rfl, Or.inl rfl⟩
      · simp only [Except.ok.injEq] at h
        subst h
        exact Or.inl rfl
  · split at h
    · simp only [Except.ok.injEq] at h
      subst h
      exact Or.inl rfl
    · split at h
      · simp only [Except.ok.injEq] at h
        subst h
        exact Or.inr ⟨rfl, Or.inr rfl⟩
      · simp only [Except.ok.injEq] at h
        subst h
        exact Or.inl rfl

/-- The point that `hitPoint` builds carries the classification of `classify`,
called with the entry side `dot(faceN, Vr) < 0`, up to a downgrade to
REFLECTED, and the counters of the classification. -/
theorem hitPoint_classified (pt : PathTracer R K) (tries : Nat) (ray : Ray K)
    (i : Intersection K) (n : Nat) (skip : Bool) (rnd : R)
    (h : PathPoint K × Ray K × Nat × Bool × R)
    (hh : hitPoint pt tries ray i n skip rnd = .ok h) :
    h.1.Vr = ray.direction.neg ∧ h.1.faceN = i.normal ∧
    h.2.2.1 = (classify pt i.material (decide (dot i.normal ray.direction.neg < 0))
      ray.direction.neg h.1.lightN n skip rnd).2.1 ∧
    h.2.2.2.1 = (classify pt i.material (decide (dot i.normal ray.direction.neg < 0))
      ray.direction.neg h.1.lightN n skip rnd).2.2.1 ∧
    (h.1.type = (classify pt i.material (decide (dot i.normal ray.direction.neg < 0))
        ray.direction.neg h.1.lightN n skip rnd).1 ∨
      (h.1.type = .REFLECTED ∧
        ((classify pt i.material (decide (dot i.normal ray.direction.neg < 0))
            ray.direction.neg h.1.lightN n skip rnd).1 = .ENTERED ∨
         (classify pt i.material (decide (dot i.normal ray.direction.neg < 0))
            ray.direction.neg h.1.lightN n skip rnd).1 = .LEFT))) := by
  unfold hitPoint at hh
  simp only at hh
  split at hh
  · exact absurd hh (by simp)
  · rename_i d hd
    simp only [Except.ok.injEq] at hh
    subst hh
    exact ⟨rfl, rfl, rfl, rfl, nextDirection_type pt tries _ _ _ _ _ _ d hd⟩

end ClassifyProofs

section RefundProofs

variable {R K : Type} [LinearOrderedField K]

theorem hitPoint_refund (pt : PathTracer R K) (tries : Nat) (ray : Ray K) (i : Intersection K)
    (n : Nat) (skip : Bool) (rnd : R) (h : PathPoint K × Ray K × Nat × Bool × R)
    (hh : hitPoint pt tries ray i n skip rnd = .ok h) :
    (h.1.type = .SCATTERED ∧ h.2.2.1 = n ∧ h.2.2.2.1 = skip) ∨
    (h.1.type ≠ .SCATTERED ∧ h.2.2.1 = n - 1 ∧ h.2.2.2.1 = true) := by
  obtain ⟨-, -, hn, hskip, hty⟩ := hitPoint_classified pt tries ray i n skip rnd h hh
  rcases classify_refund pt i.material (decide (dot i.normal ray.direction.neg < 0))
    ray.direction.neg h.1.lightN n skip rnd with ⟨c1, c2, c3⟩ | ⟨c1, c2, c3⟩
  · rcases hty with e | ⟨-, e | e⟩
    · exact Or.inl ⟨e.trans c1, hn.trans c2, hskip.trans c3⟩
    · rw [c1] at e
      exact absurd e (by decide)
    · rw [c1] at e
      exact absurd e (by decide)
  · refine Or.inr ⟨?_, hn.trans c2, hskip.trans c3⟩
    rcases hty with e | ⟨e, -⟩
    · rw [e]
      exact c1
    · rw [e]
      decide

theorem tracePoint_refund (pt : PathTracer R K) (tries : Nat) (s s1 : TraceState R K)
    (h : tracePoint pt tries s = .ok (true, s1)) :
    ∃ p, s1.path = s.path ++ [p] ∧ p.infinity = false ∧
      ((p.type = .SCATTERED ∧ s1.n = s.n ∧ s1.skip_russian = s.skip_russian) ∨
       (p.type ≠ .SCATTERED ∧ s1.n = s.n - 1 ∧ s1.skip_russian = true)) := by
  unfold tracePoint at h
  simp only at h
  split at h
  · simp at h
  · split at h
    · exact absurd h (by simp)
    · rename_i hp hhit
      simp only [Except.ok.injEq, Prod.mk.injEq, true_and] at h
      subst h
      exact ⟨hp.1, rfl, (hitPoint_spec pt tries _ _ _ _ _ hp hhit).1,
        hitPoint_refund pt tries _ _ _ _ _ hp hhit⟩

/-- An iteration of the forward loop that pushes a surface point: the counter
`n` has grown by one if the point is SCATTERED and is back at its old value
(refunded) otherwise; the roulette of the next iteration is skipped if the
point is not SCATTERED and, in roulette mode, not skipped if it is. -/
theorem forwardStep_refund (pt : PathTracer R K) (tries : Nat) (s s1 : TraceState R K)
    (h : forwardStep pt tries s = .ok (true, s1)) :
    ∃ p, s1.path = s.path ++ [p] ∧ p.infinity = false ∧
      ((p.type = .SCATTERED ∧ s1.n = s.n + 1 ∧ (pt.russian ≥ 0 → s1.skip_russian = false)) ∨
       (p.type ≠ .SCATTERED ∧ s1.n = s.n ∧ s1.skip_russian = true)) := by
  unfold forwardStep at h
  simp only at h
  split at h
  · simp at h
  · split at h
    · rename_i hrus
      split at h
      · split at h
        · simp at h
        · obtain ⟨p, h1, h2, h3⟩ := tracePoint_refund pt tries _ s1 h
          refine ⟨p, h1, h2, ?_⟩
          rcases h3 with ⟨e1, e2, e3⟩ | ⟨e1, e2, e3⟩
          · exact Or.inl ⟨e1, e2, fun _ => e3⟩
          · exact Or.inr ⟨e1, e2, e3⟩
      · obtain ⟨p, h1, h2, h3⟩ := tracePoint_refund pt tries _ s1 h
        refine ⟨p, h1, h2, ?_⟩
        rcases h3 with ⟨e1, e2, e3⟩ | ⟨e1, e2, e3⟩
        · exact Or.inl ⟨e1, e2, fun _ => e3⟩
        · exact Or.inr ⟨e1, e2, e3⟩
    · rename_i hrus
      split at h
      · simp at h
      · obtain ⟨p, h1, h2, h3⟩ := tracePoint_refund pt tries _ s1 h
        refine ⟨p, h1, h2, ?_⟩
        rcases h3 with ⟨e1, e2, e3⟩ | ⟨e1, e2, e3⟩
        · exact Or.inl ⟨e1, e2, fun hr => absurd hr hrus⟩
        · exact Or.inr ⟨e1, e2, e3⟩

end RefundProofs

/-- C26. Point classification as a function of the material, the entry side
and the uniform draws `u1`, `u2` (the first two results of `Get01`): with
`translucency > 0.001`, a hit from inside is LEFT, and a hit from outside is
REFLECTED if `u1 < translucency` and `u2 < Fresnel(Vr, lightN, 1/refraction_index)`,
ENTERED if `u1 < translucency` and `u2 >= Fresnel`, SCATTERED if
`u1 >= translucency`; with `translucency <= 0.001`, a reflective material gives
REFLECTED if `u1 < reflection_strength` and SCATTERED otherwise, and a
non-reflective material always gives SCATTERED; the depth counter is refunded
and the next roulette test skipped exactly for the points classified
REFLECTED, ENTERED or LEFT.  The entry side is `dot(faceN, Vr) < 0`, and the
point pushed carries this classification, up to a downgrade to REFLECTED.
In the loop: an iteration that pushes a surface point leaves `n` one higher
for a SCATTERED point and unchanged for the others, after which the next
roulette is skipped; in roulette mode it is not skipped after a SCATTERED
point. -/
theorem C26_classification {R K : Type} [LinearOrderedField K] (pt : PathTracer R K)
    (mat : Material K) (fromInside : Bool) (Vr lightN : Vec3 K) (n : Nat) (skip : Bool)
    (rnd : R) :
    (mat.translucency > 1 / 1000 →
      (fromInside = true → (classify pt mat fromInside Vr lightN n skip rnd).1 = .LEFT) ∧
      (fromInside = false → (pt.rnd.Get01 rnd).1 < mat.translucency →
        (pt.rnd.Get01 (pt.rnd.Get01 rnd).2).1 <
          Fresnel pt.sqrt Vr lightN (1 / mat.refraction_index) →
        (classify pt mat fromInside Vr lightN n skip rnd).1 = .REFLECTED) ∧
      (fromInside = false → (pt.rnd.Get01 rnd).1 < mat.translucency →
        (pt.rnd.Get01 (pt.rnd.Get01 rnd).2).1 ≥
          Fresnel pt.sqrt Vr lightN (1 / mat.refraction_index) →
        (classify pt mat fromInside Vr lightN n skip rnd).1 = .ENTERED) ∧
      (fromInside = false → (pt.rnd.Get01 rnd).1 ≥ mat.translucency →
        (classify pt mat fromInside Vr lightN n skip rnd).1 = .SCATTERED)) ∧
    (mat.translucency ≤ 1 / 1000 →
      (mat.reflective = true → (pt.rnd.Get01 rnd).1 < mat.reflection_strength →
        (classify pt mat fromInside Vr lightN n skip rnd).1 = .REFLECTED) ∧
      (mat.reflective = true → (pt.rnd.Get01 rnd).1 ≥ mat.reflection_strength →
        (classify pt mat fromInside Vr lightN n skip rnd).1 = .SCATTERED) ∧
      (mat.reflective = false →
        (classify pt mat fromInside Vr lightN n skip rnd).1 = .SCATTERED)) ∧
    (((classify pt mat fromInside Vr lightN n skip rnd).1 = .SCATTERED ∧
        (classify pt mat fromInside Vr lightN n skip rnd).2.1 = n ∧
        (classify pt mat fromInside Vr lightN n skip rnd).2.2.1 = skip) ∨
      ((classify pt mat fromInside Vr lightN n skip rnd).1 ≠ .SCATTERED ∧
        (classify pt mat fromInside Vr lightN n skip rnd).2.1 = n - 1 ∧
        (classify pt mat fromInside Vr lightN n skip rnd).2.2.1 = true)) ∧
    (∀ (tries : Nat) (ray : Ray K) (i : Intersection K)
      (h : PathPoint K × Ray K × Nat × Bool × R),
      hitPoint pt tries ray i n skip rnd = .ok h →
      h.2.2.1 = (classify pt i.material (decide (dot i.normal ray.direction.neg < 0))
        ray.direction.neg h.1.lightN n skip rnd).2.1 ∧
      h.2.2.2.1 = (classify pt i.material (decide (dot i.normal ray.direction.neg < 0))
        ray.direction.neg h.1.lightN n skip rnd).2.2.1 ∧
      (h.1.type = (classify pt i.material (decide (dot i.normal ray.direction.neg < 0))
          ray.direction.neg h.1.lightN n skip rnd).1 ∨
        (h.1.type = .REFLECTED ∧
          ((classify pt i.material (decide (dot i.normal ray.direction.neg < 0))
              ray.direction.neg h.1.lightN n skip rnd).1 = .ENTERED ∨
           (classify pt i.material (decide (dot i.normal ray.direction.neg < 0))
              ray.direction.neg h.1.lightN n skip rnd).1 = .LEFT)))) ∧
    (∀ (tries : Nat) (s s1 : TraceState R K), forwardStep pt tries s = .ok (true, s1) →
      ∃ p, s1.path = s.path ++ [p] ∧ p.infinity = false ∧
        ((p.type = .SCATTERED ∧ s1.n = s.n + 1 ∧
            (pt.russian ≥ 0 → s1.skip_russian = false)) ∨
         (p.type ≠ .SCATTERED ∧ s1.n = s.n ∧ s1.skip_russian = true))) := by
  refine ⟨?_, ?_, classify_refund pt mat fromInside Vr lightN n skip rnd, ?_,
    fun tries s s1 h => forwardStep_refund pt tries s s1 h⟩
  · intro ht
    refine ⟨?_, ?_, ?_, ?_⟩
    · intro hi
      simp only [classify, ht, hi, if_true]
    · intro hi h1 h2
      simp only [classify, ht, hi, h1, h2, if_true, Bool.false_eq_true, if_false]
    · intro hi h1 h2
      simp only [classify, ht, hi, h1, not_lt.2 h2, if_true, Bool.false_eq_true, if_false]
    · intro hi h1
      simp only [classify, ht, hi, not_lt.2 h1, if_true, Bool.false_eq_true, if_false]
  · intro ht
    have ht1 : ¬ mat.translucency > 1 / 1000 := not_lt.2 ht
    refine ⟨?_, ?_, ?_⟩
    · intro hr h1
      simp only [classify, ht1, hr, h1, if_true, if_false]
    · intro hr h1
      simp only [classify, ht1, hr, not_lt.2 h1, if_true, if_false]
    · intro hr
      simp only [classify, ht1, hr, if_false, Bool.false_eq_true]
  · intro tries ray i h hh
    exact (hitPoint_classified pt tries ray i n skip rnd h hh).2.2

/-- Witness for C26: the perfect mirror, hit by the ray straight down with the
draw 1/2, is classified REFLECTED, the counter is refunded and the roulette
skipped. -/
theorem C26_classification_witness :
    mirrorMaterial.translucency ≤ 1 / 1000 ∧ mirrorMaterial.reflective = true ∧
    ((exampleTracer mirrorFloor 1 10 1).rnd.Get01 ()).1 < mirrorMaterial.reflection_strength ∧
    classify (exampleTracer mirrorFloor 1 10 1) mirrorMaterial false ⟨0, 0, 1⟩ ⟨0, 0, 1⟩ 1 false
      () = (.REFLECTED, 0, true, ()) := by
  have h1 : mirrorMaterial.translucency ≤ 1 / 1000 := by decide!
  have h3 : ((exampleTracer mirrorFloor 1 10 1).rnd.Get01 ()).1 <
      mirrorMaterial.reflection_strength := by decide!
  have hC := C26_classification (exampleTracer mirrorFloor 1 10 1) mirrorMaterial false
    ⟨0, 0, 1⟩ ⟨0, 0, 1⟩ 1 false ()
  have hty := (hC.2.1 h1).1 rfl h3
  refine ⟨h1, rfl, h3, ?_⟩
  rcases hC.2.2.1 with ⟨h4, -, -⟩ | ⟨-, h5, h6⟩
  · rw [hty] at h4
    exact absurd h4 (by decide)
  · exact Prod.ext hty (Prod.ext h5 (Prod.ext h6 rfl))

/-! ## The fixed-depth policy (C25) -/

section DepthPolicyProofs

variable {R K : Type} [LinearOrderedField K]

omit [LinearOrderedField K] in
theorem countedPoints_append (path : List (PathPoint K)) (p : PathPoint K) :
    countedPoints (path ++ [p]) =
      countedPoints path +
        (if p.infinity = true ∨ p.type = PathPointType.SCATTERED then 1 else 0) := by
  unfold countedPoints
  rw [List.filter_append, List.length_append]
  congr 1
  by_cases h : p.infinity = true ∨ p.type = PathPointType.SCATTERED
  · rw [if_pos h]
    simp [List.filter_cons, h]
  · rw [if_neg h]
    simp only [not_or] at h
    simp [List.filter_cons, h.1, h.2]

omit [LinearOrderedField K] in
theorem countedPoints_take_le (path : List (PathPoint K)) (k : Nat) :
    countedPoints (path.take k) ≤ countedPoints path := by
  unfold countedPoints
  exact ((List.take_sublist k path).filter _).length_le

theorem hitPoint_counted (pt : PathTracer R K) (tries : Nat) (ray : Ray K) (i : Intersection K)
    (n : Nat) (skip : Bool) (rnd : R) (h : PathPoint K × Ray K × Nat × Bool × R)
    (hh : hitPoint pt tries ray i n skip rnd = .ok h) :
    h.1.infinity = false ∧
    ((h.1.type = .SCATTERED ∧ h.2.2.1 = n) ∨ (h.1.type ≠ .SCATTERED ∧ h.2.2.1 = n - 1)) := by
  obtain ⟨hinf, -, -⟩ := hitPoint_spec pt tries ray i n skip rnd h hh
  obtain ⟨-, -, hn, -, hty⟩ := hitPoint_classified pt tries ray i n skip rnd h hh
  refine ⟨hinf, ?_⟩
  rcases classify_refund pt i.material (decide (dot i.normal ray.direction.neg < 0))
    ray.direction.neg h.1.lightN n skip rnd with ⟨c1, c2, -⟩ | ⟨c1, c2, -⟩
  · rcases hty with e | ⟨-, e | e⟩
    · exact Or.inl ⟨e.trans c1, hn.trans c2⟩
    · rw [c1] at e
      exact absurd e (by decide)
    · rw [c1] at e
      exact absurd e (by decide)
  · refine Or.inr ⟨?_, hn.trans c2⟩
    rcases hty with e | ⟨e, -⟩
    · rw [e]
      exact c1
    · rw [e]
      decide

/-- The count after the query of an iteration whose counter `n` was one above
the count: after a `break` (infinity point) the count is `n`; otherwise the
count equals the new counter, which is at most `n`. -/
theorem tracePoint_counted (pt : PathTracer R K) (tries : Nat) (s s1 : TraceState R K) (b : Bool)
    (h : tracePoint pt tries s = .ok (b, s1)) (hc : countedPoints s.path + 1 = s.n) :
    (b = false → countedPoints s1.path = s.n) ∧
    (b = true → countedPoints s1.path = s1.n ∧ s1.n ≤ s.n) := by
  unfold tracePoint at h
  simp only at h
  split at h
  · simp only [Except.ok.injEq, Prod.mk.injEq] at h
    obtain ⟨rfl, rfl⟩ := h
    refine ⟨fun _ => ?_, fun hb => absurd hb (by simp)⟩
    show countedPoints (s.path ++ [infinityPoint s.current_ray]) = s.n
    have hinf : (infinityPoint s.current_ray).infinity = true ∨
        (infinityPoint s.current_ray).type = PathPointType.SCATTERED := Or.inl rfl
    rw [countedPoints_append, if_pos hinf]
    exact hc
  · split at h
    · exact absurd h (by simp)
    · rename_i hp hhit
      simp only [Except.ok.injEq, Prod.mk.injEq] at h
      obtain ⟨rfl, rfl⟩ := h
      obtain ⟨hinf, hcase⟩ := hitPoint_counted pt tries _ _ _ _ _ hp hhit
      refine ⟨fun hb => absurd hb (by simp), fun _ => ?_⟩
      show countedPoints (s.path ++ [hp.1]) = hp.2.2.1 ∧ hp.2.2.1 ≤ s.n
      rw [countedPoints_append]
      rcases hcase with ⟨h1, h2⟩ | ⟨h1, h2⟩
      · rw [if_pos (Or.inr h1), h2]
        exact ⟨hc, le_refl _⟩
      · rw [if_neg (by simp [hinf, h1]), h2]
        omega

theorem forwardStep_counted (pt : PathTracer R K) (tries : Nat) (s s1 : TraceState R K)
    (b : Bool) (hrus : pt.russian < 0) (h : forwardStep pt tries s = .ok (b, s1))
    (hc : countedPoints s.path = s.n) (hd : s.n ≤ pt.depth) :
    countedPoints s1.path ≤ pt.depth ∧
    (b = true → countedPoints s1.path = s1.n ∧ s1.n ≤ pt.depth) := by
  unfold forwardStep at h
  simp only at h
  split at h
  · simp only [Except.ok.injEq, Prod.mk.injEq] at h
    obtain ⟨rfl, rfl⟩ := h
    exact ⟨by show countedPoints s.path ≤ _; omega, fun hb => absurd hb (by simp)⟩
  · rw [if_neg (not_le.2 hrus)] at h
    split at h
    · simp only [Except.ok.injEq, Prod.mk.injEq] at h
      obtain ⟨rfl, rfl⟩ := h
      exact ⟨by show countedPoints s.path ≤ _; omega, fun hb => absurd hb (by simp)⟩
    · rename_i hdepth
      have hdepth1 : s.n + 1 ≤ pt.depth := by
        have : ¬ (s.n + 1 > pt.depth) := hdepth
        omega
      obtain ⟨t1, t2⟩ := tracePoint_counted pt tries _ s1 b h (by show countedPoints s.path + 1 = s.n + 1; omega)
      cases b with
      | false =>
        have := t1 rfl
        exact ⟨by rw [this]; exact hdepth1, fun hb => absurd hb (by simp)⟩
      | true =>
        obtain ⟨e1, e2⟩ := t2 rfl
        have e3 : s1.n ≤ s.n + 1 := e2
        exact ⟨by omega, fun _ => ⟨e1, by omega⟩⟩

theorem forwardLoop_counted (pt : PathTracer R K) (tries : Nat) (hrus : pt.russian < 0) :
    ∀ (fuel : Nat) (s s1 : TraceState R K), forwardLoop pt tries fuel s = .ok s1 →
      countedPoints s.path = s.n → s.n ≤ pt.depth → countedPoints s1.path ≤ pt.depth := by
  intro fuel
  induction fuel with
  | zero => intro s s1 h; simp [forwardLoop] at h
  | succ k ih =>
    intro s s1 h hc hd
    simp only [forwardLoop] at h
    split at h
    · exact absurd h (by simp)
    · rename_i s2 hstep
      obtain ⟨-, h2⟩ := forwardStep_counted pt tries s s2 true hrus hstep hc hd
      exact ih s2 s1 h (h2 rfl).1 (h2 rfl).2
    · rename_i s2 hstep
      simp only [Except.ok.injEq] at h
      subst h
      exact (forwardStep_counted pt tries s s2 false hrus hstep hc hd).1

end DepthPolicyProofs

/-- C25. Fixed-depth policy: with `russian < 0`, for every scene, ray and
random stream, the number of path points that count against depth (the points
classified SCATTERED and the INFINITY point, that is every point that is not
exempted as REFLECTED, ENTERED or LEFT) never exceeds `depth`: it is at most
`depth` on the path that the forward loop returns and on each of its
prefixes. -/
theorem C25_fixed_depth_policy {R K : Type} [LinearOrderedField K] (pt : PathTracer R K)
    (fuel tries : Nat) (r : Ray K) (raycount : Nat) (rnd : R) (hrus : pt.russian < 0)
    (s : TraceState R K)
    (h : forwardLoop pt tries fuel (initialState r raycount rnd) = .ok s) :
    countedPoints s.path ≤ pt.depth ∧ ∀ k, countedPoints (s.path.take k) ≤ pt.depth := by
  have hmain := forwardLoop_counted pt tries hrus fuel _ s h rfl (Nat.zero_le _)
  exact ⟨hmain, fun k => (countedPoints_take_le s.path k).trans hmain⟩

theorem mirrorFloor_path :
    ((resultOf (forwardLoop (exampleTracer mirrorFloor 1 10 1) 0 20
      (initialState downRay 0 ()))).map fun s =>
        (s.path.map fun p => (p.type, p.infinity), countedPoints s.path)) =
      some ([(.REFLECTED, false), (.SCATTERED, true)], 1) := by
  decide!

/-- Witness for C25: the mirror floor with depth 1; the path is the mirror
point, which is exempted, and the infinity point, which counts. -/
theorem C25_fixed_depth_policy_witness :
    (exampleTracer mirrorFloor 1 10 1).russian < 0 ∧
    ∃ s, forwardLoop (exampleTracer mirrorFloor 1 10 1) 0 20 (initialState downRay 0 ()) =
        .ok s ∧
      countedPoints s.path = 1 ∧ countedPoints s.path ≤ (exampleTracer mirrorFloor 1 10 1).depth := by
  have hrus : (exampleTracer mirrorFloor 1 10 1).russian < 0 := by decide!
  have hrun := mirrorFloor_path
  cases hs : forwardLoop (exampleTracer mirrorFloor 1 10 1) 0 20 (initialState downRay 0 ()) with
  | error e =>
    rw [hs] at hrun
    simp [resultOf] at hrun
  | ok s =>
    rw [hs] at hrun
    simp only [resultOf, Option.map_some', Option.some.injEq, Prod.mk.injEq] at hrun
    exact ⟨hrus, s, rfl, hrun.2,
      (C25_fixed_depth_policy (exampleTracer mirrorFloor 1 10 1) 20 0 downRay 0 () hrus s hs).1⟩

/-! ## The values of `to_prev` (C29, C30) -/

section ToPrevProofs

variable {R K : Type} [LinearOrderedField K]

/-- The backward pass on a suffix of the path yields the corresponding suffix
of the values. -/
theorem backwardPass_drop (pt : PathTracer R K) :
    ∀ (path : List (PathPoint K)) (rnd : R) (a : List (Radiance K) × R),
      backwardPass pt path rnd = .ok a →
      ∀ k, ∃ rnd1, backwardPass pt (path.drop k) rnd = .ok (a.1.drop k, rnd1) := by
  intro path
  induction path with
  | nil =>
    intro rnd a h k
    simp only [backwardPass, Except.ok.injEq] at h
    subst h
    exact ⟨rnd, by simp [backwardPass]⟩
  | cons pp rest ih =>
    intro rnd a h k
    cases k with
    | zero => exact ⟨a.2, by simpa using h⟩
    | succ k =>
      obtain ⟨a0, b, h0, -, rfl⟩ := backwardPass_cons pt pp rest rnd a h
      obtain ⟨rnd1, h1⟩ := ih rnd a0 h0 k
      exact ⟨rnd1, by simpa using h1⟩

/-- The value of `to_prev` at index `k` is what the body of the backward loop
computes for the point at index `k`, from the value at index `k + 1`. -/
theorem backwardPass_point (pt : PathTracer R K) (path : List (PathPoint K)) (rnd : R)
    (a : List (Radiance K) × R) (h : backwardPass pt path rnd = .ok a) (k : Nat)
    (p : PathPoint K) (hp : path[k]? = some p) :
    ∃ rnd1 b, pointRadiance pt p (path.drop (k + 1)).isEmpty a.1[k + 1]? rnd1 = .ok b ∧
      a.1[k]? = some b.1 := by
  obtain ⟨hk, rfl⟩ := List.getElem?_eq_some_iff.1 hp
  obtain ⟨rnd1, h1⟩ := backwardPass_drop pt path rnd a h k
  obtain ⟨rnd2, h2⟩ := backwardPass_drop pt path rnd a h (k + 1)
  rw [List.drop_eq_getElem_cons hk] at h1
  obtain ⟨a0, b, h0, hb, hab⟩ := backwardPass_cons pt _ _ rnd _ h1
  rw [h2] at h0
  simp only [Except.ok.injEq] at h0
  subst h0
  simp only [Prod.mk.injEq] at hab
  refine ⟨rnd2, b, ?_, ?_⟩
  · rw [← List.head?_drop]
    exact hb
  · rw [← List.head?_drop, hab.1]
    rfl

theorem clampChannel_of_within (clamp : K) (x : Fl K) (h : ChannelWithin clamp x) :
    clampChannel clamp x = x := by
  obtain ⟨y, rfl, h0, h1⟩ := ChannelWithin_fin clamp x h
  simp [clampChannel, Fl.gt, Fl.isnan, not_lt.2 h0, not_lt.2 h1]

theorem clampRadiance_of_within (clamp : K) (x : Radiance K) (h : x.Within clamp) :
    clampRadiance clamp x = x := by
  obtain ⟨r, g, b⟩ := x
  simp only [clampRadiance, clampChannel_of_within clamp _ h.1,
    clampChannel_of_within clamp _ h.2.1, clampChannel_of_within clamp _ h.2.2]

/-- The sum of a REFLECTED or LEFT point with a successor is the successor's
`to_prev`. -/
theorem pointTotal_pass (pt : PathTracer R K) (p : PathPoint K) (mat : Material K)
    (last : Bool) (y : Radiance K) (rnd : R) (hty : p.type = .REFLECTED ∨ p.type = .LEFT) :
    pointTotal pt p mat last (some y) rnd = .ok (y, rnd) := by
  unfold pointTotal
  rcases hty with h | h <;> simp only [h, Radiance_zero_add]

end ToPrevProofs

/-- C30. For every clamp `>= 0` and every path point that is a surface hit (not
INFINITY), each channel of its `to_prev` after the clamp and the NaN/negative
replacement lies in `[0, clamp]`, whatever the BRDF, light and successor values
were: the clamp maps every sum into the range, the body of the backward loop
returns a value in the range at every surface hit, and so does the backward
pass at every index of the path that holds one. -/
theorem C30_to_prev_within_clamp {R K : Type} [LinearOrderedField K] (pt : PathTracer R K)
    (hclamp : 0 ≤ pt.clamp) :
    (∀ total : Radiance K, (clampRadiance pt.clamp total).Within pt.clamp) ∧
    (∀ (pp : PathPoint K) (last : Bool) (next : Option (Radiance K)) (rnd : R)
      (b : Radiance K × R), pp.infinity = false →
      pointRadiance pt pp last next rnd = .ok b → b.1.Within pt.clamp) ∧
    (∀ (path : List (PathPoint K)) (rnd : R) (a : List (Radiance K) × R),
      backwardPass pt path rnd = .ok a →
      ∀ (k : Nat) (p : PathPoint K), path[k]? = some p → p.infinity = false →
        ∃ x, a.1[k]? = some x ∧ x.Within pt.clamp) := by
  have h2 : ∀ (pp : PathPoint K) (last : Bool) (next : Option (Radiance K)) (rnd : R)
      (b : Radiance K × R), pp.infinity = false →
      pointRadiance pt pp last next rnd = .ok b → b.1.Within pt.clamp := by
    intro pp last next rnd b hinf hb
    obtain ⟨i, t, -, -, rfl⟩ := pointRadiance_hit pt pp last next rnd b hinf hb
    exact clampRadiance_within pt.clamp hclamp t.1
  refine ⟨clampRadiance_within pt.clamp hclamp, h2, ?_⟩
  intro path rnd a h k p hp hinf
  obtain ⟨rnd1, b, hb, hk⟩ := backwardPass_point pt path rnd a h k p hp
  exact ⟨b.1, hk, h2 p _ _ rnd1 b hinf hb⟩

theorem mirrorFloor_traced :
    ((resultOf (tracedPath (exampleTracer mirrorFloor 2 1 1) 20 0 downRay 0 ())).map fun a =>
      (a.1.map fun p => (p.type, p.infinity), a.2)) =
      some ([(.REFLECTED, false), (.SCATTERED, true)],
        [⟨.fin 1, .fin 1, .fin 1⟩, ⟨.fin 2, .fin 2, .fin 2⟩]) := by
  decide!

/-- Witness for C30: the clamp 1 applied to the radiance (2, -1, NaN). -/
theorem C30_to_prev_within_clamp_witness :
    (0 : ℚ) ≤ (exampleTracer mirrorFloor 2 1 1).clamp ∧
    clampRadiance (1 : ℚ) ⟨.fin 2, .fin (-1), .nan⟩ = ⟨.fin 1, .fin 0, .fin 0⟩ ∧
    (clampRadiance (exampleTracer mirrorFloor 2 1 1).clamp
      (⟨.fin 2, .fin (-1), .nan⟩ : Radiance ℚ)).Within (exampleTracer mirrorFloor 2 1 1).clamp :=
  ⟨by decide!, by decide!,
    (C30_to_prev_within_clamp (exampleTracer mirrorFloor 2 1 1) (by decide!)).1 _⟩

/-- C29 (amended). Backward accumulation at a path point of type REFLECTED or
LEFT (a surface hit) that has a successor: the radiance it propagates is the
successor's after the clamp and the NaN/negative replacement,
`to_prev = clamp(next.to_prev)`; it equals `next.to_prev` exactly when each
channel of that lies in `[0, clamp]`, as it does when `clamp >= 0` and the
successor is a surface hit. -/
theorem C29_pass_through {R K : Type} [LinearOrderedField K] (pt : PathTracer R K)
    (path : List (PathPoint K)) (rnd : R) (a : List (Radiance K) × R)
    (h : backwardPass pt path rnd = .ok a) (k : Nat) (p : PathPoint K)
    (hp : path[k]? = some p) (hinf : p.infinity = false)
    (hty : p.type = .REFLECTED ∨ p.type = .LEFT) (hsucc : k + 1 < path.length) :
    ∃ x y, a.1[k]? = some x ∧ a.1[k + 1]? = some y ∧ x = clampRadiance pt.clamp y ∧
      (y.Within pt.clamp → x = y) ∧
      (0 ≤ pt.clamp → ∀ q, path[k + 1]? = some q → q.infinity = false → x = y) := by
  obtain ⟨rnd1, b, hb, hk⟩ := backwardPass_point pt path rnd a h k p hp
  have hlen := backwardPass_length pt path rnd a h
  obtain ⟨y, hy⟩ : ∃ y, a.1[k + 1]? = some y :=
    ⟨a.1[k + 1], List.getElem?_eq_getElem (by omega)⟩
  obtain ⟨i, t, -, ht, rfl⟩ := pointRadiance_hit pt p _ _ rnd1 b hinf hb
  rw [hy, pointTotal_pass pt p i.material _ y rnd1 hty] at ht
  simp only [Except.ok.injEq] at ht
  subst ht
  refine ⟨_, y, hk, hy, rfl, fun hw => clampRadiance_of_within pt.clamp y hw, ?_⟩
  intro hclamp q hq hqinf
  obtain ⟨rnd2, b2, hb2, hk2⟩ := backwardPass_point pt path rnd a h (k + 1) q hq
  obtain ⟨i2, t2, -, -, rfl⟩ := pointRadiance_hit pt q _ _ rnd2 b2 hqinf hb2
  rw [hy] at hk2
  simp only [Option.some.injEq] at hk2
  subst hk2
  exact clampRadiance_of_within pt.clamp _ (clampRadiance_within pt.clamp hclamp t2.1)

theorem tracedPath_ok {R K : Type} [LinearOrderedField K] (pt : PathTracer R K)
    (fuel tries : Nat) (r : Ray K) (raycount : Nat) (rnd : R)
    (x : List (PathPoint K) × List (Radiance K))
    (h : tracedPath pt fuel tries r raycount rnd = .ok x) :
    ∃ s a, forwardLoop pt tries fuel (initialState r raycount rnd) = .ok s ∧
      backwardPass pt s.path s.rnd = .ok a ∧ x = (s.path, a.1) := by
  unfold tracedPath at h
  split at h
  · exact absurd h (by simp)
  · rename_i s hs
    split at h
    · exact absurd h (by simp)
    · rename_i a ha
      simp only [Except.ok.injEq] at h
      exact ⟨s, a, hs, ha, h.symm⟩

/-- Witness for C29: the mirror floor under a sky of radiance 2 with clamp 1;
the mirror point at index 0 propagates the clamped radiance of the sky point
at index 1. -/
theorem C29_pass_through_witness :
    ∃ (path : List (PathPoint ℚ)) (a : List (Radiance ℚ) × Unit) (p : PathPoint ℚ),
      backwardPass (exampleTracer mirrorFloor 2 1 1) path () = .ok a ∧
      path[0]? = some p ∧ p.infinity = false ∧
      (p.type = .REFLECTED ∨ p.type = .LEFT) ∧ 0 + 1 < path.length ∧
      ∃ x y, a.1[0]? = some x ∧ a.1[0 + 1]? = some y ∧
        x = clampRadiance (exampleTracer mirrorFloor 2 1 1).clamp y := by
  have hrun := mirrorFloor_traced
  cases hs : tracedPath (exampleTracer mirrorFloor 2 1 1) 20 0 downRay 0 () with
  | error e =>
    rw [hs] at hrun
    simp [resultOf] at hrun
  | ok x =>
    rw [hs] at hrun
    simp only [resultOf, Option.map_some', Option.some.injEq, Prod.mk.injEq] at hrun
    obtain ⟨s, a, -, ha, rfl⟩ := tracedPath_ok _ _ _ _ _ _ x hs
    obtain ⟨hmap, -⟩ := hrun
    generalize s.path = path at ha hmap
    rcases path with _ | ⟨p, _ | ⟨q, _ | ⟨r, rest⟩⟩⟩
    · simp at hmap
    · simp at hmap
    · simp only [List.map_cons, List.map_nil, List.cons.injEq, Prod.mk.injEq, and_true] at hmap
      obtain ⟨⟨hty, hinf⟩, -⟩ := hmap
      obtain ⟨x, y, h1, h2, h3, -⟩ :=
        C29_pass_through (exampleTracer mirrorFloor 2 1 1) [p, q] s.rnd a ha 0 p rfl hinf
          (Or.inl hty) (by simp)
      exact ⟨[p, q], a, p, ha, rfl, hinf, Or.inl hty, by simp, x, y, h1, h2, h3⟩
    · simp at hmap

/-- C29 fails as stated: on the mirror floor under a sky of radiance 2, with
clamp 1, the path is a REFLECTED point followed by the sky point; the sky point
propagates 2 in each channel, the REFLECTED point propagates 1. -/
theorem C29_counterexample :
    ((resultOf (tracedPath (exampleTracer mirrorFloor 2 1 1) 20 0 downRay 0 ())).map fun a =>
      (a.1.map fun p => (p.type, p.infinity), a.2)) =
      some ([(.REFLECTED, false), (.SCATTERED, true)],
        [⟨.fin 1, .fin 1, .fin 1⟩, ⟨.fin 2, .fin 2, .fin 2⟩]) ∧
    (⟨.fin 1, .fin 1, .fin 1⟩ : Radiance ℚ) ≠ ⟨.fin 2, .fin 2, .fin 2⟩ :=
  ⟨mirrorFloor_traced, by decide!⟩

/-! ## The LEFT branch (C27, C28) -/

theorem Vec3_neg_neg {K : Type} [LinearOrderedField K] (v : Vec3 K) : v.neg.neg = v := by
  obtain ⟨x, y, z⟩ := v
  simp [Vec3.neg]

/-- C27 at a failing input.  The ray `flatRay` reaches the upper face of the
glass slab from inside beyond the critical angle: the query returns the hit,
`glm::refract` returns the zero vector (total internal reflection), the point
is classified LEFT and downgraded to REFLECTED, but its incoming direction is
`-Vr = (-4/5, 0, 3/5)`, the direction of the arriving ray, and so is the
direction of the next ray; the mirror reflection
`2*dot(Vr, lightN)*lightN - Vr` is `(-4/5, 0, -3/5)`.  The path continues
through the face to the sky. -/
theorem C27_left_reflection_overwritten :
    (glassTracer 1).FindIntersectKdOtherThan flatRay = some glassHit ∧
    (glassTracer 1).refract flatRay.direction.neg glassHit.normal
      glassHit.material.refraction_index = some ⟨0, 0, 0⟩ ∧
    length (glassTracer 1).sqrt (⟨0, 0, 0⟩ : Vec3 ℚ) < 1 / 1000 ∧
    ((classify (glassTracer 1) glassHit.material
      (decide (dot glassHit.normal flatRay.direction.neg < 0)) flatRay.direction.neg
      glassHit.normal 1 false ()).1 = .LEFT) ∧
    ((resultOf (hitPoint (glassTracer 1) 0 flatRay glassHit 1 false ())).map fun h =>
      (h.1.type, h.1.Vr, h.1.lightN)) = some (.REFLECTED, ⟨4 / 5, 0, -3 / 5⟩, ⟨0, 0, 1⟩) ∧
    ((resultOf (hitPoint (glassTracer 1) 0 flatRay glassHit 1 false ())).map fun h =>
      (h.1.Vi, mirrorDir h.1.Vr h.1.lightN, h.2.1.direction)) =
      some (⟨-4 / 5, 0, 3 / 5⟩, ⟨-4 / 5, 0, -3 / 5⟩, ⟨-4 / 5, 0, 3 / 5⟩) ∧
    ((resultOf (tracedPath (glassTracer 1) 20 0 flatRay 0 ())).map fun a =>
      a.1.map fun p => (p.type, p.infinity, p.Vi)) =
      some [(.REFLECTED, false, ⟨-4 / 5, 0, 3 / 5⟩), (.SCATTERED, true, ⟨0, 0, 0⟩)] ∧
    (⟨-4 / 5, 0, 3 / 5⟩ : Vec3 ℚ) ≠ ⟨-4 / 5, 0, -3 / 5⟩ := by
  refine ⟨?_, by decide!, by decide!, by decide!, by decide!, by decide!, by decide!,
    by decide!⟩
  show (if (2 / 5 : ℚ) < 1 ∧ (3 / 5 : ℚ) > 0 then some glassHit else none) = some glassHit
  rw [if_pos (by norm_num)]

/-- C28 (amended). At a path point classified LEFT without total internal
reflection the refracted direction is overwritten with `-Vr`, and this is the
direction of the ray that arrived at the point (`Vr` is its opposite): the
continuation ray built from that point travels in the same direction as the
arriving ray, normalized - the ray goes straight on, it is not reversed. -/
theorem C28_left_goes_straight {R K : Type} [LinearOrderedField K] (pt : PathTracer R K)
    (tries : Nat) (ray : Ray K) (i : Intersection K) (n : Nat) (skip : Bool) (rnd : R)
    (h : PathPoint K × Ray K × Nat × Bool × R)
    (htrans : i.material.translucency > 1 / 1000)
    (hinside : dot i.normal ray.direction.neg < 0)
    (hh : hitPoint pt tries ray i n skip rnd = .ok h)
    (hnotir : ∀ dir, pt.refract h.1.Vr h.1.lightN i.material.refraction_index = some dir →
      ¬ length pt.sqrt dir < 1 / 1000) :
    h.1.type = .LEFT ∧ h.1.Vr = ray.direction.neg ∧ h.1.Vi = h.1.Vr.neg ∧
    h.1.Vi = ray.direction ∧ h.2.1.direction = normalize pt.sqrt ray.direction := by
  have hc : ∀ lightN, classify pt i.material (decide (dot i.normal ray.direction.neg < 0))
      ray.direction.neg lightN n skip rnd = (.LEFT, n - 1, true, rnd) := by
    intro lightN
    unfold classify
    rw [if_pos htrans]
    simp only [hinside, decide_True, if_true]
  unfold hitPoint at hh
  simp only [hc] at hh
  split at hh
  · exact absurd hh (by simp)
  · rename_i d hd
    simp only [Except.ok.injEq] at hh
    subst hh
    unfold nextDirection at hd
    simp only at hd
    split at hd
    · simp only [Except.ok.injEq] at hd
      subst hd
      exact ⟨rfl, rfl, rfl, Vec3_neg_neg _, by rw [Vec3_neg_neg]⟩
    · rename_i dir hdir
      split at hd
      · rename_i hlen
        exact absurd hlen (hnotir dir hdir)
      · simp only [Except.ok.injEq] at hd
        subst hd
        exact ⟨rfl, rfl, rfl, Vec3_neg_neg _, by rw [Vec3_neg_neg]⟩

theorem glassSlab_upRay : (glassTracer 1).FindIntersectKdOtherThan upRay = some glassHit := by
  show (if (0 : ℚ) < 1 ∧ (1 : ℚ) > 0 then some glassHit else none) = some glassHit
  rw [if_pos (by norm_num)]

theorem upRay_hit :
    ((resultOf (hitPoint (glassTracer 1) 0 upRay glassHit 1 false ())).map fun h =>
      (h.1.type, h.1.Vr, h.1.lightN, h.1.Vi, h.2.1.direction)) =
      some (.LEFT, ⟨0, 0, -1⟩, ⟨0, 0, 1⟩, ⟨0, 0, 1⟩, ⟨0, 0, 1⟩) := by
  decide!

/-- Witness for C28: the ray straight up through the upper face of the glass
slab. -/
theorem C28_left_goes_straight_witness :
    glassHit.material.translucency > 1 / 1000 ∧
    dot glassHit.normal upRay.direction.neg < 0 ∧
    ∃ h, hitPoint (glassTracer 1) 0 upRay glassHit 1 false () = .ok h ∧
      (∀ dir, (glassTracer 1).refract h.1.Vr h.1.lightN glassHit.material.refraction_index =
        some dir → ¬ length (glassTracer 1).sqrt dir < 1 / 1000) ∧
      h.1.type = .LEFT ∧ h.1.Vi = upRay.direction ∧
      h.2.1.direction = normalize (glassTracer 1).sqrt upRay.direction := by
  have h1 : glassHit.material.translucency > 1 / 1000 := by decide!
  have h2 : dot glassHit.normal upRay.direction.neg < 0 := by decide!
  have hrun := upRay_hit
  cases hs : hitPoint (glassTracer 1) 0 upRay glassHit 1 false () with
  | error e =>
    rw [hs] at hrun
    simp [resultOf] at hrun
  | ok h =>
    rw [hs] at hrun
    simp only [resultOf, Option.map_some', Option.some.injEq, Prod.mk.injEq] at hrun
    obtain ⟨-, hVr, hN, -, -⟩ := hrun
    have h3 : ∀ dir, (glassTracer 1).refract h.1.Vr h.1.lightN
        glassHit.material.refraction_index = some dir →
        ¬ length (glassTracer 1).sqrt dir < 1 / 1000 := by
      intro dir hdir
      rw [hVr, hN] at hdir
      have hval : (glassTracer 1).refract ⟨0, 0, -1⟩ ⟨0, 0, 1⟩
          glassHit.material.refraction_index = some ⟨0, 0, -1⟩ := by decide!
      rw [hval] at hdir
      simp only [Option.some.injEq] at hdir
      subst hdir
      decide!
    obtain ⟨e1, -, -, e4, e5⟩ :=
      C28_left_goes_straight (glassTracer 1) 0 upRay glassHit 1 false () h h1 h2 hs h3
    exact ⟨h1, h2, h, rfl, h3, e1, e4, e5⟩

/-- C28 fails as stated: the ray `upRay` travels in the direction `(0, 0, 1)`
and reaches the upper face of the glass slab from inside, without total
internal reflection (`glm::refract` returns `(0, 0, -1)`, of length 1); the
point is LEFT, its incoming direction `-Vr` is `(0, 0, 1)`, and the
continuation ray travels in the direction `(0, 0, 1)`: the direction of the
arriving ray, not the opposite one `(0, 0, -1)`. -/
theorem C28_counterexample :
    (glassTracer 1).FindIntersectKdOtherThan upRay = some glassHit ∧
    upRay.direction = ⟨0, 0, 1⟩ ∧
    (glassTracer 1).refract upRay.direction.neg glassHit.normal
      glassHit.material.refraction_index = some ⟨0, 0, -1⟩ ∧
    ¬ length (glassTracer 1).sqrt (⟨0, 0, -1⟩ : Vec3 ℚ) < 1 / 1000 ∧
    ((resultOf (hitPoint (glassTracer 1) 0 upRay glassHit 1 false ())).map fun h =>
      (h.1.type, h.1.Vr, h.1.lightN, h.1.Vi, h.2.1.direction)) =
      some (.LEFT, ⟨0, 0, -1⟩, ⟨0, 0, 1⟩, ⟨0, 0, 1⟩, ⟨0, 0, 1⟩) ∧
    (⟨0, 0, 1⟩ : Vec3 ℚ) ≠ upRay.direction.neg :=
  ⟨glassSlab_upRay, rfl, by decide!, by decide!, upRay_hit, by decide!⟩

/-! ## The final read `path[0]` (C33) -/

section FirstPointProofs

variable {R K : Type} [LinearOrderedField K]

/-- A counter of type `unsigned int` after `k` increments. -/
theorem iterate_increment (k : Nat) :
    ∀ c, c < 4294967296 →
      Nat.iterate (fun c => (c + 1) % 4294967296) k c = (c + k) % 4294967296 := by
  induction k with
  | zero =>
    intro c hc
    exact (Nat.mod_eq_of_lt hc).symm
  | succ k ih =>
    intro c hc
    rw [Function.iterate_succ_apply, ih _ (Nat.mod_lt _ (by decide))]
    omega

/-- The first iteration of the forward loop passes the termination tests when
roulette is on (the test needs `n > 1`) or `depth >= 1`: it makes the query. -/
theorem forwardStep_initial (pt : PathTracer R K) (tries : Nat) (r : Ray K) (raycount : Nat)
    (rnd : R) (hmode : pt.russian ≥ 0 ∨ pt.depth ≥ 1) :
    forwardStep pt tries (initialState r raycount rnd) =
      tracePoint pt tries { initialState r raycount rnd with n := 1, n2 := 1 } := by
  unfold forwardStep
  simp only [initialState]
  rw [if_neg (by decide)]
  by_cases hr : pt.russian ≥ 0
  · rw [if_pos hr, if_neg (by simp)]
  · rw [if_neg hr]
    have hd : pt.depth ≥ 1 := hmode.resolve_left hr
    rw [if_neg (by omega)]

theorem forwardLoop_nonempty (pt : PathTracer R K) (tries fuel : Nat) (r : Ray K)
    (raycount : Nat) (rnd : R) (hmode : pt.russian ≥ 0 ∨ pt.depth ≥ 1) (s : TraceState R K)
    (h : forwardLoop pt tries fuel (initialState r raycount rnd) = .ok s) : s.path ≠ [] := by
  cases fuel with
  | zero => simp [forwardLoop] at h
  | succ k =>
    simp only [forwardLoop] at h
    rw [forwardStep_initial pt tries r raycount rnd hmode] at h
    split at h
    · exact absurd h (by simp)
    · rename_i s2 hstep
      obtain ⟨-, -, -, p, hp, -⟩ := tracePoint_spec pt tries _ s2 true hstep
      obtain ⟨l, hl⟩ := forwardLoop_append pt tries k s2 s h
      rw [hl, hp]
      simp
    · rename_i s2 hstep
      obtain ⟨-, -, -, p, hp, -⟩ := tracePoint_spec pt tries _ s2 false hstep
      simp only [Except.ok.injEq] at h
      subst h
      rw [hp]
      simp

end FirstPointProofs

/-- C33. The final read `path[0]` of `TracePath` is valid: for every ray,
scene and random stream, whenever `russian >= 0` or `depth >= 1` the forward
loop, which with room for its 20 iterations does not stop for lack of fuel,
builds a path with at least one point, so `path[0]` exists, and the number of
rays counted (the increase of the `unsigned int` counter) equals the number of
path points; the backward pass then assigns a `to_prev` to `path[0]`, and that
value is what `TracePath` returns. -/
theorem C33_first_point_exists {R K : Type} [LinearOrderedField K] (pt : PathTracer R K)
    (tries fuel : Nat) (r : Ray K) (raycount : Nat) (rnd : R)
    (hmode : pt.russian ≥ 0 ∨ pt.depth ≥ 1) (hfuel : 20 ≤ fuel)
    (hcount : raycount < 4294967296) :
    forwardLoop pt tries fuel (initialState r raycount rnd) ≠ .error .loopFuel ∧
    ∀ s, forwardLoop pt tries fuel (initialState r raycount rnd) = .ok s →
      s.path ≠ [] ∧ s.path[0]? ≠ none ∧
      s.raycount = (raycount + s.path.length) % 4294967296 ∧
      (s.raycount + 4294967296 - raycount) % 4294967296 = s.path.length ∧
      ∀ a, backwardPass pt s.path s.rnd = .ok a →
        ∃ to_prev, a.1[0]? = some to_prev ∧
          TracePath pt fuel tries r raycount rnd = .ok (to_prev, s.raycount, a.2) := by
  have h20 := forwardLoop_fuel pt tries 20 (initialState r raycount rnd) (by decide)
    (by show 20 ≤ 0 + 20; decide)
  refine ⟨?_, ?_⟩
  · rw [h20.2 fuel hfuel]
    exact h20.1
  · intro s hs
    have hne := forwardLoop_nonempty pt tries fuel r raycount rnd hmode s hs
    obtain ⟨-, -, hlen, -, l, h5, h6⟩ := forwardLoop_spec pt tries fuel _ s hs
      (by show 0 < 20; decide) (le_refl _) (le_refl _)
    have hl : s.path = l := by rw [h5]; rfl
    have hrc : s.raycount = (raycount + s.path.length) % 4294967296 := by
      rw [hl, h6]
      exact iterate_increment l.length raycount hcount
    refine ⟨hne, ?_, hrc, ?_, ?_⟩
    · cases hp : s.path with
      | nil => exact absurd hp hne
      | cons p rest => simp
    · rw [hrc]
      omega
    · intro a ha
      have hlen2 := backwardPass_length pt s.path s.rnd a ha
      cases ha1 : a.1 with
      | nil =>
        rw [ha1] at hlen2
        exact absurd (List.length_eq_zero.1 hlen2.symm) hne
      | cons x rest =>
        refine ⟨x, by simp, ?_⟩
        unfold TracePath
        simp only [hs, ha, ha1, List.head?_cons]

theorem rouletteTracer_run :
    ((resultOf (forwardLoop rouletteTracer 0 20 (initialState downRay 5 ()))).map fun s =>
      (s.path.map fun p => (p.type, p.infinity), s.raycount)) =
      some ([(.REFLECTED, false), (.SCATTERED, true)], 7) := by
  decide!

theorem rouletteTracer_result :
    ((resultOf (TracePath rouletteTracer 20 0 downRay 5 ())).map fun a => (a.1, a.2.1)) =
      some (⟨.fin 1, .fin 1, .fin 1⟩, 7) := by
  decide!

/-- Witness for C33: roulette mode with `depth = 0` on the mirror floor, the
ray counter starting at 5; the path is the mirror point and the sky point, the
counter ends at 7 and `TracePath` returns the radiance of `path[0]`. -/
theorem C33_first_point_exists_witness :
    (rouletteTracer.russian ≥ 0 ∨ rouletteTracer.depth ≥ 1) ∧ rouletteTracer.depth = 0 ∧
    ∃ s, forwardLoop rouletteTracer 0 20 (initialState downRay 5 ()) = .ok s ∧
      s.path.length = 2 ∧ s.raycount = 7 ∧ s.path ≠ [] ∧
      (s.raycount + 4294967296 - 5) % 4294967296 = s.path.length ∧
      ∃ a to_prev, backwardPass rouletteTracer s.path s.rnd = .ok a ∧
        a.1[0]? = some to_prev ∧ to_prev = ⟨.fin 1, .fin 1, .fin 1⟩ ∧
        TracePath rouletteTracer 20 0 downRay 5 () = .ok (to_prev, 7, a.2) := by
  have hmode : rouletteTracer.russian ≥ 0 ∨ rouletteTracer.depth ≥ 1 := Or.inl (by decide!)
  have hC := C33_first_point_exists rouletteTracer 0 20 downRay 5 () hmode (le_refl 20)
    (by decide)
  have hrun := rouletteTracer_run
  have hres := rouletteTracer_result
  cases hs : forwardLoop rouletteTracer 0 20 (initialState downRay 5 ()) with
  | error e =>
    rw [hs] at hrun
    simp [resultOf] at hrun
  | ok s =>
    rw [hs] at hrun
    simp only [resultOf, Option.map_some', Option.some.injEq, Prod.mk.injEq] at hrun
    obtain ⟨h1, -, -, h4, h5⟩ := hC.2 s hs
    have hlen : s.path.length = 2 := by
      have := congrArg List.length hrun.1
      simpa using this
    cases ha : backwardPass rouletteTracer s.path s.rnd with
    | error e =>
      unfold TracePath at hres
      simp [hs, ha, resultOf] at hres
    | ok a =>
      obtain ⟨to_prev, h6, h7⟩ := h5 a ha
      rw [h7] at hres
      simp only [resultOf, Option.map_some', Option.some.injEq, Prod.mk.injEq] at hres
      refine ⟨hmode, rfl, s, rfl, hlen, hrun.2, h1, h4, a, to_prev, ha, h6, hres.1, ?_⟩
      rw [h7, hrun.2]

/-! ## The reads of `path[n+1]` (C32) -/

section SuccessorProofs

variable {R K : Type} [LinearOrderedField K]

/-- A surface point of type REFLECTED, ENTERED or LEFT reads `path[n+1]`: for
the last point of the path that read is outside the vector. -/
theorem pointRadiance_no_successor (pt : PathTracer R K) (p : PathPoint K) (i : Intersection K)
    (last : Bool) (rnd : R) (hinf : p.infinity = false) (hi : p.i = some i)
    (hty : p.type ≠ .SCATTERED) :
    pointRadiance pt p last none rnd = .error .outOfBounds := by
  unfold pointRadiance
  rw [hinf, hi]
  simp only [Bool.false_eq_true, if_false]
  unfold pointTotal
  cases h : p.type with
  | SCATTERED => exact absurd h hty
  | REFLECTED => rfl
  | ENTERED => rfl
  | LEFT => rfl

/-- The backward pass on a path that ends on a surface point of type
REFLECTED, ENTERED or LEFT stops at the read of `path[n+1]` for that point. -/
theorem backwardPass_no_successor (pt : PathTracer R K) (p : PathPoint K) (i : Intersection K)
    (hinf : p.infinity = false) (hi : p.i = some i) (hty : p.type ≠ .SCATTERED) :
    ∀ (front : List (PathPoint K)) (rnd : R),
      backwardPass pt (front ++ [p]) rnd = .error .outOfBounds := by
  intro front
  induction front with
  | nil =>
    intro rnd
    simp only [List.nil_append, backwardPass, List.head?_nil]
    rw [pointRadiance_no_successor pt p i _ rnd hinf hi hty]
  | cons q rest ih =>
    intro rnd
    rw [List.cons_append]
    unfold backwardPass
    rw [ih rnd]

end SuccessorProofs

theorem facingMirrors_path :
    ((resultOf (forwardLoop (exampleTracer facingMirrors 1 10 1) 0 20
      (initialState downRay 0 ()))).map fun s =>
        (s.n2, s.path.map fun p => (p.type, p.infinity, p.pos.z))) =
      some (20, [(.REFLECTED, false, 0), (.REFLECTED, false, 2), (.REFLECTED, false, 0),
        (.REFLECTED, false, 2), (.REFLECTED, false, 0), (.REFLECTED, false, 2),
        (.REFLECTED, false, 0), (.REFLECTED, false, 2), (.REFLECTED, false, 0),
        (.REFLECTED, false, 2), (.REFLECTED, false, 0), (.REFLECTED, false, 2),
        (.REFLECTED, false, 0), (.REFLECTED, false, 2), (.REFLECTED, false, 0),
        (.REFLECTED, false, 2), (.REFLECTED, false, 0), (.REFLECTED, false, 2),
        (.REFLECTED, false, 0)]) := by
  decide!

theorem facingMirrors_error :
    errorOf (TracePath (exampleTracer facingMirrors 1 10 1) 20 0 downRay 0 ()) =
      some .outOfBounds := by
  decide!

/-- C32 fails on the code: between two facing perfect mirrors (fixed-depth
mode, `depth = 1`) every point is REFLECTED, so neither termination test ends
the path; the hard limit ends the forward loop in its 20th iteration with 19
points, the last one, `path[18]`, of type REFLECTED, and the backward pass
reads `path[19]`, which is outside the vector. -/
theorem C32_last_point_without_successor :
    (∃ s, forwardLoop (exampleTracer facingMirrors 1 10 1) 0 20 (initialState downRay 0 ()) =
        .ok s ∧
      s.n2 = 20 ∧ s.path.length = 19 ∧
      (∃ p, s.path[18]? = some p ∧ p.type = .REFLECTED ∧ p.infinity = false) ∧
      s.path[19]? = none ∧
      backwardPass (exampleTracer facingMirrors 1 10 1) s.path s.rnd = .error .outOfBounds) ∧
    TracePath (exampleTracer facingMirrors 1 10 1) 20 0 downRay 0 () = .error .outOfBounds := by
  have hrun := facingMirrors_path
  have herr := facingMirrors_error
  cases hs : forwardLoop (exampleTracer facingMirrors 1 10 1) 0 20 (initialState downRay 0 ()) with
  | error e =>
    rw [hs] at hrun
    simp [resultOf] at hrun
  | ok s =>
    rw [hs] at hrun
    simp only [resultOf, Option.map_some', Option.some.injEq, Prod.mk.injEq] at hrun
    have hlen : s.path.length = 19 := by
      have := congrArg List.length hrun.2
      simpa using this
    have h18 := congrArg (fun l => l[18]?) hrun.2
    simp only [List.getElem?_map] at h18
    have hback : backwardPass (exampleTracer facingMirrors 1 10 1) s.path s.rnd =
        .error .outOfBounds := by
      simp only [TracePath, hs] at herr
      cases hb : backwardPass (exampleTracer facingMirrors 1 10 1) s.path s.rnd with
      | error e =>
        simp only [hb, errorOf, Option.some.injEq] at herr
        rw [herr]
      | ok a =>
        have hl := backwardPass_length _ s.path s.rnd a hb
        cases ha : a.1 with
        | nil =>
          rw [ha, hlen] at hl
          simp at hl
        | cons x rest =>
          simp [hb, ha, errorOf] at herr
    refine ⟨⟨s, rfl, hrun.1, hlen, ?_, ?_, hback⟩, ?_⟩
    · cases hp : s.path[18]? with
      | none =>
        rw [hp] at h18
        simp at h18
      | some p =>
        rw [hp] at h18
        simp only [Option.map_some', List.getElem?_cons_succ, List.getElem?_cons_zero,
          Option.some.injEq, Prod.mk.injEq] at h18
        exact ⟨p, rfl, h18.1, h18.2.1⟩
    · exact List.getElem?_eq_none (by omega)
    · unfold TracePath
      rw [hs]
      simp only [hback]

/-! ## The texture cache (C34) -/

/-- A call of `GetTexture` for a name that the cache holds returns the null
pointer (line 222) and leaves the cache as it is. -/
theorem GetTexture_cached {T : Type} (ld : TextureLoader T) (texture_directory : String)
    (textures : List (String × T)) (name : String) (tex : T) :
    GetTexture ld texture_directory ((name, tex) :: textures) name =
      (none, (name, tex) :: textures) := by
  unfold GetTexture
  by_cases h : name = ""
  · rw [if_pos h]
  · rw [if_neg h]
    simp [List.lookup]

/-- A first call of `GetTexture` whose file loads returns the new texture and
stores it under the name. -/
theorem GetTexture_loaded {T : Type} (ld : TextureLoader T) (texture_directory : String)
    (textures : List (String × T)) (name : String) (tex : T)
    (h : (GetTexture ld texture_directory textures name).1 = some tex) :
    GetTexture ld texture_directory textures name = (some tex, (name, tex) :: textures) := by
  unfold GetTexture at h ⊢
  by_cases hn : name = ""
  · rw [if_pos hn] at h
    exact absurd h (by simp)
  · rw [if_neg hn] at h ⊢
    cases hl : textures.lookup name with
    | some t =>
      rw [hl] at h
      exact absurd h (by simp)
    | none =>
      rw [hl] at h
      simp only at h ⊢
      split at h
      · exact absurd h (by simp)
      · rename_i t ht
        simp only [Option.some.injEq] at h
        subst h
        rfl

theorem woodLoader_first :
    GetTexture woodLoader "textures/" [] "wood.png" = (some 7, [("wood.png", 7)]) := by
  decide

theorem woodLoader_materials :
    LoadMaterial woodLoader "textures/" woodMaterial [] =
      ({ diffuse_texture := some 7, specular_texture := none, ambient_texture := none,
         bump_texture := none }, [("wood.png", 7)]) ∧
    LoadMaterial woodLoader "textures/" woodMaterial [("wood.png", 7)] =
      ({ diffuse_texture := none, specular_texture := none, ambient_texture := none,
         bump_texture := none }, [("wood.png", 7)]) := by
  decide

/-- C34 fails on the code: the file `wood.png` loads, the first call of
`GetTexture` returns the texture object and stores it in the cache, and the
second call finds the name in the cache and returns the null pointer (line
222), not the stored texture; of two materials that name `wood.png` as their
diffuse texture the first receives the texture and the second a null pointer.
For every loader and every name, a call for a name that the cache holds
returns the null pointer. -/
theorem C34_cached_texture_not_returned :
    GetTexture woodLoader "textures/" [] "wood.png" = (some 7, [("wood.png", 7)]) ∧
    GetTexture woodLoader "textures/" [("wood.png", 7)] "wood.png" =
      (none, [("wood.png", 7)]) ∧
    (LoadMaterial woodLoader "textures/" woodMaterial []).1.diffuse_texture = some 7 ∧
    (LoadMaterial woodLoader "textures/" woodMaterial
      (LoadMaterial woodLoader "textures/" woodMaterial []).2).1.diffuse_texture = none ∧
    ∀ (T : Type) (ld : TextureLoader T) (texture_directory : String)
      (textures : List (String × T)) (name : String) (tex : T),
      GetTexture ld texture_directory ((name, tex) :: textures) name =
        (none, (name, tex) :: textures) := by
  have hm := woodLoader_materials
  refine ⟨woodLoader_first, GetTexture_cached _ _ _ _ _, ?_, ?_, ?_⟩
  · rw [hm.1]
  · rw [hm.1, hm.2]
  · intro T ld texture_directory textures name tex
    exact GetTexture_cached ld texture_directory textures name tex

/-! ## Per-vertex arrays after loading (C31) -/

theorem readFirst_length {α : Type} (a : Option (List α)) (n : Nat) (xs : List α)
    (h : readFirst a n = some xs) : xs.length = n := by
  unfold readFirst at h
  split at h
  · rename_i hn
    simp only [Option.some.injEq] at h
    rw [← h, hn]
    rfl
  · split at h
    · exact absurd h (by simp)
    · split at h
      · rename_i hle
        simp only [Option.some.injEq] at h
        rw [← h, List.length_take]
        omega
      · exact absurd h (by simp)

/-- What a call of `LoadMesh` adds to the buffers: one vertex and one normal
for each vertex of the mesh, and one tangent or one texture coordinate for each
vertex only if the mesh has that array. -/
theorem LoadMesh_lengths {F : Type} (transform : Vec3 F → Vec3 F) (b b1 : LoadBuffers F)
    (mesh : Mesh F) (h : LoadMesh transform b mesh = some b1) :
    b1.vertices_buffer.length = b.vertices_buffer.length + mesh.mNumVertices ∧
    b1.normals_buffer.length = b.normals_buffer.length + mesh.mNumVertices ∧
    b1.tangents_buffer.length =
      b.tangents_buffer.length + (if mesh.mTangents.isSome then mesh.mNumVertices else 0) ∧
    b1.texcoords_buffer.length =
      b.texcoords_buffer.length +
        (if mesh.mTextureCoords0.isSome then mesh.mNumVertices else 0) := by
  unfold LoadMesh at h
  simp only at h
  split at h
  · exact absurd h (by simp)
  · rename_i vs hvs
    split at h
    · exact absurd h (by simp)
    · rename_i ns hns
      split at h
      · exact absurd h (by simp)
      · rename_i ts hts
        split at h
        · exact absurd h (by simp)
        · rename_i uvs huvs
          simp only [Option.some.injEq] at h
          subst h
          have h1 := readFirst_length _ _ _ hvs
          have h2 := readFirst_length _ _ _ hns
          have h3 : ts.length = if mesh.mTangents.isSome then mesh.mNumVertices else 0 := by
            cases ht : mesh.mTangents with
            | none =>
              rw [ht] at hts
              simp only [Option.some.injEq] at hts
              rw [← hts]
              rfl
            | some t =>
              rw [ht] at hts
              simpa using readFirst_length _ _ _ hts
          have h4 : uvs.length =
              if mesh.mTextureCoords0.isSome then mesh.mNumVertices else 0 := by
            cases ht : mesh.mTextureCoords0 with
            | none =>
              rw [ht] at huvs
              simp only [Option.some.injEq] at huvs
              rw [← huvs]
              rfl
            | some t =>
              rw [ht] at huvs
              simpa using readFirst_length _ _ _ huvs
          simp only [List.length_append, List.length_map, h1, h2, h3, h4, and_self]

theorem twoMeshes_loaded :
    LoadMeshes (fun v => v) emptyBuffers [plainMesh, texturedMesh] =
      some { vertices_buffer := [⟨0, 0, 0⟩, ⟨1, 0, 0⟩, ⟨0, 1, 0⟩, ⟨0, 0, 1⟩, ⟨1, 0, 1⟩, ⟨0, 1, 1⟩]
             triangles_buffer := [⟨0, 1, 2, 0⟩, ⟨3, 4, 5, 1⟩]
             normals_buffer := [⟨0, 0, 1⟩, ⟨0, 0, 1⟩, ⟨0, 0, 1⟩, ⟨0, 0, 1⟩, ⟨0, 0, 1⟩, ⟨0, 0, 1⟩]
             tangents_buffer := [⟨1, 0, 0⟩, ⟨1, 0, 0⟩, ⟨1, 0, 0⟩]
             texcoords_buffer := [⟨1 / 4, 1 / 4, 0⟩, ⟨3 / 4, 1 / 4, 0⟩, ⟨1 / 4, 3 / 4, 0⟩] } := by
  decide!

theorem twoMeshes_vertexTexcoords :
    vertexTexcoords [plainMesh, texturedMesh] =
      [none, none, none, some (1 / 4, 1 / 4), some (3 / 4, 1 / 4), some (1 / 4, 3 / 4)] ∧
    vertexTangents [plainMesh, texturedMesh] =
      [none, none, none, some ⟨1, 0, 0⟩, some ⟨1, 0, 0⟩, some ⟨1, 0, 0⟩] := by
  decide!

/-- C31 fails on the code: after `LoadMesh` for a mesh without tangents and
texture coordinates and then for a mesh with both, each of three vertices and
one triangle, and `Commit`, the scene has 6 vertices, and the `texcoords` array
is not empty but has 3 entries, not 6; its entry 0 is the texture coordinate
that the second mesh gave to its first vertex, which is vertex 3 of the scene,
while vertex 0 has none; the triangle of the second mesh stores the indices
3, 4, 5, and `texcoords[3]` is outside the array.  Likewise for `tangents`. -/
theorem C31_texcoords_not_per_vertex :
    ∃ b, LoadMeshes (fun v => v) emptyBuffers [plainMesh, texturedMesh] = some b ∧
      (CommitArrays b).n_vertices = 6 ∧
      (CommitArrays b).texcoords = [(1 / 4, 1 / 4), (3 / 4, 1 / 4), (1 / 4, 3 / 4)] ∧
      (CommitArrays b).n_texcoords = 3 ∧
      (CommitArrays b).tangents = [⟨1, 0, 0⟩, ⟨1, 0, 0⟩, ⟨1, 0, 0⟩] ∧
      (CommitArrays b).n_tangents = 3 ∧
      (CommitArrays b).triangles = [⟨0, 1, 2, 0⟩, ⟨3, 4, 5, 1⟩] ∧
      (CommitArrays b).texcoords[0]? = some (1 / 4, 1 / 4) ∧
      (vertexTexcoords [plainMesh, texturedMesh])[0]? = some none ∧
      (vertexTexcoords [plainMesh, texturedMesh])[3]? = some (some (1 / 4, 1 / 4)) ∧
      (CommitArrays b).texcoords[3]? = none ∧
      (vertexTangents [plainMesh, texturedMesh])[0]? = some none ∧
      (vertexTangents [plainMesh, texturedMesh])[3]? = some (some ⟨1, 0, 0⟩) ∧
      (CommitArrays b).tangents[3]? = none := by
  refine ⟨_, twoMeshes_loaded, ?_⟩
  rw [twoMeshes_vertexTexcoords.1, twoMeshes_vertexTexcoords.2]
  decide!

/-! ## Beyond the range of the index arithmetic (C17, C21) -/

theorem manyTriangles_length : manyTriangles.length = 1073741825 :=
  List.length_replicate _ _

/-- For a scene of more than 2^30 triangles the root node holds a triangle
index `t >= 2^30`, and `Subdivide` on the root gives no tree. -/
theorem commitRoot_overflow {K : Type} [LinearOrderedField K] (sqrt : K → K)
    (sort : List (BBEvent K) → List (BBEvent K)) (triangles : List (Triangle K))
    (hbig : 1073741824 < triangles.length) (events : SceneEvents K) (root : KdNodeFields K)
    (h : commitRoot sqrt triangles = some (events, root)) (sc : SceneEvents K) :
    Subdivide sort sc (Nat.log2 triangles.length + 8) root = none := by
  obtain ⟨hdepth, htris⟩ := commitRoot_fields sqrt triangles events root h
  refine Subdivide_overflow sort sc _ root (by rw [hdepth]; omega) ?_ (Or.inr ?_)
  · rw [htris, List.length_range]
    omega
  · refine ⟨1073741824, ?_, le_refl _⟩
    rw [htris]
    exact List.mem_range.2 hbig

theorem Commit_overflow {K : Type} [LinearOrderedField K] (sqrt : K → K)
    (sort : List (BBEvent K) → List (BBEvent K)) (triangles : List (Triangle K))
    (hbig : 1073741824 < triangles.length) : Commit sqrt sort triangles = none := by
  cases hc : Commit sqrt sort triangles with
  | none => rfl
  | some scene =>
    obtain ⟨-, -, hmd, root, hroot, hsub⟩ := Commit_parts sqrt sort triangles scene hc
    rw [hmd, commitRoot_overflow sqrt sort triangles hbig _ root hroot scene.events] at hsub
    exact absurd hsub (by simp)

/-- C17 fails as stated: for the scene of 2^30 + 1 triangles the extent tables
and the root node are built, but `Subdivide` on the root, which holds the
triangle index 2^30, computes the table index `2*t` in `int` beyond its range:
the build gives no tree, and `Commit` gives no scene. -/
theorem C17_counterexample :
    1 ≤ manyTriangles.length ∧
    (∃ events root, commitRoot sqrtStandIn manyTriangles = some (events, root) ∧
      1073741824 ∈ root.triangle_indices ∧
      Subdivide sortEvents events (Nat.log2 manyTriangles.length + 8) root = none) ∧
    Commit sqrtStandIn sortEvents manyTriangles = none := by
  have hlen := manyTriangles_length
  have hbig : 1073741824 < manyTriangles.length := by
    rw [hlen]
    decide
  have h1 : 1 ≤ manyTriangles.length := by omega
  obtain ⟨⟨events, root⟩, hroot⟩ := commitRoot_some sqrtStandIn manyTriangles h1
  refine ⟨h1, ⟨events, root, hroot, ?_, ?_⟩, Commit_overflow _ _ _ hbig⟩
  · rw [(commitRoot_fields sqrtStandIn manyTriangles events root hroot).2]
    exact List.mem_range.2 hbig
  · exact commitRoot_overflow sqrtStandIn sortEvents manyTriangles hbig events root hroot events

/-- C21 fails as stated: the node `overflowNode` is past the early returns and
holds the triangle index 2^30, for which line 382 computes `2*t` in `int`
beyond its range, and the node `crowdedNode` holds 2^31 indices, for which the
size `2*n` of the event vector wraps to 0; on both `Subdivide` gives no tree,
so the node is neither split on the first accepted axis nor left a leaf when
all axes fail. -/
theorem C21_counterexample :
    overflowNode.depth < 1 ∧ 2 ≤ overflowNode.triangle_indices.length ∧
    Subdivide sortEvents manyExtents 1 overflowNode = none ∧
    crowdedNode.depth < 1 ∧ 2 ≤ crowdedNode.triangle_indices.length ∧
    Subdivide sortEvents manyExtents 1 crowdedNode = none ∧
    ¬ ((∀ b, trySplit sortEvents manyExtents overflowNode (firstAxis overflowNode) = some b →
        ∃ ch0 ch1, Subdivide sortEvents manyExtents 1 overflowNode =
          some (.INTERNAL overflowNode (firstAxis overflowNode) b.best_pos b.prob0 b.prob1
            ch0 ch1)) ∧
      (trySplit sortEvents manyExtents overflowNode (firstAxis overflowNode) = none →
        ∀ b, trySplit sortEvents manyExtents overflowNode ((firstAxis overflowNode + 1) % 3) =
          some b →
        ∃ ch0 ch1, Subdivide sortEvents manyExtents 1 overflowNode =
          some (.INTERNAL overflowNode (((firstAxis overflowNode + 1) % 3 : Nat) : Int)
            b.best_pos b.prob0 b.prob1 ch0 ch1)) ∧
      (trySplit sortEvents manyExtents overflowNode (firstAxis overflowNode) = none →
        trySplit sortEvents manyExtents overflowNode ((firstAxis overflowNode + 1) % 3) =
          none →
        ∀ b, trySplit sortEvents manyExtents overflowNode ((firstAxis overflowNode + 2) % 3) =
          some b →
        ∃ ch0 ch1, Subdivide sortEvents manyExtents 1 overflowNode =
          some (.INTERNAL overflowNode (((firstAxis overflowNode + 2) % 3 : Nat) : Int)
            b.best_pos b.prob0 b.prob1 ch0 ch1)) ∧
      (Subdivide sortEvents manyExtents 1 overflowNode = some (.LEAF overflowNode) ↔
        trySplit sortEvents manyExtents overflowNode (firstAxis overflowNode) = none ∧
        trySplit sortEvents manyExtents overflowNode ((firstAxis overflowNode + 1) % 3) =
          none ∧
        trySplit sortEvents manyExtents overflowNode ((firstAxis overflowNode + 2) % 3) =
          none)) := by
  have hd1 : overflowNode.depth < 1 := by decide
  have hn1 : 2 ≤ overflowNode.triangle_indices.length := by decide
  have hd2 : crowdedNode.depth < 1 := by decide
  have hlen2 : crowdedNode.triangle_indices.length = 2147483648 := List.length_replicate _ _
  have hn2 : 2 ≤ crowdedNode.triangle_indices.length := by
    rw [hlen2]
    decide
  have ho : Subdivide sortEvents manyExtents 1 overflowNode = none :=
    Subdivide_overflow sortEvents manyExtents 1 overflowNode hd1 hn1
      (Or.inr ⟨1073741824, by simp [overflowNode], le_refl _⟩)
  have hc : Subdivide sortEvents manyExtents 1 crowdedNode = none :=
    Subdivide_overflow sortEvents manyExtents 1 crowdedNode hd2 hn2
      (Or.inl (by rw [hlen2]))
  refine ⟨hd1, hn1, ho, hd2, hn2, hc, ?_⟩
  rintro ⟨c1, c2, c3, c4⟩
  cases e0 : trySplit sortEvents manyExtents overflowNode (firstAxis overflowNode) with
  | some b =>
    obtain ⟨ch0, ch1, h⟩ := c1 b e0
    rw [ho] at h
    exact absurd h (by simp)
  | none =>
    cases e1 : trySplit sortEvents manyExtents overflowNode
        ((firstAxis overflowNode + 1) % 3) with
    | some b =>
      obtain ⟨ch0, ch1, h⟩ := c2 e0 b e1
      rw [ho] at h
      exact absurd h (by simp)
    | none =>
      cases e2 : trySplit sortEvents manyExtents overflowNode
          ((firstAxis overflowNode + 2) % 3) with
      | some b =>
        obtain ⟨ch0, ch1, h⟩ := c3 e0 e1 b e2
        rw [ho] at h
        exact absurd h (by simp)
      | none =>
        have h := c4.2 ⟨e0, e1, e2⟩
        rw [ho] at h
        exact absurd h (by simp)

end RGK
